import Mathlib

/-!
# IBTK ghost-cell interpolation and physical boundary operators

A shallow embedding of the boundary machinery of IBTK:

* `CartExtrapPhysBdryOp.cpp` : constant / linear / quadratic extrapolation of
  cell-centered data into physical boundary ghost cells;
* `StaggeredPhysicalBoundaryHelper.cpp` : the Dirichlet masking helper for
  side-centered data;
* `HierarchyGhostCellInterpolation.cpp` : the orchestrator that caches
  coarsen / refine schedules and drives the three-phase ghost fill.

Floating point values are embedded as rationals (exact arithmetic); machine
`int`s are embedded as `Int` / `Nat` (no overflow occurs in index arithmetic).
-/

namespace IBTK

/-! ## Index space -/

/-- An `Index` / `IntVector` of the `n`-dimensional index space (`NDIM = n`). -/
abbrev Index (n : Nat) := Fin n → Int

/-- A SAMRAI `Box`: the cells `i` with `lower ≤ i ≤ upper` componentwise. -/
structure Box (n : Nat) where
  lower : Index n
  upper : Index n

/-- Membership of a cell index in a box. -/
def Box.contains {n : Nat} (b : Box n) (i : Index n) : Prop :=
  ∀ d : Fin n, b.lower d ≤ i d ∧ i d ≤ b.upper d

instance {n : Nat} (b : Box n) (i : Index n) : Decidable (b.contains i) := by
  unfold Box.contains; infer_instance

/-- Box intersection, `operator*` of SAMRAI boxes. -/
def Box.intersect {n : Nat} (a b : Box n) : Box n :=
  ⟨fun d => max (a.lower d) (b.lower d), fun d => min (a.upper d) (b.upper d)⟩

/-- The integers `lo, lo+1, ..., hi` in increasing order (empty if `hi < lo`). -/
def intRange (lo hi : Int) : List Int :=
  (List.range (hi + 1 - lo).toNat).map (fun (k : Nat) => lo + (k : Int))

/-- The cells of a box in `CellIterator` order (axis 0 runs fastest). -/
def cellsOf : (n : Nat) → Index n → Index n → List (Index n)
  | 0, _, _ => [fun d => d.elim0]
  | n + 1, lo, hi =>
      (cellsOf n (Fin.tail lo) (Fin.tail hi)).flatMap
        (fun t => (intRange (lo 0) (hi 0)).map (fun x => (Fin.cons x t : Index (n + 1))))

/-- The cells of a box, `CellGeometry::begin(box) .. CellGeometry::end(box)`. -/
def Box.cells {n : Nat} (b : Box n) : List (Index n) := cellsOf n b.lower b.upper

/-! ## `CartExtrapPhysBdryOp.cpp` : extrapolation kernels -/

/-- Cell-centered `double` data `patch_data(i, depth)`, read as a function. -/
abbrev CellArray (n : Nat) := Index n → Nat → ℚ

/-- The function `compute_linear_extrap` of `CartExtrapPhysBdryOp.cpp`. -/
def compute_linear_extrap {n : Nat} (patch_data : CellArray n) (i i_intr : Index n)
    (i_shft : Index n) (depth : Nat) : ℚ :=
  (List.finRange n).foldl
    (fun ret_val d =>
      if i_shft d ≠ 0 then
        let i_intr0 := i_intr
        let i_intr1 := Function.update i_intr d (i_intr d + i_shft d)
        let f0 := patch_data i_intr0 depth
        let f1 := patch_data i_intr1 depth
        let du := f0 - f1
        let delta : ℚ := ((|i d - i_intr d| : Int) : ℚ)
        ret_val + du * delta
      else ret_val)
    (patch_data i_intr depth)

/-- The function `compute_quadratic_extrap` of `CartExtrapPhysBdryOp.cpp`
(the enabled `#if 1` branch). -/
def compute_quadratic_extrap {n : Nat} (patch_data : CellArray n) (i i_intr : Index n)
    (i_shft : Index n) (depth : Nat) (codim : Int) : ℚ :=
  if codim = 1 then
    match (List.finRange n).find? (fun d => decide (i_shft d ≠ 0)) with
    | some d =>
        let i_intr0 := i_intr
        let i_intr1 := Function.update i_intr d (i_intr d + i_shft d)
        let i_intr2 := Function.update i_intr1 d (i_intr1 d + i_shft d)
        let f0 := patch_data i_intr0 depth
        let f1 := patch_data i_intr1 depth
        let f2 := patch_data i_intr2 depth
        let x : ℚ := ((|i d - i_intr d| : Int) : ℚ)
        (1 / 2 * f2 - f1 + 1 / 2 * f0) * x * x + (-1 / 2 * f2 + 2 * f1 - 3 / 2 * f0) * x + f0
    | none => 0
  else
    compute_linear_extrap patch_data i i_intr i_shft depth

/-! ## `CartExtrapPhysBdryOp.cpp` : the cell-centered boundary fill -/

/-- A `CellData<double>` patch data object: its ghost box, depth and values. -/
structure CellData (n : Nat) where
  ghost_box : Box n
  depth : Nat
  val : CellArray n

/-- The assignment `(*patch_data)(i,depth) = v`. -/
def CellData.assign {n : Nat} (cd : CellData n) (i : Index n) (depth : Nat) (v : ℚ) :
    CellData n :=
  { cd with val := fun j k => if j = i ∧ k = depth then v else cd.val j k }

/-- The patch data registered with a patch; only `CellData<double>` is
interpreted, every other data type makes the `dynamic_pointer_cast` to
`CellData<double>` fail. -/
inductive PatchData (n : Nat) where
  | cell (cd : CellData n)
  | other

/-- A patch: its box and its patch data, by patch data index. -/
structure Patch (n : Nat) where
  box : Box n
  data : Int → Option (PatchData n)

/-- An entry of `bdry_fill_boxes`: the pair of a fill box and
`(location_index, codim)`. -/
structure BdryFillBox (n : Nat) where
  box : Box n
  location_index : Nat
  codim : Int

/-- The helpers `PhysicalBoundaryUtilities::isLower` and
`PhysicalBoundaryUtilities::isUpper`, whose definitions are outside the files
at hand: taken as parameters `(location_index, codim, axis)`. -/
structure PhysicalBoundaryUtilities (n : Nat) where
  isLower : Nat → Int → Fin n → Bool
  isUpper : Nat → Int → Fin n → Bool

/-- The nearest interior index `i_intr` computed in the innermost loop of
`setPhysicalBoundaryConditions_cell`. -/
def nearestInterior {n : Nat} (is_lower is_upper : Fin n → Bool)
    (patch_lower patch_upper : Index n) (i : Index n) : Index n :=
  fun d => if is_lower d then patch_lower d else if is_upper d then patch_upper d else i d

/-- The shift vector `i_shft` computed in the innermost loop of
`setPhysicalBoundaryConditions_cell`. -/
def interiorShift {n : Nat} (is_lower is_upper : Fin n → Bool) : Index n :=
  fun d => if is_lower d then 1 else if is_upper d then -1 else 0

/-- The body of the innermost loop of `setPhysicalBoundaryConditions_cell`:
the extrapolated value is stored at the ghost index `i`. -/
def extrapCell {n : Nat} (extrap_type : Int) (patch_lower patch_upper : Index n)
    (is_lower is_upper : Fin n → Bool) (codim : Int) (depth : Nat)
    (cd : CellData n) (i : Index n) : CellData n :=
  let i_intr := nearestInterior is_lower is_upper patch_lower patch_upper i
  let i_shft := interiorShift is_lower is_upper
  if extrap_type = 0 then
    cd.assign i depth (cd.val i_intr depth)
  else if extrap_type = 1 then
    cd.assign i depth (compute_linear_extrap cd.val i i_intr i_shft depth)
  else if extrap_type = 2 then
    cd.assign i depth (compute_quadratic_extrap cd.val i i_intr i_shft depth codim)
  else cd

/-- The loop over the boundary fill boxes, depths and cells of
`setPhysicalBoundaryConditions_cell`, for one `CellData<double>` object. -/
def fillCellData {n : Nat} (util : PhysicalBoundaryUtilities n) (extrap_type : Int)
    (patch_box : Box n) (bdry_fill_boxes : List (BdryFillBox n)) (cd : CellData n) :
    CellData n :=
  bdry_fill_boxes.foldl
    (fun cd fb =>
      let is_lower := fun d => util.isLower fb.location_index fb.codim d
      let is_upper := fun d => util.isUpper fb.location_index fb.codim d
      (List.range cd.depth).foldl
        (fun cd depth =>
          let trimmed_fill_box := fb.box.intersect cd.ghost_box
          trimmed_fill_box.cells.foldl
            (extrapCell extrap_type patch_box.lower patch_box.upper is_lower is_upper
              fb.codim depth)
            cd)
        cd)
    cd

/-- The state of a `CartExtrapPhysBdryOp`: the set of patch data indices (in
increasing order) and the extrapolation type. -/
structure CartExtrapPhysBdryOp where
  d_patch_data_indices : List Int
  d_extrap_type : String

/-- The loop over `d_patch_data_indices` of
`setPhysicalBoundaryConditions_cell`: indices whose data is not
`CellData<double>` are skipped (`continue`). -/
def fillPatchIndices {n : Nat} (util : PhysicalBoundaryUtilities n) (extrap_type : Int)
    (bdry_fill_boxes : List (BdryFillBox n)) (indices : List Int) (patch : Patch n) : Patch n :=
  indices.foldl
    (fun patch patch_data_idx =>
      match patch.data patch_data_idx with
      | some (PatchData.cell patch_data) =>
          { patch with
            data := Function.update patch.data patch_data_idx
              (some (PatchData.cell
                (fillCellData util extrap_type patch.box bdry_fill_boxes patch_data))) }
      | _ => patch)
    patch

/-- A boundary fill box is placed with respect to the patch box when it lies
strictly below the patch along the axes on which its location is lower,
strictly above along the axes on which it is upper, and within the extent of
the patch along every other axis. -/
def BdryFillBox.placed {n : Nat} (util : PhysicalBoundaryUtilities n) (patch_box : Box n)
    (fb : BdryFillBox n) : Prop :=
  ∀ d : Fin n,
    if util.isLower fb.location_index fb.codim d = true then fb.box.upper d < patch_box.lower d
    else if util.isUpper fb.location_index fb.codim d = true then
      patch_box.upper d < fb.box.lower d
    else patch_box.lower d ≤ fb.box.lower d ∧ fb.box.upper d ≤ patch_box.upper d

instance {n : Nat} (util : PhysicalBoundaryUtilities n) (patch_box : Box n)
    (fb : BdryFillBox n) : Decidable (fb.placed util patch_box) := by
  unfold BdryFillBox.placed; infer_instance

/-- The data `cd` agrees with `g` at depth `k` on the patch interior and on the
index set `W`, and has ghost box `G` and depth `D`. -/
def AgreesOn {n : Nat} (patch_box : Box n) (g : Index n → ℚ) (k : Nat) (G : Box n) (D : Nat)
    (cd : CellData n) (W : Set (Index n)) : Prop :=
  cd.ghost_box = G ∧ cd.depth = D ∧ ∀ j, (patch_box.contains j ∨ j ∈ W) → cd.val j k = g j

/-- Modelled from the spec: the location index of a codimension-one boundary
box encodes the face, `0/1` = lower/upper in axis 0, `2/3` = lower/upper in
axis 1, and so on (`PhysicalBoundaryUtilities::isLower` / `isUpper` at
codimension one; their source file is not at hand). -/
def codim1Utilities (n : Nat) : PhysicalBoundaryUtilities n where
  isLower := fun location_index codim d =>
    decide (codim = 1) && decide (location_index / 2 = d.val) && decide (location_index % 2 = 0)
  isUpper := fun location_index codim d =>
    decide (codim = 1) && decide (location_index / 2 = d.val) && decide (location_index % 2 = 1)

/-- The one-dimensional, single-patch example of the specification: interior
cells `[0, N)`, ghost cell width 2, one depth, interior values `u[i] = i`,
registered under patch data index 0. -/
def linePatch (N : Nat) : Patch 1 where
  box := ⟨![0], ![(N : Int) - 1]⟩
  data := fun idx =>
    if idx = 0 then
      some (PatchData.cell
        { ghost_box := ⟨![-2], ![(N : Int) + 1]⟩, depth := 1, val := fun i _ => (i 0 : ℚ) })
    else none

/-- The two codimension-one boundary fill boxes of `linePatch N` for ghost
cell width 2: `[-2, -1]` at location 0 (lower) and `[N, N+1]` at location 1
(upper). -/
def lineFillBoxes (N : Nat) : List (BdryFillBox 1) :=
  [⟨⟨![-2], ![-1]⟩, 0, 1⟩, ⟨⟨![(N : Int)], ![(N : Int) + 1]⟩, 1, 1⟩]

/-- The value the QUADRATIC contract prescribes at ghost distance `x` outside
the boundary: the polynomial of degree at most two through the samples `f0`,
`f1`, `f2` located 0, 1 and 2 cells inward from the boundary. -/
def quadratic_extrap_contract (f0 f1 f2 x : ℚ) : ℚ :=
  f0 * (x + 1) * (x + 2) / 2 - f1 * x * (x + 2) + f2 * x * (x + 1) / 2

/-- The numeric contract for LINEAR as the specification words it:
`value(i_interior) + Σ_axes_shifted (value(i_interior) -
value(i_interior_shifted_by_one)) * |i[axis] - i_interior[axis]|`, the sum
ranging over the axes `d` with `s[d] ≠ 0` and the shifted index being
`i_int + s[d]*e_d`. -/
def linear_extrap_contract {n : Nat} (value : CellArray n) (i i_int : Index n) (s : Index n)
    (depth : Nat) : ℚ :=
  value i_int depth +
    ∑ d in Finset.univ.filter (fun d : Fin n => s d ≠ 0),
      (value i_int depth - value (i_int + s d • Pi.single d 1) depth) *
        ((|i d - i_int d| : Int) : ℚ)

/-! ## `StaggeredPhysicalBoundaryHelper.cpp` -/

/-- A SAMRAI `BoundaryBox`: its box and location index. -/
structure BoundaryBox (n : Nat) where
  box : Box n
  location_index : Nat

/-- An `ArrayData<T>` object of depth one: its box and values `data(i,0)`. -/
structure ArrayData (n : Nat) (α : Type) where
  box : Box n
  val : Index n → α

/-- Side-centered data, read at the side indices
`SideIndex(i, axis, SideIndex::Lower)` as `val axis i`. -/
structure SideData (n : Nat) (α : Type) where
  val : Nat → Index n → α

/-- The method `SideData::fillAll`. -/
def SideData.fillAll {n : Nat} {α : Type} (_data : SideData n α) (a : α) : SideData n α :=
  ⟨fun _ _ => a⟩

/-- The assignment `(*data)(SideIndex(i, axis, SideIndex::Lower)) = a`. -/
def SideData.assign {n : Nat} {α : Type} (data : SideData n α) (axis : Nat) (i : Index n)
    (a : α) : SideData n α :=
  ⟨fun axis' j => if axis' = axis ∧ j = i then a else data.val axis' j⟩

/-- What is read of a patch of the hierarchy: its level number, its global
id, whether its geometry touches a regular (non-periodic) physical boundary,
and the ghost cell width of its patch data, by patch data index. -/
structure PatchInfo where
  level_number : Nat
  global_id : Nat
  touches_regular_boundary : Bool
  ghost_cell_width : List (Int × List Int)
deriving DecidableEq, Repr

/-- The ghost cell width `patch->getPatchData(idx)->getGhostCellWidth()`. -/
def PatchInfo.getGhostCellWidth (patch : PatchInfo) (idx : Int) : List Int :=
  (patch.ghost_cell_width.lookup idx).getD []

/-- A patch level of the hierarchy: its ratio to the coarser level and its
patches. -/
structure PatchLevel where
  ratio_to_coarser_level : List Int
  patches : List PatchInfo
deriving DecidableEq, Repr

/-- The patch hierarchy collaborator, as far as the orchestrator reads it: the
dimension and the levels `0, ..., finest`. Its grid geometry is Cartesian (the
`BOOST_CAST` to `CartesianGridGeometry` succeeds). -/
structure PatchHierarchy where
  dim : Nat
  levels : List PatchLevel
deriving DecidableEq, Repr

/-- The method `PatchHierarchy::getFinestLevelNumber`. -/
def PatchHierarchy.getFinestLevelNumber (h : PatchHierarchy) : Int :=
  (h.levels.length : Int) - 1

/-- The method `PatchHierarchy::getPatchLevel`; a level the hierarchy does not
have is read as a level without patches. -/
def PatchHierarchy.getPatchLevel (h : PatchHierarchy) (ln : Int) : PatchLevel :=
  if ln < 0 then ⟨[], []⟩ else h.levels.getD ln.toNat ⟨[], []⟩

/-- The state of a `StaggeredPhysicalBoundaryHelper`: the attached hierarchy
and, by level number and patch id, the cached
codimension-one boundary boxes and Dirichlet flags (`none` when the map has no
entry for the patch). -/
structure StaggeredPhysicalBoundaryHelper (n : Nat) where
  d_hierarchy : Option PatchHierarchy
  d_physical_codim1_boxes : Nat → Nat → Option (List (BoundaryBox n))
  d_dirichlet_bdry_locs : Nat → Nat → Option (List (ArrayData n Nat))

/-- The loop over the cached boundary boxes shared by the per-patch methods
`setupMaskingFunction` and `copyDataAtDirichletBoundaries`: `write axis i`
is performed for every flagged location `i` of every box. -/
def forFlaggedLocations {n : Nat} {σ : Type} (physical_codim1_boxes : List (BoundaryBox n))
    (dirichlet_bdry_locs : List (ArrayData n Nat)) (write : Nat → Index n → σ → σ)
    (init : σ) : σ :=
  (List.range physical_codim1_boxes.length).foldl
    (fun acc k =>
      match physical_codim1_boxes[k]?, dirichlet_bdry_locs[k]? with
      | some bdry_box, some bdry_locs_data =>
          let bdry_normal_axis := bdry_box.location_index / 2
          bdry_locs_data.box.cells.foldl
            (fun acc i => if bdry_locs_data.val i ≠ 0 then write bdry_normal_axis i acc else acc)
            acc
      | _, _ => acc)
    init

/-- The per-patch overload
`StaggeredPhysicalBoundaryHelper::setupMaskingFunction(mask_data, patch)`;
the result is `none` when a map lookup `find(patch_id)` misses. -/
def setupMaskingFunction_patch {n : Nat} (helper : StaggeredPhysicalBoundaryHelper n)
    (mask_data : SideData n Int) (patch : PatchInfo) : Option (SideData n Int) :=
  let mask_data := mask_data.fillAll 0
  if patch.touches_regular_boundary then some mask_data
  else
    let ln := patch.level_number
    let patch_id := patch.global_id
    match helper.d_physical_codim1_boxes ln patch_id, helper.d_dirichlet_bdry_locs ln patch_id with
    | some physical_codim1_boxes, some dirichlet_bdry_locs =>
        some (forFlaggedLocations physical_codim1_boxes dirichlet_bdry_locs
          (fun bdry_normal_axis i mask => mask.assign bdry_normal_axis i 1) mask_data)
    | _, _ => none

/-- The per-patch overload
`StaggeredPhysicalBoundaryHelper::copyDataAtDirichletBoundaries(u_out_data,
u_in_data, patch)`; the result is `none` when a map lookup `find(patch_id)`
misses. -/
def copyDataAtDirichletBoundaries_patch {n : Nat} (helper : StaggeredPhysicalBoundaryHelper n)
    (u_out_data u_in_data : SideData n ℚ) (patch : PatchInfo) : Option (SideData n ℚ) :=
  if patch.touches_regular_boundary = false then some u_out_data
  else
    let ln := patch.level_number
    let patch_id := patch.global_id
    match helper.d_physical_codim1_boxes ln patch_id, helper.d_dirichlet_bdry_locs ln patch_id with
    | some physical_codim1_boxes, some dirichlet_bdry_locs =>
        some (forFlaggedLocations physical_codim1_boxes dirichlet_bdry_locs
          (fun bdry_normal_axis i u_out =>
            u_out.assign bdry_normal_axis i (u_in_data.val bdry_normal_axis i))
          u_out_data)
    | _, _ => none

/-- The side index `(i, axis, Lower)` is flagged Dirichlet in the cache entry
of a patch: `i` is a location of the flag array of one of the boundary boxes
with normal axis `axis`, and its flag is set. -/
def flaggedAt {n : Nat} (physical_codim1_boxes : List (BoundaryBox n))
    (dirichlet_bdry_locs : List (ArrayData n Nat)) (axis : Nat) (i : Index n) : Prop :=
  ∃ (k : Nat) (bdry_box : BoundaryBox n) (bdry_locs_data : ArrayData n Nat),
    physical_codim1_boxes[k]? = some bdry_box ∧ dirichlet_bdry_locs[k]? = some bdry_locs_data ∧
      bdry_box.location_index / 2 = axis ∧ bdry_locs_data.box.contains i ∧
      bdry_locs_data.val i ≠ 0

/-- The level range `ln = (coarsest_ln == -1 ? 0 : coarsest_ln), ...,
(finest_ln == -1 ? finest_hier_level : finest_ln)` of the hierarchy-wide
methods. -/
def helperLevelRange (hierarchy : PatchHierarchy) (coarsest_ln finest_ln : Int) :
    List Int :=
  let finest_hier_level : Int := hierarchy.getFinestLevelNumber
  intRange (if coarsest_ln = -1 then 0 else coarsest_ln)
    (if finest_ln = -1 then finest_hier_level else finest_ln)

/-- The hierarchy-wide overload
`StaggeredPhysicalBoundaryHelper::setupMaskingFunction(mask_data_idx,
coarsest_ln, finest_ln)`; `masks ln id` is the mask data of patch `id` on
level `ln`. The result is `none` when `d_hierarchy` is not set (the
`TBOX_ASSERT`) or a map lookup misses. -/
def setupMaskingFunction {n : Nat} (helper : StaggeredPhysicalBoundaryHelper n)
    (masks : Nat → Nat → SideData n Int) (coarsest_ln finest_ln : Int) :
    Option (Nat → Nat → SideData n Int) :=
  match helper.d_hierarchy with
  | none => none
  | some hierarchy =>
      (helperLevelRange hierarchy coarsest_ln finest_ln).foldlM
        (fun masks ln =>
          (hierarchy.getPatchLevel ln).patches.foldlM
            (fun masks patch =>
              let mask_data := masks ln.toNat patch.global_id
              if patch.touches_regular_boundary then
                (setupMaskingFunction_patch helper mask_data patch).map
                  (fun m => fun l id =>
                    if l = ln.toNat ∧ id = patch.global_id then m else masks l id)
              else
                some (fun l id =>
                  if l = ln.toNat ∧ id = patch.global_id then mask_data.fillAll 0
                  else masks l id))
            masks)
        masks

/-- A patch with id 0 on level 0 that touches a regular boundary. -/
def flaggedPatch : PatchInfo where
  level_number := 0
  global_id := 0
  touches_regular_boundary := true
  ghost_cell_width := []

/-- A helper whose cache holds, for the patch with id 0 on level 0, one
codimension-one boundary box at location 0 (lower side of axis 0) whose four
locations `(0,0), ..., (0,3)` are all flagged Dirichlet. -/
def flaggedHelper : StaggeredPhysicalBoundaryHelper 2 where
  d_hierarchy := some ⟨2, [⟨[1, 1], [flaggedPatch]⟩]⟩
  d_physical_codim1_boxes := fun ln id =>
    if ln = 0 ∧ id = 0 then some [⟨⟨![-1, 0], ![-1, 3]⟩, 0⟩] else none
  d_dirichlet_bdry_locs := fun ln id =>
    if ln = 0 ∧ id = 0 then some [⟨⟨![0, 0], ![0, 3]⟩, fun _ => 1⟩] else none

/-! ## `HierarchyGhostCellInterpolation.cpp` : data model -/

/-- The result of the `dynamic_pointer_cast`s applied to a `Variable`. -/
inductive VariableKind where
  | cell_double
  | node_double
  | side_double
  | other
deriving DecidableEq, Repr

/-- The record `InterpolationTransactionComponent`; a Robin coefficient object
is `none` when the pointer is null. -/
structure InterpolationTransactionComponent where
  d_dst_data_idx : Int
  d_src_data_idx : Int
  d_refine_op_name : String
  d_use_cf_bdry_interpolation : Bool
  d_coarsen_op_name : String
  d_phys_bdry_extrap_type : String
  d_robin_bc_coefs : List (Option Nat)
  d_fill_pattern : Option Nat
deriving DecidableEq, Repr

/-- The collaborators the orchestrator consults: whether `TBOX_ASSERT` is
compiled in (assertion checking is a build option of the underlying library
and is compiled out in optimized builds), the variable database and the
operator lookup of the grid geometry (`none` is a null pointer). -/
structure Collaborators where
  check_assertions : Bool
  mapIndexToVariable : Int → Option VariableKind
  lookupCoarsenOperator : Option VariableKind → String → Option String
  lookupRefineOperator : Option VariableKind → String → Option String

/-- The calls the orchestrator makes on its collaborators, as recorded in the
trace of the process. -/
inductive Event where
  | addCoarsenOperator (var_type_name : String) (coarsen_op : String)
  | createCoarsenSchedule (src_ln : Int)
  | createRefineSchedule (dst_ln : Int)
  | resetCoarsenSchedule (src_ln : Int)
  | resetRefineSchedule (dst_ln : Int)
  | warning (message : String)
  | ccSetHomogeneousBc (comp_idx : Nat) (homogeneous_bc : Bool)
  | scSetHomogeneousBc (comp_idx : Nat) (homogeneous_bc : Bool)
  | coarsenData (src_ln : Int)
  | refineFillData (dst_ln : Int)
  | computeNormalExtension (dst_ln : Int) (patch_id : Nat) (comp_idx : Nat)
      (ratio : List Int) (ghost_width_to_fill : List Int)
  | ccSetPhysicalBoundaryConditions (ln : Int) (patch_id : Nat) (comp_idx : Nat)
      (ghost_width_to_fill : List Int)
  | scSetPhysicalBoundaryConditions (ln : Int) (patch_id : Nat) (comp_idx : Nat)
      (ghost_width_to_fill : List Int)
deriving DecidableEq, Repr

/-- The process-wide state: the flags of the two `IBTK_DO_ONCE` call sites
(cubic coarsen operator registration in `initializeOperatorState`, QUADRATIC
warning in `setExtrapolationType`) and the trace of collaborator calls. -/
structure World where
  cubic_coarsen_ops_registered : Bool
  quadratic_warning_emitted : Bool
  trace : List Event
deriving DecidableEq, Repr

/-- The process-wide state at the start of a process. -/
def World.start : World := ⟨false, false, []⟩

/-- Record a collaborator call. -/
def World.emit (w : World) (e : Event) : World :=
  { w with trace := w.trace ++ [e] }

/-- A `CoarsenAlgorithm` / `RefineAlgorithm`: the registered
`(dst, src, operator, fill pattern)` items. -/
structure TransferAlgorithm where
  items : List (Int × Int × Option String × Option Nat)
deriving DecidableEq, Repr

/-- A coarsen or refine schedule: the level it was created for and the items
of the algorithm that created or last reset it. -/
structure TransferSchedule where
  ln : Int
  items : List (Int × Int × Option String × Option Nat)
deriving DecidableEq, Repr

/-- A member of the `RefinePatchStrategySet`: a pointer to the coarse-fine
interpolation operator or to the extrapolation operator of a component. -/
inductive StrategyRef where
  | cf_bdry_op (comp_idx : Nat)
  | extrap_bc_op (comp_idx : Nat)
deriving DecidableEq, Repr

/-- A coarse-fine boundary interpolation operator
(`CartCellDoubleQuadraticCFInterpolation` when `side_centered` is false,
`CartSideDoubleQuadraticCFInterpolation` otherwise). -/
structure CFBdryOp where
  side_centered : Bool
  patch_data_index : Int
  hierarchy : Option PatchHierarchy
deriving DecidableEq, Repr

/-- A Robin physical boundary operator (`CartCellRobinPhysBdryOp` or
`CartSideRobinPhysBdryOp`). -/
structure RobinPhysBdryOp where
  d_patch_data_indices : List Int
  d_bc_coefs : List (Option Nat)
  d_homogeneous_bc : Bool
deriving DecidableEq, Repr

deriving instance DecidableEq, Repr for CartExtrapPhysBdryOp

/-- The state of a `HierarchyGhostCellInterpolation` object. -/
structure HierarchyGhostCellInterpolation where
  d_is_initialized : Bool
  d_homogeneous_bc : Bool
  d_transaction_comps : List InterpolationTransactionComponent
  d_hierarchy : Option PatchHierarchy
  d_grid_geom : Bool
  d_coarsest_ln : Int
  d_finest_ln : Int
  d_coarsen_alg : Option TransferAlgorithm
  d_coarsen_strategy : Bool
  d_coarsen_scheds : List (Option TransferSchedule)
  d_refine_alg : Option TransferAlgorithm
  d_refine_strategy : Option (List StrategyRef)
  d_refine_scheds : List (Option TransferSchedule)
  d_cf_bdry_ops : List (Option CFBdryOp)
  d_extrap_bc_ops : List (Option CartExtrapPhysBdryOp)
  d_cc_robin_bc_ops : List (Option RobinPhysBdryOp)
  d_sc_robin_bc_ops : List (Option RobinPhysBdryOp)
deriving DecidableEq, Repr

/-- The state left by the constructor `HierarchyGhostCellInterpolation()`. -/
def HierarchyGhostCellInterpolation.new : HierarchyGhostCellInterpolation where
  d_is_initialized := false
  d_homogeneous_bc := false
  d_transaction_comps := []
  d_hierarchy := none
  d_grid_geom := false
  d_coarsest_ln := -1
  d_finest_ln := -1
  d_coarsen_alg := none
  d_coarsen_strategy := false
  d_coarsen_scheds := []
  d_refine_alg := none
  d_refine_strategy := none
  d_refine_scheds := []
  d_cf_bdry_ops := []
  d_extrap_bc_ops := []
  d_cc_robin_bc_ops := []
  d_sc_robin_bc_ops := []

/-- The process-wide state together with one orchestrator. -/
abbrev Sys := World × HierarchyGhostCellInterpolation

/-- The outcome of an operation on a state `σ`: the new state, or a fatal
error (`TBOX_ERROR`, or a failed `TBOX_ASSERT` when assertions are checked)
with its message and the state at the moment the error is raised. -/
abbrev Outcome (σ : Type) := Except (String × σ) σ

/-- The state in which an operation ends, whether or not it failed. -/
def Outcome.finalState {σ : Type} : Outcome σ → σ
  | Except.ok a => a
  | Except.error e => e.2

/-- The method `std::vector::resize` on a vector of pointers: new slots are
null. -/
def resizeSlots {α : Type} (v : List (Option α)) (size : Nat) : List (Option α) :=
  v.take size ++ List.replicate (size - v.length) none

/-- Read of slot `k` of a vector of pointers (null outside the vector). -/
def slot {α : Type} (v : List (Option α)) (k : Nat) : Option α :=
  (v.getD k none)

/-- A loop `for (comp_idx = k; comp_idx < size; ++comp_idx)` over the
transaction components whose body can raise a fatal error. -/
def forComponents {σ : Type}
    (body : Nat → InterpolationTransactionComponent → σ → Outcome σ) :
    Nat → List InterpolationTransactionComponent → σ → Outcome σ
  | _, [], st => Except.ok st
  | k, comp :: comps, st =>
      match body k comp st with
      | Except.ok st' => forComponents body (k + 1) comps st'
      | Except.error e => Except.error e

/-! ## `HierarchyGhostCellInterpolation.cpp` : operations -/

/-- Forget the local variables of a loop in the state carried by an error. -/
def Outcome.dropLocal {σ τ : Type} (o : Outcome (σ × τ)) : Except (String × σ) (σ × τ) :=
  match o with
  | Except.ok a => Except.ok a
  | Except.error e => Except.error (e.1, e.2.1)

/-- The method `HierarchyGhostCellInterpolation::setHomogeneousBc`. -/
def setHomogeneousBc (s : HierarchyGhostCellInterpolation) (homogeneous_bc : Bool) :
    HierarchyGhostCellInterpolation :=
  { s with d_homogeneous_bc := homogeneous_bc }

/-- The method `HierarchyGhostCellInterpolation::deallocateOperatorState`. -/
def deallocateOperatorState (s : HierarchyGhostCellInterpolation) :
    HierarchyGhostCellInterpolation :=
  if s.d_is_initialized = false then s
  else
    { s with
      d_cf_bdry_ops := []
      d_extrap_bc_ops := []
      d_cc_robin_bc_ops := []
      d_sc_robin_bc_ops := []
      d_coarsen_alg := none
      d_coarsen_strategy := false
      d_coarsen_scheds := []
      d_refine_alg := none
      d_refine_strategy := none
      d_refine_scheds := []
      d_is_initialized := false }

/-- Modelled from the spec: the macro `IBTK_DO_ONCE` (its definition is not at
hand) is a static-init-once guard, a process-wide flag per call site; the
guarded task runs only while the flag is unset and sets it. Here the task of
`initializeOperatorState`: the two `addCoarsenOperator` calls on the grid
geometry. -/
def registerCubicCoarsenOps (w : World) : World :=
  if w.cubic_coarsen_ops_registered = true then w
  else
    { ((w.emit (Event.addCoarsenOperator "CellVariable<double>" "CartCellDoubleCubicCoarsen")).emit
        (Event.addCoarsenOperator "SideVariable<double>" "CartSideDoubleCubicCoarsen")) with
      cubic_coarsen_ops_registered := true }

/-- The method `CartExtrapPhysBdryOp::setExtrapolationType`; the warning for
QUADRATIC is guarded by `IBTK_DO_ONCE`. -/
def setExtrapolationType (st : World × CartExtrapPhysBdryOp) (extrap_type : String) :
    Outcome (World × CartExtrapPhysBdryOp) :=
  if extrap_type ≠ "CONSTANT" ∧ extrap_type ≠ "LINEAR" ∧ extrap_type ≠ "QUADRATIC" then
    Except.error ("CartExtrapPhysBdryOp::setExtrapolationType(): unknown extrapolation type", st)
  else
    let w :=
      if extrap_type = "QUADRATIC" then
        if st.1.quadratic_warning_emitted = true then st.1
        else
          { (st.1.emit (Event.warning
              "CartExtrapPhysBdryOp::setExtrapolationType(): QUADRATIC generally requires large ghost cell widths")) with
            quadratic_warning_emitted := true }
      else st.1
    Except.ok (w, { st.2 with d_extrap_type := extrap_type })

/-- The method `CartExtrapPhysBdryOp::setPatchDataIndex`. -/
def CartExtrapPhysBdryOp.setPatchDataIndex (op : CartExtrapPhysBdryOp) (patch_data_index : Int) :
    CartExtrapPhysBdryOp :=
  { op with d_patch_data_indices := [patch_data_index] }

/-- The constructor `CartExtrapPhysBdryOp(patch_data_index, extrap_type)`. -/
def CartExtrapPhysBdryOp.construct (w : World) (patch_data_index : Int) (extrap_type : String) :
    Outcome (World × CartExtrapPhysBdryOp) :=
  setExtrapolationType
    (w, (CartExtrapPhysBdryOp.mk [] "NULL").setPatchDataIndex patch_data_index) extrap_type

/-- The call `alg->registerCoarsen(...)` / `alg->registerRefine(...)` on the
algorithm held by a pointer. -/
def registerItem (alg : Option TransferAlgorithm)
    (item : Int × Int × Option String × Option Nat) : Option TransferAlgorithm :=
  alg.map (fun a => ⟨a.items ++ [item]⟩)

/-- The items of the algorithm held by a pointer. -/
def algItems (alg : Option TransferAlgorithm) : List (Int × Int × Option String × Option Nat) :=
  match alg with
  | some a => a.items
  | none => []

/-- The body of the loop that registers the coarsen operators (the same text
in `initializeOperatorState` and `resetTransactionComponents`); the local
variable is `registered_coarsen_op`. -/
def registerCoarsenBody (env : Collaborators) (_comp_idx : Nat)
    (comp : InterpolationTransactionComponent) (st : Sys × Bool) : Outcome (Sys × Bool) :=
  let coarsen_op_name := comp.d_coarsen_op_name
  if coarsen_op_name ≠ "NONE" then
    let src_data_idx := comp.d_src_data_idx
    let var := env.mapIndexToVariable src_data_idx
    if env.check_assertions = true ∧ var = none then
      Except.error ("TBOX_ASSERT(var)", st)
    else
      let coarsen_op := env.lookupCoarsenOperator var coarsen_op_name
      if env.check_assertions = true ∧ coarsen_op = none then
        Except.error ("TBOX_ASSERT(coarsen_op)", st)
      else
        Except.ok
          ((st.1.1,
            { st.1.2 with
              d_coarsen_alg :=
                registerItem st.1.2.d_coarsen_alg (src_data_idx, src_data_idx, coarsen_op, none) }),
            true)
  else Except.ok st

/-- The creation of the coarsen algorithm and the registration loop. -/
def registerCoarsenOps (env : Collaborators) (sys : Sys) : Except (String × Sys) (Sys × Bool) :=
  let s := { sys.2 with d_coarsen_alg := some ⟨[]⟩ }
  (forComponents (registerCoarsenBody env) 0 s.d_transaction_comps ((sys.1, s), false)).dropLocal

/-- The level range `src_ln = max(1, d_coarsest_ln), ..., d_finest_ln` of the
coarsen schedules. -/
def coarsenLevels (s : HierarchyGhostCellInterpolation) : List Int :=
  intRange (max 1 s.d_coarsest_ln) s.d_finest_ln

/-- The level range `ln = d_coarsest_ln, ..., d_finest_ln`. -/
def refineLevels (s : HierarchyGhostCellInterpolation) : List Int :=
  intRange s.d_coarsest_ln s.d_finest_ln

/-- The part of `initializeOperatorState` that sets up the coarsen strategy and
the coarsen schedules. -/
def createCoarsenSchedules (sys : Sys) (registered_coarsen_op : Bool) : Sys :=
  let s := { sys.2 with d_coarsen_strategy := false }
  let s := { s with d_coarsen_scheds := resizeSlots s.d_coarsen_scheds (s.d_finest_ln + 1).toNat }
  if registered_coarsen_op = true then
    (coarsenLevels s).foldl
      (fun sys src_ln =>
        (sys.1.emit (Event.createCoarsenSchedule src_ln),
          { sys.2 with
            d_coarsen_scheds :=
              sys.2.d_coarsen_scheds.set src_ln.toNat
                (some ⟨src_ln, algItems sys.2.d_coarsen_alg⟩) }))
      (sys.1, s)
  else (sys.1, s)

/-- The refine operator looked up for a component whose variable is cell-,
node- or side-centered. -/
def lookupRefineOp (env : Collaborators) (comp : InterpolationTransactionComponent) :
    Option String :=
  if comp.d_refine_op_name ≠ "NONE" then
    env.lookupRefineOperator (env.mapIndexToVariable comp.d_src_data_idx) comp.d_refine_op_name
  else none

/-- The flag `null_bc_coefs`: every Robin coefficient pointer is null. -/
def nullBcCoefs (comp : InterpolationTransactionComponent) : Bool :=
  comp.d_robin_bc_coefs.all (fun bc => bc.isNone)

/-- The dimension `d_hierarchy->getDim().getValue()`. -/
def hierarchyDim (s : HierarchyGhostCellInterpolation) : Nat :=
  match s.d_hierarchy with
  | some h => h.dim
  | none => 0

/-- First part of the body of the refine loop of `initializeOperatorState`:
the dispatch on the centering of the source variable and the coarse-fine
interpolation operator. The local variable is `refine_patch_strategies`. -/
def initCentering (env : Collaborators) (comp_idx : Nat)
    (comp : InterpolationTransactionComponent) (st : Sys × List StrategyRef) :
    Outcome (Sys × List StrategyRef) :=
  let dst_data_idx := comp.d_dst_data_idx
  let var := env.mapIndexToVariable comp.d_src_data_idx
  let s := { st.1.2 with d_cf_bdry_ops := st.1.2.d_cf_bdry_ops.set comp_idx none }
  let st : Sys × List StrategyRef := ((st.1.1, s), st.2)
  let withCF := fun (side_centered : Bool) =>
    if comp.d_use_cf_bdry_interpolation = true then
      (((st.1.1,
          { s with
            d_cf_bdry_ops :=
              s.d_cf_bdry_ops.set comp_idx (some ⟨side_centered, dst_data_idx, s.d_hierarchy⟩) }),
        st.2 ++ [StrategyRef.cf_bdry_op comp_idx]) : Sys × List StrategyRef)
    else st
  match var with
  | some VariableKind.cell_double => Except.ok (withCF false)
  | some VariableKind.node_double =>
      if comp.d_use_cf_bdry_interpolation = true then Except.error ("not supported yet.", st)
      else Except.ok st
  | some VariableKind.side_double => Except.ok (withCF true)
  | _ =>
      Except.error
        ("HierarchyGhostCellInterpolation::initializeOperatorState(): only double-precision cell-, node-, or side-centered data is presently supported.",
          st)

/-- The call `d_refine_alg->registerRefine(dst, src, dst, refine_op,
fill_pattern)` of both refine loops. -/
def registerRefine (env : Collaborators) (comp : InterpolationTransactionComponent)
    (s : HierarchyGhostCellInterpolation) : HierarchyGhostCellInterpolation :=
  { s with
    d_refine_alg :=
      registerItem s.d_refine_alg
        (comp.d_dst_data_idx, comp.d_src_data_idx, lookupRefineOp env comp, comp.d_fill_pattern) }

/-- Third part of the body of the refine loop of `initializeOperatorState`:
the physical extrapolation operator. -/
def initExtrap (comp_idx : Nat) (comp : InterpolationTransactionComponent)
    (st : Sys × List StrategyRef) : Outcome (Sys × List StrategyRef) :=
  let phys_bdry_extrap_type := comp.d_phys_bdry_extrap_type
  if phys_bdry_extrap_type ≠ "NONE" then
    match CartExtrapPhysBdryOp.construct st.1.1 comp.d_dst_data_idx phys_bdry_extrap_type with
    | Except.ok (w, op) =>
        Except.ok
          ((w, { st.1.2 with d_extrap_bc_ops := st.1.2.d_extrap_bc_ops.set comp_idx (some op) }),
            st.2 ++ [StrategyRef.extrap_bc_op comp_idx])
    | Except.error e => Except.error (e.1, ((e.2.1, st.1.2), st.2))
  else Except.ok st

/-- Last part of the body of the refine loop of `initializeOperatorState`: the
Robin boundary condition operators. -/
def initRobin (env : Collaborators) (comp_idx : Nat)
    (comp : InterpolationTransactionComponent) (st : Sys × List StrategyRef) :
    Outcome (Sys × List StrategyRef) :=
  let dst_data_idx := comp.d_dst_data_idx
  let var := env.mapIndexToVariable comp.d_src_data_idx
  let robin_bc_coefs := comp.d_robin_bc_coefs
  let null_bc_coefs := nullBcCoefs comp
  let s := st.1.2
  let s :=
    if null_bc_coefs = false ∧ var = some VariableKind.cell_double then
      { s with
        d_cc_robin_bc_ops :=
          s.d_cc_robin_bc_ops.set comp_idx
            (some ⟨[dst_data_idx], robin_bc_coefs, s.d_homogeneous_bc⟩) }
    else s
  if null_bc_coefs = false ∧ var = some VariableKind.side_double then
    if env.check_assertions = true ∧ robin_bc_coefs.length ≠ hierarchyDim s then
      Except.error
        ("TBOX_ASSERT(robin_bc_coefs.size() == d_hierarchy->getDim().getValue())",
          ((st.1.1, s), st.2))
    else
      Except.ok
        ((st.1.1,
          { s with
            d_sc_robin_bc_ops :=
              s.d_sc_robin_bc_ops.set comp_idx
                (some ⟨[dst_data_idx], robin_bc_coefs, s.d_homogeneous_bc⟩) }),
          st.2)
  else Except.ok ((st.1.1, s), st.2)

/-- The body of the refine loop of `initializeOperatorState`. -/
def initRefineBody (env : Collaborators) (comp_idx : Nat)
    (comp : InterpolationTransactionComponent) (st : Sys × List StrategyRef) :
    Outcome (Sys × List StrategyRef) :=
  match initCentering env comp_idx comp st with
  | Except.error e => Except.error e
  | Except.ok st1 =>
      match initExtrap comp_idx comp ((st1.1.1, registerRefine env comp st1.1.2), st1.2) with
      | Except.error e => Except.error e
      | Except.ok st2 => initRobin env comp_idx comp st2

/-- The creation of the refine schedules, for `dst_ln = d_coarsest_ln, ...,
d_finest_ln`. -/
def createRefineSchedules (sys : Sys) : Sys :=
  let s :=
    { sys.2 with d_refine_scheds := resizeSlots sys.2.d_refine_scheds (sys.2.d_finest_ln + 1).toNat }
  (refineLevels s).foldl
    (fun sys dst_ln =>
      (sys.1.emit (Event.createRefineSchedule dst_ln),
        { sys.2 with
          d_refine_scheds :=
            sys.2.d_refine_scheds.set dst_ln.toNat (some ⟨dst_ln, algItems sys.2.d_refine_alg⟩) }))
    (sys.1, s)

/-- The part of `initializeOperatorState` that sets up the cached refine
algorithm, operators and schedules. -/
def setupRefine (env : Collaborators) (sys : Sys) : Outcome Sys :=
  let size := sys.2.d_transaction_comps.length
  let s :=
    { sys.2 with
      d_cf_bdry_ops := resizeSlots sys.2.d_cf_bdry_ops size
      d_extrap_bc_ops := resizeSlots sys.2.d_extrap_bc_ops size
      d_cc_robin_bc_ops := resizeSlots sys.2.d_cc_robin_bc_ops size
      d_sc_robin_bc_ops := resizeSlots sys.2.d_sc_robin_bc_ops size
      d_refine_alg := some ⟨[]⟩ }
  match (forComponents (initRefineBody env) 0 s.d_transaction_comps ((sys.1, s), [])).dropLocal with
  | Except.error e => Except.error e
  | Except.ok st =>
      Except.ok (createRefineSchedules (st.1.1, { st.1.2 with d_refine_strategy := some st.2 }))

/-- The opening of `initializeOperatorState`: the operator state is
deallocated if the operator is already initialized, then the transaction
components are reset and the hierarchy data is cached. -/
def initCacheHierarchy (transaction_comps : List InterpolationTransactionComponent)
    (hierarchy : PatchHierarchy) (coarsest_ln finest_ln : Int)
    (s : HierarchyGhostCellInterpolation) : HierarchyGhostCellInterpolation :=
  let s := if s.d_is_initialized = true then deallocateOperatorState s else s
  { s with
    d_transaction_comps := transaction_comps
    d_hierarchy := some hierarchy
    d_grid_geom := true
    d_coarsest_ln := if coarsest_ln = -1 then 0 else coarsest_ln
    d_finest_ln := if finest_ln = -1 then hierarchy.getFinestLevelNumber else finest_ln }

/-- The method `HierarchyGhostCellInterpolation::initializeOperatorState`
(the overload taking a vector of transaction components). -/
def initializeOperatorState (env : Collaborators)
    (transaction_comps : List InterpolationTransactionComponent) (hierarchy : PatchHierarchy)
    (coarsest_ln finest_ln : Int) (sys : Sys) : Outcome Sys :=
  let s := initCacheHierarchy transaction_comps hierarchy coarsest_ln finest_ln sys.2
  let w := registerCubicCoarsenOps sys.1
  match registerCoarsenOps env (w, s) with
  | Except.error e => Except.error e
  | Except.ok st =>
      match setupRefine env (createCoarsenSchedules st.1 st.2) with
      | Except.error e => Except.error e
      | Except.ok sys' =>
          Except.ok
            (sys'.1,
              { (setHomogeneousBc sys'.2 sys'.2.d_homogeneous_bc) with d_is_initialized := true })

/-- The overload of `initializeOperatorState` taking one transaction
component. -/
def initializeOperatorState_single (env : Collaborators)
    (transaction_comp : InterpolationTransactionComponent) (hierarchy : PatchHierarchy)
    (coarsest_ln finest_ln : Int) (sys : Sys) : Outcome Sys :=
  initializeOperatorState env [transaction_comp] hierarchy coarsest_ln finest_ln sys

/-- The method `setPatchDataIndex` of a coarse-fine interpolation operator. -/
def CFBdryOp.setPatchDataIndex (op : CFBdryOp) (patch_data_index : Int) : CFBdryOp :=
  { op with patch_data_index := patch_data_index }

/-- The body of the refine loop of `resetTransactionComponents`. -/
def resetRefineBody (env : Collaborators) (comp_idx : Nat)
    (comp : InterpolationTransactionComponent) (sys : Sys) : Outcome Sys :=
  let dst_data_idx := comp.d_dst_data_idx
  let var := env.mapIndexToVariable comp.d_src_data_idx
  let s := sys.2
  let s :=
    match slot s.d_cf_bdry_ops comp_idx with
    | some op =>
        { s with
          d_cf_bdry_ops := s.d_cf_bdry_ops.set comp_idx (some (op.setPatchDataIndex dst_data_idx)) }
    | none => s
  if var ≠ some VariableKind.cell_double ∧ var ≠ some VariableKind.node_double ∧
      var ≠ some VariableKind.side_double then
    Except.error
      ("HierarchyGhostCellInterpolation::resetTransactionComponents(): only double-precision cell-, node-, or side-centered data is presently supported.",
        (sys.1, s))
  else
    let s := registerRefine env comp s
    let phys_bdry_extrap_type := comp.d_phys_bdry_extrap_type
    let afterExtrap : Outcome Sys :=
      match slot s.d_extrap_bc_ops comp_idx with
      | some op =>
          if env.check_assertions = true ∧ phys_bdry_extrap_type = "NONE" then
            Except.error ("TBOX_ASSERT(phys_bdry_extrap_type != \"NONE\")", (sys.1, s))
          else
            match setExtrapolationType (sys.1, op.setPatchDataIndex dst_data_idx)
                phys_bdry_extrap_type with
            | Except.ok (w, op') =>
                Except.ok (w, { s with d_extrap_bc_ops := s.d_extrap_bc_ops.set comp_idx (some op') })
            | Except.error e =>
                Except.error
                  (e.1,
                    (e.2.1, { s with d_extrap_bc_ops := s.d_extrap_bc_ops.set comp_idx (some e.2.2) }))
      | none =>
          if env.check_assertions = true ∧ phys_bdry_extrap_type ≠ "NONE" then
            Except.error ("TBOX_ASSERT(phys_bdry_extrap_type == \"NONE\")", (sys.1, s))
          else Except.ok (sys.1, s)
    match afterExtrap with
    | Except.error e => Except.error e
    | Except.ok sys1 =>
        let robin_bc_coefs := comp.d_robin_bc_coefs
        let null_bc_coefs := nullBcCoefs comp
        let afterCC : Outcome Sys :=
          match slot sys1.2.d_cc_robin_bc_ops comp_idx with
          | some op =>
              if env.check_assertions = true ∧
                  (null_bc_coefs = true ∨ var ≠ some VariableKind.cell_double) then
                Except.error ("TBOX_ASSERT(!null_bc_coefs); TBOX_ASSERT(cc_var)", sys1)
              else
                Except.ok
                  (sys1.1,
                    { sys1.2 with
                      d_cc_robin_bc_ops :=
                        sys1.2.d_cc_robin_bc_ops.set comp_idx
                          (some { op with
                            d_bc_coefs := robin_bc_coefs
                            d_patch_data_indices := [dst_data_idx] }) })
          | none => Except.ok sys1
        match afterCC with
        | Except.error e => Except.error e
        | Except.ok sys2 =>
            match slot sys2.2.d_sc_robin_bc_ops comp_idx with
            | some op =>
                if env.check_assertions = true ∧
                    (null_bc_coefs = true ∨ var ≠ some VariableKind.side_double ∨
                      robin_bc_coefs.length ≠ hierarchyDim sys2.2) then
                  Except.error
                    ("TBOX_ASSERT(!null_bc_coefs); TBOX_ASSERT(sc_var); TBOX_ASSERT(robin_bc_coefs.size() == NDIM)",
                      sys2)
                else
                  Except.ok
                    (sys2.1,
                      { sys2.2 with
                        d_sc_robin_bc_ops :=
                          sys2.2.d_sc_robin_bc_ops.set comp_idx
                            (some { op with
                              d_bc_coefs := robin_bc_coefs
                              d_patch_data_indices := [dst_data_idx] }) })
            | none => Except.ok sys2

/-- The call `alg->resetSchedule(sched)` on slot `ln` of a schedule table: the
schedule, if any, takes the items of the algorithm. -/
def resetSlot (scheds : List (Option TransferSchedule)) (ln : Int)
    (alg : Option TransferAlgorithm) : List (Option TransferSchedule) :=
  match slot scheds ln.toNat with
  | some sched => scheds.set ln.toNat (some { sched with items := algItems alg })
  | none => scheds

/-- The method `HierarchyGhostCellInterpolation::resetTransactionComponents`. -/
def resetTransactionComponents (env : Collaborators)
    (transaction_comps : List InterpolationTransactionComponent) (sys : Sys) : Outcome Sys :=
  if env.check_assertions = true ∧ sys.2.d_is_initialized = false then
    Except.error ("TBOX_ASSERT(d_is_initialized)", sys)
  else if sys.2.d_transaction_comps.length ≠ transaction_comps.length then
    Except.error
      ("HierarchyGhostCellInterpolation::resetTransactionComponents(): invalid reset operation.  attempting to change the number of registered interpolation transaction components.",
        sys)
  else
    let s := { sys.2 with d_transaction_comps := transaction_comps }
    match registerCoarsenOps env (sys.1, s) with
    | Except.error e => Except.error e
    | Except.ok st =>
        let sys1 : Sys :=
          if st.2 = true then
            (coarsenLevels st.1.2).foldl
              (fun sys src_ln =>
                (sys.1.emit (Event.resetCoarsenSchedule src_ln),
                  { sys.2 with
                    d_coarsen_scheds :=
                      resetSlot sys.2.d_coarsen_scheds src_ln sys.2.d_coarsen_alg }))
              st.1
          else st.1
        let sys1 : Sys := (sys1.1, { sys1.2 with d_refine_alg := some ⟨[]⟩ })
        match forComponents (resetRefineBody env) 0 sys1.2.d_transaction_comps sys1 with
        | Except.error e => Except.error e
        | Except.ok sys2 =>
            Except.ok
              ((refineLevels sys2.2).foldl
                (fun sys dst_ln =>
                  (sys.1.emit (Event.resetRefineSchedule dst_ln),
                    { sys.2 with
                      d_refine_scheds :=
                        resetSlot sys.2.d_refine_scheds dst_ln sys.2.d_refine_alg }))
                sys2)

/-- The method `HierarchyGhostCellInterpolation::resetTransactionComponent`. -/
def resetTransactionComponent (env : Collaborators)
    (transaction_comp : InterpolationTransactionComponent) (sys : Sys) : Outcome Sys :=
  if env.check_assertions = true ∧ sys.2.d_is_initialized = false then
    Except.error ("TBOX_ASSERT(d_is_initialized)", sys)
  else if sys.2.d_transaction_comps.length ≠ 1 then
    Except.error
      ("HierarchyGhostCellInterpolation::resetTransactionComponent(): invalid reset operation.  attempting to change the number of registered interpolation transaction components.",
        sys)
  else resetTransactionComponents env [transaction_comp] sys

/-- The method `HierarchyGhostCellInterpolation::reinitializeOperatorState`. -/
def reinitializeOperatorState (env : Collaborators) (hierarchy : PatchHierarchy) (sys : Sys) :
    Outcome Sys :=
  if sys.2.d_is_initialized = false then Except.ok sys
  else initializeOperatorState env sys.2.d_transaction_comps hierarchy (-1) (-1) sys

/-- The patch level `d_hierarchy->getPatchLevel(ln)`. -/
def hierarchyLevel (s : HierarchyGhostCellInterpolation) (ln : Int) : PatchLevel :=
  match s.d_hierarchy with
  | some h => h.getPatchLevel ln
  | none => ⟨[], []⟩

/-- The destination data index of component `comp_idx`. -/
def dstDataIdx (s : HierarchyGhostCellInterpolation) (comp_idx : Nat) : Int :=
  match s.d_transaction_comps[comp_idx]? with
  | some comp => comp.d_dst_data_idx
  | none => 0

/-- First loop of `fillData`: the homogeneous flag is pushed into every
registered Robin operator. -/
def fillData_setHomogeneousBc (sys : Sys) : Sys :=
  (List.range sys.2.d_transaction_comps.length).foldl
    (fun sys comp_idx =>
      let sys : Sys :=
        match slot sys.2.d_cc_robin_bc_ops comp_idx with
        | some op =>
            (sys.1.emit (Event.ccSetHomogeneousBc comp_idx sys.2.d_homogeneous_bc),
              { sys.2 with
                d_cc_robin_bc_ops :=
                  sys.2.d_cc_robin_bc_ops.set comp_idx
                    (some { op with d_homogeneous_bc := sys.2.d_homogeneous_bc }) })
        | none => sys
      match slot sys.2.d_sc_robin_bc_ops comp_idx with
      | some op =>
          (sys.1.emit (Event.scSetHomogeneousBc comp_idx sys.2.d_homogeneous_bc),
            { sys.2 with
              d_sc_robin_bc_ops :=
                sys.2.d_sc_robin_bc_ops.set comp_idx
                  (some { op with d_homogeneous_bc := sys.2.d_homogeneous_bc }) })
      | none => sys)
    sys

/-- Second loop of `fillData`: the coarsen schedules are executed for
`src_ln = d_finest_ln, ..., max(1, d_coarsest_ln)`. -/
def fillData_coarsen (s : HierarchyGhostCellInterpolation) (w : World) : World :=
  (coarsenLevels s).reverse.foldl
    (fun w src_ln =>
      if (slot s.d_coarsen_scheds src_ln.toNat).isSome then w.emit (Event.coarsenData src_ln)
      else w)
    w

/-- Third loop of `fillData`: on each level the refine schedule is executed and
the normal extension of every coarse-fine interpolation operator is computed
on every patch. -/
def fillData_refine (s : HierarchyGhostCellInterpolation) (w : World) : World :=
  (refineLevels s).foldl
    (fun w dst_ln =>
      let w :=
        if (slot s.d_refine_scheds dst_ln.toNat).isSome then w.emit (Event.refineFillData dst_ln)
        else w
      let level := hierarchyLevel s dst_ln
      let ratio := level.ratio_to_coarser_level
      level.patches.foldl
        (fun w patch =>
          (List.range s.d_transaction_comps.length).foldl
            (fun w comp_idx =>
              if (slot s.d_cf_bdry_ops comp_idx).isSome then
                let dst_data_idx := dstDataIdx s comp_idx
                let ghost_width_to_fill := patch.getGhostCellWidth dst_data_idx
                w.emit
                  (Event.computeNormalExtension dst_ln patch.global_id comp_idx ratio
                    ghost_width_to_fill)
              else w)
            w)
        w)
    w

/-- Fourth loop of `fillData`: the Robin boundary conditions are set on the
patches that touch a regular boundary. -/
def fillData_robin (s : HierarchyGhostCellInterpolation) (w : World) : World :=
  (refineLevels s).foldl
    (fun w ln =>
      let level := hierarchyLevel s ln
      level.patches.foldl
        (fun w patch =>
          if patch.touches_regular_boundary = true then
            (List.range s.d_transaction_comps.length).foldl
              (fun w comp_idx =>
                let w :=
                  if (slot s.d_cc_robin_bc_ops comp_idx).isSome then
                    w.emit
                      (Event.ccSetPhysicalBoundaryConditions ln patch.global_id comp_idx
                        (patch.getGhostCellWidth (dstDataIdx s comp_idx)))
                  else w
                if (slot s.d_sc_robin_bc_ops comp_idx).isSome then
                  w.emit
                    (Event.scSetPhysicalBoundaryConditions ln patch.global_id comp_idx
                      (patch.getGhostCellWidth (dstDataIdx s comp_idx)))
                else w)
              w
          else w)
        w)
    w

/-- The method `HierarchyGhostCellInterpolation::fillData`. -/
def fillData (env : Collaborators) (sys : Sys) : Outcome Sys :=
  if env.check_assertions = true ∧ sys.2.d_is_initialized = false then
    Except.error ("TBOX_ASSERT(d_is_initialized)", sys)
  else
    let sys1 := fillData_setHomogeneousBc sys
    let w := fillData_coarsen sys1.2 sys1.1
    let w := fillData_refine sys1.2 w
    let w := fillData_robin sys1.2 w
    Except.ok (w, sys1.2)

/-! ## The process: several orchestrators sharing the process-wide state -/

/-- Whether a collaborator call is an `addCoarsenOperator` call. -/
def Event.isAddCoarsenOperator : Event → Bool
  | Event.addCoarsenOperator _ _ => true
  | _ => false

/-- The `addCoarsenOperator` calls of a trace, in order. -/
def cubicCoarsenRegistrations (trace : List Event) : List Event :=
  trace.filter Event.isAddCoarsenOperator

/-- The pair of registrations made under `IBTK_DO_ONCE`. -/
def cubicCoarsenPair : List Event :=
  [Event.addCoarsenOperator "CellVariable<double>" "CartCellDoubleCubicCoarsen",
    Event.addCoarsenOperator "SideVariable<double>" "CartSideDoubleCubicCoarsen"]

/-- A process: the process-wide state, its `HierarchyGhostCellInterpolation`
objects, and whether a fatal error has terminated it. -/
structure Process where
  world : World
  objects : List HierarchyGhostCellInterpolation
  aborted : Bool

/-- A call of `initializeOperatorState` on the object number `object`. -/
structure InitCall where
  object : Nat
  transaction_comps : List InterpolationTransactionComponent
  hierarchy : PatchHierarchy
  coarsest_ln : Int
  finest_ln : Int

/-- A process at its start: nothing registered, nothing traced, the given
objects. -/
def Process.start (objects : List HierarchyGhostCellInterpolation) : Process :=
  ⟨World.start, objects, false⟩

/-- One call of `initializeOperatorState` in a process; a fatal error
terminates the process, after which no call is executed. -/
def Process.call (env : Collaborators) (p : Process) (c : InitCall) : Process :=
  if p.aborted = true then p
  else
    match p.objects[c.object]? with
    | none => p
    | some s =>
        match initializeOperatorState env c.transaction_comps c.hierarchy c.coarsest_ln
            c.finest_ln (p.world, s) with
        | Except.ok sys => ⟨sys.1, p.objects.set c.object sys.2, false⟩
        | Except.error e => ⟨e.2.1, p.objects.set c.object e.2.2, true⟩

/-- A sequence of `initializeOperatorState` calls in a process. -/
def Process.run (env : Collaborators) (p : Process) (calls : List InitCall) : Process :=
  calls.foldl (Process.call env) p

/-- A property of the state in which an operation ends: `Q` of the result when
it succeeds, `P` of the state at the error when it fails. -/
def Ends {σ τ : Type} (P : σ → Prop) (Q : τ → Prop) (o : Except (String × σ) τ) : Prop :=
  match o with
  | Except.ok a => Q a
  | Except.error e => P e.2

/-- The part of the state that the set-up steps of `initializeOperatorState`
leave alone: the initialized flag stays `false`, the cached hierarchy stays
`hier`, the registered components stay `comps0`, the `IBTK_DO_ONCE` flag of the cubic coarsen registration stays `c`
and the `addCoarsenOperator` calls of the trace stay `T`. -/
def Untouched (c : Bool) (T : List Event) (hier : Option PatchHierarchy)
    (comps0 : List InterpolationTransactionComponent) (sys : Sys) : Prop :=
  sys.2.d_is_initialized = false ∧ sys.2.d_hierarchy = hier ∧
    sys.2.d_transaction_comps = comps0 ∧
    sys.1.cubic_coarsen_ops_registered = c ∧ cubicCoarsenRegistrations sys.1.trace = T

/-- Case (a): the source variable of the component is none of double cell-,
node- or side-centered. -/
def unsupportedCentering (env : Collaborators) (comp : InterpolationTransactionComponent) :
    Prop :=
  env.mapIndexToVariable comp.d_src_data_idx ≠ some VariableKind.cell_double ∧
    env.mapIndexToVariable comp.d_src_data_idx ≠ some VariableKind.node_double ∧
    env.mapIndexToVariable comp.d_src_data_idx ≠ some VariableKind.side_double

/-- Case (b): node-centered data with coarse-fine boundary interpolation. -/
def nodeCenteredCF (env : Collaborators) (comp : InterpolationTransactionComponent) : Prop :=
  env.mapIndexToVariable comp.d_src_data_idx = some VariableKind.node_double ∧
    comp.d_use_cf_bdry_interpolation = true

/-- Case (c): side-centered data with a non-null Robin coefficient object and
a coefficient count other than the dimension. -/
def sideRobinWrongCount (env : Collaborators) (dim : Nat)
    (comp : InterpolationTransactionComponent) : Prop :=
  env.mapIndexToVariable comp.d_src_data_idx = some VariableKind.side_double ∧
    nullBcCoefs comp = false ∧ comp.d_robin_bc_coefs.length ≠ dim

/-- Whether a collaborator call is the execution of a coarsen schedule. -/
def Event.isCoarsenExecution : Event → Bool
  | Event.coarsenData _ => true
  | _ => false

/-- Whether a collaborator call is the execution of a refine schedule or a
coarse-fine normal extension. -/
def Event.isRefineOrNormalExtension : Event → Bool
  | Event.refineFillData _ => true
  | Event.computeNormalExtension _ _ _ _ _ => true
  | _ => false

/-- Whether a collaborator call is a Robin `setPhysicalBoundaryConditions`
call. -/
def Event.isRobinSetPhysicalBoundaryConditions : Event → Bool
  | Event.ccSetPhysicalBoundaryConditions _ _ _ _ => true
  | Event.scSetPhysicalBoundaryConditions _ _ _ _ => true
  | _ => false

/-- The phase of `fillData` to which a collaborator call belongs: 0 for the
homogeneous flag, 1 for coarsening, 2 for refining and normal extension, 3 for
the Robin boundary conditions (calls that `fillData` never makes are given
phase 0). -/
def Event.fillPhase : Event → Nat
  | Event.coarsenData _ => 1
  | Event.refineFillData _ => 2
  | Event.computeNormalExtension _ _ _ _ _ => 2
  | Event.ccSetPhysicalBoundaryConditions _ _ _ _ => 3
  | Event.scSetPhysicalBoundaryConditions _ _ _ _ => 3
  | _ => 0

/-- The trace `t'` extends the trace `t` by calls of phase `k` only. -/
def AppendsPhase (k : Nat) (t t' : List Event) : Prop :=
  ∃ evs : List Event, t' = t ++ evs ∧ ∀ e ∈ evs, e.fillPhase = k

/-- Collaborators for the examples: the data index 0 is a cell-centered double
variable, 1 a side-centered one, 2 a node-centered one, and no other index has
a variable; every operator name is known to the grid geometry. -/
def probeEnv (check_assertions : Bool) : Collaborators where
  check_assertions := check_assertions
  mapIndexToVariable := fun idx =>
    if idx = 0 then some VariableKind.cell_double
    else if idx = 1 then some VariableKind.side_double
    else if idx = 2 then some VariableKind.node_double
    else none
  lookupCoarsenOperator := fun _ name => some name
  lookupRefineOperator := fun _ name => some name

/-- A two-dimensional hierarchy with two levels of one patch each; the patch
of level 0 touches a regular boundary. -/
def probeHierarchy : PatchHierarchy where
  dim := 2
  levels :=
    [⟨[1, 1], [⟨0, 0, true, [(0, [1, 1]), (1, [1, 1])]⟩]⟩,
      ⟨[2, 2], [⟨1, 1, false, [(0, [1, 1]), (1, [1, 1])]⟩]⟩]

/-- A transaction component on the data index `idx` (source and destination)
with conservative coarsening and refining, coarse-fine interpolation, LINEAR
extrapolation and the given Robin coefficient objects. -/
def probeComponent (idx : Int) (use_cf : Bool) (robin_bc_coefs : List (Option Nat)) :
    InterpolationTransactionComponent where
  d_dst_data_idx := idx
  d_src_data_idx := idx
  d_refine_op_name := "CONSERVATIVE_LINEAR_REFINE"
  d_use_cf_bdry_interpolation := use_cf
  d_coarsen_op_name := "CONSERVATIVE_COARSEN"
  d_phys_bdry_extrap_type := "LINEAR"
  d_robin_bc_coefs := robin_bc_coefs
  d_fill_pattern := none

/-- The orchestrator initialized, with assertions checked, on a cell-centered
and a side-centered component over `probeHierarchy`, in a fresh process. -/
def probeState : Sys :=
  Outcome.finalState
    (initializeOperatorState (probeEnv true)
      [probeComponent 0 true [some 0], probeComponent 1 true [some 0, some 1]] probeHierarchy
      (-1) (-1) (World.start, HierarchyGhostCellInterpolation.new))

/-- A call of `initializeOperatorState` with the cell-centered probe component
on the object number `object`. -/
def probeCall (object : Nat) : InitCall where
  object := object
  transaction_comps := [probeComponent 0 true [some 0]]
  hierarchy := probeHierarchy
  coarsest_ln := -1
  finest_ln := -1

/-- The data `u` is `u_in` on the side indices of `W` and `u_out` elsewhere. -/
def OverwrittenOn {n : Nat} (u_out u_in : SideData n ℚ) (u : SideData n ℚ)
    (W : Set (Nat × Index n)) : Prop :=
  ∀ axis j, ((axis, j) ∈ W → u.val axis j = u_in.val axis j) ∧
    ((axis, j) ∉ W → u.val axis j = u_out.val axis j)

/-! ## The calls of `fillData`, phase by phase -/

/-- Record a list of collaborator calls. -/
def World.emitAll (w : World) (evs : List Event) : World :=
  { w with trace := w.trace ++ evs }

/-- The orchestrator with other tables of Robin operators. -/
def withRobinOps (s : HierarchyGhostCellInterpolation)
    (cc_ops sc_ops : List (Option RobinPhysBdryOp)) : HierarchyGhostCellInterpolation :=
  { s with d_cc_robin_bc_ops := cc_ops, d_sc_robin_bc_ops := sc_ops }

/-- The `setHomogeneousBc` calls expected of `fillData`: for each component in
turn, one call on its cell-centered Robin operator and one on its
side-centered Robin operator, when registered, with the flag of the
orchestrator. -/
def homogeneousEvents (s : HierarchyGhostCellInterpolation) : List Event :=
  (List.range s.d_transaction_comps.length).flatMap
    (fun comp_idx =>
      (if (slot s.d_cc_robin_bc_ops comp_idx).isSome = true then
        [Event.ccSetHomogeneousBc comp_idx s.d_homogeneous_bc] else []) ++
      (if (slot s.d_sc_robin_bc_ops comp_idx).isSome = true then
        [Event.scSetHomogeneousBc comp_idx s.d_homogeneous_bc] else []))

/-- The coarsen schedule executions expected of `fillData`: the levels
`max(1, coarsest), ..., finest` whose schedule slot is non-null, finest
first. -/
def coarsenEvents (s : HierarchyGhostCellInterpolation) : List Event :=
  ((coarsenLevels s).reverse.filter
    (fun src_ln => (slot s.d_coarsen_scheds src_ln.toNat).isSome)).map Event.coarsenData

/-- The `computeNormalExtension` calls expected on one patch: one for each
component with a non-null coarse-fine interpolation operator, with the ratio
of the level and the ghost cell width of the destination data. -/
def normalExtensionEvents (s : HierarchyGhostCellInterpolation) (dst_ln : Int)
    (patch : PatchInfo) : List Event :=
  ((List.range s.d_transaction_comps.length).filter
    (fun comp_idx => (slot s.d_cf_bdry_ops comp_idx).isSome)).map
    (fun comp_idx =>
      Event.computeNormalExtension dst_ln patch.global_id comp_idx
        (hierarchyLevel s dst_ln).ratio_to_coarser_level
        (patch.getGhostCellWidth (dstDataIdx s comp_idx)))

/-- The calls expected of the refine phase on one level: the refine schedule
(when its slot is non-null) first, then the normal extensions patch by
patch. -/
def refineLevelEvents (s : HierarchyGhostCellInterpolation) (dst_ln : Int) : List Event :=
  (if (slot s.d_refine_scheds dst_ln.toNat).isSome = true then [Event.refineFillData dst_ln]
    else []) ++
    (hierarchyLevel s dst_ln).patches.flatMap (normalExtensionEvents s dst_ln)

/-- The calls expected of the refine phase: level by level, coarsest first. -/
def refineEvents (s : HierarchyGhostCellInterpolation) : List Event :=
  (refineLevels s).flatMap (refineLevelEvents s)

/-- The Robin `setPhysicalBoundaryConditions` calls expected on one patch that
touches a regular boundary: for each component in turn, the cell-centered and
the side-centered operator, when registered, with the ghost cell width of the
destination data. -/
def robinPatchEvents (s : HierarchyGhostCellInterpolation) (ln : Int) (patch : PatchInfo) :
    List Event :=
  (List.range s.d_transaction_comps.length).flatMap
    (fun comp_idx =>
      (if (slot s.d_cc_robin_bc_ops comp_idx).isSome = true then
        [Event.ccSetPhysicalBoundaryConditions ln patch.global_id comp_idx
          (patch.getGhostCellWidth (dstDataIdx s comp_idx))] else []) ++
      (if (slot s.d_sc_robin_bc_ops comp_idx).isSome = true then
        [Event.scSetPhysicalBoundaryConditions ln patch.global_id comp_idx
          (patch.getGhostCellWidth (dstDataIdx s comp_idx))] else []))

/-- The calls expected of the Robin phase: level by level, coarsest first, on
the patches that touch a regular boundary. -/
def robinEvents (s : HierarchyGhostCellInterpolation) : List Event :=
  (refineLevels s).flatMap
    (fun ln =>
      (hierarchyLevel s ln).patches.flatMap
        (fun patch =>
          if patch.touches_regular_boundary = true then robinPatchEvents s ln patch else []))

/-- The homogeneous flag stored in a Robin operator slot. -/
def slotFlag (v : List (Option RobinPhysBdryOp)) (k : Nat) : Option Bool :=
  (slot v k).map (fun op => op.d_homogeneous_bc)

/-- Whether a collaborator call is a `setHomogeneousBc` call on a Robin
operator. -/
def Event.isSetHomogeneousBc : Event → Bool
  | Event.ccSetHomogeneousBc _ _ => true
  | Event.scSetHomogeneousBc _ _ => true
  | _ => false

/-- The flag pushed into the first `m` slots of a table of Robin operators. -/
def FlagPushed (b : Bool) (m : Nat) (orig v : List (Option RobinPhysBdryOp)) : Prop :=
  ∀ k, slot v k =
    if k < m then (slot orig k).map (fun op => { op with d_homogeneous_bc := b }) else slot orig k

/-! ## The schedules across the component loops -/

/-- Whether a collaborator call is a `resetSchedule` call of an algorithm. -/
def Event.isResetSchedule : Event → Bool
  | Event.resetCoarsenSchedule _ => true
  | Event.resetRefineSchedule _ => true
  | _ => false

/-- The part of the state that the loops over the transaction components leave
alone: the trace extends `T` by calls whose `resetSchedule` calls are `X`, the
level bounds stay `c` and `f`, and the schedule tables stay `cs` and `rs`. -/
def SchedulesKept (T X : List Event) (c f : Int) (cs rs : List (Option TransferSchedule))
    (sys : Sys) : Prop :=
  (∃ evs, sys.1.trace = T ++ evs ∧ evs.filter Event.isResetSchedule = X) ∧
    sys.2.d_coarsest_ln = c ∧ sys.2.d_finest_ln = f ∧
    sys.2.d_coarsen_scheds = cs ∧ sys.2.d_refine_scheds = rs

/-- Whether some component of the list names a coarsen operator. -/
def namesCoarsenOp (comps : List InterpolationTransactionComponent) : Bool :=
  comps.any (fun comp => decide (comp.d_coarsen_op_name ≠ "NONE"))

/-- The step from `sys` to `sys'` keeps the level bounds and the schedule
tables and makes no `resetSchedule` call. -/
def KeepsSchedules (sys sys' : Sys) : Prop :=
  (∃ evs, sys'.1.trace = sys.1.trace ++ evs ∧ evs.filter Event.isResetSchedule = []) ∧
    sys'.2.d_coarsest_ln = sys.2.d_coarsest_ln ∧ sys'.2.d_finest_ln = sys.2.d_finest_ln ∧
    sys'.2.d_coarsen_scheds = sys.2.d_coarsen_scheds ∧
    sys'.2.d_refine_scheds = sys.2.d_refine_scheds

/-- The probe component on the data index `idx`, with the coarsen operator
name "NONE". -/
def probeComponentNoCoarsen (idx : Int) (use_cf : Bool) (robin_bc_coefs : List (Option Nat)) :
    InterpolationTransactionComponent :=
  { probeComponent idx use_cf robin_bc_coefs with d_coarsen_op_name := "NONE" }

/-! ## `CartCellRobinPhysBdryOp.cpp` -/

/-- The method `ArrayData::fillAll`. -/
def ArrayData.fillAll {n : Nat} {α : Type} (data : ArrayData n α) (a : α) : ArrayData n α :=
  ⟨data.box, fun _ => a⟩

/-- The largest component `IntVector::max()` (0 in dimension 0). -/
def intVectorMax {n : Nat} (v : Index n) : Int :=
  (List.ofFn v).foldl max ((List.ofFn v).headD 0)

/-- The smallest component `IntVector::min()` (0 in dimension 0). -/
def intVectorMin {n : Nat} (v : Index n) : Int :=
  (List.ofFn v).foldl min ((List.ofFn v).headD 0)

/-- The Fortran kernels called by `CartCellRobinPhysBdryOp`. Their definitions
are outside the files at hand: a call is recorded with its arguments. -/
inductive RobinKernel where
  | CC_ROBIN_PHYS_BDRY_OP_1_X_FC2D
  | CC_ROBIN_PHYS_BDRY_OP_1_X_FC3D
  | CC_ROBIN_PHYS_BDRY_OP_1_Y_FC2D
  | CC_ROBIN_PHYS_BDRY_OP_1_Y_FC3D
  | CC_ROBIN_PHYS_BDRY_OP_1_Z_FC3D
  | CC_ROBIN_PHYS_BDRY_OP_2_FC2D
  | CC_ROBIN_PHYS_BDRY_OP_2_FC3D
  | CC_ROBIN_PHYS_BDRY_OP_3_FC3D
deriving DecidableEq

/-- The codimension of the boundary boxes a kernel works on. -/
def RobinKernel.codim : RobinKernel → Nat
  | RobinKernel.CC_ROBIN_PHYS_BDRY_OP_1_X_FC2D => 1
  | RobinKernel.CC_ROBIN_PHYS_BDRY_OP_1_X_FC3D => 1
  | RobinKernel.CC_ROBIN_PHYS_BDRY_OP_1_Y_FC2D => 1
  | RobinKernel.CC_ROBIN_PHYS_BDRY_OP_1_Y_FC3D => 1
  | RobinKernel.CC_ROBIN_PHYS_BDRY_OP_1_Z_FC3D => 1
  | RobinKernel.CC_ROBIN_PHYS_BDRY_OP_2_FC2D => 2
  | RobinKernel.CC_ROBIN_PHYS_BDRY_OP_2_FC3D => 2
  | RobinKernel.CC_ROBIN_PHYS_BDRY_OP_3_FC3D => 3

/-- The three coefficient arrays `acoef_data`, `bcoef_data`, `gcoef_data`. -/
structure RobinCoefData (n : Nat) where
  acoef_data : ArrayData n ℚ
  bcoef_data : ArrayData n ℚ
  gcoef_data : ArrayData n ℚ

/-- One call of a Fortran kernel: the kernel, the patch data index and depth
component whose array it receives, the ghost cell width of the data, the
coefficient arrays (codimension 1 only), the location index, the boundary fill
box from which its index bounds are taken, and the flag `adjoint_op`. The
bounds of the patch box, which every call receives, are left out. -/
structure RobinKernelCall (n : Nat) where
  kernel : RobinKernel
  patch_data_idx : Int
  depth : Nat
  patch_data_gcw : Int
  coefs : Option (RobinCoefData n)
  location_index : Nat
  bc_fill_box : Box n
  adjoint_op : Bool

/-- A `RobinBcCoefStrategy` object: whether it is an
`ExtendedRobinBcCoefStrategy`, and its method `setBcCoefs`, which overwrites
the three coefficient arrays. An extended strategy sees the target patch data
index and the homogeneous flag set just before the call (first argument). -/
structure RobinBcCoefStrategy (n : Nat) where
  extended : Bool
  setBcCoefs : Option (Int × Bool) → RobinCoefData n → BoundaryBox n → ℚ → RobinCoefData n

/-- What `CartCellRobinPhysBdryOp` reads of a patch: its box, for each patch
data index the depth and ghost cell width of the data if it is cell-centered
double data, the physical boundary boxes of each codimension
(`PhysicalBoundaryUtilities::getPhysicalBoundaryCodim1Boxes` and its
siblings), the boundary fill box of the patch geometry,
`PhysicalBoundaryUtilities::makeSideBoundaryCodim1Box`, and the content of a
freshly allocated array; the definitions of these helpers are outside the
files at hand. -/
structure RobinPatch (n : Nat) where
  box : Box n
  cell_data : Int → Option (Nat × Index n)
  physical_codim1_boxes : List (BoundaryBox n)
  physical_codim2_boxes : List (BoundaryBox n)
  physical_codim3_boxes : List (BoundaryBox n)
  getBoundaryFillBox : BoundaryBox n → Box n → Index n → Box n
  makeSideBoundaryCodim1Box : BoundaryBox n → Box n
  newArrayData : Box n → ArrayData n ℚ

/-- The state of a `CartCellRobinPhysBdryOp` object. -/
structure CartCellRobinPhysBdryOp (n : Nat) where
  d_patch_data_indices : List Int
  d_bc_coefs : List (Option (RobinBcCoefStrategy n))
  d_homogeneous_bc : Bool

/-- A loop whose body makes kernel calls and can raise a fatal error: the
calls of the iterations, in order. -/
def collectCalls {α β : Type} (f : α → Except String (List β)) :
    List α → Except String (List β)
  | [] => Except.ok []
  | a :: l =>
      match f a with
      | Except.error e => Except.error e
      | Except.ok calls =>
          match collectCalls f l with
          | Except.error e => Except.error e
          | Except.ok rest => Except.ok (calls ++ rest)

/-- The dispatch on the location index and the dimension at the end of the
depth loop of `fillGhostCellValuesCodim1`. -/
def codim1Kernel (ndim : Nat) (location_index : Nat) : Except String RobinKernel :=
  if location_index = 0 ∨ location_index = 1 then
    if ndim = 2 then Except.ok RobinKernel.CC_ROBIN_PHYS_BDRY_OP_1_X_FC2D
    else if ndim = 3 then Except.ok RobinKernel.CC_ROBIN_PHYS_BDRY_OP_1_X_FC3D
    else Except.error "unsupported dim"
  else if location_index = 2 ∨ location_index = 3 then
    if ndim = 2 then Except.ok RobinKernel.CC_ROBIN_PHYS_BDRY_OP_1_Y_FC2D
    else if ndim = 3 then Except.ok RobinKernel.CC_ROBIN_PHYS_BDRY_OP_1_Y_FC3D
    else Except.error "unsupported dim"
  else if location_index = 4 ∨ location_index = 5 then
    if ndim = 3 then Except.ok RobinKernel.CC_ROBIN_PHYS_BDRY_OP_1_Z_FC3D
    else Except.error "unsupported dim"
  else Except.error "unsupported location index"

/-- The loop `for (d = 0; d < patch_data_depth; ++d)` of
`fillGhostCellValuesCodim1` on one boundary box; the coefficient arrays are
allocated once per boundary box and handed from one depth to the next. -/
def CartCellRobinPhysBdryOp.codim1Depths {n : Nat} (op : CartCellRobinPhysBdryOp n)
    (patch_data_idx : Int) (patch_data_gcw : Int) (fill_time : ℚ) (adjoint_op : Bool)
    (location_index : Nat) (bc_fill_box : Box n) (trimmed_bdry_box : BoundaryBox n) :
    List Nat → RobinCoefData n → Except String (List (RobinKernelCall n))
  | [], _ => Except.ok []
  | d :: ds, coefs =>
      match op.d_bc_coefs.getD d none with
      | none => Except.error "d_bc_coefs[d] is a null pointer"
      | some bc_coef =>
          let extended_bc_coef := bc_coef.extended
          let coefs :=
            bc_coef.setBcCoefs
              (if extended_bc_coef = true then some (patch_data_idx, op.d_homogeneous_bc)
                else none)
              coefs trimmed_bdry_box fill_time
          let coefs :=
            if op.d_homogeneous_bc = true ∧ extended_bc_coef = false then
              { coefs with gcoef_data := coefs.gcoef_data.fillAll 0 }
            else coefs
          match codim1Kernel n location_index with
          | Except.error e => Except.error e
          | Except.ok kernel =>
              match op.codim1Depths patch_data_idx patch_data_gcw fill_time adjoint_op
                  location_index bc_fill_box trimmed_bdry_box ds coefs with
              | Except.error e => Except.error e
              | Except.ok rest =>
                  Except.ok
                    (⟨kernel, patch_data_idx, d, patch_data_gcw, some coefs, location_index,
                      bc_fill_box, adjoint_op⟩ :: rest)

/-- The method `CartCellRobinPhysBdryOp::fillGhostCellValuesCodim1`; the check
of uniform ghost cell widths is compiled in when `debug_checks` holds. -/
def CartCellRobinPhysBdryOp.fillGhostCellValuesCodim1 {n : Nat} (debug_checks : Bool)
    (op : CartCellRobinPhysBdryOp n) (patch_data_idx : Int)
    (physical_codim1_boxes : List (BoundaryBox n)) (fill_time : ℚ)
    (ghost_width_to_fill : Index n) (patch : RobinPatch n) (adjoint_op : Bool) :
    Except String (List (RobinKernelCall n)) :=
  let n_physical_codim1_boxes := physical_codim1_boxes.length
  if n_physical_codim1_boxes = 0 then Except.ok []
  else
    let patch_box := patch.box
    match patch.cell_data patch_data_idx with
    | none => Except.error "TBOX_ASSERT(patch_data)"
    | some patch_data =>
        let patch_data_depth := patch_data.1
        let patch_data_gcw := intVectorMax patch_data.2
        if debug_checks = true ∧ patch_data_gcw ≠ intVectorMin patch_data.2 then
          Except.error
            "CartCellRobinPhysBdryOp::fillGhostCellValuesCodim1(): patch data does not have uniform ghost cell widths."
        else
          let gcw_to_fill : Index n := fun d => min (patch_data.2 d) (ghost_width_to_fill d)
          collectCalls
            (fun bdry_box : BoundaryBox n =>
              let location_index := bdry_box.location_index
              let bc_fill_box := patch.getBoundaryFillBox bdry_box patch_box gcw_to_fill
              let trimmed_bdry_box : BoundaryBox n :=
                ⟨bdry_box.box.intersect bc_fill_box, bdry_box.location_index⟩
              let bc_coef_box := patch.makeSideBoundaryCodim1Box trimmed_bdry_box
              let coefs : RobinCoefData n :=
                ⟨patch.newArrayData bc_coef_box, patch.newArrayData bc_coef_box,
                  patch.newArrayData bc_coef_box⟩
              op.codim1Depths patch_data_idx patch_data_gcw fill_time adjoint_op location_index
                bc_fill_box trimmed_bdry_box (List.range patch_data_depth) coefs)
            physical_codim1_boxes

/-- The method `CartCellRobinPhysBdryOp::fillGhostCellValuesCodim2`. -/
def CartCellRobinPhysBdryOp.fillGhostCellValuesCodim2 {n : Nat} (debug_checks : Bool)
    (_op : CartCellRobinPhysBdryOp n) (patch_data_idx : Int)
    (physical_codim2_boxes : List (BoundaryBox n)) (ghost_width_to_fill : Index n)
    (patch : RobinPatch n) (adjoint_op : Bool) : Except String (List (RobinKernelCall n)) :=
  let n_physical_codim2_boxes := physical_codim2_boxes.length
  if n_physical_codim2_boxes = 0 then Except.ok []
  else
    let patch_box := patch.box
    match patch.cell_data patch_data_idx with
    | none => Except.error "TBOX_ASSERT(patch_data)"
    | some patch_data =>
        let patch_data_depth := patch_data.1
        let patch_data_gcw := intVectorMax patch_data.2
        if debug_checks = true ∧ patch_data_gcw ≠ intVectorMin patch_data.2 then
          Except.error
            "CartCellRobinPhysBdryOp::fillGhostCellValuesCodim2(): patch data does not have uniform ghost cell widths."
        else
          let gcw_to_fill : Index n := fun d => min (patch_data.2 d) (ghost_width_to_fill d)
          collectCalls
            (fun bdry_box : BoundaryBox n =>
              let location_index := bdry_box.location_index
              let bc_fill_box := patch.getBoundaryFillBox bdry_box patch_box gcw_to_fill
              collectCalls
                (fun d : Nat =>
                  if n = 2 then
                    Except.ok
                      [(⟨RobinKernel.CC_ROBIN_PHYS_BDRY_OP_2_FC2D, patch_data_idx, d,
                        patch_data_gcw, none, location_index, bc_fill_box, adjoint_op⟩ :
                        RobinKernelCall n)]
                  else if n = 3 then
                    Except.ok
                      [⟨RobinKernel.CC_ROBIN_PHYS_BDRY_OP_2_FC3D, patch_data_idx, d,
                        patch_data_gcw, none, location_index, bc_fill_box, adjoint_op⟩]
                  else Except.error "unsupported dim")
                (List.range patch_data_depth))
            physical_codim2_boxes

/-- The method `CartCellRobinPhysBdryOp::fillGhostCellValuesCodim3`. -/
def CartCellRobinPhysBdryOp.fillGhostCellValuesCodim3 {n : Nat} (debug_checks : Bool)
    (_op : CartCellRobinPhysBdryOp n) (patch_data_idx : Int)
    (physical_codim3_boxes : List (BoundaryBox n)) (ghost_width_to_fill : Index n)
    (patch : RobinPatch n) (adjoint_op : Bool) : Except String (List (RobinKernelCall n)) :=
  let n_physical_codim3_boxes := physical_codim3_boxes.length
  if n_physical_codim3_boxes = 0 then Except.ok []
  else
    let patch_box := patch.box
    match patch.cell_data patch_data_idx with
    | none => Except.error "TBOX_ASSERT(patch_data)"
    | some patch_data =>
        let patch_data_depth := patch_data.1
        let patch_data_gcw := intVectorMax patch_data.2
        if debug_checks = true ∧ patch_data_gcw ≠ intVectorMin patch_data.2 then
          Except.error
            "CartCellRobinPhysBdryOp::fillGhostCellValuesCodim3(): patch data does not have uniform ghost cell widths."
        else
          let gcw_to_fill : Index n := fun d => min (patch_data.2 d) (ghost_width_to_fill d)
          collectCalls
            (fun bdry_box : BoundaryBox n =>
              let location_index := bdry_box.location_index
              let bc_fill_box := patch.getBoundaryFillBox bdry_box patch_box gcw_to_fill
              collectCalls
                (fun d : Nat =>
                  if n = 3 then
                    Except.ok
                      [(⟨RobinKernel.CC_ROBIN_PHYS_BDRY_OP_3_FC3D, patch_data_idx, d,
                        patch_data_gcw, none, location_index, bc_fill_box, adjoint_op⟩ :
                        RobinKernelCall n)]
                  else Except.error "unsupported dim")
                (List.range patch_data_depth))
            physical_codim3_boxes

/-- The checks at the head of `setPhysicalBoundaryConditions` and of
`accumulateFromPhysicalBoundaryData`, compiled in unless `NDEBUG` is defined:
every patch data index holds cell-centered double data whose depth is the
number of boundary condition objects. -/
def CartCellRobinPhysBdryOp.checkPatchData {n : Nat} (op : CartCellRobinPhysBdryOp n)
    (patch : RobinPatch n) (method : String) : List Int → Except String Unit
  | [] => Except.ok ()
  | patch_data_idx :: rest =>
      match patch.cell_data patch_data_idx with
      | none =>
          Except.error
            (method ++ ": patch data index does not correspond to a cell-centered double precision variable.")
      | some patch_data =>
          if patch_data.1 ≠ op.d_bc_coefs.length then
            Except.error
              (method ++ ": data depth differs from the number of boundary condition coefficient objects.")
          else op.checkPatchData patch method rest

/-- The method `CartCellRobinPhysBdryOp::setPhysicalBoundaryConditions`: the
kernel calls it makes, in order. -/
def CartCellRobinPhysBdryOp.setPhysicalBoundaryConditions {n : Nat} (debug_checks : Bool)
    (op : CartCellRobinPhysBdryOp n) (patch : RobinPatch n) (fill_time : ℚ)
    (ghost_width_to_fill : Index n) : Except String (List (RobinKernelCall n)) :=
  if ghost_width_to_fill = (fun _ => 0) then Except.ok []
  else
    match (if debug_checks = true then
        op.checkPatchData patch "CartCellRobinPhysBdryOp::setPhysicalBoundaryConditions()"
          op.d_patch_data_indices
      else Except.ok ()) with
    | Except.error e => Except.error e
    | Except.ok _ =>
        let adjoint_op := false
        let physical_codim1_boxes := patch.physical_codim1_boxes
        match collectCalls
            (fun patch_data_idx =>
              op.fillGhostCellValuesCodim1 debug_checks patch_data_idx physical_codim1_boxes
                fill_time ghost_width_to_fill patch adjoint_op)
            op.d_patch_data_indices with
        | Except.error e => Except.error e
        | Except.ok calls1 =>
            let physical_codim2_boxes := patch.physical_codim2_boxes
            match collectCalls
                (fun patch_data_idx =>
                  op.fillGhostCellValuesCodim2 debug_checks patch_data_idx physical_codim2_boxes
                    ghost_width_to_fill patch adjoint_op)
                op.d_patch_data_indices with
            | Except.error e => Except.error e
            | Except.ok calls2 =>
                let physical_codim3_boxes := patch.physical_codim3_boxes
                match collectCalls
                    (fun patch_data_idx =>
                      op.fillGhostCellValuesCodim3 debug_checks patch_data_idx
                        physical_codim3_boxes ghost_width_to_fill patch adjoint_op)
                    op.d_patch_data_indices with
                | Except.error e => Except.error e
                | Except.ok calls3 => Except.ok (calls1 ++ calls2 ++ calls3)

/-- The method `CartCellRobinPhysBdryOp::accumulateFromPhysicalBoundaryData`:
the kernel calls it makes, in order. -/
def CartCellRobinPhysBdryOp.accumulateFromPhysicalBoundaryData {n : Nat} (debug_checks : Bool)
    (op : CartCellRobinPhysBdryOp n) (patch : RobinPatch n) (fill_time : ℚ)
    (ghost_width_to_fill : Index n) : Except String (List (RobinKernelCall n)) :=
  if ghost_width_to_fill = (fun _ => 0) then Except.ok []
  else
    match (if debug_checks = true then
        op.checkPatchData patch "CartCellRobinPhysBdryOp::accumulateFromPhysicalBoundaryData()"
          op.d_patch_data_indices
      else Except.ok ()) with
    | Except.error e => Except.error e
    | Except.ok _ =>
        let adjoint_op := true
        let physical_codim3_boxes := patch.physical_codim3_boxes
        match collectCalls
            (fun patch_data_idx =>
              op.fillGhostCellValuesCodim3 debug_checks patch_data_idx physical_codim3_boxes
                ghost_width_to_fill patch adjoint_op)
            op.d_patch_data_indices with
        | Except.error e => Except.error e
        | Except.ok calls3 =>
            let physical_codim2_boxes := patch.physical_codim2_boxes
            match collectCalls
                (fun patch_data_idx =>
                  op.fillGhostCellValuesCodim2 debug_checks patch_data_idx physical_codim2_boxes
                    ghost_width_to_fill patch adjoint_op)
                op.d_patch_data_indices with
            | Except.error e => Except.error e
            | Except.ok calls2 =>
                let physical_codim1_boxes := patch.physical_codim1_boxes
                match collectCalls
                    (fun patch_data_idx =>
                      op.fillGhostCellValuesCodim1 debug_checks patch_data_idx
                        physical_codim1_boxes fill_time ghost_width_to_fill patch adjoint_op)
                    op.d_patch_data_indices with
                | Except.error e => Except.error e
                | Except.ok calls1 => Except.ok (calls3 ++ calls2 ++ calls1)

/-- The kernel call `c` with the flag `adjoint_op` set to `b`. -/
def RobinKernelCall.withAdjoint {n : Nat} (b : Bool) (c : RobinKernelCall n) :
    RobinKernelCall n :=
  { c with adjoint_op := b }

/-- A coefficient strategy for the examples: not an extended strategy; it
sets `a = 1`, `b = 0`, `g = 5` everywhere. -/
def robinProbeStrategy : RobinBcCoefStrategy 2 where
  extended := false
  setBcCoefs := fun _ coefs _ _ =>
    ⟨⟨coefs.acoef_data.box, fun _ => 1⟩, ⟨coefs.bcoef_data.box, fun _ => 0⟩,
      ⟨coefs.gcoef_data.box, fun _ => 5⟩⟩

/-- A two-dimensional patch for the examples: the box `[0,3] x [0,3]`, cell
data of depth 1 and ghost cell width 1 at the patch data index 0, one
codimension-1 boundary box (lower x) and one codimension-2 boundary box. -/
def robinProbePatch : RobinPatch 2 where
  box := ⟨fun _ => 0, fun _ => 3⟩
  cell_data := fun idx => if idx = 0 then some (1, fun _ => 1) else none
  physical_codim1_boxes := [⟨⟨![-1, 0], ![-1, 3]⟩, 0⟩]
  physical_codim2_boxes := [⟨⟨![-1, -1], ![-1, -1]⟩, 0⟩]
  physical_codim3_boxes := []
  getBoundaryFillBox := fun bdry_box _ _ => bdry_box.box
  makeSideBoundaryCodim1Box := fun bdry_box => bdry_box.box
  newArrayData := fun box => ⟨box, fun _ => 0⟩

/-- A Robin operator for the examples, on the patch data index 0. -/
def robinProbeOp (homogeneous_bc : Bool) : CartCellRobinPhysBdryOp 2 where
  d_patch_data_indices := [0]
  d_bc_coefs := [some robinProbeStrategy]
  d_homogeneous_bc := homogeneous_bc

/-- Modelled from the spec: the Fortran kernels `CC_ROBIN_PHYS_BDRY_OP_1_*`
are outside the files at hand. The discrete Robin closure `a u + b du/dn = g`
at a codimension-1 boundary location of cell-centered data: with `u_i` the
interior cell adjacent to the boundary and `h` the grid spacing along the
boundary normal, the value at the boundary is the average of the ghost cell and
`u_i`, the normal derivative is their difference over `h`, and the ghost value
`u_g` solves `a (u_g + u_i) / 2 + b (u_g - u_i) / h = g`. -/
def robinGhostValue (a b g h u_i : ℚ) : ℚ :=
  (2 * h * g - (a * h - 2 * b) * u_i) / (a * h + 2 * b)

/-! ## Predicates and examples for the results on the operators -/

/-- The coefficient arrays of the kernel call `c` of `op` on the patch data
index `patch_data_idx` are those that the strategy of the depth of the call
produced by `setBcCoefs` (from some arrays handed to it), except that the `g`
array is zero everywhere when the operator is in homogeneous mode and the
strategy is not an extended one. -/
def GcoefForced {n : Nat} (op : CartCellRobinPhysBdryOp n) (patch_data_idx : Int)
    (fill_time : ℚ) (c : RobinKernelCall n) : Prop :=
  ∃ (bc_coef : RobinBcCoefStrategy n) (handed : RobinCoefData n)
    (trimmed_bdry_box : BoundaryBox n) (coefs : RobinCoefData n),
    op.d_bc_coefs.getD c.depth none = some bc_coef ∧ c.coefs = some coefs ∧
    coefs.acoef_data =
      (bc_coef.setBcCoefs
        (if bc_coef.extended = true then some (patch_data_idx, op.d_homogeneous_bc) else none)
        handed trimmed_bdry_box fill_time).acoef_data ∧
    coefs.bcoef_data =
      (bc_coef.setBcCoefs
        (if bc_coef.extended = true then some (patch_data_idx, op.d_homogeneous_bc) else none)
        handed trimmed_bdry_box fill_time).bcoef_data ∧
    ((op.d_homogeneous_bc = true ∧ bc_coef.extended = false) →
      ∀ i, coefs.gcoef_data.val i = 0) ∧
    (¬ (op.d_homogeneous_bc = true ∧ bc_coef.extended = false) →
      coefs.gcoef_data =
        (bc_coef.setBcCoefs
          (if bc_coef.extended = true then some (patch_data_idx, op.d_homogeneous_bc) else none)
          handed trimmed_bdry_box fill_time).gcoef_data)

/-- The kernel calls of `fillGhostCellValuesCodim1` for the probe operator in
homogeneous mode on the probe patch (none if it fails). -/
def robinProbeCodim1Calls : List (RobinKernelCall 2) :=
  (Except.toOption
    ((robinProbeOp true).fillGhostCellValuesCodim1 true 0 robinProbePatch.physical_codim1_boxes 0
      (fun _ => 1) robinProbePatch false)).getD []

/-- The property `Q` of the orchestrator is kept by every assignment that the
set-up steps of `initializeOperatorState` make after the hierarchy data is
cached: to the algorithms, the strategies, the schedule tables, the operator
tables, the homogeneous flag and the initialized flag. -/
structure KeptBySetup (Q : HierarchyGhostCellInterpolation → Prop) : Prop where
  coarsen_alg : ∀ s v, Q s → Q { s with d_coarsen_alg := v }
  coarsen_strategy : ∀ s v, Q s → Q { s with d_coarsen_strategy := v }
  coarsen_scheds : ∀ s v, Q s → Q { s with d_coarsen_scheds := v }
  refine_alg : ∀ s v, Q s → Q { s with d_refine_alg := v }
  refine_strategy : ∀ s v, Q s → Q { s with d_refine_strategy := v }
  refine_scheds : ∀ s v, Q s → Q { s with d_refine_scheds := v }
  cf_bdry_ops : ∀ s v, Q s → Q { s with d_cf_bdry_ops := v }
  extrap_bc_ops : ∀ s v, Q s → Q { s with d_extrap_bc_ops := v }
  cc_robin_bc_ops : ∀ s v, Q s → Q { s with d_cc_robin_bc_ops := v }
  sc_robin_bc_ops : ∀ s v, Q s → Q { s with d_sc_robin_bc_ops := v }
  homogeneous_bc : ∀ s v, Q s → Q { s with d_homogeneous_bc := v }
  is_initialized : ∀ s v, Q s → Q { s with d_is_initialized := v }

/-- The orchestrator initialized on the cell-centered probe component over
`probeHierarchy` with the explicit level bounds 1 and 1. -/
def probeStateBounded : Sys :=
  Outcome.finalState
    (initializeOperatorState (probeEnv true) [probeComponent 0 true [some 0]] probeHierarchy
      1 1 (World.start, HierarchyGhostCellInterpolation.new))

/-- The condition under which `initializeOperatorState` builds a Robin operator
of the centering `kind` for a component: its source variable has that centering
and one of its Robin coefficient objects is non-null. -/
def wantsRobinOp (env : Collaborators) (kind : VariableKind)
    (comp : InterpolationTransactionComponent) : Prop :=
  env.mapIndexToVariable comp.d_src_data_idx = some kind ∧
    ∃ bc ∈ comp.d_robin_bc_coefs, bc.isSome = true

/-- The Robin operator tables while the refine loop of `initializeOperatorState`
is at the component index `j`: both tables have one slot per component, and a
slot is non-null exactly when its index is below `j` and its component wants
a Robin operator of that centering. -/
def RobinSlotsUpTo (env : Collaborators) (comps : List InterpolationTransactionComponent)
    (j : Nat) (s : HierarchyGhostCellInterpolation) : Prop :=
  s.d_cc_robin_bc_ops.length = comps.length ∧ s.d_sc_robin_bc_ops.length = comps.length ∧
    ∀ k : Nat,
      ((slot s.d_cc_robin_bc_ops k).isSome = true ↔
        (k < j ∧ ∃ comp, comps[k]? = some comp ∧ wantsRobinOp env VariableKind.cell_double comp)) ∧
      ((slot s.d_sc_robin_bc_ops k).isSome = true ↔
        (k < j ∧ ∃ comp, comps[k]? = some comp ∧ wantsRobinOp env VariableKind.side_double comp))

/-- The indices at which `compute_linear_extrap` reads `patch_data`: `i_intr`
for the initial value, then `i_intr0 = i_intr` and `i_intr1` for every axis
`d` with `i_shft(d) != 0`. -/
def linearReads {n : Nat} (i_intr i_shft : Index n) : List (Index n) :=
  i_intr ::
    (List.finRange n).flatMap
      (fun d =>
        if i_shft d ≠ 0 then [i_intr, Function.update i_intr d (i_intr d + i_shft d)] else [])

/-- The indices at which `compute_quadratic_extrap` reads `patch_data`: at
codimension one `i_intr0`, `i_intr1` and `i_intr2` for the first axis `d` with
`i_shft(d) != 0`, otherwise the reads of `compute_linear_extrap`. -/
def quadraticReads {n : Nat} (i_intr i_shft : Index n) (codim : Int) : List (Index n) :=
  if codim = 1 then
    match (List.finRange n).find? (fun d => decide (i_shft d ≠ 0)) with
    | some d =>
        let i_intr0 := i_intr
        let i_intr1 := Function.update i_intr d (i_intr d + i_shft d)
        let i_intr2 := Function.update i_intr1 d (i_intr1 d + i_shft d)
        [i_intr0, i_intr1, i_intr2]
    | none => []
  else linearReads i_intr i_shft

/-- The indices whose value is read by the body of the innermost loop of
`setPhysicalBoundaryConditions_cell` to compute the value stored at the ghost
index `i`. -/
def extrapReads {n : Nat} (extrap_type : Int) (patch_lower patch_upper : Index n)
    (is_lower is_upper : Fin n → Bool) (codim : Int) (i : Index n) : List (Index n) :=
  let i_intr := nearestInterior is_lower is_upper patch_lower patch_upper i
  let i_shft := interiorShift is_lower is_upper
  if extrap_type = 0 then [i_intr]
  else if extrap_type = 1 then linearReads i_intr i_shft
  else if extrap_type = 2 then quadraticReads i_intr i_shft codim
  else []

/-- The number of cells beyond `i_intr` that an extrapolation type reads along
a boundary-normal axis: none for CONSTANT, two for QUADRATIC at codimension
one, one otherwise. -/
def extrapReach (extrap_type codim : Int) : Int :=
  if extrap_type = 0 then 0 else if extrap_type = 2 ∧ codim = 1 then 2 else 1

/-- Two cell data objects of the same shape that agree on the patch interior
and on the set `W` of (index, depth) pairs. -/
def SameOn {n : Nat} (patch_box : Box n) (cd1 cd2 : CellData n) (W : Set (Index n × Nat)) :
    Prop :=
  cd1.ghost_box = cd2.ghost_box ∧ cd1.depth = cd2.depth ∧
    ∀ j k, (patch_box.contains j ∨ (j, k) ∈ W) → cd1.val j k = cd2.val j k

/-- A one-dimensional patch of the single cell 0 with ghost cell width 2 and
one depth, the value `ghost` in the ghost cell 1 and 0 elsewhere. -/
def thinCellData (ghost : ℚ) : CellData 1 where
  ghost_box := ⟨![-2], ![2]⟩
  depth := 1
  val := fun j _ => if j 0 = 1 then ghost else 0

/-! ## `DebuggingUtilities.cpp` -/

/-- The constructor `std::string(str, pos)`: the characters of `str` from
position `pos` to the end. -/
def stringFromPos (str : List Char) (pos : Nat) : List Char := str.drop pos

/-- How the run of a loop stands: it has returned with a value, it has indexed
a string out of bounds, or it is still running with its loop variable after
the given number of evaluations of the loop condition. -/
inductive LoopRun where
  | returned (truncated_dirname : List Char)
  | out_of_bounds
  | running (truncated_dirname : List Char)
deriving DecidableEq, Repr

/-- The loop `while (truncated_dirname[truncated_dirname.size()-1] == '/')
truncated_dirname = std::string(truncated_dirname, truncated_dirname.size()-1);`
of `saveCellData`, `saveFaceData`, `saveNodeData`, `saveSideData` and
`saveLagrangianData`, run for at most `fuel` evaluations of the condition. On
the empty string the index `size()-1` is out of bounds. -/
def truncateDirnameLoop : Nat → List Char → LoopRun
  | 0, truncated_dirname => LoopRun.running truncated_dirname
  | fuel + 1, truncated_dirname =>
      if truncated_dirname.length = 0 then LoopRun.out_of_bounds
      else if truncated_dirname.get? (truncated_dirname.length - 1) = some '/' then
        truncateDirnameLoop fuel (stringFromPos truncated_dirname (truncated_dirname.length - 1))
      else LoopRun.returned truncated_dirname

/-- The directory name with all trailing `/` characters removed. -/
def withoutTrailingSlashes (dirname : List Char) : List Char :=
  (dirname.reverse.dropWhile (fun c => c == '/')).reverse

/-! ## `LDataManager-inl.h` -/

/-- The part of the state of an `LDataManager` read by the structure queries:
the level range, and per level the map from structure id to Lagrangian index
range and the set of inactive structure ids. -/
structure LDataManager where
  d_coarsest_ln : Int
  d_finest_ln : Int
  d_strct_id_to_lag_idx_range_map : Int → Int → Option (Int × Int)
  d_inactive_strcts : Int → Int → Bool

/-- The method `LDataManager::getLagrangianStructureIndexRange`. -/
def LDataManager.getLagrangianStructureIndexRange (m : LDataManager)
    (structure_id level_number : Int) : Int × Int :=
  if m.d_coarsest_ln ≤ level_number ∧ m.d_finest_ln ≥ level_number then
    match m.d_strct_id_to_lag_idx_range_map level_number structure_id with
    | some range => range
    | none => (-1, -1)
  else (-1, -1)

/-- The method `LDataManager::getLagrangianStructureIsActivated`. -/
def LDataManager.getLagrangianStructureIsActivated (m : LDataManager)
    (structure_id level_number : Int) : Bool :=
  if m.d_coarsest_ln ≤ level_number ∧ m.d_finest_ln ≥ level_number then
    let idx_range := m.getLagrangianStructureIndexRange structure_id level_number
    if structure_id ≥ idx_range.1 ∧ structure_id < idx_range.2 then
      if m.d_inactive_strcts level_number structure_id = false then true else false
    else false
  else false

/-- A manager with the single level 0 on which the structure with id 1 owns
the Lagrangian indices 100, ..., 199 and no structure is inactive. -/
def probeLDataManager : LDataManager where
  d_coarsest_ln := 0
  d_finest_ln := 0
  d_strct_id_to_lag_idx_range_map := fun level_number structure_id =>
    if level_number = 0 ∧ structure_id = 1 then some (100, 200) else none
  d_inactive_strcts := fun _ _ => false

/-! ## `CartCellDoubleLinearCFInterpolation.cpp` -/

/-- The constant `GHOST_WIDTH_TO_FILL` of
`CartCellDoubleLinearCFInterpolation.cpp`. -/
def GHOST_WIDTH_TO_FILL : Int := 1

/-- A `CellData<double>` object as `computeNormalExtension` reads it: its
ghost cell width, its depth and, for each depth, the array behind
`getPointer(depth)`. -/
structure CFCellData (n : Nat) where
  ghost_cell_width : Index n
  depth : Nat
  array : Nat → Index n → ℚ

/-- The array of one depth replaced. -/
def CFCellData.setArray {n : Nat} (data : CFCellData n) (depth : Nat) (U : Index n → ℚ) :
    CFCellData n :=
  { data with array := Function.update data.array depth U }

/-- What `computeNormalExtension` reads of a patch: `inHierarchy()`, the global
id, the level number, the box, the patch data by patch data index
(`CellData<double>` or absent) and the method `getBoundaryFillBox` of its
Cartesian patch geometry, whose definition is outside the files at hand. -/
structure CFPatch (n : Nat) where
  inHierarchy : Bool
  global_id : Nat
  patch_level_number : Nat
  box : Box n
  data : Int → Option (CFCellData n)
  getBoundaryFillBox : BoundaryBox n → Box n → Index n → Box n

/-- The arguments of one call of the Fortran kernel
`CC_LINEAR_NORMAL_INTERPOLATION_FC`, with the patch data index and depth of
the array `U` it receives. -/
structure CFKernelCall (n : Nat) where
  patch_data_index : Int
  depth : Nat
  U_gcw : Int
  patch_box : Box n
  loc_index : Nat
  ratio : Int
  bc_fill_box : Box n

/-- The Fortran kernel `CC_LINEAR_NORMAL_INTERPOLATION_FC`, whose definition is
outside the files at hand: the array it leaves in `U`, as a function of `U`,
`U_gcw`, the patch box, `loc_index`, `ratio` and the box `blower .. bupper`. -/
abbrev LinearNormalInterpolationKernel (n : Nat) :=
  (Index n → ℚ) → Int → Box n → Nat → Int → Box n → (Index n → ℚ)

/-- The state of a `CartCellDoubleLinearCFInterpolation` object; of each
`CoarseFineBoundary` of `d_cf_boundary` the method `getBoundaries(patch_id, 1)`
is kept. -/
structure CartCellDoubleLinearCFInterpolation (n : Nat) where
  d_patch_data_indices : List Int
  d_hierarchy : Option PatchHierarchy
  d_cf_boundary : List (Nat → List (BoundaryBox n))

/-- A loop over patch data indices whose body can raise a fatal error. -/
def forIndices {σ : Type} (body : Int → σ → Except String σ) :
    List Int → σ → Except String σ
  | [], st => Except.ok st
  | idx :: rest, st =>
      match body idx st with
      | Except.ok st' => forIndices body rest st'
      | Except.error e => Except.error e

/-- The loops over the coarse-fine boundary boxes and the depths of
`computeNormalExtension` for one patch data object: the data after the kernel
calls, and the calls in order. -/
def CFPatch.normalExtensionOfData {n : Nat} (kernel : LinearNormalInterpolationKernel n)
    (patch : CFPatch n) (ratio : Index n) (cf_bdry_codim1_boxes : List (BoundaryBox n))
    (patch_data_index : Int) (U_ghosts : Int) (data_depth : Nat)
    (st : CFCellData n × List (CFKernelCall n)) : CFCellData n × List (CFKernelCall n) :=
  let ghost_width_to_fill : Index n := fun _ => GHOST_WIDTH_TO_FILL
  let patch_box := patch.box
  cf_bdry_codim1_boxes.foldl
    (fun st bdry_box =>
      let bc_fill_box := patch.getBoundaryFillBox bdry_box patch_box ghost_width_to_fill
      let location_index := bdry_box.location_index
      (List.range data_depth).foldl
        (fun st depth =>
          let U := st.1.array depth
          let r := intVectorMin ratio
          (st.1.setArray depth (kernel U U_ghosts patch_box location_index r bc_fill_box),
            st.2 ++ [⟨patch_data_index, depth, U_ghosts, patch_box, location_index, r,
              bc_fill_box⟩]))
        st)
    st

/-- The method `CartCellDoubleLinearCFInterpolation::computeNormalExtension`:
the patch after the call and the kernel calls made, or the fatal error. The
`TBOX_ASSERT`s are compiled in when `check_assertions` holds, the check of
uniform ghost cell widths when `debug_checks` holds (`NDEBUG` not defined). A
read of `d_cf_boundary` past its end and a null patch data pointer are
errors. -/
def CartCellDoubleLinearCFInterpolation.computeNormalExtension {n : Nat}
    (check_assertions debug_checks : Bool) (kernel : LinearNormalInterpolationKernel n)
    (op : CartCellDoubleLinearCFInterpolation n) (patch : CFPatch n) (ratio : Index n)
    (_ghost_width_to_fill : Index n) : Except String (CFPatch n × List (CFKernelCall n)) :=
  if check_assertions = true ∧ op.d_hierarchy.isNone = true then
    Except.error "TBOX_ASSERT(d_hierarchy)"
  else if check_assertions = true ∧ intVectorMin ratio ≠ intVectorMax ratio then
    Except.error "TBOX_ASSERT(ratio.min() == ratio.max())"
  else if patch.inHierarchy = false then Except.ok (patch, [])
  else
    let patch_id := patch.global_id
    let patch_level_num := patch.patch_level_number
    match op.d_cf_boundary.get? patch_level_num with
    | none => Except.error "d_cf_boundary[patch_level_num] is past the end of the vector"
    | some cf_boundary =>
        let cf_bdry_codim1_boxes := cf_boundary patch_id
        let n_cf_bdry_codim1_boxes := cf_bdry_codim1_boxes.length
        if n_cf_bdry_codim1_boxes = 0 then Except.ok (patch, [])
        else
          forIndices
            (fun patch_data_index st =>
              match st.1.data patch_data_index with
              | none => Except.error "TBOX_ASSERT(data)"
              | some data =>
                  let U_ghosts := intVectorMax data.ghost_cell_width
                  if debug_checks = true ∧ U_ghosts ≠ intVectorMin data.ghost_cell_width then
                    Except.error
                      "CartCellDoubleLinearCFInterpolation::computeNormalExtension(): patch data does not have uniform ghost cell widths"
                  else
                    let data_depth := data.depth
                    let r := patch.normalExtensionOfData kernel ratio cf_bdry_codim1_boxes
                      patch_data_index U_ghosts data_depth (data, st.2)
                    Except.ok
                      ({ st.1 with data := Function.update st.1.data patch_data_index (some r.1) },
                        r.2))
            op.d_patch_data_indices (patch, [])

/-- The coarse-fine boundary boxes `d_cf_boundary[patch_level_num]->
getBoundaries(patch_id, 1)` of a patch (none past the end of the vector). -/
def CartCellDoubleLinearCFInterpolation.cfBoundaryBoxes {n : Nat}
    (op : CartCellDoubleLinearCFInterpolation n) (patch : CFPatch n) : List (BoundaryBox n) :=
  match op.d_cf_boundary.get? patch.patch_level_number with
  | none => []
  | some cf_boundary => cf_boundary patch.global_id

/-- A kernel for the examples: it adds `ratio` to `U` on the box handed to
it. -/
def probeCFKernel : LinearNormalInterpolationKernel 2 :=
  fun U _ _ _ ratio bc_fill_box i => if bc_fill_box.contains i then U i + ratio else U i

/-- A two-dimensional patch for the examples: the box `[0,3] x [0,3]` on level
1, with data of depth 1, ghost cell width 2 and value 0 under patch data
index 0; the boundary fill box of a boundary box is the box grown by the fill
width less one. -/
def probeCFPatch (inHierarchy : Bool) : CFPatch 2 where
  inHierarchy := inHierarchy
  global_id := 0
  patch_level_number := 1
  box := ⟨![0, 0], ![3, 3]⟩
  data := fun idx => if idx = 0 then some ⟨![2, 2], 1, fun _ _ => 0⟩ else none
  getBoundaryFillBox := fun bdry_box _ gcw =>
    ⟨fun d => bdry_box.box.lower d - (gcw d - 1), fun d => bdry_box.box.upper d + (gcw d - 1)⟩

/-- An operator for the examples, on patch data index 0, with a hierarchy
attached: the patch 0 of level 1 has one coarse-fine boundary box, at its
lower x side. -/
def probeCFOp : CartCellDoubleLinearCFInterpolation 2 where
  d_patch_data_indices := [0]
  d_hierarchy := some probeHierarchy
  d_cf_boundary := [fun _ => [], fun id => if id = 0 then [⟨⟨![-1, 0], ![-1, 3]⟩, 0⟩] else []]

/-- The run of `computeNormalExtension` on the probe operator and the probe
patch inside the hierarchy, with the ratio `(2, 2)` and the ghost width
`(3, 3)` passed. -/
def probeCFRun : CFPatch 2 × List (CFKernelCall 2) :=
  match probeCFOp.computeNormalExtension true true probeCFKernel (probeCFPatch true) ![2, 2]
      ![3, 3] with
  | Except.ok r => r
  | Except.error _ => (probeCFPatch true, [])

/-! ## `StaggeredPhysicalBoundaryHelper.cpp` : `cacheBcCoefData` -/

/-- The collaborators of `cacheBcCoefData` whose definitions are outside the
files at hand: whether the `TBOX_ASSERT`s are compiled in, the comparison
`MathUtilities<double>::equalEps`, the box of a patch,
`PhysicalBoundaryUtilities::getPhysicalBoundaryCodim1Boxes`, the method
`getBoundaryFillBox` of the patch geometry and
`PhysicalBoundaryUtilities::makeSideBoundaryCodim1Box`. -/
structure BcCoefCollaborators (n : Nat) where
  check_assertions : Bool
  equalEps : ℚ → ℚ → Bool
  getBox : PatchInfo → Box n
  getPhysicalBoundaryCodim1Boxes : PatchInfo → List (BoundaryBox n)
  getBoundaryFillBox : PatchInfo → BoundaryBox n → Box n → Index n → Box n
  makeSideBoundaryCodim1Box : BoundaryBox n → Box n

/-- A `RobinBcCoefStrategy` object as `cacheBcCoefData` calls it,
`setBcCoefs(acoef_data, bcoef_data, NULL, NULL, patch, trimmed_bdry_box,
fill_time)`: the values left in the arrays `acoef_data` and `bcoef_data`, both
allocated on the box `bc_coef_box` (first argument). -/
structure VelocityBcCoefStrategy (n : Nat) where
  setBcCoefs : Box n → PatchInfo → BoundaryBox n → ℚ → (Index n → ℚ) × (Index n → ℚ)

/-- The assignment `data(i,0) = a`. -/
def ArrayData.assign {n : Nat} {α : Type} (data : ArrayData n α) (i : Index n) (a : α) :
    ArrayData n α :=
  ⟨data.box, fun j => if j = i then a else data.val j⟩

/-- The method `StaggeredPhysicalBoundaryHelper::clearBcCoefData`. -/
def clearBcCoefData {n : Nat} (_helper : StaggeredPhysicalBoundaryHelper n) :
    StaggeredPhysicalBoundaryHelper n :=
  ⟨none, fun _ _ => none, fun _ _ => none⟩

/-- The method `StaggeredPhysicalBoundaryHelper::setupBcCoefBoxes`: the pair
`(bc_coef_box, trimmed_bdry_box)`. -/
def setupBcCoefBoxes {n : Nat} (env : BcCoefCollaborators n) (bdry_box : BoundaryBox n)
    (patch : PatchInfo) : Box n × BoundaryBox n :=
  let patch_box := env.getBox patch
  let location_index := bdry_box.location_index
  let bdry_normal_axis := location_index / 2
  let bc_fill_box := env.getBoundaryFillBox patch bdry_box patch_box (fun _ => 1)
  let bc_fill_box : Box n :=
    ⟨fun d =>
        if d.val ≠ bdry_normal_axis then max (bc_fill_box.lower d) (patch_box.lower d)
        else bc_fill_box.lower d,
      fun d =>
        if d.val ≠ bdry_normal_axis then min (bc_fill_box.upper d) (patch_box.upper d)
        else bc_fill_box.upper d⟩
  let trimmed_bdry_box : BoundaryBox n := ⟨bdry_box.box.intersect bc_fill_box, location_index⟩
  let bc_coef_box := env.makeSideBoundaryCodim1Box trimmed_bdry_box
  (bc_coef_box, trimmed_bdry_box)

/-- The value stored in `bdry_locs_data(i,0)` for the coefficients `alpha` and
`beta`: `equalEps(alpha,1.0) && (beta == 0.0 || equalEps(beta,0.0))`. -/
def dirichletFlag (equalEps : ℚ → ℚ → Bool) (alpha beta : ℚ) : Bool :=
  equalEps alpha 1 && (decide (beta = 0) || equalEps beta 0)

/-- The loop `for (const auto& i : bc_coef_box)` of `cacheBcCoefData` over the
remaining locations; a failed `TBOX_ASSERT` is an error. -/
def classifyLocations {n : Nat} (env : BcCoefCollaborators n)
    (acoef_data bcoef_data : Index n → ℚ) :
    List (Index n) → ArrayData n Nat → Except String (ArrayData n Nat)
  | [], bdry_locs_data => Except.ok bdry_locs_data
  | i :: rest, bdry_locs_data =>
      let alpha := acoef_data i
      let beta := bcoef_data i
      if env.check_assertions = true ∧ env.equalEps (alpha + beta) 1 = false then
        Except.error "TBOX_ASSERT(MathUtilities<double>::equalEps(alpha+beta,1.0))"
      else if env.check_assertions = true ∧
          ¬ (env.equalEps alpha 1 = true ∨ env.equalEps beta 1 = true) then
        Except.error
          "TBOX_ASSERT(MathUtilities<double>::equalEps(alpha,1.0) || MathUtilities<double>::equalEps(beta,1.0))"
      else
        classifyLocations env acoef_data bcoef_data rest
          (bdry_locs_data.assign i (if dirichletFlag env.equalEps alpha beta = true then 1 else 0))

/-- The body of the loop over the boundary boxes of `cacheBcCoefData`: the
array `dirichlet_bdry_locs[n]` of one boundary box. A freshly allocated
array is read as zero. -/
def cacheBoxFlags {n : Nat} (env : BcCoefCollaborators n)
    (u_bc_coefs : List (VelocityBcCoefStrategy n)) (fill_time : ℚ) (patch : PatchInfo)
    (bdry_box : BoundaryBox n) : Except String (ArrayData n Nat) :=
  let boxes := setupBcCoefBoxes env bdry_box patch
  let bc_coef_box := boxes.1
  let trimmed_bdry_box := boxes.2
  let bdry_normal_axis := bdry_box.location_index / 2
  match u_bc_coefs[bdry_normal_axis]? with
  | none => Except.error "u_bc_coefs[bdry_normal_axis] is past the end of the vector"
  | some bc_coef =>
      let coefs := bc_coef.setBcCoefs bc_coef_box patch trimmed_bdry_box fill_time
      classifyLocations env coefs.1 coefs.2 bc_coef_box.cells ⟨bc_coef_box, fun _ => 0⟩

/-- A loop that computes one result per element and can raise a fatal
error. -/
def mapExcept {α β : Type} (f : α → Except String β) : List α → Except String (List β)
  | [] => Except.ok []
  | a :: l =>
      match f a with
      | Except.error e => Except.error e
      | Except.ok b =>
          match mapExcept f l with
          | Except.error e => Except.error e
          | Except.ok bs => Except.ok (b :: bs)

/-- A loop over a list whose body updates a state and can raise a fatal
error. -/
def forEachExcept {α σ : Type} (body : α → σ → Except String σ) :
    List α → σ → Except String σ
  | [], st => Except.ok st
  | a :: l, st =>
      match body a st with
      | Except.ok st' => forEachExcept body l st'
      | Except.error e => Except.error e

/-- The entries `d_physical_codim1_boxes[ln][patch_id]` and
`d_dirichlet_bdry_locs[ln][patch_id]` set. -/
def StaggeredPhysicalBoundaryHelper.store {n : Nat} (helper : StaggeredPhysicalBoundaryHelper n)
    (ln patch_id : Nat) (physical_codim1_boxes : List (BoundaryBox n))
    (dirichlet_bdry_locs : List (ArrayData n Nat)) : StaggeredPhysicalBoundaryHelper n :=
  { helper with
    d_physical_codim1_boxes := fun l id =>
      if l = ln ∧ id = patch_id then some physical_codim1_boxes
      else helper.d_physical_codim1_boxes l id
    d_dirichlet_bdry_locs := fun l id =>
      if l = ln ∧ id = patch_id then some dirichlet_bdry_locs
      else helper.d_dirichlet_bdry_locs l id }

/-- The body of the loop over the patches of level `ln` of
`cacheBcCoefData`. -/
def cachePatchBcCoefData {n : Nat} (env : BcCoefCollaborators n)
    (u_bc_coefs : List (VelocityBcCoefStrategy n)) (fill_time : ℚ) (ln : Nat)
    (patch : PatchInfo) (helper : StaggeredPhysicalBoundaryHelper n) :
    Except String (StaggeredPhysicalBoundaryHelper n) :=
  let patch_id := patch.global_id
  if patch.touches_regular_boundary = true then
    let physical_codim1_boxes := env.getPhysicalBoundaryCodim1Boxes patch
    match mapExcept (cacheBoxFlags env u_bc_coefs fill_time patch) physical_codim1_boxes with
    | Except.error e => Except.error e
    | Except.ok dirichlet_bdry_locs =>
        Except.ok (helper.store ln patch_id physical_codim1_boxes dirichlet_bdry_locs)
  else Except.ok (helper.store ln patch_id [] [])

/-- The method `StaggeredPhysicalBoundaryHelper::cacheBcCoefData`; the two
vectors of maps are resized to the levels of the hierarchy. -/
def cacheBcCoefData {n : Nat} (env : BcCoefCollaborators n)
    (u_bc_coefs : List (VelocityBcCoefStrategy n)) (fill_time : ℚ)
    (hierarchy : PatchHierarchy) (helper : StaggeredPhysicalBoundaryHelper n) :
    Except String (StaggeredPhysicalBoundaryHelper n) :=
  let ndim := hierarchy.dim
  if env.check_assertions = true ∧ u_bc_coefs.length ≠ ndim then
    Except.error "TBOX_ASSERT(u_bc_coefs.size() == ndim)"
  else
    let helper := if helper.d_hierarchy.isSome = true then clearBcCoefData helper else helper
    let finest_hier_level := hierarchy.getFinestLevelNumber
    let helper : StaggeredPhysicalBoundaryHelper n :=
      { d_hierarchy := some hierarchy
        d_physical_codim1_boxes := fun l id =>
          if (l : Int) ≤ finest_hier_level then helper.d_physical_codim1_boxes l id else none
        d_dirichlet_bdry_locs := fun l id =>
          if (l : Int) ≤ finest_hier_level then helper.d_dirichlet_bdry_locs l id else none }
    forEachExcept
      (fun (ln : Nat) helper =>
        let level := hierarchy.getPatchLevel (ln : Int)
        forEachExcept (cachePatchBcCoefData env u_bc_coefs fill_time ln) level.patches helper)
      (List.range (finest_hier_level + 1).toNat) helper

/-- A comparison for the examples, the relative comparison of
`MathUtilities<double>::equalEps` in exact arithmetic: the difference of `a`
and `b`, divided by the larger of their magnitudes (at least the machine
epsilon `2^-52`), is below `2^-26`, the square root of the machine
epsilon. -/
def relativeEqualEps (a b : ℚ) : Bool :=
  decide (|a - b| / max (max |a| |b|) (1 / 2 ^ 52) < 1 / 2 ^ 26)

/-- A comparison for the examples: the absolute difference is below
`2^-26`. -/
def absoluteEqualEps (a b : ℚ) : Bool :=
  decide (|a - b| < 1 / 2 ^ 26)

/-- Collaborators for the examples, in two dimensions: the patch box is
`[0,3] x [0,3]`, a patch has the one boundary box `[-1,-1] x [0,3]` at
location 0, the boundary fill box is the boundary box, and the side boundary
box of a boundary box at the lower x side is the box shifted one cell up in
x. -/
def probeBcCoefCollaborators (equalEps : ℚ → ℚ → Bool) : BcCoefCollaborators 2 where
  check_assertions := true
  equalEps := equalEps
  getBox := fun _ => ⟨![0, 0], ![3, 3]⟩
  getPhysicalBoundaryCodim1Boxes := fun _ => [⟨⟨![-1, 0], ![-1, 3]⟩, 0⟩]
  getBoundaryFillBox := fun _ bdry_box _ _ => bdry_box.box
  makeSideBoundaryCodim1Box := fun bdry_box =>
    ⟨fun d => if d.val = 0 then bdry_box.box.lower d + 1 else bdry_box.box.lower d,
      fun d => if d.val = 0 then bdry_box.box.upper d + 1 else bdry_box.box.upper d⟩

/-- A strategy for the examples with the same coefficients `alpha` and `beta`
at every location. -/
def constantBcCoef (alpha beta : ℚ) : VelocityBcCoefStrategy 2 where
  setBcCoefs := fun _ _ _ _ => (fun _ => alpha, fun _ => beta)

/-- A one-level hierarchy for the examples whose single patch touches a
regular boundary. -/
def flaggedHierarchy : PatchHierarchy := ⟨2, [⟨[1, 1], [flaggedPatch]⟩]⟩

/-- The cache entry of a patch of level `ln` that `cacheBcCoefData` computes:
the boundary boxes of the patch and their flag arrays. -/
def CachedFor {n : Nat} (env : BcCoefCollaborators n)
    (u_bc_coefs : List (VelocityBcCoefStrategy n)) (fill_time : ℚ) (ln : Nat)
    (patch : PatchInfo) (helper : StaggeredPhysicalBoundaryHelper n) : Prop :=
  ∃ dirichlet_bdry_locs,
    mapExcept (cacheBoxFlags env u_bc_coefs fill_time patch)
        (env.getPhysicalBoundaryCodim1Boxes patch) = Except.ok dirichlet_bdry_locs ∧
      helper.d_physical_codim1_boxes ln patch.global_id =
        some (env.getPhysicalBoundaryCodim1Boxes patch) ∧
      helper.d_dirichlet_bdry_locs ln patch.global_id = some dirichlet_bdry_locs

/-- The coefficient `beta = 2^-40` of the examples. -/
def smallBeta : ℚ := 1 / 2 ^ 40

/-- An empty helper, as the constructor leaves it. -/
def emptyHelper : StaggeredPhysicalBoundaryHelper 2 := ⟨none, fun _ _ => none, fun _ _ => none⟩

/-- The helper after `cacheBcCoefData` on the one-patch hierarchy of the
examples, with the coefficients `alpha = 1`, `beta = 2^-40` along the x
boundaries and the relative comparison. -/
def probeCachedHelper : StaggeredPhysicalBoundaryHelper 2 :=
  match cacheBcCoefData (probeBcCoefCollaborators relativeEqualEps)
      [constantBcCoef 1 smallBeta, constantBcCoef 1 0] 0 flaggedHierarchy emptyHelper with
  | Except.ok helper => helper
  | Except.error _ => emptyHelper

/-- A two-level hierarchy for the examples whose patch data have different
ghost cell widths: the patch 0 of level 0 touches a regular boundary; of the
patches 1 and 2 of level 1 (ratio 2) only the patch 2 does. -/
def probeHierarchyMixed : PatchHierarchy where
  dim := 2
  levels :=
    [⟨[1, 1], [⟨0, 0, true, [(0, [1, 1]), (1, [1, 1]), (5, [2, 3]), (6, [4, 4])]⟩]⟩,
      ⟨[2, 2],
        [⟨1, 1, false, [(0, [1, 1]), (1, [1, 1]), (5, [3, 2]), (6, [1, 1])]⟩,
          ⟨1, 2, true, [(0, [1, 1]), (1, [1, 1]), (5, [2, 2]), (6, [5, 5])]⟩]⟩]

/-- The probe component with the source data index `src` and the destination
data index `dst`. -/
def probeComponentTo (src dst : Int) (use_cf : Bool) (robin_bc_coefs : List (Option Nat)) :
    InterpolationTransactionComponent :=
  { probeComponent src use_cf robin_bc_coefs with d_dst_data_idx := dst }

/-- The orchestrator initialized, with assertions checked, over
`probeHierarchyMixed` on a cell-centered component (source 0, destination 5,
with coarse-fine interpolation) and a side-centered component (source 1,
destination 6, without coarse-fine interpolation), both with Robin
coefficients, in a fresh process. -/
def probeStateMixed : Sys :=
  Outcome.finalState
    (initializeOperatorState (probeEnv true)
      [probeComponentTo 0 5 true [some 0], probeComponentTo 1 6 false [some 0, some 1]]
      probeHierarchyMixed (-1) (-1) (World.start, HierarchyGhostCellInterpolation.new))

/-- What identifies a kernel call within a stage: the codimension of its
kernel, the patch data index, the location index, the depth, the boundary fill
box and the flag `adjoint_op`. -/
def RobinKernelCall.summary {n : Nat} (c : RobinKernelCall n) :
    Nat × Int × Nat × Nat × Box n × Bool :=
  (c.kernel.codim, c.patch_data_idx, c.location_index, c.depth, c.bc_fill_box, c.adjoint_op)

/-- The kernel calls expected of the stage of codimension `codim` on the
boundary boxes `boxes`: for each patch data index in turn, for each boundary
box in turn, one call for each depth component of the cell data, on the
boundary fill box that the patch geometry computes for the boundary box with
the smaller of the ghost cell width of the data and the width to fill. -/
def expectedStage {n : Nat} (patch : RobinPatch n) (patch_data_indices : List Int)
    (ghost_width_to_fill : Index n) (codim : Nat) (boxes : List (BoundaryBox n))
    (adjoint_op : Bool) : List (Nat × Int × Nat × Nat × Box n × Bool) :=
  patch_data_indices.flatMap
    (fun patch_data_idx =>
      match patch.cell_data patch_data_idx with
      | none => []
      | some patch_data =>
          boxes.flatMap
            (fun bdry_box =>
              (List.range patch_data.1).map
                (fun d =>
                  (codim, patch_data_idx, bdry_box.location_index, d,
                    patch.getBoundaryFillBox bdry_box patch.box
                      (fun a => min (patch_data.2 a) (ghost_width_to_fill a)),
                    adjoint_op))))

/-- A coefficient strategy for the three-dimensional examples: not an extended
strategy; it sets `a = 1`, `b = 0`, `g = 5` everywhere. -/
def robinProbeStrategy3 : RobinBcCoefStrategy 3 where
  extended := false
  setBcCoefs := fun _ coefs _ _ =>
    ⟨⟨coefs.acoef_data.box, fun _ => 1⟩, ⟨coefs.bcoef_data.box, fun _ => 0⟩,
      ⟨coefs.gcoef_data.box, fun _ => 5⟩⟩

/-- A three-dimensional patch for the examples: the box `[0,3]^3`, cell data of
depth 2 and ghost cell width 1 at the patch data index 0, two codimension-1
boundary boxes (lower x, upper z), one codimension-2 boundary box and two
codimension-3 boundary boxes. -/
def robinProbePatch3 : RobinPatch 3 where
  box := ⟨fun _ => 0, fun _ => 3⟩
  cell_data := fun idx => if idx = 0 then some (2, fun _ => 1) else none
  physical_codim1_boxes := [⟨⟨![-1, 0, 0], ![-1, 3, 3]⟩, 0⟩, ⟨⟨![0, 0, 4], ![3, 3, 4]⟩, 5⟩]
  physical_codim2_boxes := [⟨⟨![-1, -1, 0], ![-1, -1, 3]⟩, 0⟩]
  physical_codim3_boxes := [⟨⟨![-1, -1, -1], ![-1, -1, -1]⟩, 0⟩, ⟨⟨![4, 4, 4], ![4, 4, 4]⟩, 7⟩]
  getBoundaryFillBox := fun bdry_box _ _ => bdry_box.box
  makeSideBoundaryCodim1Box := fun bdry_box => bdry_box.box
  newArrayData := fun box => ⟨box, fun _ => 0⟩

/-- A Robin operator for the three-dimensional examples, on the patch data
index 0, with one coefficient strategy per depth. -/
def robinProbeOp3 : CartCellRobinPhysBdryOp 3 where
  d_patch_data_indices := [0]
  d_bc_coefs := [some robinProbeStrategy3, some robinProbeStrategy3]
  d_homogeneous_bc := false

/-! ## Lemmas on boxes and folds -/

theorem mem_intRange (lo hi x : Int) : x ∈ intRange lo hi ↔ lo ≤ x ∧ x ≤ hi := by
  unfold intRange
  simp only [List.mem_map, List.mem_range]
  constructor
  · rintro ⟨k, hk, rfl⟩
    omega
  · rintro ⟨h1, h2⟩
    exact ⟨(x - lo).toNat, by omega, by omega⟩

theorem mem_cellsOf : ∀ (n : Nat) (lo hi i : Index n),
    i ∈ cellsOf n lo hi ↔ ∀ d : Fin n, lo d ≤ i d ∧ i d ≤ hi d
  | 0, lo, hi, i => by
      simp only [cellsOf, List.mem_singleton]
      constructor
      · intro _ d; exact d.elim0
      · intro _; funext d; exact d.elim0
  | n + 1, lo, hi, i => by
      simp only [cellsOf, List.mem_flatMap, List.mem_map, mem_intRange]
      constructor
      · rintro ⟨t, ht, x, hx, rfl⟩
        rw [mem_cellsOf n] at ht
        intro d
        refine Fin.cases ?_ ?_ d
        · simpa using hx
        · intro e; simpa [Fin.tail] using ht e
      · intro h
        refine ⟨Fin.tail i, ?_, i 0, h 0, ?_⟩
        · rw [mem_cellsOf n]
          intro d; exact h d.succ
        · exact Fin.cons_self_tail i

theorem mem_cells {n : Nat} (b : Box n) (i : Index n) : i ∈ b.cells ↔ b.contains i :=
  mem_cellsOf n b.lower b.upper i

theorem contains_intersect {n : Nat} (a b : Box n) (i : Index n) :
    (a.intersect b).contains i ↔ a.contains i ∧ b.contains i := by
  unfold Box.contains Box.intersect
  simp only [max_le_iff, le_min_iff]
  constructor
  · intro h; exact ⟨fun d => ⟨(h d).1.1, (h d).2.1⟩, fun d => ⟨(h d).1.2, (h d).2.2⟩⟩
  · rintro ⟨h1, h2⟩ d; exact ⟨⟨(h1 d).1, (h2 d).1⟩, ⟨(h1 d).2, (h2 d).2⟩⟩

theorem foldl_add_eq_sum {α : Type} (g : α → ℚ) (l : List α) (init : ℚ) :
    l.foldl (fun acc d => acc + g d) init = init + (l.map g).sum := by
  induction l generalizing init with
  | nil => simp
  | cons a l ih => simp [ih, add_assoc]

theorem shifted_index_eq {n : Nat} (i_int s : Index n) (d : Fin n) :
    i_int + s d • Pi.single d 1 = Function.update i_int d (i_int d + s d) := by
  funext e
  by_cases h : e = d
  · subst h; simp
  · simp [Function.update_noteq h, Pi.single_eq_of_ne h]

/-- The loop of `compute_linear_extrap` written as a sum over all axes. -/
theorem compute_linear_extrap_eq_sum {n : Nat} (value : CellArray n) (i i_int s : Index n)
    (depth : Nat) :
    compute_linear_extrap value i i_int s depth =
      value i_int depth + ∑ d : Fin n, (if s d ≠ 0 then
        (value i_int depth - value (Function.update i_int d (i_int d + s d)) depth) *
          ((|i d - i_int d| : Int) : ℚ) else 0) := by
  unfold compute_linear_extrap
  have h : ∀ (acc : ℚ) (d : Fin n),
      (if s d ≠ 0 then
        acc + (value i_int depth - value (Function.update i_int d (i_int d + s d)) depth) *
          ((|i d - i_int d| : Int) : ℚ)
       else acc) =
      acc + (if s d ≠ 0 then
        (value i_int depth - value (Function.update i_int d (i_int d + s d)) depth) *
          ((|i d - i_int d| : Int) : ℚ) else 0) := by
    intro acc d; split_ifs <;> simp
  simp only [h]
  rw [foldl_add_eq_sum, Fin.sum_univ_def]

/-! ## Invariants of the cell-centered boundary fill -/

/-- An assignment of the right value keeps the agreement and extends it to the
assigned index. -/
theorem AgreesOn.assign {n : Nat} {patch_box : Box n} {g : Index n → ℚ} {k : Nat} {G : Box n}
    {D : Nat} {cd : CellData n} {W : Set (Index n)} (i : Index n) (depth : Nat) (v : ℚ)
    (hv : depth = k → v = g i) (h : AgreesOn patch_box g k G D cd W) :
    AgreesOn patch_box g k G D (cd.assign i depth v) (W ∪ {j | depth = k ∧ j = i}) := by
  refine ⟨h.1, h.2.1, ?_⟩
  intro j hj
  simp only [CellData.assign]
  by_cases hc : j = i ∧ k = depth
  · rw [if_pos hc, hc.1]; exact hv hc.2.symm
  · rw [if_neg hc]
    apply h.2.2
    rcases hj with hj | hj | ⟨h1, h2⟩
    · exact Or.inl hj
    · exact Or.inr hj
    · exact absurd ⟨h2, h1.symm⟩ hc

theorem fillPatchIndices_box {n : Nat} (util : PhysicalBoundaryUtilities n) (extrap_type : Int)
    (boxes : List (BdryFillBox n)) (indices : List Int) (patch : Patch n) :
    (fillPatchIndices util extrap_type boxes indices patch).box = patch.box := by
  unfold fillPatchIndices
  induction indices generalizing patch with
  | nil => rfl
  | cons a l ih =>
      rw [List.foldl_cons, ih]
      split <;> rfl

theorem placed_cases {n : Nat} {util : PhysicalBoundaryUtilities n} {patch_box : Box n}
    {fb : BdryFillBox n} (hp : fb.placed util patch_box) {i : Index n}
    (hi : fb.box.contains i) (d : Fin n) :
    (util.isLower fb.location_index fb.codim d = true ∧ i d < patch_box.lower d) ∨
    (util.isLower fb.location_index fb.codim d = false ∧
      util.isUpper fb.location_index fb.codim d = true ∧ patch_box.upper d < i d) ∨
    (util.isLower fb.location_index fb.codim d = false ∧
      util.isUpper fb.location_index fb.codim d = false ∧
      patch_box.lower d ≤ i d ∧ i d ≤ patch_box.upper d) := by
  have h := hp d
  have h1 := (hi d).1
  have h2 := (hi d).2
  cases hl : util.isLower fb.location_index fb.codim d
  · cases hu : util.isUpper fb.location_index fb.codim d
    · simp only [hl, hu, Bool.false_eq_true, if_false] at h
      exact Or.inr (Or.inr ⟨rfl, rfl, by omega, by omega⟩)
    · simp only [hl, hu, Bool.false_eq_true, if_false, if_true] at h
      exact Or.inr (Or.inl ⟨rfl, rfl, by omega⟩)
  · simp only [hl, if_true] at h
    exact Or.inl ⟨rfl, by omega⟩

theorem nearestInterior_contains {n : Nat} {util : PhysicalBoundaryUtilities n}
    {patch_box : Box n} {fb : BdryFillBox n} (hp : fb.placed util patch_box)
    (hne : ∀ d, (util.isLower fb.location_index fb.codim d = true ∨
      util.isUpper fb.location_index fb.codim d = true) →
      patch_box.lower d ≤ patch_box.upper d) {i : Index n}
    (hi : fb.box.contains i) :
    patch_box.contains
      (nearestInterior (fun d => util.isLower fb.location_index fb.codim d)
        (fun d => util.isUpper fb.location_index fb.codim d)
        patch_box.lower patch_box.upper i) := by
  intro d
  unfold nearestInterior
  rcases placed_cases hp hi d with ⟨hl, _⟩ | ⟨hl, hu, _⟩ | ⟨hl, hu, h1, h2⟩
  · simp only [hl, if_true]; exact ⟨le_refl _, hne d (Or.inl hl)⟩
  · simp only [hl, hu, Bool.false_eq_true, if_false, if_true]
    exact ⟨hne d (Or.inr hu), le_refl _⟩
  · simp only [hl, hu, Bool.false_eq_true, if_false]; exact ⟨h1, h2⟩

theorem lineFillBoxes_placed (N : Nat) :
    ∀ fb ∈ lineFillBoxes N, fb.placed (codim1Utilities 1) (linePatch N).box := by
  intro fb hfb
  simp only [lineFillBoxes, List.mem_cons, List.mem_singleton, List.not_mem_nil, or_false] at hfb
  rcases hfb with rfl | rfl
  · intro d
    fin_cases d
    simp [codim1Utilities, linePatch]
  · intro d
    fin_cases d
    simp [codim1Utilities, linePatch]

/-- C2 (defect of the code). On the one-dimensional data `u[k] = k` with
interior reference index `0` and shift `+1` (the lower boundary of a patch
starting at cell 0), `compute_quadratic_extrap` at codimension one returns `1`
for the ghost index `-1`, the value of the interior sample one cell inward,
whereas the quadratic through the interior samples `f0 = 0`, `f1 = 1`,
`f2 = 2` takes the value `-1` at ghost distance one. -/
theorem quadratic_extrap_reflects_linear_data :
    compute_quadratic_extrap (fun (i : Index 1) _ => (i 0 : ℚ)) ![-1] ![0] ![1] 0 1 = 1 ∧
      quadratic_extrap_contract 0 1 2 1 = -1 := by
  constructor
  · simp [compute_quadratic_extrap, List.finRange, List.find?]
    norm_num
  · norm_num [quadratic_extrap_contract]

/-- C6. `compute_linear_extrap` equals the numeric contract for LINEAR: the
value at the interior reference index plus, over the axes `d` with
`s[d] ≠ 0` only, the differences `value(i_int) - value(i_int + s[d]*e_d)`
times `|i[d] - i_int[d]|`. -/
theorem compute_linear_extrap_eq_contract {n : Nat} (value : CellArray n)
    (i i_int s : Index n) (depth : Nat) :
    compute_linear_extrap value i i_int s depth =
      linear_extrap_contract value i i_int s depth := by
  rw [compute_linear_extrap_eq_sum]
  unfold linear_extrap_contract
  rw [Finset.sum_filter]
  simp only [shifted_index_eq]

/-- The per-patch overload returns the zero mask for every patch that touches a
regular boundary. -/
theorem setupMaskingFunction_patch_touching {n : Nat}
    (helper : StaggeredPhysicalBoundaryHelper n) (mask_data : SideData n Int)
    (patch : PatchInfo) (h : patch.touches_regular_boundary = true) :
    setupMaskingFunction_patch helper mask_data patch = some (mask_data.fillAll 0) := by
  simp [setupMaskingFunction_patch, h]

/-! ## Results on `StaggeredPhysicalBoundaryHelper` -/

/-- C1 (defect of the code). For a patch that touches a regular boundary and
whose cached codimension-one boundary box (normal axis 0) has the location
`(0,0)` flagged Dirichlet, both overloads of `setupMaskingFunction` leave the
mask at the side index `((0,0), axis 0, Lower)` equal to 0, not 1: the
per-patch overload returns right after `fillAll(0)` exactly when the patch
touches a regular boundary. -/
theorem setupMaskingFunction_leaves_flagged_zero :
    (∃ boxes locs bdry_box bdry_locs_data,
      flaggedHelper.d_physical_codim1_boxes 0 0 = some boxes ∧
      flaggedHelper.d_dirichlet_bdry_locs 0 0 = some locs ∧
      boxes[0]? = some bdry_box ∧ locs[0]? = some bdry_locs_data ∧
      bdry_box.location_index / 2 = 0 ∧
      bdry_locs_data.box.contains ![0, 0] ∧ bdry_locs_data.val ![0, 0] ≠ 0) ∧
    (∀ mask_data : SideData 2 Int, ∃ m,
      setupMaskingFunction_patch flaggedHelper mask_data flaggedPatch = some m ∧
      m.val 0 ![0, 0] = 0) ∧
    (∀ masks : Nat → Nat → SideData 2 Int, ∃ ms,
      setupMaskingFunction flaggedHelper masks (-1) (-1) = some ms ∧
      (ms 0 0).val 0 ![0, 0] = 0) := by
  refine ⟨?_, ?_, ?_⟩
  · refine ⟨_, _, _, _, rfl, rfl, rfl, rfl, rfl, ?_, ?_⟩
    · decide
    · decide
  · intro mask_data
    exact ⟨_, setupMaskingFunction_patch_touching _ _ _ rfl, rfl⟩
  · intro masks
    refine ⟨fun l id => if l = 0 ∧ id = 0 then (masks 0 0).fillAll 0 else masks l id, ?_, ?_⟩
    · rfl
    · simp [SideData.fillAll]

/-! ## Invariants of `initializeOperatorState` -/

theorem deallocateOperatorState_idem (s : HierarchyGhostCellInterpolation) :
    (deallocateOperatorState s).d_is_initialized = false := by
  unfold deallocateOperatorState
  split
  · assumption
  · rfl

theorem foldl_preserves {α β : Type} (P : α → Prop) (f : α → β → α) (l : List β)
    (hf : ∀ a b, P a → P (f a b)) (a : α) (ha : P a) : P (l.foldl f a) := by
  induction l generalizing a with
  | nil => exact ha
  | cons b l ih => exact ih _ (hf a b ha)

theorem forComponents_ends {σ : Type} (P : σ → Prop)
    (body : Nat → InterpolationTransactionComponent → σ → Outcome σ)
    (hbody : ∀ k comp st, P st → Ends P P (body k comp st))
    (comps : List InterpolationTransactionComponent) :
    ∀ (k : Nat) (st : σ), P st → Ends P P (forComponents body k comps st) := by
  induction comps with
  | nil => intro k st h; exact h
  | cons comp comps ih =>
      intro k st h
      have hb := hbody k comp st h
      unfold forComponents
      cases hr : body k comp st with
      | ok st' =>
          rw [hr] at hb
          exact ih (k + 1) st' hb
      | error e =>
          rw [hr] at hb
          exact hb

theorem dropLocal_ends {σ τ : Type} (P : σ → Prop) (Q : σ × τ → Prop) (o : Outcome (σ × τ))
    (h : Ends (fun st => P st.1) Q o) : Ends P Q o.dropLocal := by
  cases o with
  | ok a => exact h
  | error e => exact h

theorem registrations_emit (w : World) (e : Event) (he : e.isAddCoarsenOperator = false) :
    cubicCoarsenRegistrations (w.emit e).trace = cubicCoarsenRegistrations w.trace := by
  simp [cubicCoarsenRegistrations, World.emit, List.filter_append, he]

theorem registerCoarsenBody_untouched (env : Collaborators) (c : Bool) (T : List Event) (hier : Option PatchHierarchy)
    (comps0 : List InterpolationTransactionComponent)
    (k : Nat) (comp : InterpolationTransactionComponent) (st : Sys × Bool)
    (h : Untouched c T hier comps0 st.1) :
    Ends (fun st : Sys × Bool => Untouched c T hier comps0 st.1) (fun st => Untouched c T hier comps0 st.1)
      (registerCoarsenBody env k comp st) := by
  unfold registerCoarsenBody
  dsimp only
  split_ifs <;> exact h

theorem registerCoarsenOps_untouched (env : Collaborators) (c : Bool) (T : List Event) (hier : Option PatchHierarchy)
    (comps0 : List InterpolationTransactionComponent)
    (sys : Sys) (h : Untouched c T hier comps0 sys) :
    Ends (Untouched c T hier comps0) (fun st : Sys × Bool => Untouched c T hier comps0 st.1)
      (registerCoarsenOps env sys) := by
  unfold registerCoarsenOps
  apply dropLocal_ends
  exact forComponents_ends (fun st : Sys × Bool => Untouched c T hier comps0 st.1) _
    (registerCoarsenBody_untouched env c T hier comps0) _ 0 _ h

theorem createCoarsenSchedules_untouched (c : Bool) (T : List Event) (hier : Option PatchHierarchy)
    (comps0 : List InterpolationTransactionComponent) (sys : Sys) (b : Bool)
    (h : Untouched c T hier comps0 sys) : Untouched c T hier comps0 (createCoarsenSchedules sys b) := by
  unfold createCoarsenSchedules
  dsimp only
  split_ifs
  · apply foldl_preserves (Untouched c T hier comps0)
    · intro a ln ha
      exact ⟨ha.1, ha.2.1, ha.2.2.1, ha.2.2.2.1,
        (registrations_emit a.1 (Event.createCoarsenSchedule ln) rfl).trans ha.2.2.2.2⟩
    · exact h
  · exact h

theorem createRefineSchedules_untouched (c : Bool) (T : List Event) (hier : Option PatchHierarchy)
    (comps0 : List InterpolationTransactionComponent) (sys : Sys)
    (h : Untouched c T hier comps0 sys) : Untouched c T hier comps0 (createRefineSchedules sys) := by
  unfold createRefineSchedules
  dsimp only
  apply foldl_preserves (Untouched c T hier comps0)
  · intro a ln ha
    exact ⟨ha.1, ha.2.1, ha.2.2.1, ha.2.2.2.1,
      (registrations_emit a.1 (Event.createRefineSchedule ln) rfl).trans ha.2.2.2.2⟩
  · exact h

theorem initCentering_untouched (env : Collaborators) (c : Bool) (T : List Event) (hier : Option PatchHierarchy)
    (comps0 : List InterpolationTransactionComponent)
    (k : Nat) (comp : InterpolationTransactionComponent) (st : Sys × List StrategyRef)
    (h : Untouched c T hier comps0 st.1) :
    Ends (fun st : Sys × List StrategyRef => Untouched c T hier comps0 st.1) (fun st => Untouched c T hier comps0 st.1)
      (initCentering env k comp st) := by
  unfold initCentering
  dsimp only
  split
  · unfold Ends; dsimp only; split_ifs <;> exact h
  · split_ifs <;> exact h
  · unfold Ends; dsimp only; split_ifs <;> exact h
  · exact h

theorem setExtrapolationType_world (w : World) (op : CartExtrapPhysBdryOp) (t : String) :
    Ends (fun st : World × CartExtrapPhysBdryOp =>
        st.1.cubic_coarsen_ops_registered = w.cubic_coarsen_ops_registered ∧
        cubicCoarsenRegistrations st.1.trace = cubicCoarsenRegistrations w.trace)
      (fun st : World × CartExtrapPhysBdryOp =>
        st.1.cubic_coarsen_ops_registered = w.cubic_coarsen_ops_registered ∧
        cubicCoarsenRegistrations st.1.trace = cubicCoarsenRegistrations w.trace)
      (setExtrapolationType (w, op) t) := by
  unfold setExtrapolationType
  dsimp only
  split_ifs
  · exact ⟨rfl, rfl⟩
  · exact ⟨rfl, rfl⟩
  · exact ⟨rfl, registrations_emit _ _ rfl⟩
  · exact ⟨rfl, rfl⟩

theorem initExtrap_untouched (c : Bool) (T : List Event) (hier : Option PatchHierarchy)
    (comps0 : List InterpolationTransactionComponent)
    (k : Nat) (comp : InterpolationTransactionComponent) (st : Sys × List StrategyRef)
    (h : Untouched c T hier comps0 st.1) :
    Ends (fun st : Sys × List StrategyRef => Untouched c T hier comps0 st.1) (fun st => Untouched c T hier comps0 st.1)
      (initExtrap k comp st) := by
  unfold initExtrap
  dsimp only
  split_ifs
  · have hw := setExtrapolationType_world st.1.1
      ((CartExtrapPhysBdryOp.mk [] "NULL").setPatchDataIndex comp.d_dst_data_idx)
      comp.d_phys_bdry_extrap_type
    unfold CartExtrapPhysBdryOp.construct
    cases hr : setExtrapolationType
      (st.1.1, (CartExtrapPhysBdryOp.mk [] "NULL").setPatchDataIndex comp.d_dst_data_idx)
      comp.d_phys_bdry_extrap_type with
    | ok r =>
        rw [hr] at hw
        exact ⟨h.1, h.2.1, h.2.2.1, hw.1.trans h.2.2.2.1, hw.2.trans h.2.2.2.2⟩
    | error e =>
        rw [hr] at hw
        exact ⟨h.1, h.2.1, h.2.2.1, hw.1.trans h.2.2.2.1, hw.2.trans h.2.2.2.2⟩
  · exact h

theorem initRobin_untouched (env : Collaborators) (c : Bool) (T : List Event) (hier : Option PatchHierarchy)
    (comps0 : List InterpolationTransactionComponent)
    (k : Nat) (comp : InterpolationTransactionComponent) (st : Sys × List StrategyRef)
    (h : Untouched c T hier comps0 st.1) :
    Ends (fun st : Sys × List StrategyRef => Untouched c T hier comps0 st.1) (fun st => Untouched c T hier comps0 st.1)
      (initRobin env k comp st) := by
  unfold initRobin
  dsimp only
  split_ifs <;> exact h

theorem initRefineBody_untouched (env : Collaborators) (c : Bool) (T : List Event) (hier : Option PatchHierarchy)
    (comps0 : List InterpolationTransactionComponent)
    (k : Nat) (comp : InterpolationTransactionComponent) (st : Sys × List StrategyRef)
    (h : Untouched c T hier comps0 st.1) :
    Ends (fun st : Sys × List StrategyRef => Untouched c T hier comps0 st.1) (fun st => Untouched c T hier comps0 st.1)
      (initRefineBody env k comp st) := by
  unfold initRefineBody
  have h1 := initCentering_untouched env c T hier comps0 k comp st h
  cases hr1 : initCentering env k comp st with
  | error e => rw [hr1] at h1; exact h1
  | ok st1 =>
      rw [hr1] at h1
      have h2 := initExtrap_untouched c T hier comps0 k comp
        ((st1.1.1, registerRefine env comp st1.1.2), st1.2) h1
      dsimp only
      cases hr2 : initExtrap k comp ((st1.1.1, registerRefine env comp st1.1.2), st1.2) with
      | error e => rw [hr2] at h2; exact h2
      | ok st2 =>
          rw [hr2] at h2
          exact initRobin_untouched env c T hier comps0 k comp st2 h2

theorem setupRefine_untouched (env : Collaborators) (c : Bool) (T : List Event) (hier : Option PatchHierarchy)
    (comps0 : List InterpolationTransactionComponent) (sys : Sys)
    (h : Untouched c T hier comps0 sys) : Ends (Untouched c T hier comps0) (Untouched c T hier comps0) (setupRefine env sys) := by
  unfold setupRefine
  dsimp only
  have h1 := dropLocal_ends (Untouched c T hier comps0) (fun st : Sys × List StrategyRef => Untouched c T hier comps0 st.1) _
    (forComponents_ends (fun st : Sys × List StrategyRef => Untouched c T hier comps0 st.1) _
      (initRefineBody_untouched env c T hier comps0) sys.2.d_transaction_comps 0
      ((sys.1, { sys.2 with
        d_cf_bdry_ops := resizeSlots sys.2.d_cf_bdry_ops sys.2.d_transaction_comps.length
        d_extrap_bc_ops := resizeSlots sys.2.d_extrap_bc_ops sys.2.d_transaction_comps.length
        d_cc_robin_bc_ops := resizeSlots sys.2.d_cc_robin_bc_ops sys.2.d_transaction_comps.length
        d_sc_robin_bc_ops := resizeSlots sys.2.d_sc_robin_bc_ops sys.2.d_transaction_comps.length
        d_refine_alg := some ⟨[]⟩ }), []) h)
  revert h1
  generalize (forComponents (initRefineBody env) 0 sys.2.d_transaction_comps _).dropLocal = r
  intro h1
  cases r with
  | error e => exact h1
  | ok st => exact createRefineSchedules_untouched c T hier comps0 _ h1


theorem registerCubicCoarsenOps_flag (w : World) :
    (registerCubicCoarsenOps w).cubic_coarsen_ops_registered = true := by
  unfold registerCubicCoarsenOps
  split_ifs with h
  · exact h
  · rfl

theorem registerCubicCoarsenOps_trace (w : World) :
    cubicCoarsenRegistrations (registerCubicCoarsenOps w).trace =
      cubicCoarsenRegistrations w.trace ++
        (if w.cubic_coarsen_ops_registered = true then [] else cubicCoarsenPair) := by
  unfold registerCubicCoarsenOps
  split_ifs with h
  · simp
  · simp [cubicCoarsenRegistrations, World.emit, List.filter_append, cubicCoarsenPair,
      Event.isAddCoarsenOperator]

theorem initCacheHierarchy_flag (comps : List InterpolationTransactionComponent)
    (hierarchy : PatchHierarchy) (cl fl : Int) (s : HierarchyGhostCellInterpolation) :
    (initCacheHierarchy comps hierarchy cl fl s).d_is_initialized = false := by
  unfold initCacheHierarchy
  dsimp only
  split_ifs with h
  · exact deallocateOperatorState_idem s
  · simpa using h

/-- The state in which `initializeOperatorState` ends. -/
theorem initializeOperatorState_ends (env : Collaborators)
    (comps : List InterpolationTransactionComponent) (hierarchy : PatchHierarchy)
    (cl fl : Int) (sys : Sys) :
    Ends
      (Untouched true
        (cubicCoarsenRegistrations sys.1.trace ++
          (if sys.1.cubic_coarsen_ops_registered = true then [] else cubicCoarsenPair))
        (some hierarchy) comps)
      (fun sys' : Sys => sys'.2.d_is_initialized = true ∧
        sys'.1.cubic_coarsen_ops_registered = true ∧
        cubicCoarsenRegistrations sys'.1.trace =
          cubicCoarsenRegistrations sys.1.trace ++
            (if sys.1.cubic_coarsen_ops_registered = true then [] else cubicCoarsenPair))
      (initializeOperatorState env comps hierarchy cl fl sys) := by
  unfold initializeOperatorState
  dsimp only
  have h0 : Untouched true
      (cubicCoarsenRegistrations sys.1.trace ++
        (if sys.1.cubic_coarsen_ops_registered = true then [] else cubicCoarsenPair))
      (some hierarchy) comps
      (registerCubicCoarsenOps sys.1, initCacheHierarchy comps hierarchy cl fl sys.2) :=
    ⟨initCacheHierarchy_flag _ _ _ _ _, by simp [initCacheHierarchy],
      by simp [initCacheHierarchy],
      registerCubicCoarsenOps_flag _, registerCubicCoarsenOps_trace _⟩
  have h1 := registerCoarsenOps_untouched env _ _ _ _ _ h0
  revert h1
  generalize registerCoarsenOps env
    (registerCubicCoarsenOps sys.1, initCacheHierarchy comps hierarchy cl fl sys.2) = r1
  intro h1
  cases r1 with
  | error e => exact h1
  | ok st =>
      have h2 := setupRefine_untouched env _ _ _ _ _
        (createCoarsenSchedules_untouched _ _ _ _ st.1 st.2 h1)
      dsimp only
      revert h2
      generalize setupRefine env (createCoarsenSchedules st.1 st.2) = r2
      intro h2
      cases r2 with
      | error e => exact h2
      | ok sys' => exact ⟨rfl, h2.2.2.2.1, h2.2.2.2.2⟩

theorem forComponents_error {σ : Type} (P : σ → Prop)
    (body : Nat → InterpolationTransactionComponent → σ → Outcome σ)
    (hbody : ∀ k comp st, P st → Ends P P (body k comp st))
    (bad : InterpolationTransactionComponent → Prop)
    (hbad : ∀ k comp st, bad comp → P st → ∃ e, body k comp st = Except.error e)
    (comps : List InterpolationTransactionComponent) (hmem : ∃ comp ∈ comps, bad comp) :
    ∀ (k : Nat) (st : σ), P st → ∃ e, forComponents body k comps st = Except.error e := by
  induction comps with
  | nil => obtain ⟨comp, hc, _⟩ := hmem; exact absurd hc (List.not_mem_nil _)
  | cons comp comps ih =>
      intro k st h
      unfold forComponents
      have hb := hbody k comp st h
      cases hr : body k comp st with
      | error e => exact ⟨e, rfl⟩
      | ok st' =>
          rw [hr] at hb
          obtain ⟨c, hc, hcbad⟩ := hmem
          rcases List.mem_cons.1 hc with rfl | hc'
          · obtain ⟨e, he⟩ := hbad k c st hcbad h
            rw [he] at hr
            exact absurd hr (by simp)
          · exact ih ⟨c, hc', hcbad⟩ (k + 1) st' hb

theorem initCentering_rejects (env : Collaborators) (k : Nat)
    (comp : InterpolationTransactionComponent) (st : Sys × List StrategyRef)
    (hbad : unsupportedCentering env comp ∨ nodeCenteredCF env comp) :
    ∃ e, initCentering env k comp st = Except.error e := by
  unfold initCentering
  dsimp only
  rcases hbad with ⟨h1, h2, h3⟩ | hb
  · split
    · rename_i heq; exact absurd heq h1
    · rename_i heq; exact absurd heq h2
    · rename_i heq; exact absurd heq h3
    · exact ⟨_, rfl⟩
  · rw [hb.1]
    dsimp only
    rw [if_pos hb.2]
    exact ⟨_, rfl⟩

theorem initRobin_rejects (env : Collaborators) (k : Nat)
    (comp : InterpolationTransactionComponent) (st : Sys × List StrategyRef)
    (hassert : env.check_assertions = true)
    (hc : sideRobinWrongCount env (hierarchyDim st.1.2) comp) :
    ∃ e, initRobin env k comp st = Except.error e := by
  obtain ⟨h1, h2, h3⟩ := hc
  have hcell : ¬ (nullBcCoefs comp = false ∧
      env.mapIndexToVariable comp.d_src_data_idx = some VariableKind.cell_double) := by
    rw [h1]; simp
  unfold initRobin
  dsimp only
  rw [if_neg hcell, if_pos ⟨h2, h1⟩, if_pos ⟨hassert, h3⟩]
  exact ⟨_, rfl⟩

theorem initRefineBody_rejects (env : Collaborators) (c : Bool) (T : List Event)
    (hierarchy : PatchHierarchy) (comps0 : List InterpolationTransactionComponent)
    (k : Nat) (comp : InterpolationTransactionComponent)
    (st : Sys × List StrategyRef)
    (hbad : unsupportedCentering env comp ∨ nodeCenteredCF env comp ∨
      (env.check_assertions = true ∧ sideRobinWrongCount env hierarchy.dim comp))
    (h : Untouched c T (some hierarchy) comps0 st.1) :
    ∃ e, initRefineBody env k comp st = Except.error e := by
  unfold initRefineBody
  rcases hbad with ha | hb | ⟨hassert, hc⟩
  · obtain ⟨e, he⟩ := initCentering_rejects env k comp st (Or.inl ha)
    rw [he]
    exact ⟨e, rfl⟩
  · obtain ⟨e, he⟩ := initCentering_rejects env k comp st (Or.inr hb)
    rw [he]
    exact ⟨e, rfl⟩
  · have h1 := initCentering_untouched env c T (some hierarchy) comps0 k comp st h
    cases hr1 : initCentering env k comp st with
    | error e => exact ⟨e, rfl⟩
    | ok st1 =>
        rw [hr1] at h1
        have h2 := initExtrap_untouched c T (some hierarchy) comps0 k comp
          ((st1.1.1, registerRefine env comp st1.1.2), st1.2) h1
        dsimp only
        cases hr2 : initExtrap k comp ((st1.1.1, registerRefine env comp st1.1.2), st1.2) with
        | error e => exact ⟨e, rfl⟩
        | ok st2 =>
            rw [hr2] at h2
            dsimp only
            have hdim : hierarchyDim st2.1.2 = hierarchy.dim := by
              unfold hierarchyDim; rw [h2.2.1]
            exact initRobin_rejects env k comp st2 hassert (by rw [hdim]; exact hc)

theorem initPrologue_untouched (comps : List InterpolationTransactionComponent)
    (hierarchy : PatchHierarchy) (cl fl : Int) (sys : Sys) :
    Untouched true
      (cubicCoarsenRegistrations sys.1.trace ++
        (if sys.1.cubic_coarsen_ops_registered = true then [] else cubicCoarsenPair))
      (some hierarchy) comps
      (registerCubicCoarsenOps sys.1, initCacheHierarchy comps hierarchy cl fl sys.2) :=
  ⟨initCacheHierarchy_flag _ _ _ _ _, by simp [initCacheHierarchy],
    by simp [initCacheHierarchy],
    registerCubicCoarsenOps_flag _, registerCubicCoarsenOps_trace _⟩

theorem setupRefine_rejects (env : Collaborators) (c : Bool) (T : List Event)
    (hierarchy : PatchHierarchy) (comps : List InterpolationTransactionComponent) (sys : Sys)
    (comp : InterpolationTransactionComponent) (hmem : comp ∈ comps)
    (hbad : unsupportedCentering env comp ∨ nodeCenteredCF env comp ∨
      (env.check_assertions = true ∧ sideRobinWrongCount env hierarchy.dim comp))
    (h : Untouched c T (some hierarchy) comps sys) :
    ∃ e, setupRefine env sys = Except.error e := by
  unfold setupRefine
  dsimp only
  obtain ⟨e, he⟩ := forComponents_error
    (fun st : Sys × List StrategyRef => Untouched c T (some hierarchy) comps st.1)
    (initRefineBody env) (initRefineBody_untouched env c T (some hierarchy) comps)
    (fun comp => unsupportedCentering env comp ∨ nodeCenteredCF env comp ∨
      (env.check_assertions = true ∧ sideRobinWrongCount env hierarchy.dim comp))
    (fun k comp st hb hP => initRefineBody_rejects env c T hierarchy comps k comp st hb hP)
    sys.2.d_transaction_comps ⟨comp, by rw [h.2.2.1]; exact hmem, hbad⟩ 0
    ((sys.1, { sys.2 with
        d_cf_bdry_ops := resizeSlots sys.2.d_cf_bdry_ops sys.2.d_transaction_comps.length
        d_extrap_bc_ops := resizeSlots sys.2.d_extrap_bc_ops sys.2.d_transaction_comps.length
        d_cc_robin_bc_ops := resizeSlots sys.2.d_cc_robin_bc_ops sys.2.d_transaction_comps.length
        d_sc_robin_bc_ops := resizeSlots sys.2.d_sc_robin_bc_ops sys.2.d_transaction_comps.length
        d_refine_alg := some ⟨[]⟩ }), []) h
  rw [he]
  exact ⟨_, rfl⟩

/-- A rejected component makes `initializeOperatorState` fail, and the state at
the error is not initialized. -/
theorem initializeOperatorState_rejects (env : Collaborators)
    (comps : List InterpolationTransactionComponent) (hierarchy : PatchHierarchy)
    (cl fl : Int) (sys : Sys) (comp : InterpolationTransactionComponent) (hmem : comp ∈ comps)
    (hbad : unsupportedCentering env comp ∨ nodeCenteredCF env comp ∨
      (env.check_assertions = true ∧ sideRobinWrongCount env hierarchy.dim comp)) :
    ∃ msg st, initializeOperatorState env comps hierarchy cl fl sys = Except.error (msg, st) ∧
      st.2.d_is_initialized = false := by
  have hends := initializeOperatorState_ends env comps hierarchy cl fl sys
  have herr : ∃ e, initializeOperatorState env comps hierarchy cl fl sys = Except.error e := by
    unfold initializeOperatorState
    dsimp only
    have h1 := registerCoarsenOps_untouched env _ _ _ _ _
      (initPrologue_untouched comps hierarchy cl fl sys)
    revert h1
    generalize registerCoarsenOps env
      (registerCubicCoarsenOps sys.1, initCacheHierarchy comps hierarchy cl fl sys.2) = r1
    intro h1
    cases r1 with
    | error e => exact ⟨e, rfl⟩
    | ok st =>
        dsimp only
        obtain ⟨e, he⟩ := setupRefine_rejects env _ _ hierarchy comps _ comp hmem hbad
          (createCoarsenSchedules_untouched _ _ _ _ st.1 st.2 h1)
        rw [he]
        exact ⟨e, rfl⟩
  obtain ⟨e, he⟩ := herr
  rw [he] at hends
  exact ⟨e.1, e.2, he, hends.1⟩

/-! ## The process-wide registration -/

/-- Once the cubic coarsen operators are registered, a call leaves the flag set
and adds no registration. -/
theorem Process.call_registered (env : Collaborators) (p : Process) (c : InitCall)
    (hflag : p.world.cubic_coarsen_ops_registered = true)
    (hregs : cubicCoarsenRegistrations p.world.trace = cubicCoarsenPair) :
    (Process.call env p c).world.cubic_coarsen_ops_registered = true ∧
      cubicCoarsenRegistrations (Process.call env p c).world.trace = cubicCoarsenPair := by
  unfold Process.call
  split_ifs
  · exact ⟨hflag, hregs⟩
  · cases hobj : p.objects[c.object]? with
    | none => exact ⟨hflag, hregs⟩
    | some s =>
        dsimp only
        have h := initializeOperatorState_ends env c.transaction_comps c.hierarchy c.coarsest_ln
          c.finest_ln (p.world, s)
        simp only [hflag, if_true, List.append_nil, hregs] at h
        revert h
        generalize initializeOperatorState env c.transaction_comps c.hierarchy c.coarsest_ln
          c.finest_ln (p.world, s) = r
        intro h
        cases r with
        | ok sys => exact ⟨h.2.1, h.2.2⟩
        | error e => exact ⟨h.2.2.2.1, h.2.2.2.2⟩

theorem Process.run_registered (env : Collaborators) (calls : List InitCall) :
    ∀ p : Process, p.world.cubic_coarsen_ops_registered = true →
      cubicCoarsenRegistrations p.world.trace = cubicCoarsenPair →
      cubicCoarsenRegistrations (Process.run env p calls).world.trace = cubicCoarsenPair := by
  induction calls with
  | nil => intro p _ h; exact h
  | cons c cs ih =>
      intro p hflag hregs
      have h := Process.call_registered env p c hflag hregs
      exact ih (Process.call env p c) h.1 h.2

theorem Process.first_call (env : Collaborators)
    (objects : List HierarchyGhostCellInterpolation) (c : InitCall)
    (hc : c.object < objects.length) :
    (Process.call env (Process.start objects) c).world.cubic_coarsen_ops_registered = true ∧
      cubicCoarsenRegistrations (Process.call env (Process.start objects) c).world.trace =
        cubicCoarsenPair := by
  unfold Process.call
  rw [if_neg (by simp [Process.start])]
  have hobj : (Process.start objects).objects[c.object]? = some (objects[c.object]) := by
    simp [Process.start, List.getElem?_eq_getElem hc]
  rw [hobj]
  dsimp only
  have h := initializeOperatorState_ends env c.transaction_comps c.hierarchy c.coarsest_ln
    c.finest_ln (World.start, objects[c.object])
  have e1 : cubicCoarsenRegistrations (World.start, objects[c.object]).1.trace ++
      (if (World.start, objects[c.object]).1.cubic_coarsen_ops_registered = true then []
        else cubicCoarsenPair) = cubicCoarsenPair := rfl
  rw [e1] at h
  have hw : (Process.start objects).world = World.start := rfl
  rw [hw]
  revert h
  generalize initializeOperatorState env c.transaction_comps c.hierarchy c.coarsest_ln
    c.finest_ln (World.start, objects[c.object]) = r
  intro h
  cases r with
  | ok sys => exact ⟨h.2.1, h.2.2⟩
  | error e => exact ⟨h.2.2.2.1, h.2.2.2.2⟩


/-! ## Phases of `fillData` -/

theorem AppendsPhase.refl (k : Nat) (t : List Event) : AppendsPhase k t t :=
  ⟨[], by simp, by simp⟩

theorem AppendsPhase.emit (k : Nat) (t : List Event) (w : World) (e : Event)
    (he : e.fillPhase = k) (h : AppendsPhase k t w.trace) :
    AppendsPhase k t (w.emit e).trace := by
  obtain ⟨evs, h1, h2⟩ := h
  refine ⟨evs ++ [e], by simp [World.emit, h1], ?_⟩
  intro e' he'
  rcases List.mem_append.1 he' with h | h
  · exact h2 e' h
  · rw [List.mem_singleton.1 h]; exact he

theorem fillData_setHomogeneousBc_phase (sys : Sys) :
    AppendsPhase 0 sys.1.trace (fillData_setHomogeneousBc sys).1.trace := by
  unfold fillData_setHomogeneousBc
  apply foldl_preserves (fun sys' : Sys => AppendsPhase 0 sys.1.trace sys'.1.trace)
  · intro a k ha
    dsimp only
    have h1 : AppendsPhase 0 sys.1.trace
        (match slot a.2.d_cc_robin_bc_ops k with
        | some op =>
            ((a.1.emit (Event.ccSetHomogeneousBc k a.2.d_homogeneous_bc),
              { a.2 with
                d_cc_robin_bc_ops :=
                  a.2.d_cc_robin_bc_ops.set k
                    (some { op with d_homogeneous_bc := a.2.d_homogeneous_bc }) }) : Sys)
        | none => a).1.trace := by
      split
      · exact AppendsPhase.emit 0 _ _ _ rfl ha
      · exact ha
    split
    · exact AppendsPhase.emit 0 _ _ _ rfl h1
    · exact h1
  · exact AppendsPhase.refl 0 _

theorem fillData_coarsen_phase (s : HierarchyGhostCellInterpolation) (w : World) :
    AppendsPhase 1 w.trace (fillData_coarsen s w).trace := by
  unfold fillData_coarsen
  apply foldl_preserves (fun w' : World => AppendsPhase 1 w.trace w'.trace)
  · intro a ln ha
    dsimp only
    split_ifs
    · exact AppendsPhase.emit 1 _ _ _ rfl ha
    · exact ha
  · exact AppendsPhase.refl 1 _

theorem fillData_refine_phase (s : HierarchyGhostCellInterpolation) (w : World) :
    AppendsPhase 2 w.trace (fillData_refine s w).trace := by
  unfold fillData_refine
  apply foldl_preserves (fun w' : World => AppendsPhase 2 w.trace w'.trace)
  · intro a ln ha
    dsimp only
    apply foldl_preserves (fun w' : World => AppendsPhase 2 w.trace w'.trace)
    · intro b patch hb
      apply foldl_preserves (fun w' : World => AppendsPhase 2 w.trace w'.trace)
      · intro c k hc
        dsimp only
        split_ifs
        · exact AppendsPhase.emit 2 _ _ _ rfl hc
        · exact hc
      · exact hb
    · split_ifs
      · exact AppendsPhase.emit 2 _ _ _ rfl ha
      · exact ha
  · exact AppendsPhase.refl 2 _

theorem fillData_robin_phase (s : HierarchyGhostCellInterpolation) (w : World) :
    AppendsPhase 3 w.trace (fillData_robin s w).trace := by
  unfold fillData_robin
  apply foldl_preserves (fun w' : World => AppendsPhase 3 w.trace w'.trace)
  · intro a ln ha
    dsimp only
    apply foldl_preserves (fun w' : World => AppendsPhase 3 w.trace w'.trace)
    · intro b patch hb
      dsimp only
      split_ifs
      · apply foldl_preserves (fun w' : World => AppendsPhase 3 w.trace w'.trace)
        · intro c k hc
          dsimp only
          split_ifs <;> first
            | exact hc
            | exact AppendsPhase.emit 3 _ _ _ rfl hc
            | exact AppendsPhase.emit 3 _ _ _ rfl (AppendsPhase.emit 3 _ _ _ rfl hc)
        · exact hb
      · exact hb
    · exact ha
  · exact AppendsPhase.refl 3 _

/-- The calls of one `fillData` call, sorted by phase. -/
theorem fillData_trace (env : Collaborators) (sys : Sys)
    (hinit : sys.2.d_is_initialized = true) :
    ∃ sys' evs, fillData env sys = Except.ok sys' ∧ sys'.1.trace = sys.1.trace ++ evs ∧
      evs.Pairwise (fun a b => a.fillPhase ≤ b.fillPhase) := by
  unfold fillData
  rw [if_neg (by simp [hinit])]
  dsimp only
  obtain ⟨e0, h0, p0⟩ := fillData_setHomogeneousBc_phase sys
  obtain ⟨e1, h1, p1⟩ := fillData_coarsen_phase (fillData_setHomogeneousBc sys).2
    (fillData_setHomogeneousBc sys).1
  obtain ⟨e2, h2, p2⟩ := fillData_refine_phase (fillData_setHomogeneousBc sys).2
    (fillData_coarsen (fillData_setHomogeneousBc sys).2 (fillData_setHomogeneousBc sys).1)
  obtain ⟨e3, h3, p3⟩ := fillData_robin_phase (fillData_setHomogeneousBc sys).2
    (fillData_refine (fillData_setHomogeneousBc sys).2
      (fillData_coarsen (fillData_setHomogeneousBc sys).2 (fillData_setHomogeneousBc sys).1))
  refine ⟨_, e0 ++ e1 ++ e2 ++ e3, rfl, ?_, ?_⟩
  · dsimp only
    rw [h3, h2, h1, h0]
    simp [List.append_assoc]
  · have const : ∀ (k : Nat) (l : List Event), (∀ e ∈ l, e.fillPhase = k) →
        l.Pairwise (fun a b => a.fillPhase ≤ b.fillPhase) := by
      intro k l hl
      rw [List.pairwise_iff_forall_sublist]
      intro a b hab
      have ha := hl a (hab.subset (by simp))
      have hb := hl b (hab.subset (by simp))
      omega
    simp only [List.pairwise_append, List.mem_append]
    refine ⟨⟨⟨const 0 e0 p0, const 1 e1 p1, ?_⟩, const 2 e2 p2, ?_⟩, const 3 e3 p3, ?_⟩
    · intro a ha b hb
      rw [p0 a ha, p1 b hb]; decide
    · intro a ha b hb
      rw [p2 b hb]
      rcases ha with ha | ha
      · rw [p0 a ha]; decide
      · rw [p1 a ha]; decide
    · intro a ha b hb
      rw [p3 b hb]
      rcases ha with (ha | ha) | ha
      · rw [p0 a ha]; decide
      · rw [p1 a ha]; decide
      · rw [p2 a ha]; decide

theorem index_lt_of_phase_lt (evs : List Event)
    (hsorted : evs.Pairwise (fun a b => a.fillPhase ≤ b.fillPhase))
    (i j : Nat) (ei ej : Event) (hi : evs[i]? = some ei) (hj : evs[j]? = some ej)
    (hlt : ei.fillPhase < ej.fillPhase) : i < j := by
  by_contra hcon
  have hji : j ≤ i := Nat.le_of_not_lt hcon
  rcases Nat.eq_or_lt_of_le hji with heq | hlt'
  · subst heq
    rw [hi] at hj
    injection hj with hj
    subst hj
    exact absurd hlt (Nat.lt_irrefl _)
  · rw [List.pairwise_iff_getElem] at hsorted
    obtain ⟨hi1, hi2⟩ := List.getElem?_eq_some.1 hi
    obtain ⟨hj1, hj2⟩ := List.getElem?_eq_some.1 hj
    have := hsorted j i hj1 hi1 hlt'
    rw [hi2, hj2] at this
    omega

theorem fillPhase_of_isCoarsenExecution (e : Event) (h : e.isCoarsenExecution = true) :
    e.fillPhase = 1 := by
  cases e <;> simp_all [Event.isCoarsenExecution, Event.fillPhase]

theorem fillPhase_of_isRefineOrNormalExtension (e : Event)
    (h : e.isRefineOrNormalExtension = true) : e.fillPhase = 2 := by
  cases e <;> simp_all [Event.isRefineOrNormalExtension, Event.fillPhase]

theorem fillPhase_of_isRobin (e : Event)
    (h : e.isRobinSetPhysicalBoundaryConditions = true) : e.fillPhase = 3 := by
  cases e <;> simp_all [Event.isRobinSetPhysicalBoundaryConditions, Event.fillPhase]

/-! ## Results on `HierarchyGhostCellInterpolation` -/

/-- C3. On an initialized orchestrator, `resetTransactionComponents` with a
list whose length differs from the number of registered components, and
`resetTransactionComponent` when that number differs from one, fail with a
fatal error, and the state at the error (process-wide state and every field of
the orchestrator: components, algorithms, schedules, operators) is the state
before the call. -/
theorem reset_with_wrong_count_is_fatal (env : Collaborators) (sys : Sys)
    (hinit : sys.2.d_is_initialized = true) :
    (∀ transaction_comps : List InterpolationTransactionComponent,
      transaction_comps.length ≠ sys.2.d_transaction_comps.length →
      ∃ msg, resetTransactionComponents env transaction_comps sys = Except.error (msg, sys)) ∧
    (∀ transaction_comp : InterpolationTransactionComponent,
      [transaction_comp].length ≠ sys.2.d_transaction_comps.length →
      ∃ msg, resetTransactionComponent env transaction_comp sys = Except.error (msg, sys)) := by
  constructor
  · intro comps hlen
    unfold resetTransactionComponents
    rw [if_neg (by simp [hinit]), if_pos (Ne.symm hlen)]
    exact ⟨_, rfl⟩
  · intro comp hlen
    unfold resetTransactionComponent
    rw [if_neg (by simp [hinit]), if_pos (by simpa using Ne.symm hlen)]
    exact ⟨_, rfl⟩

/-- Witness of C3: the orchestrator initialized on two probe components. -/
theorem reset_with_wrong_count_is_fatal_witness :
    probeState.2.d_is_initialized = true ∧
    ((∀ transaction_comps : List InterpolationTransactionComponent,
      transaction_comps.length ≠ probeState.2.d_transaction_comps.length →
      ∃ msg, resetTransactionComponents (probeEnv true) transaction_comps probeState =
        Except.error (msg, probeState)) ∧
    (∀ transaction_comp : InterpolationTransactionComponent,
      [transaction_comp].length ≠ probeState.2.d_transaction_comps.length →
      ∃ msg, resetTransactionComponent (probeEnv true) transaction_comp probeState =
        Except.error (msg, probeState))) :=
  ⟨rfl, reset_with_wrong_count_is_fatal (probeEnv true) probeState rfl⟩

/-- C7. One `fillData` call on an initialized orchestrator returns, and in the
sequence `evs` of collaborator calls it makes every coarsen schedule
execution precedes every refine schedule execution and every coarse-fine
normal extension, and every refine schedule execution and normal extension
(on every level) precedes every Robin `setPhysicalBoundaryConditions` call. -/
theorem fillData_phases_in_order (env : Collaborators) (sys : Sys)
    (hinit : sys.2.d_is_initialized = true) :
    ∃ sys' evs, fillData env sys = Except.ok sys' ∧ sys'.1.trace = sys.1.trace ++ evs ∧
      (∀ (i j : Nat) (ei ej : Event), evs[i]? = some ei → evs[j]? = some ej →
        ei.isCoarsenExecution = true → ej.isRefineOrNormalExtension = true → i < j) ∧
      (∀ (i j : Nat) (ei ej : Event), evs[i]? = some ei → evs[j]? = some ej →
        ei.isRefineOrNormalExtension = true →
        ej.isRobinSetPhysicalBoundaryConditions = true → i < j) := by
  obtain ⟨sys', evs, h1, h2, h3⟩ := fillData_trace env sys hinit
  refine ⟨sys', evs, h1, h2, ?_, ?_⟩
  · intro i j ei ej hi hj hci hrj
    apply index_lt_of_phase_lt evs h3 i j ei ej hi hj
    rw [fillPhase_of_isCoarsenExecution ei hci, fillPhase_of_isRefineOrNormalExtension ej hrj]
    decide
  · intro i j ei ej hi hj hri hbj
    apply index_lt_of_phase_lt evs h3 i j ei ej hi hj
    rw [fillPhase_of_isRefineOrNormalExtension ei hri, fillPhase_of_isRobin ej hbj]
    decide

/-- Witness of C7: the orchestrator initialized on two probe components. -/
theorem fillData_phases_in_order_witness :
    probeState.2.d_is_initialized = true ∧
    ∃ sys' evs, fillData (probeEnv true) probeState = Except.ok sys' ∧
      sys'.1.trace = probeState.1.trace ++ evs ∧
      (∀ (i j : Nat) (ei ej : Event), evs[i]? = some ei → evs[j]? = some ej →
        ei.isCoarsenExecution = true → ej.isRefineOrNormalExtension = true → i < j) ∧
      (∀ (i j : Nat) (ei ej : Event), evs[i]? = some ei → evs[j]? = some ej →
        ei.isRefineOrNormalExtension = true →
        ej.isRobinSetPhysicalBoundaryConditions = true → i < j) :=
  ⟨rfl, fillData_phases_in_order (probeEnv true) probeState rfl⟩

/-- C8. `initializeOperatorState` on an initialized orchestrator has the same
outcome (process-wide state and every field of the orchestrator) as
`deallocateOperatorState` followed by `initializeOperatorState` with the same
arguments; the outcome is the same from any other initialized state with the
same homogeneous flag and from a freshly constructed object with that flag, so
that no operator or schedule of the previous initialization survives. -/
theorem initialize_on_initialized (env : Collaborators)
    (transaction_comps : List InterpolationTransactionComponent) (hierarchy : PatchHierarchy)
    (coarsest_ln finest_ln : Int) (w : World) (s : HierarchyGhostCellInterpolation)
    (hinit : s.d_is_initialized = true) :
    initializeOperatorState env transaction_comps hierarchy coarsest_ln finest_ln (w, s) =
      initializeOperatorState env transaction_comps hierarchy coarsest_ln finest_ln
        (w, deallocateOperatorState s) ∧
    (∀ s' : HierarchyGhostCellInterpolation, s'.d_is_initialized = true →
      s'.d_homogeneous_bc = s.d_homogeneous_bc →
      initializeOperatorState env transaction_comps hierarchy coarsest_ln finest_ln (w, s') =
        initializeOperatorState env transaction_comps hierarchy coarsest_ln finest_ln (w, s)) ∧
    initializeOperatorState env transaction_comps hierarchy coarsest_ln finest_ln (w, s) =
      initializeOperatorState env transaction_comps hierarchy coarsest_ln finest_ln
        (w, setHomogeneousBc HierarchyGhostCellInterpolation.new s.d_homogeneous_bc) := by
  have h1 : initCacheHierarchy transaction_comps hierarchy coarsest_ln finest_ln s =
      initCacheHierarchy transaction_comps hierarchy coarsest_ln finest_ln
        (deallocateOperatorState s) := by
    unfold initCacheHierarchy
    simp [hinit, deallocateOperatorState_idem]
  refine ⟨?_, ?_, ?_⟩
  · unfold initializeOperatorState
    simp only [h1]
  · intro s' hinit' hbc
    have h2 : initCacheHierarchy transaction_comps hierarchy coarsest_ln finest_ln s' =
        initCacheHierarchy transaction_comps hierarchy coarsest_ln finest_ln s := by
      unfold initCacheHierarchy
      simp [deallocateOperatorState, hinit, hinit', hbc]
    unfold initializeOperatorState
    simp only [h2]
  · have h3 : initCacheHierarchy transaction_comps hierarchy coarsest_ln finest_ln s =
        initCacheHierarchy transaction_comps hierarchy coarsest_ln finest_ln
          (setHomogeneousBc HierarchyGhostCellInterpolation.new s.d_homogeneous_bc) := by
      unfold initCacheHierarchy
      simp [deallocateOperatorState, hinit, setHomogeneousBc,
        HierarchyGhostCellInterpolation.new]
    unfold initializeOperatorState
    simp only [h3]

/-- Witness of C8: the orchestrator initialized on two probe components is
initialized again on one component. -/
theorem initialize_on_initialized_witness :
    probeState.2.d_is_initialized = true ∧
    initializeOperatorState (probeEnv true) [probeComponent 0 true [some 0]] probeHierarchy 0 1
        (probeState.1, probeState.2) =
      initializeOperatorState (probeEnv true) [probeComponent 0 true [some 0]] probeHierarchy 0 1
        (probeState.1, deallocateOperatorState probeState.2) :=
  ⟨rfl, (initialize_on_initialized (probeEnv true) [probeComponent 0 true [some 0]]
    probeHierarchy 0 1 probeState.1 probeState.2 rfl).1⟩

/-- Counterexample to C9 as stated: with assertions compiled out, a
side-centered component with one non-null Robin coefficient object in a
two-dimensional hierarchy (case (c)) is accepted, and the orchestrator reaches
the initialized state. -/
theorem side_robin_wrong_count_accepted :
    sideRobinWrongCount (probeEnv false) probeHierarchy.dim (probeComponent 1 false [some 0]) ∧
    ∃ sys', initializeOperatorState (probeEnv false) [probeComponent 1 false [some 0]]
        probeHierarchy (-1) (-1) (World.start, HierarchyGhostCellInterpolation.new) =
          Except.ok sys' ∧ sys'.2.d_is_initialized = true := by
  constructor
  · exact ⟨rfl, rfl, by decide⟩
  · exact ⟨_, rfl, rfl⟩

/-- C9, amended. `initializeOperatorState` fails with a fatal error, and the
state at the error is not initialized, whenever some registered component (a)
has a source variable that is none of double cell-, node- or side-centered, or
(b) is node-centered and requests coarse-fine boundary interpolation, or (c)
is side-centered, supplies at least one non-null Robin coefficient object and
a number of coefficient objects different from the dimension, in a build in
which `TBOX_ASSERT` is checked. -/
theorem initialize_rejects_unsupported (env : Collaborators)
    (transaction_comps : List InterpolationTransactionComponent) (hierarchy : PatchHierarchy)
    (coarsest_ln finest_ln : Int) (sys : Sys) (comp : InterpolationTransactionComponent)
    (hmem : comp ∈ transaction_comps)
    (hbad : unsupportedCentering env comp ∨ nodeCenteredCF env comp ∨
      (env.check_assertions = true ∧ sideRobinWrongCount env hierarchy.dim comp)) :
    ∃ msg st,
      initializeOperatorState env transaction_comps hierarchy coarsest_ln finest_ln sys =
        Except.error (msg, st) ∧
      st.2.d_is_initialized = false :=
  initializeOperatorState_rejects env transaction_comps hierarchy coarsest_ln finest_ln sys comp
    hmem hbad

/-- Witness of the amended C9: with assertions checked, the side-centered
component with one coefficient object in two dimensions is rejected. -/
theorem initialize_rejects_unsupported_witness :
    (probeEnv true).check_assertions = true ∧
    sideRobinWrongCount (probeEnv true) probeHierarchy.dim (probeComponent 1 false [some 0]) ∧
    ∃ msg st,
      initializeOperatorState (probeEnv true) [probeComponent 1 false [some 0]] probeHierarchy
        (-1) (-1) (World.start, HierarchyGhostCellInterpolation.new) = Except.error (msg, st) ∧
      st.2.d_is_initialized = false :=
  ⟨rfl, ⟨rfl, rfl, by decide⟩,
    initialize_rejects_unsupported (probeEnv true) [probeComponent 1 false [some 0]]
      probeHierarchy (-1) (-1) (World.start, HierarchyGhostCellInterpolation.new)
      (probeComponent 1 false [some 0]) (List.mem_singleton.2 rfl)
      (Or.inr (Or.inr ⟨rfl, rfl, rfl, by decide⟩))⟩

/-- C10. In a process that starts with nothing registered, whatever objects
it has, the first `initializeOperatorState` call (on an existing object)
executes the pair of `addCoarsenOperator` calls, and after any further
sequence of `initializeOperatorState` calls on any objects the
`addCoarsenOperator` calls of the whole trace are still exactly that pair. -/
theorem cubic_coarsen_ops_registered_once (env : Collaborators)
    (objects : List HierarchyGhostCellInterpolation) (c : InitCall) (cs : List InitCall)
    (hc : c.object < objects.length) :
    cubicCoarsenRegistrations (Process.call env (Process.start objects) c).world.trace =
        cubicCoarsenPair ∧
      cubicCoarsenRegistrations (Process.run env (Process.start objects) (c :: cs)).world.trace =
        cubicCoarsenPair := by
  have h := Process.first_call env objects c hc
  exact ⟨h.2, Process.run_registered env cs _ h.1 h.2⟩

/-- Witness of C10: two objects, three calls. -/
theorem cubic_coarsen_ops_registered_once_witness :
    cubicCoarsenRegistrations
        (Process.call (probeEnv true)
          (Process.start [HierarchyGhostCellInterpolation.new,
            HierarchyGhostCellInterpolation.new]) (probeCall 0)).world.trace =
        cubicCoarsenPair ∧
      cubicCoarsenRegistrations
        (Process.run (probeEnv true)
          (Process.start [HierarchyGhostCellInterpolation.new,
            HierarchyGhostCellInterpolation.new])
          (probeCall 0 :: [probeCall 1, probeCall 0])).world.trace =
        cubicCoarsenPair :=
  cubic_coarsen_ops_registered_once (probeEnv true)
    [HierarchyGhostCellInterpolation.new, HierarchyGhostCellInterpolation.new] (probeCall 0)
    [probeCall 1, probeCall 0] (by decide)

/-! ## The copy at Dirichlet boundaries -/

theorem foldl_accum {α β ι : Type} (P : α → Set ι → Prop) (key : β → Set ι) (step : α → β → α)
    (l : List β) (hstep : ∀ a W b, b ∈ l → P a W → P (step a b) (W ∪ key b)) :
    ∀ a W, P a W → P (l.foldl step a) (W ∪ {j | ∃ b ∈ l, j ∈ key b}) := by
  induction l with
  | nil =>
      intro a W h
      have e : W ∪ {j | ∃ b ∈ ([] : List β), j ∈ key b} = W := by
        ext j; simp
      rw [e]; exact h
  | cons b l ih =>
      intro a W h
      have h1 := hstep a W b (List.mem_cons_self _ _) h
      have h2 := ih (fun a W c hc => hstep a W c (List.mem_cons_of_mem _ hc)) _ _ h1
      have e : W ∪ {j | ∃ c ∈ b :: l, j ∈ key c} = (W ∪ key b) ∪ {j | ∃ c ∈ l, j ∈ key c} := by
        ext j
        simp only [Set.mem_union, Set.mem_setOf_eq, List.mem_cons]
        constructor
        · rintro (hj | ⟨c, rfl | hc, hj⟩)
          · exact Or.inl (Or.inl hj)
          · exact Or.inl (Or.inr hj)
          · exact Or.inr ⟨c, hc, hj⟩
        · rintro ((hj | hj) | ⟨c, hc, hj⟩)
          · exact Or.inl hj
          · exact Or.inr ⟨b, Or.inl rfl, hj⟩
          · exact Or.inr ⟨c, Or.inr hc, hj⟩
      rw [List.foldl_cons, e]; exact h2

theorem OverwrittenOn.copy_at {n : Nat} {u_out u_in u : SideData n ℚ}
    {W : Set (Nat × Index n)} (h : OverwrittenOn u_out u_in u W) (a : Nat) (i : Index n) :
    OverwrittenOn u_out u_in (u.assign a i (u_in.val a i)) (W ∪ {(a, i)}) := by
  intro axis j
  simp only [SideData.assign, Set.mem_union, Set.mem_singleton_iff, Prod.mk.injEq, not_or]
  by_cases hc : axis = a ∧ j = i
  · rw [if_pos hc]
    obtain ⟨rfl, rfl⟩ := hc
    exact ⟨fun _ => rfl, fun hn => absurd ⟨rfl, rfl⟩ hn.2⟩
  · rw [if_neg hc]
    exact ⟨fun hw => (h axis j).1 (hw.resolve_right hc), fun hn => (h axis j).2 hn.1⟩

theorem forFlaggedLocations_copy {n : Nat} (boxes : List (BoundaryBox n))
    (locs : List (ArrayData n Nat)) (u_out u_in : SideData n ℚ) :
    OverwrittenOn u_out u_in
      (forFlaggedLocations boxes locs
        (fun bdry_normal_axis i u => u.assign bdry_normal_axis i (u_in.val bdry_normal_axis i))
        u_out)
      {p | flaggedAt boxes locs p.1 p.2} := by
  have h0 : OverwrittenOn u_out u_in u_out ∅ := by
    intro axis j
    exact ⟨fun h => absurd h (Set.not_mem_empty _), fun _ => rfl⟩
  have key := foldl_accum (OverwrittenOn u_out u_in)
    (fun k : Nat => {p : Nat × Index n | ∃ bb ld, boxes[k]? = some bb ∧ locs[k]? = some ld ∧
      bb.location_index / 2 = p.1 ∧ ld.box.contains p.2 ∧ ld.val p.2 ≠ 0})
    (fun acc k =>
      match boxes[k]?, locs[k]? with
      | some bdry_box, some bdry_locs_data =>
          bdry_locs_data.box.cells.foldl
            (fun acc i =>
              if bdry_locs_data.val i ≠ 0 then
                acc.assign (bdry_box.location_index / 2) i
                  (u_in.val (bdry_box.location_index / 2) i)
              else acc)
            acc
      | _, _ => acc)
    (List.range boxes.length) ?_ u_out ∅ h0
  · have e : (∅ ∪ {j : Nat × Index n | ∃ b ∈ List.range boxes.length, j ∈
        {p : Nat × Index n | ∃ bb ld, boxes[b]? = some bb ∧ locs[b]? = some ld ∧
          bb.location_index / 2 = p.1 ∧ ld.box.contains p.2 ∧ ld.val p.2 ≠ 0}}) =
        {p | flaggedAt boxes locs p.1 p.2} := by
      ext p
      simp only [Set.empty_union, Set.mem_setOf_eq, List.mem_range, flaggedAt]
      constructor
      · rintro ⟨k, _, bb, ld, h1, h2, h3, h4, h5⟩
        exact ⟨k, bb, ld, h1, h2, h3, h4, h5⟩
      · rintro ⟨k, bb, ld, h1, h2, h3, h4, h5⟩
        exact ⟨k, (List.getElem?_eq_some.1 h1).1, bb, ld, h1, h2, h3, h4, h5⟩
    rw [e] at key
    exact key
  · intro a W k _ ha
    beta_reduce
    generalize boxes[k]? = ob
    generalize locs[k]? = ol
    cases ob with
    | none =>
        have e : W ∪ {p : Nat × Index n | ∃ bb ld, (none : Option (BoundaryBox n)) = some bb ∧
            ol = some ld ∧
            bb.location_index / 2 = p.1 ∧ ld.box.contains p.2 ∧ ld.val p.2 ≠ 0} = W := by
          ext p; simp
        rw [e]
        exact ha
    | some bb =>
        cases ol with
        | none =>
            have e : W ∪ {p : Nat × Index n | ∃ bb' ld, some bb = some bb' ∧
                (none : Option (ArrayData n Nat)) = some ld ∧
                bb'.location_index / 2 = p.1 ∧ ld.box.contains p.2 ∧ ld.val p.2 ≠ 0} = W := by
              ext p; simp
            rw [e]
            exact ha
        | some ld =>
            dsimp only
            have inner := foldl_accum (OverwrittenOn u_out u_in)
              (fun i : Index n => {p : Nat × Index n |
                p = (bb.location_index / 2, i) ∧ ld.val i ≠ 0})
              (fun acc i =>
                if ld.val i ≠ 0 then
                  acc.assign (bb.location_index / 2) i (u_in.val (bb.location_index / 2) i)
                else acc)
              ld.box.cells ?_ a W ha
            · have e : (W ∪ {j : Nat × Index n | ∃ b ∈ ld.box.cells, j ∈
                  {p : Nat × Index n | p = (bb.location_index / 2, b) ∧ ld.val b ≠ 0}}) =
                  W ∪ {p : Nat × Index n | ∃ bb' ld', some bb = some bb' ∧
                    some ld = some ld' ∧
                    bb'.location_index / 2 = p.1 ∧ ld'.box.contains p.2 ∧ ld'.val p.2 ≠ 0} := by
                ext p
                simp only [Set.mem_union, Set.mem_setOf_eq, mem_cells, Option.some.injEq]
                constructor
                · rintro (h | ⟨i, hi, rfl, hv⟩)
                  · exact Or.inl h
                  · exact Or.inr ⟨bb, ld, rfl, rfl, rfl, hi, hv⟩
                · rintro (h | ⟨bb', ld', rfl, rfl, h3, h4, h5⟩)
                  · exact Or.inl h
                  · exact Or.inr ⟨p.2, h4, by rw [h3], h5⟩
              rw [e] at inner
              exact inner
            · intro a' W' i _ ha'
              dsimp only
              split_ifs with hv
              · have e : W' ∪ {p : Nat × Index n |
                    p = (bb.location_index / 2, i) ∧ ld.val i ≠ 0} =
                    W' ∪ {(bb.location_index / 2, i)} := by
                  ext p; simp [hv]
                rw [e]
                exact ha'.copy_at _ _
              · have e : W' ∪ {p : Nat × Index n |
                    p = (bb.location_index / 2, i) ∧ ld.val i ≠ 0} = W' := by
                  ext p; simp [hv]
                rw [e]
                exact ha'

/-- C11. The per-patch `copyDataAtDirichletBoundaries` is an exact overwrite
of the flagged subset: for a patch that does not touch a regular boundary
`u_out` is returned unchanged; for a patch that touches one and has a cache
entry, the result equals `u_in` at every side index `(i, axis, Lower)` whose
Dirichlet flag is set in a cached boundary box with normal axis `axis`, and
equals `u_out` at every other side index. -/
theorem copyDataAtDirichletBoundaries_exact_overwrite {n : Nat}
    (helper : StaggeredPhysicalBoundaryHelper n) (u_out_data u_in_data : SideData n ℚ)
    (patch : PatchInfo) :
    (patch.touches_regular_boundary = false →
      copyDataAtDirichletBoundaries_patch helper u_out_data u_in_data patch = some u_out_data) ∧
    (patch.touches_regular_boundary = true →
      ∀ (physical_codim1_boxes : List (BoundaryBox n))
        (dirichlet_bdry_locs : List (ArrayData n Nat)),
        helper.d_physical_codim1_boxes patch.level_number patch.global_id =
          some physical_codim1_boxes →
        helper.d_dirichlet_bdry_locs patch.level_number patch.global_id =
          some dirichlet_bdry_locs →
        ∃ u, copyDataAtDirichletBoundaries_patch helper u_out_data u_in_data patch = some u ∧
          ∀ (axis : Nat) (i : Index n),
            (flaggedAt physical_codim1_boxes dirichlet_bdry_locs axis i →
              u.val axis i = u_in_data.val axis i) ∧
            (¬ flaggedAt physical_codim1_boxes dirichlet_bdry_locs axis i →
              u.val axis i = u_out_data.val axis i)) := by
  constructor
  · intro h
    simp [copyDataAtDirichletBoundaries_patch, h]
  · intro h boxes locs hb hl
    refine ⟨forFlaggedLocations boxes locs
      (fun bdry_normal_axis i u => u.assign bdry_normal_axis i (u_in_data.val bdry_normal_axis i))
      u_out_data, by simp [copyDataAtDirichletBoundaries_patch, h, hb, hl], ?_⟩
    exact forFlaggedLocations_copy boxes locs u_out_data u_in_data

/-- Witness of C11: the flagged helper, `u_out = 0` and `u_in = 1`. -/
theorem copyDataAtDirichletBoundaries_exact_overwrite_witness :
    ∃ u, copyDataAtDirichletBoundaries_patch flaggedHelper ⟨fun _ _ => 0⟩ ⟨fun _ _ => 1⟩
        flaggedPatch = some u ∧
      ∀ (axis : Nat) (i : Index 2),
        (flaggedAt [⟨⟨![-1, 0], ![-1, 3]⟩, 0⟩] [⟨⟨![0, 0], ![0, 3]⟩, fun _ => 1⟩] axis i →
          u.val axis i = 1) ∧
        (¬ flaggedAt [⟨⟨![-1, 0], ![-1, 3]⟩, 0⟩] [⟨⟨![0, 0], ![0, 3]⟩, fun _ => 1⟩] axis i →
          u.val axis i = 0) :=
  (copyDataAtDirichletBoundaries_exact_overwrite flaggedHelper ⟨fun _ _ => 0⟩ ⟨fun _ _ => 1⟩
    flaggedPatch).2 rfl _ _ rfl rfl

/-! ## Results on `setExtrapolationType` -/

/-- C12. `setExtrapolationType` raises a fatal error if and only if the string
is none of "CONSTANT", "LINEAR", "QUADRATIC"; at the error the operator (and
the process-wide state) is unchanged, and on success, QUADRATIC included, the
stored type is the argument (the patch data indices are kept). -/
theorem setExtrapolationType_fatal_iff (w : World) (op : CartExtrapPhysBdryOp)
    (extrap_type : String) :
    ((∃ e, setExtrapolationType (w, op) extrap_type = Except.error e) ↔
      (extrap_type ≠ "CONSTANT" ∧ extrap_type ≠ "LINEAR" ∧ extrap_type ≠ "QUADRATIC")) ∧
    (∀ e, setExtrapolationType (w, op) extrap_type = Except.error e →
      e.2.2 = op ∧ e.2.1 = w) ∧
    (∀ st, setExtrapolationType (w, op) extrap_type = Except.ok st →
      st.2.d_extrap_type = extrap_type ∧
      st.2.d_patch_data_indices = op.d_patch_data_indices) := by
  unfold setExtrapolationType
  by_cases h : extrap_type ≠ "CONSTANT" ∧ extrap_type ≠ "LINEAR" ∧ extrap_type ≠ "QUADRATIC"
  · rw [if_pos h]
    refine ⟨⟨fun _ => h, fun _ => ⟨_, rfl⟩⟩, ?_, ?_⟩
    · intro e he
      injection he with he
      subst he
      exact ⟨rfl, rfl⟩
    · intro st hst
      exact absurd hst (by simp)
  · rw [if_neg h]
    refine ⟨⟨?_, fun h' => absurd h' h⟩, ?_, ?_⟩
    · rintro ⟨e, he⟩
      exact absurd he (by simp)
    · intro e he
      exact absurd he (by simp)
    · intro st hst
      injection hst with hst
      subst hst
      exact ⟨rfl, rfl⟩

/-- Witness of C12: QUADRATIC is accepted with one warning, "CUBIC" is
rejected and leaves the type LINEAR. -/
theorem setExtrapolationType_fatal_iff_witness :
    (∃ st, setExtrapolationType (World.start, ⟨[3], "LINEAR"⟩) "QUADRATIC" = Except.ok st ∧
      st.2.d_extrap_type = "QUADRATIC" ∧ st.1.trace.length = 1) ∧
    (∃ e, setExtrapolationType (World.start, ⟨[3], "LINEAR"⟩) "CUBIC" = Except.error e ∧
      e.2.2.d_extrap_type = "LINEAR") :=
  ⟨⟨_, rfl, ((setExtrapolationType_fatal_iff World.start ⟨[3], "LINEAR"⟩ "QUADRATIC").2.2 _
      rfl).1, rfl⟩,
    ⟨_, rfl, congrArg CartExtrapPhysBdryOp.d_extrap_type
      ((setExtrapolationType_fatal_iff World.start ⟨[3], "LINEAR"⟩ "CUBIC").2.1 _ rfl).1⟩⟩

/-! ## The calls of `fillData`, exactly -/

theorem World.emit_eq_emitAll (w : World) (e : Event) : w.emit e = w.emitAll [e] := rfl

theorem World.emitAll_nil (w : World) : w.emitAll [] = w := by
  simp [World.emitAll]

theorem World.emitAll_emitAll (w : World) (a b : List Event) :
    (w.emitAll a).emitAll b = w.emitAll (a ++ b) := by
  simp [World.emitAll, List.append_assoc]

theorem World.ite_emit (w : World) (c : Prop) [Decidable c] (e : Event) :
    (if c then w.emit e else w) = w.emitAll (if c then [e] else []) := by
  split_ifs
  · rfl
  · exact (World.emitAll_nil w).symm

theorem foldl_emitAll {β : Type} (f : β → List Event) (l : List β) (w : World) :
    l.foldl (fun w x => w.emitAll (f x)) w = w.emitAll (l.flatMap f) := by
  induction l generalizing w with
  | nil => simp [World.emitAll_nil]
  | cons b l ih =>
      rw [List.foldl_cons, ih, World.emitAll_emitAll]
      simp

theorem flatMap_ite_singleton {β γ : Type} (p : β → Bool) (g : β → γ) (l : List β) :
    l.flatMap (fun x => if p x = true then [g x] else []) = (l.filter p).map g := by
  induction l with
  | nil => rfl
  | cons a l ih =>
      simp only [List.flatMap_cons, List.filter_cons, ih]
      split_ifs <;> simp

theorem fillData_coarsen_eq (s : HierarchyGhostCellInterpolation) (w : World) :
    fillData_coarsen s w = w.emitAll (coarsenEvents s) := by
  unfold fillData_coarsen coarsenEvents
  simp only [World.ite_emit]
  rw [foldl_emitAll, flatMap_ite_singleton]

theorem fillData_refine_eq (s : HierarchyGhostCellInterpolation) (w : World) :
    fillData_refine s w = w.emitAll (refineEvents s) := by
  unfold fillData_refine refineEvents
  simp only [foldl_emitAll, World.ite_emit, World.emitAll_emitAll, flatMap_ite_singleton]
  rfl

theorem fillData_robin_eq (s : HierarchyGhostCellInterpolation) (w : World) :
    fillData_robin s w = w.emitAll (robinEvents s) := by
  unfold fillData_robin robinEvents
  have inner : ∀ (ln : Int) (patch : PatchInfo) (w : World),
      (List.range s.d_transaction_comps.length).foldl
        (fun w comp_idx =>
          let w :=
            if (slot s.d_cc_robin_bc_ops comp_idx).isSome then
              w.emit
                (Event.ccSetPhysicalBoundaryConditions ln patch.global_id comp_idx
                  (patch.getGhostCellWidth (dstDataIdx s comp_idx)))
            else w
          if (slot s.d_sc_robin_bc_ops comp_idx).isSome then
            w.emit
              (Event.scSetPhysicalBoundaryConditions ln patch.global_id comp_idx
                (patch.getGhostCellWidth (dstDataIdx s comp_idx)))
          else w) w = w.emitAll (robinPatchEvents s ln patch) := by
    intro ln patch w
    simp only [World.ite_emit, World.emitAll_emitAll]
    rw [foldl_emitAll]
    rfl
  have step : ∀ (ln : Int) (patch : PatchInfo) (w : World),
      (if patch.touches_regular_boundary = true then
        (List.range s.d_transaction_comps.length).foldl
          (fun w comp_idx =>
            let w :=
              if (slot s.d_cc_robin_bc_ops comp_idx).isSome then
                w.emit
                  (Event.ccSetPhysicalBoundaryConditions ln patch.global_id comp_idx
                    (patch.getGhostCellWidth (dstDataIdx s comp_idx)))
              else w
            if (slot s.d_sc_robin_bc_ops comp_idx).isSome then
              w.emit
                (Event.scSetPhysicalBoundaryConditions ln patch.global_id comp_idx
                  (patch.getGhostCellWidth (dstDataIdx s comp_idx)))
            else w) w
        else w) =
        w.emitAll (if patch.touches_regular_boundary = true then robinPatchEvents s ln patch
          else []) := by
    intro ln patch w
    split_ifs
    · exact inner ln patch w
    · exact (World.emitAll_nil w).symm
  simp only [step, foldl_emitAll]

theorem slot_set_of_some {α : Type} (v : List (Option α)) (m : Nat) (a : α)
    (h : slot v m = some a) (x : Option α) (k : Nat) :
    slot (v.set m x) k = if k = m then x else slot v k := by
  have hm : m < v.length := by
    by_contra hc
    have : slot v m = none := by
      unfold slot
      rw [List.getD_eq_getElem?_getD, List.getElem?_eq_none (Nat.le_of_not_lt hc)]
      rfl
    rw [this] at h
    exact absurd h (by simp)
  unfold slot
  simp only [List.getD_eq_getElem?_getD, List.getElem?_set]
  by_cases hk : k = m
  · subst hk
    simp [hm]
  · simp [hk, Ne.symm hk]

theorem FlagPushed.step (b : Bool) (m : Nat) (orig v : List (Option RobinPhysBdryOp))
    (h : FlagPushed b m orig v) :
    FlagPushed b (m + 1) orig
      (match slot v m with
      | some op => v.set m (some { op with d_homogeneous_bc := b })
      | none => v) ∧
    (slot v m).isSome = (slot orig m).isSome := by
  have hm : slot v m = slot orig m := by
    rw [h m, if_neg (Nat.lt_irrefl m)]
  refine ⟨?_, by rw [hm]⟩
  intro k
  cases hs : slot v m with
  | none =>
      dsimp only
      rw [h k]
      by_cases hk : k < m
      · rw [if_pos hk, if_pos (Nat.lt_succ_of_lt hk)]
      · rw [if_neg hk]
        by_cases hk' : k = m
        · subst hk'
          rw [if_pos (Nat.lt_succ_self k), ← hm, hs]
          rfl
        · rw [if_neg (by omega)]
  | some op =>
      dsimp only
      rw [slot_set_of_some v m op hs]
      by_cases hk' : k = m
      · subst hk'
        rw [if_pos rfl, if_pos (Nat.lt_succ_self k), ← hm, hs]
        rfl
      · rw [if_neg hk', h k]
        by_cases hk : k < m
        · rw [if_pos hk, if_pos (Nat.lt_succ_of_lt hk)]
        · rw [if_neg hk, if_neg (by omega)]

theorem fillData_setHomogeneousBc_upto (sys : Sys) (m : Nat) :
    ∃ cc sc,
      (List.range m).foldl
        (fun (sys : Sys) comp_idx =>
          let sys : Sys :=
            match slot sys.2.d_cc_robin_bc_ops comp_idx with
            | some op =>
                (sys.1.emit (Event.ccSetHomogeneousBc comp_idx sys.2.d_homogeneous_bc),
                  { sys.2 with
                    d_cc_robin_bc_ops :=
                      sys.2.d_cc_robin_bc_ops.set comp_idx
                        (some { op with d_homogeneous_bc := sys.2.d_homogeneous_bc }) })
            | none => sys
          match slot sys.2.d_sc_robin_bc_ops comp_idx with
          | some op =>
              (sys.1.emit (Event.scSetHomogeneousBc comp_idx sys.2.d_homogeneous_bc),
                { sys.2 with
                  d_sc_robin_bc_ops :=
                    sys.2.d_sc_robin_bc_ops.set comp_idx
                      (some { op with d_homogeneous_bc := sys.2.d_homogeneous_bc }) })
          | none => sys)
        sys =
        (sys.1.emitAll
          ((List.range m).flatMap
            (fun comp_idx =>
              (if (slot sys.2.d_cc_robin_bc_ops comp_idx).isSome = true then
                [Event.ccSetHomogeneousBc comp_idx sys.2.d_homogeneous_bc] else []) ++
              (if (slot sys.2.d_sc_robin_bc_ops comp_idx).isSome = true then
                [Event.scSetHomogeneousBc comp_idx sys.2.d_homogeneous_bc] else []))),
          withRobinOps sys.2 cc sc) ∧
      FlagPushed sys.2.d_homogeneous_bc m sys.2.d_cc_robin_bc_ops cc ∧
      FlagPushed sys.2.d_homogeneous_bc m sys.2.d_sc_robin_bc_ops sc := by
  induction m with
  | zero =>
      refine ⟨sys.2.d_cc_robin_bc_ops, sys.2.d_sc_robin_bc_ops, ?_, ?_, ?_⟩
      · simp [World.emitAll_nil, withRobinOps]
      · intro k; simp
      · intro k; simp
  | succ m ih =>
      obtain ⟨cc, sc, h1, h2, h3⟩ := ih
      obtain ⟨hc1, hc2⟩ := FlagPushed.step _ m _ cc h2
      obtain ⟨hs1, hs2⟩ := FlagPushed.step _ m _ sc h3
      refine ⟨_, _, ?_, hc1, hs1⟩
      rw [List.range_succ, List.foldl_append, h1, List.flatMap_append]
      simp only [List.foldl_cons, List.foldl_nil, List.flatMap_cons, List.flatMap_nil,
        List.append_nil]
      rw [← World.emitAll_emitAll, ← World.emitAll_emitAll, ← hc2, ← hs2]
      cases hcc : slot cc m with
      | none =>
          cases hsc : slot sc m with
          | none => simp [withRobinOps, hcc, hsc, World.emitAll_nil]
          | some op2 =>
              simp [withRobinOps, hcc, hsc, World.emitAll_nil, World.emit_eq_emitAll]
      | some op1 =>
          cases hsc : slot sc m with
          | none => simp [withRobinOps, hcc, hsc, World.emitAll_nil, World.emit_eq_emitAll]
          | some op2 =>
              simp [withRobinOps, hcc, hsc, World.emitAll_nil, World.emit_eq_emitAll]

theorem FlagPushed.isSome {b : Bool} {m : Nat} {orig v : List (Option RobinPhysBdryOp)}
    (h : FlagPushed b m orig v) (k : Nat) : (slot v k).isSome = (slot orig k).isSome := by
  rw [h k]
  split_ifs
  · cases slot orig k <;> rfl
  · rfl

theorem robinEvents_withRobinOps (s : HierarchyGhostCellInterpolation)
    (cc sc : List (Option RobinPhysBdryOp))
    (hcc : ∀ k, (slot cc k).isSome = (slot s.d_cc_robin_bc_ops k).isSome)
    (hsc : ∀ k, (slot sc k).isSome = (slot s.d_sc_robin_bc_ops k).isSome) :
    robinEvents (withRobinOps s cc sc) = robinEvents s := by
  unfold robinEvents robinPatchEvents
  simp only [withRobinOps, hcc, hsc]
  rfl

theorem fillData_exact (env : Collaborators) (sys : Sys)
    (hinit : sys.2.d_is_initialized = true) :
    ∃ cc sc,
      fillData env sys =
        Except.ok
          (sys.1.emitAll
            (homogeneousEvents sys.2 ++ coarsenEvents sys.2 ++ refineEvents sys.2 ++
              robinEvents sys.2),
            withRobinOps sys.2 cc sc) ∧
      FlagPushed sys.2.d_homogeneous_bc sys.2.d_transaction_comps.length
        sys.2.d_cc_robin_bc_ops cc ∧
      FlagPushed sys.2.d_homogeneous_bc sys.2.d_transaction_comps.length
        sys.2.d_sc_robin_bc_ops sc := by
  obtain ⟨cc, sc, h1, h2, h3⟩ :=
    fillData_setHomogeneousBc_upto sys sys.2.d_transaction_comps.length
  refine ⟨cc, sc, ?_, h2, h3⟩
  have h0 : fillData_setHomogeneousBc sys =
      (sys.1.emitAll (homogeneousEvents sys.2), withRobinOps sys.2 cc sc) := h1
  unfold fillData
  rw [if_neg (by simp [hinit])]
  simp only [h0, fillData_coarsen_eq, fillData_refine_eq, fillData_robin_eq,
    World.emitAll_emitAll]
  rw [robinEvents_withRobinOps _ _ _ (fun k => h2.isSome k) (fun k => h3.isSome k)]
  rfl

theorem intRange_pairwise_lt (lo hi : Int) : (intRange lo hi).Pairwise (fun a b => a < b) := by
  unfold intRange
  rw [List.pairwise_map]
  exact (List.pairwise_lt_range _).imp (fun h => by omega)

theorem isCoarsenExecution_eq (e : Event) :
    e.isCoarsenExecution = decide (e.fillPhase = 1) := by
  cases e <;> rfl

theorem isRefineOrNormalExtension_eq (e : Event) :
    e.isRefineOrNormalExtension = decide (e.fillPhase = 2) := by
  cases e <;> rfl

theorem isRobin_eq (e : Event) :
    e.isRobinSetPhysicalBoundaryConditions = decide (e.fillPhase = 3) := by
  cases e <;> rfl

theorem fillPhase_of_isSetHomogeneousBc (e : Event) (h : e.isSetHomogeneousBc = true) :
    e.fillPhase = 0 := by
  cases e <;> simp_all [Event.isSetHomogeneousBc, Event.fillPhase]

theorem filter_phase (l : List Event) (k j : Nat) (h : ∀ e ∈ l, e.fillPhase = k) :
    l.filter (fun e => decide (e.fillPhase = j)) = if k = j then l else [] := by
  split_ifs with hkj
  · rw [List.filter_eq_self]
    intro e he
    simp [h e he, hkj]
  · rw [List.filter_eq_nil_iff]
    intro e he
    simp [h e he, hkj]

theorem homogeneousEvents_phase (s : HierarchyGhostCellInterpolation) :
    ∀ e ∈ homogeneousEvents s, e.fillPhase = 0 := by
  intro e he
  simp only [homogeneousEvents, List.mem_flatMap, List.mem_append] at he
  obtain ⟨k, -, h | h⟩ := he
  · split_ifs at h
    · simp only [List.mem_singleton] at h; subst h; rfl
    · simp at h
  · split_ifs at h
    · simp only [List.mem_singleton] at h; subst h; rfl
    · simp at h

theorem coarsenEvents_phase (s : HierarchyGhostCellInterpolation) :
    ∀ e ∈ coarsenEvents s, e.fillPhase = 1 := by
  intro e he
  simp only [coarsenEvents, List.mem_map] at he
  obtain ⟨L, -, rfl⟩ := he
  rfl

theorem refineEvents_phase (s : HierarchyGhostCellInterpolation) :
    ∀ e ∈ refineEvents s, e.fillPhase = 2 := by
  intro e he
  simp only [refineEvents, refineLevelEvents, normalExtensionEvents, List.mem_flatMap,
    List.mem_append, List.mem_map] at he
  obtain ⟨L, -, h | ⟨p, -, k, -, rfl⟩⟩ := he
  · split_ifs at h
    · simp only [List.mem_singleton] at h; subst h; rfl
    · simp at h
  · rfl

theorem robinEvents_phase (s : HierarchyGhostCellInterpolation) :
    ∀ e ∈ robinEvents s, e.fillPhase = 3 := by
  intro e he
  simp only [robinEvents, robinPatchEvents, List.mem_flatMap, List.mem_append] at he
  obtain ⟨L, -, p, -, h⟩ := he
  split_ifs at h
  · simp only [List.mem_flatMap, List.mem_append] at h
    obtain ⟨k, -, h | h⟩ := h
    · split_ifs at h
      · simp only [List.mem_singleton] at h; subst h; rfl
      · simp at h
    · split_ifs at h
      · simp only [List.mem_singleton] at h; subst h; rfl
      · simp at h
  · simp at h

/-- The calls of each kind in the trace of `fillData`. -/
theorem fillData_events_filter (s : HierarchyGhostCellInterpolation) :
    (homogeneousEvents s ++ coarsenEvents s ++ refineEvents s ++ robinEvents s).filter
        Event.isCoarsenExecution = coarsenEvents s ∧
    (homogeneousEvents s ++ coarsenEvents s ++ refineEvents s ++ robinEvents s).filter
        Event.isRefineOrNormalExtension = refineEvents s ∧
    (homogeneousEvents s ++ coarsenEvents s ++ refineEvents s ++ robinEvents s).filter
        Event.isRobinSetPhysicalBoundaryConditions = robinEvents s := by
  have e1 : Event.isCoarsenExecution = fun e => decide (e.fillPhase = 1) :=
    funext isCoarsenExecution_eq
  have e2 : Event.isRefineOrNormalExtension = fun e => decide (e.fillPhase = 2) :=
    funext isRefineOrNormalExtension_eq
  have e3 : Event.isRobinSetPhysicalBoundaryConditions = fun e => decide (e.fillPhase = 3) :=
    funext isRobin_eq
  rw [e1, e2, e3]
  simp only [List.filter_append, filter_phase _ 0 _ (homogeneousEvents_phase s),
    filter_phase _ 1 _ (coarsenEvents_phase s), filter_phase _ 2 _ (refineEvents_phase s),
    filter_phase _ 3 _ (robinEvents_phase s)]
  simp

theorem fillData_events_sorted (s : HierarchyGhostCellInterpolation) :
    (homogeneousEvents s ++ coarsenEvents s ++ refineEvents s ++ robinEvents s).Pairwise
      (fun a b => a.fillPhase ≤ b.fillPhase) := by
  have h0 := homogeneousEvents_phase s
  have h1 := coarsenEvents_phase s
  have h2 := refineEvents_phase s
  have h3 := robinEvents_phase s
  have pw : ∀ (l : List Event) (k : Nat), (∀ e ∈ l, e.fillPhase = k) →
      l.Pairwise (fun a b => a.fillPhase ≤ b.fillPhase) := by
    intro l k hl
    rw [List.pairwise_iff_forall_sublist]
    intro a b hab
    have ha := hl a (hab.subset (by simp))
    have hb := hl b (hab.subset (by simp))
    omega
  simp only [List.pairwise_append, List.mem_append]
  refine ⟨⟨⟨pw _ 0 h0, pw _ 1 h1, ?_⟩, pw _ 2 h2, ?_⟩, pw _ 3 h3, ?_⟩
  · intro a ha b hb
    rw [h0 a ha, h1 b hb]; omega
  · rintro a (ha | ha) b hb
    · rw [h0 a ha, h2 b hb]; omega
    · rw [h1 a ha, h2 b hb]; omega
  · rintro a ((ha | ha) | ha) b hb
    · rw [h0 a ha, h3 b hb]; omega
    · rw [h1 a ha, h3 b hb]; omega
    · rw [h2 a ha, h3 b hb]; omega

/-! ## Results on `fillData` -/

theorem flatMap_ite_filter {β γ : Type} (p : β → Bool) (f : β → List γ) (l : List β) :
    l.flatMap (fun x => if p x = true then f x else []) = (l.filter p).flatMap f := by
  induction l with
  | nil => rfl
  | cons a l ih =>
      simp only [List.flatMap_cons, List.filter_cons, ih]
      split_ifs <;> simp

theorem mem_fillData_events_robin (s : HierarchyGhostCellInterpolation) (e : Event)
    (he : e.fillPhase = 3) :
    e ∈ homogeneousEvents s ++ coarsenEvents s ++ refineEvents s ++ robinEvents s ↔
      e ∈ robinEvents s := by
  simp only [List.mem_append]
  constructor
  · rintro (((h | h) | h) | h)
    · have := homogeneousEvents_phase s e h; omega
    · have := coarsenEvents_phase s e h; omega
    · have := refineEvents_phase s e h; omega
    · exact h
  · exact fun h => Or.inr h

theorem mem_robinEvents_cc (s : HierarchyGhostCellInterpolation) (ln : Int) (pid k : Nat)
    (g : List Int) :
    Event.ccSetPhysicalBoundaryConditions ln pid k g ∈ robinEvents s ↔
      (s.d_coarsest_ln ≤ ln ∧ ln ≤ s.d_finest_ln ∧
        ∃ patch ∈ (hierarchyLevel s ln).patches,
          patch.global_id = pid ∧ patch.touches_regular_boundary = true ∧
          k < s.d_transaction_comps.length ∧
          (slot s.d_cc_robin_bc_ops k).isSome = true ∧
          g = patch.getGhostCellWidth (dstDataIdx s k)) := by
  simp only [robinEvents, robinPatchEvents, refineLevels, List.mem_flatMap, mem_intRange]
  constructor
  · rintro ⟨L, ⟨hL0, hL1⟩, patch, hp, h⟩
    split_ifs at h with ht
    · simp only [List.mem_flatMap, List.mem_append, List.mem_range] at h
      obtain ⟨j, hj, h | h⟩ := h
      · split_ifs at h with hs
        · simp only [List.mem_singleton, Event.ccSetPhysicalBoundaryConditions.injEq] at h
          obtain ⟨rfl, rfl, rfl, rfl⟩ := h
          exact ⟨hL0, hL1, patch, hp, rfl, ht, hj, hs, rfl⟩
        · simp at h
      · split_ifs at h with hs
        · simp at h
        · simp at h
    · simp at h
  · rintro ⟨hL0, hL1, patch, hp, rfl, ht, hk, hs, rfl⟩
    refine ⟨ln, ⟨hL0, hL1⟩, patch, hp, ?_⟩
    rw [if_pos ht]
    simp only [List.mem_flatMap, List.mem_append, List.mem_range]
    refine ⟨k, hk, Or.inl ?_⟩
    rw [if_pos hs]
    exact List.mem_singleton.mpr rfl

theorem mem_robinEvents_sc (s : HierarchyGhostCellInterpolation) (ln : Int) (pid k : Nat)
    (g : List Int) :
    Event.scSetPhysicalBoundaryConditions ln pid k g ∈ robinEvents s ↔
      (s.d_coarsest_ln ≤ ln ∧ ln ≤ s.d_finest_ln ∧
        ∃ patch ∈ (hierarchyLevel s ln).patches,
          patch.global_id = pid ∧ patch.touches_regular_boundary = true ∧
          k < s.d_transaction_comps.length ∧
          (slot s.d_sc_robin_bc_ops k).isSome = true ∧
          g = patch.getGhostCellWidth (dstDataIdx s k)) := by
  simp only [robinEvents, robinPatchEvents, refineLevels, List.mem_flatMap, mem_intRange]
  constructor
  · rintro ⟨L, ⟨hL0, hL1⟩, patch, hp, h⟩
    split_ifs at h with ht
    · simp only [List.mem_flatMap, List.mem_append, List.mem_range] at h
      obtain ⟨j, hj, h | h⟩ := h
      · split_ifs at h with hs
        · simp at h
        · simp at h
      · split_ifs at h with hs
        · simp only [List.mem_singleton, Event.scSetPhysicalBoundaryConditions.injEq] at h
          obtain ⟨rfl, rfl, rfl, rfl⟩ := h
          exact ⟨hL0, hL1, patch, hp, rfl, ht, hj, hs, rfl⟩
        · simp at h
    · simp at h
  · rintro ⟨hL0, hL1, patch, hp, rfl, ht, hk, hs, rfl⟩
    refine ⟨ln, ⟨hL0, hL1⟩, patch, hp, ?_⟩
    rw [if_pos ht]
    simp only [List.mem_flatMap, List.mem_append, List.mem_range]
    refine ⟨k, hk, Or.inr ?_⟩
    rw [if_pos hs]
    exact List.mem_singleton.mpr rfl

/-- C16. For every boolean `b`, the `fillData` call that follows
`setHomogeneousBc(b)` on an initialized orchestrator returns; every
registered (non-null) cell-centered and side-centered Robin operator of a
component then holds the flag `b` (its other fields unchanged) and received
the call `setHomogeneousBc(b)`; and in the sequence `evs` of collaborator
calls every such call precedes every coarsen or refine schedule execution,
every normal extension and every Robin `setPhysicalBoundaryConditions`. -/
theorem fillData_pushes_homogeneous_flag (env : Collaborators) (w : World)
    (s : HierarchyGhostCellInterpolation) (b : Bool) (hinit : s.d_is_initialized = true) :
    ∃ sys' evs, fillData env (w, setHomogeneousBc s b) = Except.ok sys' ∧
      sys'.1.trace = w.trace ++ evs ∧
      (∀ k op, k < s.d_transaction_comps.length → slot s.d_cc_robin_bc_ops k = some op →
        slot sys'.2.d_cc_robin_bc_ops k = some { op with d_homogeneous_bc := b } ∧
        Event.ccSetHomogeneousBc k b ∈ evs) ∧
      (∀ k op, k < s.d_transaction_comps.length → slot s.d_sc_robin_bc_ops k = some op →
        slot sys'.2.d_sc_robin_bc_ops k = some { op with d_homogeneous_bc := b } ∧
        Event.scSetHomogeneousBc k b ∈ evs) ∧
      (∀ (i j : Nat) (ei ej : Event), evs[i]? = some ei → evs[j]? = some ej →
        ei.isSetHomogeneousBc = true →
        (ej.isCoarsenExecution = true ∨ ej.isRefineOrNormalExtension = true ∨
          ej.isRobinSetPhysicalBoundaryConditions = true) → i < j) := by
  obtain ⟨cc, sc, h1, h2, h3⟩ := fillData_exact env (w, setHomogeneousBc s b) hinit
  refine ⟨_, _, h1, rfl, ?_, ?_, ?_⟩
  · intro k op hk hop
    constructor
    · have hk' : k < (w, setHomogeneousBc s b).2.d_transaction_comps.length := hk
      have := (h2 k).trans (if_pos hk')
      show slot cc k = _
      rw [this]
      show Option.map _ (slot s.d_cc_robin_bc_ops k) = _
      rw [hop]
      rfl
    · simp only [List.mem_append]
      refine Or.inl (Or.inl (Or.inl ?_))
      simp only [homogeneousEvents, List.mem_flatMap, List.mem_append, List.mem_range]
      refine ⟨k, hk, Or.inl ?_⟩
      have : (slot (setHomogeneousBc s b).d_cc_robin_bc_ops k).isSome = true := by
        show (slot s.d_cc_robin_bc_ops k).isSome = true
        rw [hop]; rfl
      rw [if_pos this]
      exact List.mem_singleton.mpr rfl
  · intro k op hk hop
    constructor
    · have hk' : k < (w, setHomogeneousBc s b).2.d_transaction_comps.length := hk
      have := (h3 k).trans (if_pos hk')
      show slot sc k = _
      rw [this]
      show Option.map _ (slot s.d_sc_robin_bc_ops k) = _
      rw [hop]
      rfl
    · simp only [List.mem_append]
      refine Or.inl (Or.inl (Or.inl ?_))
      simp only [homogeneousEvents, List.mem_flatMap, List.mem_append, List.mem_range]
      refine ⟨k, hk, Or.inr ?_⟩
      have : (slot (setHomogeneousBc s b).d_sc_robin_bc_ops k).isSome = true := by
        show (slot s.d_sc_robin_bc_ops k).isSome = true
        rw [hop]; rfl
      rw [if_pos this]
      exact List.mem_singleton.mpr rfl
  · intro i j ei ej hi hj hei hej
    apply index_lt_of_phase_lt _ (fillData_events_sorted (setHomogeneousBc s b)) i j ei ej hi hj
    rw [fillPhase_of_isSetHomogeneousBc ei hei]
    rcases hej with h | h | h
    · rw [fillPhase_of_isCoarsenExecution ej h]; decide
    · rw [fillPhase_of_isRefineOrNormalExtension ej h]; decide
    · rw [fillPhase_of_isRobin ej h]; decide

/-- Witness of C16: the initialized probe orchestrator, flag set to true. -/
theorem fillData_pushes_homogeneous_flag_witness :
    probeState.2.d_is_initialized = true ∧
    ∃ sys' evs, fillData (probeEnv true) (probeState.1, setHomogeneousBc probeState.2 true) =
        Except.ok sys' ∧
      sys'.1.trace = probeState.1.trace ++ evs ∧
      (∀ k op, k < probeState.2.d_transaction_comps.length →
        slot probeState.2.d_cc_robin_bc_ops k = some op →
        slot sys'.2.d_cc_robin_bc_ops k = some { op with d_homogeneous_bc := true } ∧
        Event.ccSetHomogeneousBc k true ∈ evs) ∧
      (∀ k op, k < probeState.2.d_transaction_comps.length →
        slot probeState.2.d_sc_robin_bc_ops k = some op →
        slot sys'.2.d_sc_robin_bc_ops k = some { op with d_homogeneous_bc := true } ∧
        Event.scSetHomogeneousBc k true ∈ evs) ∧
      (∀ (i j : Nat) (ei ej : Event), evs[i]? = some ei → evs[j]? = some ej →
        ei.isSetHomogeneousBc = true →
        (ej.isCoarsenExecution = true ∨ ej.isRefineOrNormalExtension = true ∨
          ej.isRobinSetPhysicalBoundaryConditions = true) → i < j) :=
  ⟨rfl, fillData_pushes_homogeneous_flag (probeEnv true) probeState.1 probeState.2 true rfl⟩

/-- C18. One `fillData` call on an initialized orchestrator returns, and the
coarsen schedule executions among its collaborator calls `evs` are, in
order, those of a list `levels` of levels: a level `L` is in the list exactly
when `max(1, coarsest) ≤ L ≤ finest` and the coarsen schedule slot of `L` is
non-null, the list is strictly decreasing (finest first) and without level
0. -/
theorem fillData_coarsen_levels (env : Collaborators) (sys : Sys)
    (hinit : sys.2.d_is_initialized = true) :
    ∃ (sys' : Sys) (evs : List Event) (levels : List Int), fillData env sys = Except.ok sys' ∧
      sys'.1.trace = sys.1.trace ++ evs ∧
      evs.filter Event.isCoarsenExecution = levels.map Event.coarsenData ∧
      (∀ L : Int, L ∈ levels ↔
        (max 1 sys.2.d_coarsest_ln ≤ L ∧ L ≤ sys.2.d_finest_ln ∧
          (slot sys.2.d_coarsen_scheds L.toNat).isSome = true)) ∧
      levels.Pairwise (fun a b => b < a) ∧ (0 : Int) ∉ levels := by
  obtain ⟨cc, sc, h1, -, -⟩ := fillData_exact env sys hinit
  have hmem : ∀ L : Int, L ∈ (coarsenLevels sys.2).reverse.filter
      (fun src_ln => (slot sys.2.d_coarsen_scheds src_ln.toNat).isSome) ↔
        (max 1 sys.2.d_coarsest_ln ≤ L ∧ L ≤ sys.2.d_finest_ln ∧
          (slot sys.2.d_coarsen_scheds L.toNat).isSome = true) := by
    intro L
    simp only [List.mem_filter, List.mem_reverse, coarsenLevels, mem_intRange, and_assoc]
  refine ⟨_, _, _, h1, rfl, (fillData_events_filter sys.2).1, hmem, ?_, ?_⟩
  · apply List.Pairwise.filter
    rw [List.pairwise_reverse]
    exact intRange_pairwise_lt _ _
  · intro h0
    have := ((hmem 0).mp h0).1
    omega

/-- Witness of C18: the initialized probe orchestrator. -/
theorem fillData_coarsen_levels_witness :
    probeState.2.d_is_initialized = true ∧
    ∃ (sys' : Sys) (evs : List Event) (levels : List Int), fillData (probeEnv true) probeState = Except.ok sys' ∧
      sys'.1.trace = probeState.1.trace ++ evs ∧
      evs.filter Event.isCoarsenExecution = levels.map Event.coarsenData ∧
      (∀ L : Int, L ∈ levels ↔
        (max 1 probeState.2.d_coarsest_ln ≤ L ∧ L ≤ probeState.2.d_finest_ln ∧
          (slot probeState.2.d_coarsen_scheds L.toNat).isSome = true)) ∧
      levels.Pairwise (fun a b => b < a) ∧ (0 : Int) ∉ levels :=
  ⟨rfl, fillData_coarsen_levels (probeEnv true) probeState rfl⟩

/-! ## Schedules of `initializeOperatorState` and `resetTransactionComponents` -/

theorem registerCoarsenBody_kept (env : Collaborators) (T X : List Event) (c f : Int)
    (cs rs : List (Option TransferSchedule))
    (k : Nat) (comp : InterpolationTransactionComponent) (st : Sys × Bool)
    (h : SchedulesKept T X c f cs rs st.1) :
    Ends (fun st : Sys × Bool => SchedulesKept T X c f cs rs st.1)
      (fun st => SchedulesKept T X c f cs rs st.1) (registerCoarsenBody env k comp st) := by
  unfold registerCoarsenBody
  dsimp only
  split_ifs <;> exact h

theorem registerCoarsenOps_kept (env : Collaborators) (T X : List Event) (c f : Int)
    (cs rs : List (Option TransferSchedule)) (sys : Sys)
    (h : SchedulesKept T X c f cs rs sys) :
    Ends (SchedulesKept T X c f cs rs) (fun st : Sys × Bool => SchedulesKept T X c f cs rs st.1)
      (registerCoarsenOps env sys) := by
  unfold registerCoarsenOps
  apply dropLocal_ends
  exact forComponents_ends (fun st : Sys × Bool => SchedulesKept T X c f cs rs st.1) _
    (registerCoarsenBody_kept env T X c f cs rs) _ 0 _ h

theorem registerCoarsenBody_flag (env : Collaborators)
    (comps : List InterpolationTransactionComponent) :
    ∀ (k : Nat) (st st' : Sys × Bool),
      forComponents (registerCoarsenBody env) k comps st = Except.ok st' →
      st'.2 = (st.2 || namesCoarsenOp comps) := by
  induction comps with
  | nil =>
      intro k st st' h
      simp only [forComponents, Except.ok.injEq] at h
      subst h
      simp [namesCoarsenOp]
  | cons comp comps ih =>
      intro k st st' h
      unfold forComponents at h
      cases hr : registerCoarsenBody env k comp st with
      | error e => rw [hr] at h; exact absurd h (by simp)
      | ok st1 =>
          rw [hr] at h
          have h1 := ih (k + 1) st1 st' h
          have h2 : st1.2 = (st.2 || decide (comp.d_coarsen_op_name ≠ "NONE")) := by
            unfold registerCoarsenBody at hr
            dsimp only at hr
            split_ifs at hr with hn
            · simp only [Except.ok.injEq] at hr
              subst hr
              simp [hn]
            · simp only [Except.ok.injEq] at hr
              subst hr
              simp [hn]
          rw [h1, h2]
          simp [namesCoarsenOp, Bool.or_assoc]

theorem registerCoarsenOps_flag (env : Collaborators) (sys : Sys) (st : Sys × Bool)
    (h : registerCoarsenOps env sys = Except.ok st) :
    st.2 = namesCoarsenOp sys.2.d_transaction_comps := by
  unfold registerCoarsenOps at h
  dsimp only at h
  cases hr : forComponents (registerCoarsenBody env) 0 sys.2.d_transaction_comps
      ((sys.1, { sys.2 with d_coarsen_alg := some ⟨[]⟩ }), false) with
  | error e => rw [hr] at h; exact absurd h (by simp [Outcome.dropLocal])
  | ok st1 =>
      rw [hr] at h
      simp only [Outcome.dropLocal, Except.ok.injEq] at h
      subst h
      simpa using registerCoarsenBody_flag env _ 0 _ _ hr

theorem SchedulesKept.trace {T X : List Event} {c f : Int}
    {cs rs : List (Option TransferSchedule)} {sys : Sys}
    (h : SchedulesKept T X c f cs rs sys) (w : World) (s : HierarchyGhostCellInterpolation)
    (hw : ∃ evs, w.trace = sys.1.trace ++ evs ∧ evs.filter Event.isResetSchedule = [])
    (h1 : s.d_coarsest_ln = sys.2.d_coarsest_ln) (h2 : s.d_finest_ln = sys.2.d_finest_ln)
    (h3 : s.d_coarsen_scheds = sys.2.d_coarsen_scheds)
    (h4 : s.d_refine_scheds = sys.2.d_refine_scheds) :
    SchedulesKept T X c f cs rs (w, s) := by
  obtain ⟨⟨evs, he, hx⟩, k1, k2, k3, k4⟩ := h
  obtain ⟨evs', he', hx'⟩ := hw
  refine ⟨⟨evs ++ evs', ?_, ?_⟩, h1.trans k1, h2.trans k2, h3.trans k3, h4.trans k4⟩
  · show w.trace = _
    rw [he', he, List.append_assoc]
  · rw [List.filter_append, hx, hx', List.append_nil]

theorem setExtrapolationType_trace (w : World) (op : CartExtrapPhysBdryOp) (t : String) :
    Ends (fun st : World × CartExtrapPhysBdryOp =>
        ∃ evs, st.1.trace = w.trace ++ evs ∧ evs.filter Event.isResetSchedule = [])
      (fun st : World × CartExtrapPhysBdryOp =>
        ∃ evs, st.1.trace = w.trace ++ evs ∧ evs.filter Event.isResetSchedule = [])
      (setExtrapolationType (w, op) t) := by
  unfold setExtrapolationType
  dsimp only
  split_ifs
  · exact ⟨[], by simp, rfl⟩
  · exact ⟨[], by simp, rfl⟩
  · exact ⟨[_], rfl, rfl⟩
  · exact ⟨[], by simp, rfl⟩

theorem KeepsSchedules.same (sys : Sys) (s : HierarchyGhostCellInterpolation)
    (h1 : s.d_coarsest_ln = sys.2.d_coarsest_ln) (h2 : s.d_finest_ln = sys.2.d_finest_ln)
    (h3 : s.d_coarsen_scheds = sys.2.d_coarsen_scheds)
    (h4 : s.d_refine_scheds = sys.2.d_refine_scheds) : KeepsSchedules sys (sys.1, s) :=
  ⟨⟨[], by simp, rfl⟩, h1, h2, h3, h4⟩

theorem KeepsSchedules.of_trace (sys : Sys) (w : World) (s : HierarchyGhostCellInterpolation)
    (hw : ∃ evs, w.trace = sys.1.trace ++ evs ∧ evs.filter Event.isResetSchedule = [])
    (h1 : s.d_coarsest_ln = sys.2.d_coarsest_ln) (h2 : s.d_finest_ln = sys.2.d_finest_ln)
    (h3 : s.d_coarsen_scheds = sys.2.d_coarsen_scheds)
    (h4 : s.d_refine_scheds = sys.2.d_refine_scheds) : KeepsSchedules sys (w, s) :=
  ⟨hw, h1, h2, h3, h4⟩

theorem KeepsSchedules.trans {a b c : Sys} (h1 : KeepsSchedules a b) (h2 : KeepsSchedules b c) :
    KeepsSchedules a c := by
  obtain ⟨⟨e1, t1, x1⟩, a1, a2, a3, a4⟩ := h1
  obtain ⟨⟨e2, t2, x2⟩, b1, b2, b3, b4⟩ := h2
  refine ⟨⟨e1 ++ e2, ?_, ?_⟩, b1.trans a1, b2.trans a2, b3.trans a3, b4.trans a4⟩
  · rw [t2, t1, List.append_assoc]
  · rw [List.filter_append, x1, x2, List.append_nil]

theorem SchedulesKept.of_keeps {T X : List Event} {c f : Int}
    {cs rs : List (Option TransferSchedule)} {sys sys' : Sys}
    (h : SchedulesKept T X c f cs rs sys) (h' : KeepsSchedules sys sys') :
    SchedulesKept T X c f cs rs sys' :=
  h.trace sys'.1 sys'.2 h'.1 h'.2.1 h'.2.2.1 h'.2.2.2.1 h'.2.2.2.2

theorem setExtrapolationType_trace_ok (w : World) (op : CartExtrapPhysBdryOp) (t : String)
    (r : World × CartExtrapPhysBdryOp) (h : setExtrapolationType (w, op) t = Except.ok r) :
    ∃ evs, r.1.trace = w.trace ++ evs ∧ evs.filter Event.isResetSchedule = [] := by
  have := setExtrapolationType_trace w op t
  rw [h] at this
  exact this

theorem setExtrapolationType_trace_error (w : World) (op : CartExtrapPhysBdryOp) (t : String)
    (e : String × World × CartExtrapPhysBdryOp)
    (h : setExtrapolationType (w, op) t = Except.error e) :
    ∃ evs, e.2.1.trace = w.trace ++ evs ∧ evs.filter Event.isResetSchedule = [] := by
  have := setExtrapolationType_trace w op t
  rw [h] at this
  exact this

theorem resetRefineBody_keeps (env : Collaborators) (k : Nat)
    (comp : InterpolationTransactionComponent) (sys : Sys) :
    Ends (KeepsSchedules sys) (KeepsSchedules sys) (resetRefineBody env k comp sys) := by
  unfold resetRefineBody
  dsimp only [registerRefine]
  cases slot sys.2.d_cf_bdry_ops k <;> dsimp only
  all_goals (
    split
    · exact KeepsSchedules.same sys _ rfl rfl rfl rfl
    · cases slot sys.2.d_extrap_bc_ops k with
      | none =>
          dsimp only
          by_cases ha : env.check_assertions = true ∧ comp.d_phys_bdry_extrap_type ≠ "NONE"
          · rw [if_pos ha]
            exact KeepsSchedules.same sys _ rfl rfl rfl rfl
          · rw [if_neg ha]
            dsimp only
            cases slot sys.2.d_cc_robin_bc_ops k <;> (try dsimp only) <;> (try split_ifs) <;>
            (try dsimp only) <;>
            cases slot sys.2.d_sc_robin_bc_ops k <;> (try dsimp only) <;> (try split_ifs) <;>
            exact KeepsSchedules.same sys _ rfl rfl rfl rfl
      | some xop =>
          dsimp only
          by_cases ha : env.check_assertions = true ∧ comp.d_phys_bdry_extrap_type = "NONE"
          · rw [if_pos ha]
            exact KeepsSchedules.same sys _ rfl rfl rfl rfl
          · rw [if_neg ha]
            cases hr : setExtrapolationType (sys.1, xop.setPatchDataIndex comp.d_dst_data_idx)
                comp.d_phys_bdry_extrap_type with
            | error e =>
                exact KeepsSchedules.of_trace sys _ _
                  (setExtrapolationType_trace_error _ _ _ _ hr) rfl rfl rfl rfl
            | ok r =>
                obtain ⟨w, op⟩ := r
                have hw := setExtrapolationType_trace_ok _ _ _ _ hr
                dsimp only at hw ⊢
                cases slot sys.2.d_cc_robin_bc_ops k <;> (try dsimp only) <;> (try split_ifs) <;>
            (try dsimp only) <;>
            cases slot sys.2.d_sc_robin_bc_ops k <;> (try dsimp only) <;> (try split_ifs) <;>
            first
              | exact KeepsSchedules.same sys _ rfl rfl rfl rfl
              | exact KeepsSchedules.of_trace sys _ _ hw rfl rfl rfl rfl)

theorem foldl_emit_trace (E : Int → Event)
    (G : Sys → Int → HierarchyGhostCellInterpolation) (l : List Int) (sys : Sys) :
    (l.foldl (fun sys ln => (sys.1.emit (E ln), G sys ln)) sys).1 = sys.1.emitAll (l.map E) := by
  induction l generalizing sys with
  | nil => simp [World.emitAll_nil]
  | cons a l ih =>
      rw [List.foldl_cons, ih]
      simp [World.emit_eq_emitAll, World.emitAll_emitAll]

theorem forComponents_keeps (env : Collaborators)
    (comps : List InterpolationTransactionComponent) (k : Nat) (sys sys' : Sys)
    (h : forComponents (resetRefineBody env) k comps sys = Except.ok sys') :
    KeepsSchedules sys sys' := by
  have := forComponents_ends (KeepsSchedules sys) (resetRefineBody env)
    (fun k comp st hst => by
      have h1 := resetRefineBody_keeps env k comp st
      cases hr : resetRefineBody env k comp st with
      | ok a => rw [hr] at h1; exact hst.trans h1
      | error e => rw [hr] at h1; exact hst.trans h1)
    comps k sys (KeepsSchedules.same sys _ rfl rfl rfl rfl)
  rw [h] at this
  exact this

theorem foldl_emit_bounds (E : Int → Event)
    (G : Sys → Int → HierarchyGhostCellInterpolation)
    (hG : ∀ sys ln, (G sys ln).d_coarsest_ln = sys.2.d_coarsest_ln ∧
      (G sys ln).d_finest_ln = sys.2.d_finest_ln) (l : List Int) (sys : Sys) :
    (l.foldl (fun sys ln => (sys.1.emit (E ln), G sys ln)) sys).2.d_coarsest_ln =
        sys.2.d_coarsest_ln ∧
      (l.foldl (fun sys ln => (sys.1.emit (E ln), G sys ln)) sys).2.d_finest_ln =
        sys.2.d_finest_ln := by
  induction l generalizing sys with
  | nil => exact ⟨rfl, rfl⟩
  | cons a l ih =>
      rw [List.foldl_cons]
      exact ⟨(ih _).1.trans (hG sys a).1, (ih _).2.trans (hG sys a).2⟩

theorem filter_map_reset (l : List Int) :
    (l.map Event.resetCoarsenSchedule).filter Event.isResetSchedule =
        l.map Event.resetCoarsenSchedule ∧
      (l.map Event.resetRefineSchedule).filter Event.isResetSchedule =
        l.map Event.resetRefineSchedule := by
  constructor <;>
  · rw [List.filter_eq_self]
    intro e he
    rw [List.mem_map] at he
    obtain ⟨x, -, rfl⟩ := he
    rfl

/-- C14 (amended). When `resetTransactionComponents` returns, the
`resetSchedule` calls among the collaborator calls `evs` it made are, in
order: one on the coarsen schedule of each level `max(1, coarsest), ...,
finest` if some new component names a coarsen operator (none at all if every
new component carries the name "NONE"), then one on the refine schedule of
each level `coarsest, ..., finest`. -/
theorem reset_resets_schedules (env : Collaborators)
    (transaction_comps : List InterpolationTransactionComponent) (sys sys' : Sys)
    (hok : resetTransactionComponents env transaction_comps sys = Except.ok sys') :
    ∃ evs, sys'.1.trace = sys.1.trace ++ evs ∧
      evs.filter Event.isResetSchedule =
        (if namesCoarsenOp transaction_comps = true then
          (intRange (max 1 sys.2.d_coarsest_ln) sys.2.d_finest_ln).map Event.resetCoarsenSchedule
        else []) ++
        (intRange sys.2.d_coarsest_ln sys.2.d_finest_ln).map Event.resetRefineSchedule := by
  unfold resetTransactionComponents at hok
  split_ifs at hok with h1 h2
  dsimp only at hok
  have hk0 : SchedulesKept sys.1.trace [] sys.2.d_coarsest_ln sys.2.d_finest_ln
      sys.2.d_coarsen_scheds sys.2.d_refine_scheds
      (sys.1, { sys.2 with d_transaction_comps := transaction_comps }) :=
    ⟨⟨[], by simp, rfl⟩, rfl, rfl, rfl, rfl⟩
  have hk1 := registerCoarsenOps_kept env _ _ _ _ _ _ _ hk0
  cases hr : registerCoarsenOps env
      (sys.1, { sys.2 with d_transaction_comps := transaction_comps }) with
  | error e => rw [hr] at hok; exact absurd hok (by simp)
  | ok st =>
      rw [hr] at hok hk1
      have hflag : st.2 = namesCoarsenOp transaction_comps := registerCoarsenOps_flag env _ st hr
      dsimp only at hok
      split at hok
      · exact absurd hok (by simp)
      · rename_i sys2 heq
        have hk2 := forComponents_keeps env _ _ _ _ heq
        simp only [Except.ok.injEq] at hok
        subst hok
        rw [foldl_emit_trace]
        obtain ⟨⟨evs1, ht1, hx1⟩, hc1, hf1, -, -⟩ := hk1
        obtain ⟨⟨evs2, ht2, hx2⟩, hc2, hf2, -, -⟩ := hk2
        dsimp only at ht2 hc2 hf2
        by_cases hb : st.2 = true
        · rw [if_pos hb] at ht2 hc2 hf2
          rw [foldl_emit_trace] at ht2
          have hbd := foldl_emit_bounds Event.resetCoarsenSchedule
            (fun sys src_ln =>
              { sys.2 with
                d_coarsen_scheds := resetSlot sys.2.d_coarsen_scheds src_ln sys.2.d_coarsen_alg })
            (fun _ _ => ⟨rfl, rfl⟩) (coarsenLevels st.1.2) st.1
          rw [hbd.1] at hc2
          rw [hbd.2] at hf2
          refine ⟨evs1 ++ (coarsenLevels st.1.2).map Event.resetCoarsenSchedule ++ evs2 ++
            (refineLevels sys2.2).map Event.resetRefineSchedule, ?_, ?_⟩
          · simp only [World.emitAll, ht2, ht1, List.append_assoc]
          · rw [← hflag, if_pos hb]
            simp only [List.filter_append, hx1, hx2, (filter_map_reset _).1,
              (filter_map_reset _).2, List.nil_append, List.append_nil]
            simp only [coarsenLevels, refineLevels, hc1, hf1, hc2, hf2]
        · rw [if_neg hb] at ht2 hc2 hf2
          refine ⟨evs1 ++ evs2 ++ (refineLevels sys2.2).map Event.resetRefineSchedule, ?_, ?_⟩
          · simp only [World.emitAll, ht2, ht1, List.append_assoc]
          · rw [← hflag, if_neg hb]
            simp only [List.filter_append, hx1, hx2, (filter_map_reset _).2, List.nil_append]
            simp only [refineLevels, hc1, hf1, hc2, hf2]

/-- Witness of the amended C14: the probe orchestrator reset with its own
components. -/
theorem reset_resets_schedules_witness :
    resetTransactionComponents (probeEnv true)
        [probeComponent 0 true [some 0], probeComponent 1 true [some 0, some 1]] probeState =
      Except.ok
        (Outcome.finalState
          (resetTransactionComponents (probeEnv true)
            [probeComponent 0 true [some 0], probeComponent 1 true [some 0, some 1]]
            probeState)) ∧
    ∃ evs,
      (Outcome.finalState
          (resetTransactionComponents (probeEnv true)
            [probeComponent 0 true [some 0], probeComponent 1 true [some 0, some 1]]
            probeState)).1.trace = probeState.1.trace ++ evs ∧
      evs.filter Event.isResetSchedule =
        (if namesCoarsenOp
            [probeComponent 0 true [some 0], probeComponent 1 true [some 0, some 1]] = true then
          (intRange (max 1 probeState.2.d_coarsest_ln) probeState.2.d_finest_ln).map
            Event.resetCoarsenSchedule
        else []) ++
        (intRange probeState.2.d_coarsest_ln probeState.2.d_finest_ln).map
          Event.resetRefineSchedule :=
  ⟨rfl,
    reset_resets_schedules (probeEnv true)
      [probeComponent 0 true [some 0], probeComponent 1 true [some 0, some 1]] probeState _ rfl⟩

/-- C14 (counterexample). The probe orchestrator holds a coarsen schedule on
level 1, created by `initializeOperatorState`; `resetTransactionComponents`
with two components (as many as registered) that carry the coarsen operator
name "NONE" returns, and the collaborator calls it made are the two
`resetSchedule` calls on the refine schedules: no `resetSchedule` call is made
on the coarsen schedule of level 1, which is left as it was. -/
theorem reset_without_coarsen_name_skips_coarsen_schedules :
    (slot probeState.2.d_coarsen_scheds 1).isSome = true ∧
    [probeComponentNoCoarsen 0 true [some 0],
      probeComponentNoCoarsen 1 true [some 0, some 1]].length =
        probeState.2.d_transaction_comps.length ∧
    ∃ sys' evs,
      resetTransactionComponents (probeEnv true)
        [probeComponentNoCoarsen 0 true [some 0],
          probeComponentNoCoarsen 1 true [some 0, some 1]] probeState = Except.ok sys' ∧
      sys'.1.trace = probeState.1.trace ++ evs ∧
      evs = [Event.resetRefineSchedule 0, Event.resetRefineSchedule 1] ∧
      Event.resetCoarsenSchedule 1 ∉ evs ∧
      slot sys'.2.d_coarsen_scheds 1 = slot probeState.2.d_coarsen_scheds 1 :=
  ⟨rfl, rfl, _, _, rfl, rfl, rfl, by decide, rfl⟩

theorem initCentering_keeps (env : Collaborators) (k : Nat)
    (comp : InterpolationTransactionComponent) (st : Sys × List StrategyRef) :
    Ends (fun st' : Sys × List StrategyRef => KeepsSchedules st.1 st'.1)
      (fun st' => KeepsSchedules st.1 st'.1) (initCentering env k comp st) := by
  unfold initCentering
  dsimp only
  split
  · unfold Ends; dsimp only; split_ifs <;> exact KeepsSchedules.same st.1 _ rfl rfl rfl rfl
  · split_ifs <;> exact KeepsSchedules.same st.1 _ rfl rfl rfl rfl
  · unfold Ends; dsimp only; split_ifs <;> exact KeepsSchedules.same st.1 _ rfl rfl rfl rfl
  · exact KeepsSchedules.same st.1 _ rfl rfl rfl rfl

theorem initExtrap_keeps (k : Nat)
    (comp : InterpolationTransactionComponent) (st : Sys × List StrategyRef) :
    Ends (fun st' : Sys × List StrategyRef => KeepsSchedules st.1 st'.1)
      (fun st' => KeepsSchedules st.1 st'.1) (initExtrap k comp st) := by
  unfold initExtrap
  dsimp only
  split_ifs
  · unfold CartExtrapPhysBdryOp.construct
    cases hr : setExtrapolationType
      (st.1.1, (CartExtrapPhysBdryOp.mk [] "NULL").setPatchDataIndex comp.d_dst_data_idx)
      comp.d_phys_bdry_extrap_type with
    | ok r =>
        exact KeepsSchedules.of_trace st.1 _ _ (setExtrapolationType_trace_ok _ _ _ _ hr)
          rfl rfl rfl rfl
    | error e =>
        exact KeepsSchedules.of_trace st.1 _ _ (setExtrapolationType_trace_error _ _ _ _ hr)
          rfl rfl rfl rfl
  · exact KeepsSchedules.same st.1 _ rfl rfl rfl rfl

theorem initRobin_keeps (env : Collaborators) (k : Nat)
    (comp : InterpolationTransactionComponent) (st : Sys × List StrategyRef) :
    Ends (fun st' : Sys × List StrategyRef => KeepsSchedules st.1 st'.1)
      (fun st' => KeepsSchedules st.1 st'.1) (initRobin env k comp st) := by
  unfold initRobin
  dsimp only
  split_ifs <;> exact KeepsSchedules.same st.1 _ rfl rfl rfl rfl

theorem initRefineBody_keeps (env : Collaborators) (k : Nat)
    (comp : InterpolationTransactionComponent) (st : Sys × List StrategyRef) :
    Ends (fun st' : Sys × List StrategyRef => KeepsSchedules st.1 st'.1)
      (fun st' => KeepsSchedules st.1 st'.1) (initRefineBody env k comp st) := by
  unfold initRefineBody
  have h1 := initCentering_keeps env k comp st
  cases hr1 : initCentering env k comp st with
  | error e => rw [hr1] at h1; exact h1
  | ok st1 =>
      rw [hr1] at h1
      have h1' : KeepsSchedules st.1 (st1.1.1, registerRefine env comp st1.1.2) :=
        ⟨h1.1, h1.2.1, h1.2.2.1, h1.2.2.2.1, h1.2.2.2.2⟩
      have h2 := initExtrap_keeps k comp ((st1.1.1, registerRefine env comp st1.1.2), st1.2)
      dsimp only
      cases hr2 : initExtrap k comp ((st1.1.1, registerRefine env comp st1.1.2), st1.2) with
      | error e => rw [hr2] at h2; exact h1'.trans h2
      | ok st2 =>
          rw [hr2] at h2
          have h3 := initRobin_keeps env k comp st2
          dsimp only
          cases hr3 : initRobin env k comp st2 with
          | error e => rw [hr3] at h3; exact (h1'.trans h2).trans h3
          | ok st3 => rw [hr3] at h3; exact (h1'.trans h2).trans h3

theorem forComponents_init_keeps (env : Collaborators)
    (comps : List InterpolationTransactionComponent) (k : Nat)
    (st st' : Sys × List StrategyRef)
    (h : forComponents (initRefineBody env) k comps st = Except.ok st') :
    KeepsSchedules st.1 st'.1 := by
  have := forComponents_ends (fun st' : Sys × List StrategyRef => KeepsSchedules st.1 st'.1)
    (initRefineBody env)
    (fun k comp a ha => by
      have h1 := initRefineBody_keeps env k comp a
      cases hr : initRefineBody env k comp a with
      | ok b => rw [hr] at h1; exact ha.trans h1
      | error e => rw [hr] at h1; exact ha.trans h1)
    comps k st (KeepsSchedules.same st.1 _ rfl rfl rfl rfl)
  rw [h] at this
  exact this

theorem slot_set_isSome {α : Type} (v : List (Option α)) (m : Nat) (x : α) (k : Nat) :
    (slot (v.set m (some x)) k).isSome = true ↔
      ((k = m ∧ m < v.length) ∨ (slot v k).isSome = true) := by
  unfold slot
  simp only [List.getD_eq_getElem?_getD, List.getElem?_set]
  by_cases hk : m = k
  · subst hk
    by_cases hm : m < v.length
    · simp [hm]
    · simp [hm, List.getElem?_eq_none (Nat.le_of_not_lt hm)]
  · have hk' : ¬ k = m := fun h => hk h.symm
    simp [hk, hk']

theorem slot_resizeSlots_nil {α : Type} (n k : Nat) :
    slot (resizeSlots ([] : List (Option α)) n) k = none := by
  unfold slot resizeSlots
  simp only [List.take_nil, List.nil_append, List.length_nil, Nat.sub_zero,
    List.getD_eq_getElem?_getD, List.getElem?_replicate]
  split_ifs <;> rfl

/-- The slots made non-null by a loop that stores a schedule in slot `ln` for
each level `ln` of a list. -/
theorem foldl_set_slots {α : Type} (mk : Int → α) (l : List Int) :
    ∀ (v : List (Option α)) (k : Nat),
      (slot (l.foldl (fun v ln => v.set ln.toNat (some (mk ln))) v) k).isSome = true ↔
        ((k < v.length ∧ ∃ ln ∈ l, ln.toNat = k) ∨ (slot v k).isSome = true) := by
  induction l with
  | nil => intro v k; simp
  | cons a l ih =>
      intro v k
      rw [List.foldl_cons, ih, slot_set_isSome, List.length_set]
      simp only [List.mem_cons, exists_eq_or_imp]
      constructor
      · rintro (⟨hk, ln, hl, rfl⟩ | ⟨rfl, hm⟩ | h)
        · exact Or.inl ⟨hk, Or.inr ⟨ln, hl, rfl⟩⟩
        · exact Or.inl ⟨hm, Or.inl rfl⟩
        · exact Or.inr h
      · rintro (⟨hk, rfl | ⟨ln, hl, rfl⟩⟩ | h)
        · exact Or.inr (Or.inl ⟨rfl, hk⟩)
        · exact Or.inl ⟨hk, ln, hl, rfl⟩
        · exact Or.inr (Or.inr h)

theorem length_resizeSlots_nil {α : Type} (n : Nat) :
    (resizeSlots ([] : List (Option α)) n).length = n := by
  simp [resizeSlots]

theorem foldl_create_coarsen (l : List Int) :
    ∀ sys0 : Sys,
      (l.foldl
        (fun (sys : Sys) src_ln =>
          ((sys.1.emit (Event.createCoarsenSchedule src_ln),
            { sys.2 with
              d_coarsen_scheds :=
                sys.2.d_coarsen_scheds.set src_ln.toNat
                  (some ⟨src_ln, algItems sys.2.d_coarsen_alg⟩) }) : Sys))
        sys0).2.d_coarsen_scheds =
        l.foldl (fun v ln => v.set ln.toNat (some ⟨ln, algItems sys0.2.d_coarsen_alg⟩))
          sys0.2.d_coarsen_scheds ∧
      (l.foldl
        (fun (sys : Sys) src_ln =>
          ((sys.1.emit (Event.createCoarsenSchedule src_ln),
            { sys.2 with
              d_coarsen_scheds :=
                sys.2.d_coarsen_scheds.set src_ln.toNat
                  (some ⟨src_ln, algItems sys.2.d_coarsen_alg⟩) }) : Sys))
        sys0).2.d_coarsest_ln = sys0.2.d_coarsest_ln ∧
      (l.foldl
        (fun (sys : Sys) src_ln =>
          ((sys.1.emit (Event.createCoarsenSchedule src_ln),
            { sys.2 with
              d_coarsen_scheds :=
                sys.2.d_coarsen_scheds.set src_ln.toNat
                  (some ⟨src_ln, algItems sys.2.d_coarsen_alg⟩) }) : Sys))
        sys0).2.d_finest_ln = sys0.2.d_finest_ln ∧
      (l.foldl
        (fun (sys : Sys) src_ln =>
          ((sys.1.emit (Event.createCoarsenSchedule src_ln),
            { sys.2 with
              d_coarsen_scheds :=
                sys.2.d_coarsen_scheds.set src_ln.toNat
                  (some ⟨src_ln, algItems sys.2.d_coarsen_alg⟩) }) : Sys))
        sys0).2.d_refine_scheds = sys0.2.d_refine_scheds ∧
      (l.foldl
        (fun (sys : Sys) src_ln =>
          ((sys.1.emit (Event.createCoarsenSchedule src_ln),
            { sys.2 with
              d_coarsen_scheds :=
                sys.2.d_coarsen_scheds.set src_ln.toNat
                  (some ⟨src_ln, algItems sys.2.d_coarsen_alg⟩) }) : Sys))
        sys0).2.d_transaction_comps = sys0.2.d_transaction_comps := by
  induction l with
  | nil => intro sys0; exact ⟨rfl, rfl, rfl, rfl, rfl⟩
  | cons a l ih =>
      intro sys0
      simp only [List.foldl_cons]
      obtain ⟨h1, h2, h3, h4, h5⟩ := ih
        (sys0.1.emit (Event.createCoarsenSchedule a),
          { sys0.2 with
            d_coarsen_scheds :=
              sys0.2.d_coarsen_scheds.set a.toNat (some ⟨a, algItems sys0.2.d_coarsen_alg⟩) })
      exact ⟨h1, h2, h3, h4, h5⟩

theorem foldl_create_refine (l : List Int) :
    ∀ sys0 : Sys,
      (l.foldl
        (fun (sys : Sys) dst_ln =>
          ((sys.1.emit (Event.createRefineSchedule dst_ln),
            { sys.2 with
              d_refine_scheds :=
                sys.2.d_refine_scheds.set dst_ln.toNat
                  (some ⟨dst_ln, algItems sys.2.d_refine_alg⟩) }) : Sys))
        sys0).2.d_refine_scheds =
        l.foldl (fun v ln => v.set ln.toNat (some ⟨ln, algItems sys0.2.d_refine_alg⟩))
          sys0.2.d_refine_scheds ∧
      (l.foldl
        (fun (sys : Sys) dst_ln =>
          ((sys.1.emit (Event.createRefineSchedule dst_ln),
            { sys.2 with
              d_refine_scheds :=
                sys.2.d_refine_scheds.set dst_ln.toNat
                  (some ⟨dst_ln, algItems sys.2.d_refine_alg⟩) }) : Sys))
        sys0).2.d_coarsest_ln = sys0.2.d_coarsest_ln ∧
      (l.foldl
        (fun (sys : Sys) dst_ln =>
          ((sys.1.emit (Event.createRefineSchedule dst_ln),
            { sys.2 with
              d_refine_scheds :=
                sys.2.d_refine_scheds.set dst_ln.toNat
                  (some ⟨dst_ln, algItems sys.2.d_refine_alg⟩) }) : Sys))
        sys0).2.d_finest_ln = sys0.2.d_finest_ln ∧
      (l.foldl
        (fun (sys : Sys) dst_ln =>
          ((sys.1.emit (Event.createRefineSchedule dst_ln),
            { sys.2 with
              d_refine_scheds :=
                sys.2.d_refine_scheds.set dst_ln.toNat
                  (some ⟨dst_ln, algItems sys.2.d_refine_alg⟩) }) : Sys))
        sys0).2.d_coarsen_scheds = sys0.2.d_coarsen_scheds := by
  induction l with
  | nil => intro sys0; exact ⟨rfl, rfl, rfl, rfl⟩
  | cons a l ih =>
      intro sys0
      simp only [List.foldl_cons]
      obtain ⟨h1, h2, h3, h4⟩ := ih
        (sys0.1.emit (Event.createRefineSchedule a),
          { sys0.2 with
            d_refine_scheds :=
              sys0.2.d_refine_scheds.set a.toNat (some ⟨a, algItems sys0.2.d_refine_alg⟩) })
      exact ⟨h1, h2, h3, h4⟩

theorem createCoarsenSchedules_slots (sys : Sys) (b : Bool)
    (hcs : sys.2.d_coarsen_scheds = []) :
    (createCoarsenSchedules sys b).2.d_coarsest_ln = sys.2.d_coarsest_ln ∧
      (createCoarsenSchedules sys b).2.d_finest_ln = sys.2.d_finest_ln ∧
      (createCoarsenSchedules sys b).2.d_refine_scheds = sys.2.d_refine_scheds ∧
      (createCoarsenSchedules sys b).2.d_transaction_comps = sys.2.d_transaction_comps ∧
      ∀ k : Nat, (slot (createCoarsenSchedules sys b).2.d_coarsen_scheds k).isSome = true ↔
        (b = true ∧ max 1 sys.2.d_coarsest_ln ≤ (k : Int) ∧ (k : Int) ≤ sys.2.d_finest_ln) := by
  unfold createCoarsenSchedules
  dsimp only
  rw [hcs]
  by_cases hb : b = true
  · rw [if_pos hb]
    obtain ⟨h1, h2, h3, h4, h5⟩ := foldl_create_coarsen
      (coarsenLevels
        { sys.2 with
          d_coarsen_strategy := false
          d_coarsen_scheds := resizeSlots [] (sys.2.d_finest_ln + 1).toNat })
      (sys.1,
        { sys.2 with
          d_coarsen_strategy := false
          d_coarsen_scheds := resizeSlots [] (sys.2.d_finest_ln + 1).toNat })
    refine ⟨h2, h3, h4, h5, ?_⟩
    intro k
    rw [h1, foldl_set_slots]
    dsimp only
    rw [slot_resizeSlots_nil, length_resizeSlots_nil]
    simp only [coarsenLevels, mem_intRange, hb, true_and, Option.isSome_none,
      Bool.false_eq_true, or_false]
    constructor
    · rintro ⟨hk, ln, ⟨h1, h2⟩, rfl⟩
      omega
    · intro ⟨h1, h2⟩
      exact ⟨by omega, (k : Int), ⟨h1, h2⟩, by omega⟩
  · rw [if_neg hb]
    refine ⟨rfl, rfl, rfl, rfl, ?_⟩
    intro k
    dsimp only
    rw [slot_resizeSlots_nil]
    simp [hb]

theorem createRefineSchedules_slots (sys : Sys) (hrs : sys.2.d_refine_scheds = []) :
    (createRefineSchedules sys).2.d_coarsest_ln = sys.2.d_coarsest_ln ∧
      (createRefineSchedules sys).2.d_finest_ln = sys.2.d_finest_ln ∧
      (createRefineSchedules sys).2.d_coarsen_scheds = sys.2.d_coarsen_scheds ∧
      ∀ k : Nat, (slot (createRefineSchedules sys).2.d_refine_scheds k).isSome = true ↔
        (sys.2.d_coarsest_ln ≤ (k : Int) ∧ (k : Int) ≤ sys.2.d_finest_ln) := by
  unfold createRefineSchedules
  dsimp only
  rw [hrs]
  obtain ⟨h1, h2, h3, h4⟩ := foldl_create_refine
    (refineLevels
      { sys.2 with d_refine_scheds := resizeSlots [] (sys.2.d_finest_ln + 1).toNat })
    (sys.1, { sys.2 with d_refine_scheds := resizeSlots [] (sys.2.d_finest_ln + 1).toNat })
  refine ⟨h2, h3, h4, ?_⟩
  intro k
  rw [h1, foldl_set_slots]
  dsimp only
  rw [slot_resizeSlots_nil, length_resizeSlots_nil]
  simp only [refineLevels, mem_intRange, Option.isSome_none, Bool.false_eq_true, or_false]
  constructor
  · rintro ⟨hk, ln, ⟨h1, h2⟩, rfl⟩
    omega
  · intro ⟨h1, h2⟩
    exact ⟨by omega, (k : Int), ⟨h1, h2⟩, by omega⟩

theorem setupRefine_slots (env : Collaborators) (sys sys1 : Sys)
    (hrs : sys.2.d_refine_scheds = []) (hok : setupRefine env sys = Except.ok sys1) :
    sys1.2.d_coarsest_ln = sys.2.d_coarsest_ln ∧ sys1.2.d_finest_ln = sys.2.d_finest_ln ∧
      sys1.2.d_coarsen_scheds = sys.2.d_coarsen_scheds ∧
      ∀ k : Nat, (slot sys1.2.d_refine_scheds k).isSome = true ↔
        (sys.2.d_coarsest_ln ≤ (k : Int) ∧ (k : Int) ≤ sys.2.d_finest_ln) := by
  unfold setupRefine at hok
  dsimp only at hok
  split at hok
  · exact absurd hok (by simp)
  · rename_i st heq
    simp only [Except.ok.injEq] at hok
    subst hok
    have hk : KeepsSchedules
        (sys.1,
          { sys.2 with
            d_cf_bdry_ops := resizeSlots sys.2.d_cf_bdry_ops sys.2.d_transaction_comps.length
            d_extrap_bc_ops :=
              resizeSlots sys.2.d_extrap_bc_ops sys.2.d_transaction_comps.length
            d_cc_robin_bc_ops :=
              resizeSlots sys.2.d_cc_robin_bc_ops sys.2.d_transaction_comps.length
            d_sc_robin_bc_ops :=
              resizeSlots sys.2.d_sc_robin_bc_ops sys.2.d_transaction_comps.length
            d_refine_alg := some ⟨[]⟩ }) st.1 := by
      cases hf : forComponents (initRefineBody env) 0 sys.2.d_transaction_comps
          ((sys.1,
            { sys.2 with
              d_cf_bdry_ops := resizeSlots sys.2.d_cf_bdry_ops sys.2.d_transaction_comps.length
              d_extrap_bc_ops :=
                resizeSlots sys.2.d_extrap_bc_ops sys.2.d_transaction_comps.length
              d_cc_robin_bc_ops :=
                resizeSlots sys.2.d_cc_robin_bc_ops sys.2.d_transaction_comps.length
              d_sc_robin_bc_ops :=
                resizeSlots sys.2.d_sc_robin_bc_ops sys.2.d_transaction_comps.length
              d_refine_alg := some ⟨[]⟩ }), []) with
      | error e => rw [hf] at heq; exact absurd heq (by simp [Outcome.dropLocal])
      | ok st' =>
          rw [hf] at heq
          simp only [Outcome.dropLocal, Except.ok.injEq] at heq
          subst heq
          exact forComponents_init_keeps env _ _ _ _ hf
    obtain ⟨-, k1, k2, k3, k4⟩ := hk
    dsimp only at k1 k2 k3 k4
    obtain ⟨h1, h2, h3, h4⟩ := createRefineSchedules_slots
      (st.1.1, { st.1.2 with d_refine_strategy := some st.2 }) (k4.trans hrs)
    dsimp only at h1 h2 h3 h4
    refine ⟨h1.trans k1, h2.trans k2, h3.trans k3, ?_⟩
    intro k
    rw [h4, k1, k2]

theorem initCacheHierarchy_clean (comps : List InterpolationTransactionComponent)
    (hierarchy : PatchHierarchy) (coarsest_ln finest_ln : Int)
    (s : HierarchyGhostCellInterpolation)
    (hclean : s.d_is_initialized = false → s.d_coarsen_scheds = [] ∧ s.d_refine_scheds = []) :
    (initCacheHierarchy comps hierarchy coarsest_ln finest_ln s).d_coarsen_scheds = [] ∧
      (initCacheHierarchy comps hierarchy coarsest_ln finest_ln s).d_refine_scheds = [] ∧
      (initCacheHierarchy comps hierarchy coarsest_ln finest_ln s).d_transaction_comps = comps ∧
      (initCacheHierarchy comps hierarchy coarsest_ln finest_ln s).d_coarsest_ln =
        (if coarsest_ln = -1 then 0 else coarsest_ln) ∧
      (initCacheHierarchy comps hierarchy coarsest_ln finest_ln s).d_finest_ln =
        (if finest_ln = -1 then hierarchy.getFinestLevelNumber else finest_ln) := by
  unfold initCacheHierarchy
  dsimp only
  refine ⟨?_, ?_, rfl, rfl, rfl⟩
  · cases hi : s.d_is_initialized with
    | false => simpa using (hclean hi).1
    | true => simp [deallocateOperatorState, hi]
  · cases hi : s.d_is_initialized with
    | false => simpa using (hclean hi).2
    | true => simp [deallocateOperatorState, hi]

/-- C15. When `initializeOperatorState` returns, from an object whose schedule
tables are empty unless it is initialized (as the constructor and
`deallocateOperatorState` leave them), with `coarsest` and `finest` the
resolved bounds (`-1` resolves to 0, respectively to the finest level number
of the hierarchy): the bounds are cached; the coarsen schedule slot of level
`L` is non-null exactly when some component names a coarsen operator and
`max(1, coarsest) ≤ L ≤ finest`; the refine schedule slot of level `L` is
non-null exactly when `coarsest ≤ L ≤ finest`. -/
theorem initialize_schedule_levels (env : Collaborators)
    (transaction_comps : List InterpolationTransactionComponent) (hierarchy : PatchHierarchy)
    (coarsest_ln finest_ln : Int) (sys sys' : Sys)
    (hclean : sys.2.d_is_initialized = false →
      sys.2.d_coarsen_scheds = [] ∧ sys.2.d_refine_scheds = [])
    (hok : initializeOperatorState env transaction_comps hierarchy coarsest_ln finest_ln sys =
      Except.ok sys') :
    sys'.2.d_coarsest_ln = (if coarsest_ln = -1 then 0 else coarsest_ln) ∧
    sys'.2.d_finest_ln =
      (if finest_ln = -1 then hierarchy.getFinestLevelNumber else finest_ln) ∧
    (∀ L : Nat, (slot sys'.2.d_coarsen_scheds L).isSome = true ↔
      (namesCoarsenOp transaction_comps = true ∧
        max 1 (if coarsest_ln = -1 then 0 else coarsest_ln) ≤ (L : Int) ∧
        (L : Int) ≤ (if finest_ln = -1 then hierarchy.getFinestLevelNumber else finest_ln))) ∧
    (∀ L : Nat, (slot sys'.2.d_refine_scheds L).isSome = true ↔
      ((if coarsest_ln = -1 then 0 else coarsest_ln) ≤ (L : Int) ∧
        (L : Int) ≤ (if finest_ln = -1 then hierarchy.getFinestLevelNumber else finest_ln))) := by
  obtain ⟨c1, c2, c3, c4, c5⟩ :=
    initCacheHierarchy_clean transaction_comps hierarchy coarsest_ln finest_ln sys.2 hclean
  unfold initializeOperatorState at hok
  dsimp only at hok
  generalize initCacheHierarchy transaction_comps hierarchy coarsest_ln finest_ln sys.2 = s0
    at hok c1 c2 c3 c4 c5
  have hk0 : SchedulesKept (registerCubicCoarsenOps sys.1).trace []
      s0.d_coarsest_ln s0.d_finest_ln [] [] (registerCubicCoarsenOps sys.1, s0) :=
    ⟨⟨[], by simp, rfl⟩, rfl, rfl, c1, c2⟩
  have hk1 := registerCoarsenOps_kept env _ _ _ _ _ _ _ hk0
  cases hr : registerCoarsenOps env (registerCubicCoarsenOps sys.1, s0) with
  | error e => rw [hr] at hok; exact absurd hok (by simp)
  | ok st =>
      rw [hr] at hok hk1
      have hflag : st.2 = namesCoarsenOp transaction_comps := by
        have := registerCoarsenOps_flag env _ st hr
        rw [this]
        exact congrArg namesCoarsenOp c3
      obtain ⟨-, k1, k2, k3, k4⟩ := hk1
      dsimp only at hok
      obtain ⟨d1, d2, d3, -, d5⟩ := createCoarsenSchedules_slots st.1 st.2 k3
      cases hs : setupRefine env (createCoarsenSchedules st.1 st.2) with
      | error e => rw [hs] at hok; exact absurd hok (by simp)
      | ok sys1 =>
          rw [hs] at hok
          simp only [Except.ok.injEq] at hok
          subst hok
          obtain ⟨e1, e2, e3, e4⟩ := setupRefine_slots env _ sys1 (d3.trans k4) hs
          refine ⟨?_, ?_, ?_, ?_⟩
          · show sys1.2.d_coarsest_ln = _
            rw [e1, d1, k1, c4]
          · show sys1.2.d_finest_ln = _
            rw [e2, d2, k2, c5]
          · intro L
            show (slot sys1.2.d_coarsen_scheds L).isSome = true ↔ _
            rw [e3, d5, hflag, k1, k2, c4, c5]
          · intro L
            show (slot sys1.2.d_refine_scheds L).isSome = true ↔ _
            rw [e4, d1, d2, k1, k2, c4, c5]

/-- Witness of C15: the initialization of the probe orchestrator. -/
theorem initialize_schedule_levels_witness :
    (HierarchyGhostCellInterpolation.new.d_is_initialized = false →
      HierarchyGhostCellInterpolation.new.d_coarsen_scheds = [] ∧
        HierarchyGhostCellInterpolation.new.d_refine_scheds = []) ∧
    initializeOperatorState (probeEnv true)
        [probeComponent 0 true [some 0], probeComponent 1 true [some 0, some 1]] probeHierarchy
        (-1) (-1) (World.start, HierarchyGhostCellInterpolation.new) = Except.ok probeState ∧
    probeState.2.d_coarsest_ln = (if (-1 : Int) = -1 then 0 else -1) ∧
    probeState.2.d_finest_ln =
      (if (-1 : Int) = -1 then probeHierarchy.getFinestLevelNumber else -1) ∧
    (∀ L : Nat, (slot probeState.2.d_coarsen_scheds L).isSome = true ↔
      (namesCoarsenOp
          [probeComponent 0 true [some 0], probeComponent 1 true [some 0, some 1]] = true ∧
        max 1 (if (-1 : Int) = -1 then 0 else -1) ≤ (L : Int) ∧
        (L : Int) ≤ (if (-1 : Int) = -1 then probeHierarchy.getFinestLevelNumber else -1))) ∧
    (∀ L : Nat, (slot probeState.2.d_refine_scheds L).isSome = true ↔
      ((if (-1 : Int) = -1 then 0 else -1) ≤ (L : Int) ∧
        (L : Int) ≤ (if (-1 : Int) = -1 then probeHierarchy.getFinestLevelNumber else -1))) :=
  ⟨fun _ => ⟨rfl, rfl⟩, rfl,
    initialize_schedule_levels (probeEnv true)
      [probeComponent 0 true [some 0], probeComponent 1 true [some 0, some 1]] probeHierarchy
      (-1) (-1) (World.start, HierarchyGhostCellInterpolation.new) probeState
      (fun _ => ⟨rfl, rfl⟩) rfl⟩

/-! ## Results on `CartCellRobinPhysBdryOp` -/

theorem collectCalls_map {α β γ : Type} (g : β → γ) (f : α → Except String (List β))
    (f' : α → Except String (List γ)) (l : List α)
    (h : ∀ a ∈ l, f' a = (f a).map (List.map g)) :
    collectCalls f' l = (collectCalls f l).map (List.map g) := by
  induction l with
  | nil => rfl
  | cons a l ih =>
      have ha := h a (List.mem_cons_self _ _)
      have ih' := ih (fun b hb => h b (List.mem_cons_of_mem _ hb))
      unfold collectCalls
      rw [ha, ih']
      cases f a with
      | error e => rfl
      | ok xs =>
          cases collectCalls f l with
          | error e => rfl
          | ok ys => simp [Except.map]

theorem collectCalls_forall {α β : Type} (P : β → Prop) (f : α → Except String (List β))
    (l : List α) (h : ∀ a ∈ l, ∀ xs, f a = Except.ok xs → ∀ x ∈ xs, P x) :
    ∀ ys, collectCalls f l = Except.ok ys → ∀ y ∈ ys, P y := by
  induction l with
  | nil =>
      intro ys hys y hy
      simp only [collectCalls, Except.ok.injEq] at hys
      subst hys
      simp at hy
  | cons a l ih =>
      intro ys hys y hy
      unfold collectCalls at hys
      cases hfa : f a with
      | error e => rw [hfa] at hys; exact absurd hys (by simp)
      | ok xs =>
          rw [hfa] at hys
          dsimp only at hys
          cases hc : collectCalls f l with
          | error e => rw [hc] at hys; exact absurd hys (by simp)
          | ok rest =>
              rw [hc] at hys
              simp only [Except.ok.injEq] at hys
              subst hys
              rcases List.mem_append.mp hy with hy | hy
              · exact h a (List.mem_cons_self _ _) xs hfa y hy
              · exact ih (fun b hb => h b (List.mem_cons_of_mem _ hb)) rest hc y hy

theorem codim1Kernel_codim (ndim location_index : Nat) (k : RobinKernel)
    (h : codim1Kernel ndim location_index = Except.ok k) : k.codim = 1 := by
  unfold codim1Kernel at h
  split_ifs at h <;> (simp only [Except.ok.injEq] at h; subst h; rfl)

theorem codim1Depths_adjoint {n : Nat} (op : CartCellRobinPhysBdryOp n)
    (patch_data_idx : Int) (patch_data_gcw : Int) (fill_time : ℚ) (b : Bool)
    (location_index : Nat) (bc_fill_box : Box n) (trimmed_bdry_box : BoundaryBox n)
    (ds : List Nat) :
    ∀ coefs : RobinCoefData n,
      op.codim1Depths patch_data_idx patch_data_gcw fill_time b location_index bc_fill_box
          trimmed_bdry_box ds coefs =
        (op.codim1Depths patch_data_idx patch_data_gcw fill_time false location_index
          bc_fill_box trimmed_bdry_box ds coefs).map
          (List.map (RobinKernelCall.withAdjoint b)) := by
  induction ds with
  | nil => intro coefs; rfl
  | cons d ds ih =>
      intro coefs
      unfold CartCellRobinPhysBdryOp.codim1Depths
      cases op.d_bc_coefs.getD d none with
      | none => rfl
      | some bc_coef =>
          dsimp only
          cases codim1Kernel n location_index with
          | error e => rfl
          | ok kernel =>
              dsimp only
              rw [ih]
              cases op.codim1Depths patch_data_idx patch_data_gcw fill_time false
                  location_index bc_fill_box trimmed_bdry_box ds _ with
              | error e => rfl
              | ok rest => rfl

theorem codim1Depths_calls {n : Nat} (op : CartCellRobinPhysBdryOp n)
    (patch_data_idx : Int) (patch_data_gcw : Int) (fill_time : ℚ) (b : Bool)
    (location_index : Nat) (bc_fill_box : Box n) (trimmed_bdry_box : BoundaryBox n)
    (ds : List Nat) :
    ∀ (coefs : RobinCoefData n) (calls : List (RobinKernelCall n)),
      op.codim1Depths patch_data_idx patch_data_gcw fill_time b location_index bc_fill_box
          trimmed_bdry_box ds coefs = Except.ok calls →
      ∀ c ∈ calls, c.kernel.codim = 1 ∧ c.adjoint_op = b := by
  induction ds with
  | nil =>
      intro coefs calls h c hc
      simp only [CartCellRobinPhysBdryOp.codim1Depths, Except.ok.injEq] at h
      subst h
      simp at hc
  | cons d ds ih =>
      intro coefs calls h c hc
      unfold CartCellRobinPhysBdryOp.codim1Depths at h
      cases hb : op.d_bc_coefs.getD d none with
      | none => rw [hb] at h; exact absurd h (by simp)
      | some bc_coef =>
          rw [hb] at h
          dsimp only at h
          cases hk : codim1Kernel n location_index with
          | error e => rw [hk] at h; exact absurd h (by simp)
          | ok kernel =>
              rw [hk] at h
              dsimp only at h
              split at h
              · exact absurd h (by simp)
              · rename_i rest hrest
                simp only [Except.ok.injEq] at h
                subst h
                rcases List.mem_cons.mp hc with rfl | hc
                · exact ⟨codim1Kernel_codim _ _ _ hk, rfl⟩
                · exact ih _ rest hrest c hc

theorem fillGhostCellValuesCodim1_adjoint {n : Nat} (debug_checks : Bool)
    (op : CartCellRobinPhysBdryOp n) (patch_data_idx : Int) (boxes : List (BoundaryBox n))
    (fill_time : ℚ) (gw : Index n) (patch : RobinPatch n) (b : Bool) :
    op.fillGhostCellValuesCodim1 debug_checks patch_data_idx boxes fill_time gw patch b =
      (op.fillGhostCellValuesCodim1 debug_checks patch_data_idx boxes fill_time gw patch
        false).map (List.map (RobinKernelCall.withAdjoint b)) := by
  unfold CartCellRobinPhysBdryOp.fillGhostCellValuesCodim1
  dsimp only
  split_ifs
  · rfl
  · cases patch.cell_data patch_data_idx with
    | none => rfl
    | some patch_data =>
        dsimp only
        split_ifs
        · rfl
        · exact collectCalls_map _ _ _ _ (fun bdry_box _ => codim1Depths_adjoint _ _ _ _ _ _ _ _ _ _)

theorem fillGhostCellValuesCodim2_adjoint {n : Nat} (debug_checks : Bool)
    (op : CartCellRobinPhysBdryOp n) (patch_data_idx : Int) (boxes : List (BoundaryBox n))
    (gw : Index n) (patch : RobinPatch n) (b : Bool) :
    op.fillGhostCellValuesCodim2 debug_checks patch_data_idx boxes gw patch b =
      (op.fillGhostCellValuesCodim2 debug_checks patch_data_idx boxes gw patch false).map
        (List.map (RobinKernelCall.withAdjoint b)) := by
  unfold CartCellRobinPhysBdryOp.fillGhostCellValuesCodim2
  dsimp only
  by_cases h0 : boxes.length = 0
  · simp only [if_pos h0]
    rfl
  · simp only [if_neg h0]
    cases patch.cell_data patch_data_idx with
    | none => rfl
    | some patch_data =>
        dsimp only
        by_cases h1 : debug_checks = true ∧ intVectorMax patch_data.2 ≠ intVectorMin patch_data.2
        · simp only [if_pos h1]
          rfl
        · simp only [if_neg h1]
          refine collectCalls_map _ _ _ _ (fun bdry_box _ => ?_)
          refine collectCalls_map _ _ _ _ (fun d _ => ?_)
          split_ifs <;> rfl

theorem fillGhostCellValuesCodim3_adjoint {n : Nat} (debug_checks : Bool)
    (op : CartCellRobinPhysBdryOp n) (patch_data_idx : Int) (boxes : List (BoundaryBox n))
    (gw : Index n) (patch : RobinPatch n) (b : Bool) :
    op.fillGhostCellValuesCodim3 debug_checks patch_data_idx boxes gw patch b =
      (op.fillGhostCellValuesCodim3 debug_checks patch_data_idx boxes gw patch false).map
        (List.map (RobinKernelCall.withAdjoint b)) := by
  unfold CartCellRobinPhysBdryOp.fillGhostCellValuesCodim3
  dsimp only
  by_cases h0 : boxes.length = 0
  · simp only [if_pos h0]
    rfl
  · simp only [if_neg h0]
    cases patch.cell_data patch_data_idx with
    | none => rfl
    | some patch_data =>
        dsimp only
        by_cases h1 : debug_checks = true ∧ intVectorMax patch_data.2 ≠ intVectorMin patch_data.2
        · simp only [if_pos h1]
          rfl
        · simp only [if_neg h1]
          refine collectCalls_map _ _ _ _ (fun bdry_box _ => ?_)
          refine collectCalls_map _ _ _ _ (fun d _ => ?_)
          split_ifs <;> rfl

theorem fillGhostCellValuesCodim1_calls {n : Nat} (debug_checks : Bool)
    (op : CartCellRobinPhysBdryOp n) (patch_data_idx : Int) (boxes : List (BoundaryBox n))
    (fill_time : ℚ) (gw : Index n) (patch : RobinPatch n) (b : Bool)
    (calls : List (RobinKernelCall n))
    (h : op.fillGhostCellValuesCodim1 debug_checks patch_data_idx boxes fill_time gw patch b =
      Except.ok calls) :
    ∀ c ∈ calls, c.kernel.codim = 1 ∧ c.adjoint_op = b := by
  unfold CartCellRobinPhysBdryOp.fillGhostCellValuesCodim1 at h
  dsimp only at h
  split_ifs at h with h0
  · simp only [Except.ok.injEq] at h
    subst h
    simp
  · cases hp : patch.cell_data patch_data_idx with
    | none => rw [hp] at h; exact absurd h (by simp)
    | some patch_data =>
        rw [hp] at h
        dsimp only at h
        split_ifs at h
        exact collectCalls_forall _ _ _
          (fun bdry_box _ xs hxs => codim1Depths_calls _ _ _ _ _ _ _ _ _ _ xs hxs) calls h

theorem fillGhostCellValuesCodim2_calls {n : Nat} (debug_checks : Bool)
    (op : CartCellRobinPhysBdryOp n) (patch_data_idx : Int) (boxes : List (BoundaryBox n))
    (gw : Index n) (patch : RobinPatch n) (b : Bool) (calls : List (RobinKernelCall n))
    (h : op.fillGhostCellValuesCodim2 debug_checks patch_data_idx boxes gw patch b =
      Except.ok calls) :
    ∀ c ∈ calls, c.kernel.codim = 2 ∧ c.adjoint_op = b := by
  unfold CartCellRobinPhysBdryOp.fillGhostCellValuesCodim2 at h
  dsimp only at h
  by_cases h0 : boxes.length = 0
  · simp only [if_pos h0, Except.ok.injEq] at h
    subst h
    simp
  · simp only [if_neg h0] at h
    cases hp : patch.cell_data patch_data_idx with
    | none => rw [hp] at h; exact absurd h (by simp)
    | some patch_data =>
        rw [hp] at h
        dsimp only at h
        by_cases h1 : debug_checks = true ∧ intVectorMax patch_data.2 ≠ intVectorMin patch_data.2
        · rw [if_pos h1] at h
          exact absurd h (by simp)
        · rw [if_neg h1] at h
          refine collectCalls_forall _ _ _ (fun bdry_box _ xs hxs => ?_) calls h
          refine collectCalls_forall _ _ _ (fun d _ ys hys => ?_) xs hxs
          split_ifs at hys <;>
          · simp only [Except.ok.injEq] at hys
            subst hys
            intro c hc
            rw [List.mem_singleton] at hc
            subst hc
            exact ⟨rfl, rfl⟩

theorem fillGhostCellValuesCodim3_calls {n : Nat} (debug_checks : Bool)
    (op : CartCellRobinPhysBdryOp n) (patch_data_idx : Int) (boxes : List (BoundaryBox n))
    (gw : Index n) (patch : RobinPatch n) (b : Bool) (calls : List (RobinKernelCall n))
    (h : op.fillGhostCellValuesCodim3 debug_checks patch_data_idx boxes gw patch b =
      Except.ok calls) :
    ∀ c ∈ calls, c.kernel.codim = 3 ∧ c.adjoint_op = b := by
  unfold CartCellRobinPhysBdryOp.fillGhostCellValuesCodim3 at h
  dsimp only at h
  by_cases h0 : boxes.length = 0
  · simp only [if_pos h0, Except.ok.injEq] at h
    subst h
    simp
  · simp only [if_neg h0] at h
    cases hp : patch.cell_data patch_data_idx with
    | none => rw [hp] at h; exact absurd h (by simp)
    | some patch_data =>
        rw [hp] at h
        dsimp only at h
        by_cases h1 : debug_checks = true ∧ intVectorMax patch_data.2 ≠ intVectorMin patch_data.2
        · rw [if_pos h1] at h
          exact absurd h (by simp)
        · rw [if_neg h1] at h
          refine collectCalls_forall _ _ _ (fun bdry_box _ xs hxs => ?_) calls h
          refine collectCalls_forall _ _ _ (fun d _ ys hys => ?_) xs hxs
          split_ifs at hys
          · simp only [Except.ok.injEq] at hys
            subst hys
            intro c hc
            rw [List.mem_singleton] at hc
            subst hc
            exact ⟨rfl, rfl⟩

theorem map_eq_replicate_of_forall {α β : Type} (f : α → β) (k : β) (s : List α)
    (h : ∀ c ∈ s, f c = k) : s.map f = List.replicate s.length k := by
  induction s with
  | nil => rfl
  | cons a s ih =>
      rw [List.map_cons, List.length_cons, List.replicate_succ, h a (List.mem_cons_self _ _),
        ih (fun c hc => h c (List.mem_cons_of_mem _ hc))]

theorem Except.map_eq_ok {ε α β : Type} (g : α → β) (o : Except ε α) (b : β)
    (h : o.map g = Except.ok b) : ∃ a, o = Except.ok a ∧ g a = b := by
  cases o with
  | error e => exact absurd h (by simp [Except.map])
  | ok a =>
      simp only [Except.map, Except.ok.injEq] at h
      exact ⟨a, rfl, h⟩

theorem robin_stage1 {n : Nat} (debug_checks : Bool) (op : CartCellRobinPhysBdryOp n)
    (patch : RobinPatch n) (fill_time : ℚ) (gw : Index n) (b : Bool) :
    collectCalls
        (fun patch_data_idx =>
          op.fillGhostCellValuesCodim1 debug_checks patch_data_idx patch.physical_codim1_boxes
            fill_time gw patch b) op.d_patch_data_indices =
      (collectCalls
        (fun patch_data_idx =>
          op.fillGhostCellValuesCodim1 debug_checks patch_data_idx patch.physical_codim1_boxes
            fill_time gw patch false) op.d_patch_data_indices).map
        (List.map (RobinKernelCall.withAdjoint b)) :=
  collectCalls_map _ _ _ _ (fun _ _ => fillGhostCellValuesCodim1_adjoint _ _ _ _ _ _ _ _)

theorem robin_stage2 {n : Nat} (debug_checks : Bool) (op : CartCellRobinPhysBdryOp n)
    (patch : RobinPatch n) (gw : Index n) (b : Bool) :
    collectCalls
        (fun patch_data_idx =>
          op.fillGhostCellValuesCodim2 debug_checks patch_data_idx patch.physical_codim2_boxes
            gw patch b) op.d_patch_data_indices =
      (collectCalls
        (fun patch_data_idx =>
          op.fillGhostCellValuesCodim2 debug_checks patch_data_idx patch.physical_codim2_boxes
            gw patch false) op.d_patch_data_indices).map
        (List.map (RobinKernelCall.withAdjoint b)) :=
  collectCalls_map _ _ _ _ (fun _ _ => fillGhostCellValuesCodim2_adjoint _ _ _ _ _ _ _)

theorem robin_stage3 {n : Nat} (debug_checks : Bool) (op : CartCellRobinPhysBdryOp n)
    (patch : RobinPatch n) (gw : Index n) (b : Bool) :
    collectCalls
        (fun patch_data_idx =>
          op.fillGhostCellValuesCodim3 debug_checks patch_data_idx patch.physical_codim3_boxes
            gw patch b) op.d_patch_data_indices =
      (collectCalls
        (fun patch_data_idx =>
          op.fillGhostCellValuesCodim3 debug_checks patch_data_idx patch.physical_codim3_boxes
            gw patch false) op.d_patch_data_indices).map
        (List.map (RobinKernelCall.withAdjoint b)) :=
  collectCalls_map _ _ _ _ (fun _ _ => fillGhostCellValuesCodim3_adjoint _ _ _ _ _ _ _)

theorem checkPatchData_method {n : Nat} (op : CartCellRobinPhysBdryOp n) (patch : RobinPatch n)
    (m m' : String) (l : List Int) (h : op.checkPatchData patch m l = Except.ok ()) :
    op.checkPatchData patch m' l = Except.ok () := by
  induction l with
  | nil => rfl
  | cons a l ih =>
      unfold CartCellRobinPhysBdryOp.checkPatchData at h ⊢
      cases hp : patch.cell_data a with
      | none => rw [hp] at h; exact absurd h (by simp)
      | some pd =>
          rw [hp] at h
          dsimp only at h ⊢
          split_ifs at h ⊢ with hd
          exact ih h

/-- C17. For the Robin closure of the codimension-1 ghost fill, with grid
spacing `h ≠ 0` and adjacent interior value `u_i`: the ghost value solves the
discrete Robin condition whenever `a h + 2 b ≠ 0`; with `a = 1`, `b = 0`,
`g = v0` the value at the boundary (the average of the ghost cell and the
adjacent interior cell) is `v0`; with `a = 0`, `b = 1`, `g = 0` the ghost
value is the adjacent interior value. -/
theorem robin_closure_boundary_cases (h u_i v0 : ℚ) (hh : h ≠ 0) :
    (∀ a b g : ℚ, a * h + 2 * b ≠ 0 →
      a * ((robinGhostValue a b g h u_i + u_i) / 2) +
        b * ((robinGhostValue a b g h u_i - u_i) / h) = g) ∧
    (robinGhostValue 1 0 v0 h u_i + u_i) / 2 = v0 ∧
    robinGhostValue 0 1 0 h u_i = u_i := by
  refine ⟨?_, ?_, ?_⟩
  · intro a b g hab
    unfold robinGhostValue
    field_simp
    ring
  · unfold robinGhostValue
    field_simp
    ring
  · unfold robinGhostValue
    field_simp

/-- Witness of C17: grid spacing 1, interior value 3, boundary value 2. -/
theorem robin_closure_boundary_cases_witness :
    (1 : ℚ) ≠ 0 ∧
    (∀ a b g : ℚ, a * 1 + 2 * b ≠ 0 →
      a * ((robinGhostValue a b g 1 3 + 3) / 2) +
        b * ((robinGhostValue a b g 1 3 - 3) / 1) = g) ∧
    (robinGhostValue 1 0 2 1 3 + 3) / 2 = 2 ∧
    robinGhostValue 0 1 0 1 3 = 3 :=
  ⟨one_ne_zero, robin_closure_boundary_cases 1 3 2 one_ne_zero⟩

/-! ## The quadratic kernel at codimension 1 -/

theorem find?_first_of_sorted {n : Nat} (p : Fin n → Bool) (d : Fin n) (hp : p d = true)
    (hfirst : ∀ d' : Fin n, d' < d → p d' = false) :
    ∀ l : List (Fin n), l.Pairwise (fun a b => a < b) → d ∈ l → l.find? p = some d := by
  intro l
  induction l with
  | nil => intro _ h; simp at h
  | cons a l ih =>
      intro hs hm
      rw [List.pairwise_cons] at hs
      by_cases ha : a = d
      · subst ha
        simp [List.find?, hp]
      · have hdl : d ∈ l := by
          rcases List.mem_cons.mp hm with h | h
          · exact absurd h.symm ha
          · exact h
        have hlt : a < d := hs.1 d hdl
        simp only [List.find?, hfirst a hlt]
        exact ih hs.2 hdl

theorem find?_finRange_first {n : Nat} (p : Fin n → Bool) (d : Fin n) (hp : p d = true)
    (hfirst : ∀ d' : Fin n, d' < d → p d' = false) : (List.finRange n).find? p = some d :=
  find?_first_of_sorted p d hp hfirst _ (List.pairwise_lt_finRange n) (List.mem_finRange d)

/-- C26. At codimension one, with `d` the first axis whose shift is non-zero,
`compute_quadratic_extrap` returns at a ghost index at distance 1 from the
reference index `i_intr` the sample `f1` taken one cell inward (at `i_intr`
shifted once along `d`), and at distance 2 the sample `f2` taken two cells
inward: the first two ghost layers mirror the first two interior layers about
the boundary cell, whatever the samples are. -/
theorem quadratic_extrap_mirrors {n : Nat} (patch_data : CellArray n)
    (i i_intr i_shft : Index n) (depth : Nat) (d : Fin n) (hd : i_shft d ≠ 0)
    (hfirst : ∀ d' : Fin n, d' < d → i_shft d' = 0) :
    (|i d - i_intr d| = 1 →
      compute_quadratic_extrap patch_data i i_intr i_shft depth 1 =
        patch_data (Function.update i_intr d (i_intr d + i_shft d)) depth) ∧
    (|i d - i_intr d| = 2 →
      compute_quadratic_extrap patch_data i i_intr i_shft depth 1 =
        patch_data
          (Function.update (Function.update i_intr d (i_intr d + i_shft d)) d
            (i_intr d + i_shft d + i_shft d)) depth) := by
  have hfind : (List.finRange n).find? (fun d => decide (i_shft d ≠ 0)) = some d :=
    find?_finRange_first _ d (by simp [hd]) (fun d' h => by simp [hfirst d' h])
  constructor
  · intro hx
    unfold compute_quadratic_extrap
    rw [if_pos rfl, hfind]
    simp only [hx]
    push_cast
    ring
  · intro hx
    unfold compute_quadratic_extrap
    rw [if_pos rfl, hfind]
    simp only [hx, Function.update_same]
    push_cast
    ring

/-- Witness of C26: the one-dimensional data `u[k] = k * k + 3` with reference
index 0 and shift `+1`; the ghost indices `-1` and `-2` receive `u[1] = 4`
and `u[2] = 7`. -/
theorem quadratic_extrap_mirrors_witness :
    (![1] : Index 1) 0 ≠ 0 ∧ (∀ d' : Fin 1, d' < 0 → (![1] : Index 1) d' = 0) ∧
    compute_quadratic_extrap (fun (i : Index 1) _ => ((i 0 : ℚ) * (i 0 : ℚ) + 3)) ![-1] ![0] ![1]
      0 1 = 4 ∧
    compute_quadratic_extrap (fun (i : Index 1) _ => ((i 0 : ℚ) * (i 0 : ℚ) + 3)) ![-2] ![0] ![1]
      0 1 = 7 := by
  have h1 := (quadratic_extrap_mirrors (fun (i : Index 1) _ => ((i 0 : ℚ) * (i 0 : ℚ) + 3))
    ![-1] ![0] ![1] 0 0 (by decide) (fun d' h => absurd h (Fin.not_lt_zero d'))).1 (by decide)
  have h2 := (quadratic_extrap_mirrors (fun (i : Index 1) _ => ((i 0 : ℚ) * (i 0 : ℚ) + 3))
    ![-2] ![0] ![1] 0 0 (by decide) (fun d' h => absurd h (Fin.not_lt_zero d'))).2 (by decide)
  refine ⟨by decide, fun d' h => absurd h (Fin.not_lt_zero d'), ?_, ?_⟩
  · rw [h1]; norm_num
  · rw [h2]; norm_num

/-! ## The homogeneous mode of `fillGhostCellValuesCodim1` -/

theorem codim1Depths_gcoef {n : Nat} (op : CartCellRobinPhysBdryOp n)
    (patch_data_idx : Int) (patch_data_gcw : Int) (fill_time : ℚ) (b : Bool)
    (location_index : Nat) (bc_fill_box : Box n) (trimmed_bdry_box : BoundaryBox n)
    (ds : List Nat) :
    ∀ (coefs : RobinCoefData n) (calls : List (RobinKernelCall n)),
      op.codim1Depths patch_data_idx patch_data_gcw fill_time b location_index bc_fill_box
          trimmed_bdry_box ds coefs = Except.ok calls →
      (∀ c ∈ calls, GcoefForced op patch_data_idx fill_time c) ∧
        calls.map (fun c => (c.location_index, c.depth)) =
          ds.map (fun d => (location_index, d)) := by
  induction ds with
  | nil =>
      intro coefs calls h
      simp only [CartCellRobinPhysBdryOp.codim1Depths, Except.ok.injEq] at h
      subst h
      simp
  | cons d ds ih =>
      intro coefs calls h
      unfold CartCellRobinPhysBdryOp.codim1Depths at h
      cases hb : op.d_bc_coefs.getD d none with
      | none => rw [hb] at h; exact absurd h (by simp)
      | some bc_coef =>
          rw [hb] at h
          dsimp only at h
          cases hk : codim1Kernel n location_index with
          | error e => rw [hk] at h; exact absurd h (by simp)
          | ok kernel =>
              rw [hk] at h
              dsimp only at h
              split at h
              · exact absurd h (by simp)
              · rename_i rest hrest
                simp only [Except.ok.injEq] at h
                subst h
                obtain ⟨ih1, ih2⟩ := ih _ rest hrest
                refine ⟨?_, ?_⟩
                · intro c hc
                  rcases List.mem_cons.mp hc with rfl | hc
                  · refine ⟨bc_coef, coefs, trimmed_bdry_box, _, hb, rfl, ?_, ?_, ?_, ?_⟩
                    · dsimp only; split_ifs <;> rfl
                    · dsimp only; split_ifs <;> rfl
                    · intro hh i
                      rw [if_pos hh]
                      rfl
                    · intro hh
                      rw [if_neg hh]
                  · exact ih1 c hc
                · rw [List.map_cons, List.map_cons, ih2]

theorem collectCalls_map_flatMap {α β γ : Type} (g : β → γ) (k : α → List γ)
    (f : α → Except String (List β)) (l : List α)
    (h : ∀ a ∈ l, ∀ xs, f a = Except.ok xs → xs.map g = k a) :
    ∀ ys, collectCalls f l = Except.ok ys → ys.map g = l.flatMap k := by
  induction l with
  | nil =>
      intro ys hys
      simp only [collectCalls, Except.ok.injEq] at hys
      subst hys
      rfl
  | cons a l ih =>
      intro ys hys
      unfold collectCalls at hys
      cases hfa : f a with
      | error e => rw [hfa] at hys; exact absurd hys (by simp)
      | ok xs =>
          rw [hfa] at hys
          dsimp only at hys
          cases hc : collectCalls f l with
          | error e => rw [hc] at hys; exact absurd hys (by simp)
          | ok rest =>
              rw [hc] at hys
              simp only [Except.ok.injEq] at hys
              subst hys
              rw [List.map_append, List.flatMap_cons, h a (List.mem_cons_self _ _) xs hfa,
                ih (fun b hb => h b (List.mem_cons_of_mem _ hb)) rest hc]

/-- C23. When `fillGhostCellValuesCodim1` returns on a non-empty list of
boundary boxes, it made one kernel call for each boundary box and each depth
component, in this order, and in every call the `a` and `b` arrays handed to
the kernel are those the strategy of that depth produced by `setBcCoefs`; the
`g` array is zero everywhere when the operator is in homogeneous mode and the
strategy is not an `ExtendedRobinBcCoefStrategy`, and is the array that
`setBcCoefs` produced otherwise. -/
theorem codim1_homogeneous_forcing {n : Nat} (debug_checks : Bool)
    (op : CartCellRobinPhysBdryOp n) (patch_data_idx : Int)
    (physical_codim1_boxes : List (BoundaryBox n)) (fill_time : ℚ)
    (ghost_width_to_fill : Index n) (patch : RobinPatch n) (adjoint_op : Bool)
    (calls : List (RobinKernelCall n))
    (hboxes : physical_codim1_boxes ≠ [])
    (h : op.fillGhostCellValuesCodim1 debug_checks patch_data_idx physical_codim1_boxes
      fill_time ghost_width_to_fill patch adjoint_op = Except.ok calls) :
    (∀ c ∈ calls, GcoefForced op patch_data_idx fill_time c) ∧
    ∃ patch_data, patch.cell_data patch_data_idx = some patch_data ∧
      calls.map (fun c => (c.location_index, c.depth)) =
        physical_codim1_boxes.flatMap
          (fun bdry_box =>
            (List.range patch_data.1).map (fun d => (bdry_box.location_index, d))) := by
  unfold CartCellRobinPhysBdryOp.fillGhostCellValuesCodim1 at h
  dsimp only at h
  have h0 : ¬ physical_codim1_boxes.length = 0 := by
    intro h0
    exact hboxes (List.length_eq_zero.mp h0)
  rw [if_neg h0] at h
  cases hp : patch.cell_data patch_data_idx with
  | none => rw [hp] at h; exact absurd h (by simp)
  | some patch_data =>
      rw [hp] at h
      dsimp only at h
      by_cases h1 : debug_checks = true ∧ intVectorMax patch_data.2 ≠ intVectorMin patch_data.2
      · rw [if_pos h1] at h
        exact absurd h (by simp)
      · rw [if_neg h1] at h
        refine ⟨?_, patch_data, rfl, ?_⟩
        · exact collectCalls_forall _ _ _
            (fun bdry_box _ xs hxs => (codim1Depths_gcoef _ _ _ _ _ _ _ _ _ _ xs hxs).1) calls h
        · exact collectCalls_map_flatMap _ _ _ _
            (fun bdry_box _ xs hxs => (codim1Depths_gcoef _ _ _ _ _ _ _ _ _ _ xs hxs).2) calls h

/-- Witness of C23: the probe operator in homogeneous mode on the probe patch;
its strategy sets `g = 5` and is not an extended one. -/
theorem codim1_homogeneous_forcing_witness :
    robinProbePatch.physical_codim1_boxes ≠ [] ∧
    (robinProbeOp true).fillGhostCellValuesCodim1 true 0 robinProbePatch.physical_codim1_boxes 0
        (fun _ => 1) robinProbePatch false = Except.ok robinProbeCodim1Calls ∧
    robinProbeCodim1Calls.length = 1 ∧
    ((∀ c ∈ robinProbeCodim1Calls, GcoefForced (robinProbeOp true) 0 0 c) ∧
      ∃ patch_data, robinProbePatch.cell_data 0 = some patch_data ∧
        robinProbeCodim1Calls.map (fun c => (c.location_index, c.depth)) =
          robinProbePatch.physical_codim1_boxes.flatMap
            (fun bdry_box =>
              (List.range patch_data.1).map (fun d => (bdry_box.location_index, d)))) :=
  ⟨by simp [robinProbePatch], rfl, rfl,
    codim1_homogeneous_forcing true (robinProbeOp true) 0 robinProbePatch.physical_codim1_boxes 0
      (fun _ => 1) robinProbePatch false robinProbeCodim1Calls (by simp [robinProbePatch]) rfl⟩

/-! ## The state across `initializeOperatorState` -/

theorem registerCoarsenOps_state (env : Collaborators)
    (Q : HierarchyGhostCellInterpolation → Prop)
    (hca : ∀ s v, Q s → Q { s with d_coarsen_alg := v }) (sys : Sys) (h : Q sys.2) :
    Ends (fun sys : Sys => Q sys.2) (fun st : Sys × Bool => Q st.1.2)
      (registerCoarsenOps env sys) := by
  unfold registerCoarsenOps
  apply dropLocal_ends
  refine forComponents_ends (fun st : Sys × Bool => Q st.1.2) _ ?_ _ 0 _ (hca _ _ h)
  intro k comp st hst
  unfold registerCoarsenBody
  dsimp only
  split_ifs
  · exact hst
  · exact hst
  · exact hca _ _ hst
  · exact hst

theorem createCoarsenSchedules_state (Q : HierarchyGhostCellInterpolation → Prop)
    (hst : ∀ s v, Q s → Q { s with d_coarsen_strategy := v })
    (hsc : ∀ s v, Q s → Q { s with d_coarsen_scheds := v }) (sys : Sys) (b : Bool)
    (h : Q sys.2) : Q (createCoarsenSchedules sys b).2 := by
  unfold createCoarsenSchedules
  dsimp only
  split_ifs
  · apply foldl_preserves (fun a : Sys => Q a.2)
    · intro a ln ha
      exact hsc _ _ ha
    · exact hsc _ _ (hst sys.2 false h)
  · exact hsc _ _ (hst sys.2 false h)

theorem createRefineSchedules_state (Q : HierarchyGhostCellInterpolation → Prop)
    (hsc : ∀ s v, Q s → Q { s with d_refine_scheds := v }) (sys : Sys)
    (h : Q sys.2) : Q (createRefineSchedules sys).2 := by
  unfold createRefineSchedules
  dsimp only
  apply foldl_preserves (fun a : Sys => Q a.2)
  · intro a ln ha
    exact hsc _ _ ha
  · exact hsc _ _ h

theorem initCentering_state (env : Collaborators) (Q : HierarchyGhostCellInterpolation → Prop)
    (hcf : ∀ s v, Q s → Q { s with d_cf_bdry_ops := v })
    (k : Nat) (comp : InterpolationTransactionComponent) (st : Sys × List StrategyRef)
    (h : Q st.1.2) :
    Ends (fun st : Sys × List StrategyRef => Q st.1.2) (fun st => Q st.1.2)
      (initCentering env k comp st) := by
  unfold initCentering
  dsimp only
  split
  · unfold Ends; dsimp only; split_ifs
    · exact hcf { st.1.2 with d_cf_bdry_ops := st.1.2.d_cf_bdry_ops.set k none } _ (hcf _ _ h)
    · exact hcf _ _ h
  · split_ifs <;> exact hcf _ _ h
  · unfold Ends; dsimp only; split_ifs
    · exact hcf { st.1.2 with d_cf_bdry_ops := st.1.2.d_cf_bdry_ops.set k none } _ (hcf _ _ h)
    · exact hcf _ _ h
  · exact hcf _ _ h

theorem initExtrap_state (Q : HierarchyGhostCellInterpolation → Prop)
    (hex : ∀ s v, Q s → Q { s with d_extrap_bc_ops := v })
    (k : Nat) (comp : InterpolationTransactionComponent) (st : Sys × List StrategyRef)
    (h : Q st.1.2) :
    Ends (fun st : Sys × List StrategyRef => Q st.1.2) (fun st => Q st.1.2)
      (initExtrap k comp st) := by
  unfold initExtrap
  dsimp only
  split_ifs
  · unfold CartExtrapPhysBdryOp.construct
    cases hr : setExtrapolationType
      (st.1.1, (CartExtrapPhysBdryOp.mk [] "NULL").setPatchDataIndex comp.d_dst_data_idx)
      comp.d_phys_bdry_extrap_type with
    | ok r => exact hex _ _ h
    | error e => exact h
  · exact h

theorem initRobin_state (env : Collaborators) (Q : HierarchyGhostCellInterpolation → Prop)
    (hcc : ∀ s v, Q s → Q { s with d_cc_robin_bc_ops := v })
    (hsc : ∀ s v, Q s → Q { s with d_sc_robin_bc_ops := v })
    (k : Nat) (comp : InterpolationTransactionComponent) (st : Sys × List StrategyRef)
    (h : Q st.1.2) :
    Ends (fun st : Sys × List StrategyRef => Q st.1.2) (fun st => Q st.1.2)
      (initRobin env k comp st) := by
  unfold initRobin
  dsimp only
  by_cases hc : nullBcCoefs comp = false ∧
      env.mapIndexToVariable comp.d_src_data_idx = some VariableKind.cell_double
  · have hs : ¬ (nullBcCoefs comp = false ∧
        env.mapIndexToVariable comp.d_src_data_idx = some VariableKind.side_double) := by
      rintro ⟨_, h2⟩
      rw [hc.2] at h2
      cases h2
    rw [if_neg hs]
    simp only [if_pos hc]
    exact hcc _ _ h
  · simp only [if_neg hc]
    split_ifs
    · exact h
    · exact hsc _ _ h
    · exact h

theorem initRefineBody_state (env : Collaborators) (Q : HierarchyGhostCellInterpolation → Prop)
    (hcf : ∀ s v, Q s → Q { s with d_cf_bdry_ops := v })
    (hra : ∀ s v, Q s → Q { s with d_refine_alg := v })
    (hex : ∀ s v, Q s → Q { s with d_extrap_bc_ops := v })
    (hrobin : ∀ k comp (st : Sys × List StrategyRef), Q st.1.2 →
      Ends (fun st : Sys × List StrategyRef => Q st.1.2) (fun st => Q st.1.2)
        (initRobin env k comp st))
    (k : Nat) (comp : InterpolationTransactionComponent) (st : Sys × List StrategyRef)
    (h : Q st.1.2) :
    Ends (fun st : Sys × List StrategyRef => Q st.1.2) (fun st => Q st.1.2)
      (initRefineBody env k comp st) := by
  unfold initRefineBody
  have h1 := initCentering_state env Q hcf k comp st h
  cases hr1 : initCentering env k comp st with
  | error e => rw [hr1] at h1; exact h1
  | ok st1 =>
      rw [hr1] at h1
      have h1' : Q ((st1.1.1, registerRefine env comp st1.1.2), st1.2).1.2 := hra _ _ h1
      have h2 := initExtrap_state Q hex k comp _ h1'
      dsimp only
      cases hr2 : initExtrap k comp ((st1.1.1, registerRefine env comp st1.1.2), st1.2) with
      | error e => rw [hr2] at h2; exact h2
      | ok st2 =>
          rw [hr2] at h2
          exact hrobin k comp st2 h2

theorem setupRefine_state (env : Collaborators) (Q : HierarchyGhostCellInterpolation → Prop)
    (hQ : KeptBySetup Q) (sys : Sys) (h : Q sys.2) :
    Ends (fun sys : Sys => Q sys.2) (fun sys : Sys => Q sys.2) (setupRefine env sys) := by
  unfold setupRefine
  dsimp only
  have h0 : Q { sys.2 with
      d_cf_bdry_ops := resizeSlots sys.2.d_cf_bdry_ops sys.2.d_transaction_comps.length
      d_extrap_bc_ops := resizeSlots sys.2.d_extrap_bc_ops sys.2.d_transaction_comps.length
      d_cc_robin_bc_ops := resizeSlots sys.2.d_cc_robin_bc_ops sys.2.d_transaction_comps.length
      d_sc_robin_bc_ops := resizeSlots sys.2.d_sc_robin_bc_ops sys.2.d_transaction_comps.length
      d_refine_alg := some ⟨[]⟩ } := by
    have a1 := hQ.cf_bdry_ops sys.2
      (resizeSlots sys.2.d_cf_bdry_ops sys.2.d_transaction_comps.length) h
    have a2 := hQ.extrap_bc_ops _
      (resizeSlots sys.2.d_extrap_bc_ops sys.2.d_transaction_comps.length) a1
    have a3 := hQ.cc_robin_bc_ops _
      (resizeSlots sys.2.d_cc_robin_bc_ops sys.2.d_transaction_comps.length) a2
    have a4 := hQ.sc_robin_bc_ops _
      (resizeSlots sys.2.d_sc_robin_bc_ops sys.2.d_transaction_comps.length) a3
    exact hQ.refine_alg _ (some ⟨[]⟩) a4
  have hloop := dropLocal_ends (fun sys : Sys => Q sys.2)
    (fun st : Sys × List StrategyRef => Q st.1.2) _
    (forComponents_ends (fun st : Sys × List StrategyRef => Q st.1.2) (initRefineBody env)
      (initRefineBody_state env Q hQ.cf_bdry_ops hQ.refine_alg hQ.extrap_bc_ops
        (initRobin_state env Q hQ.cc_robin_bc_ops hQ.sc_robin_bc_ops))
      sys.2.d_transaction_comps 0
      ((sys.1, { sys.2 with
        d_cf_bdry_ops := resizeSlots sys.2.d_cf_bdry_ops sys.2.d_transaction_comps.length
        d_extrap_bc_ops := resizeSlots sys.2.d_extrap_bc_ops sys.2.d_transaction_comps.length
        d_cc_robin_bc_ops :=
          resizeSlots sys.2.d_cc_robin_bc_ops sys.2.d_transaction_comps.length
        d_sc_robin_bc_ops :=
          resizeSlots sys.2.d_sc_robin_bc_ops sys.2.d_transaction_comps.length
        d_refine_alg := some ⟨[]⟩ }), []) h0)
  split
  · rename_i e heq
    rw [heq] at hloop
    exact hloop
  · rename_i st heq
    rw [heq] at hloop
    exact createRefineSchedules_state Q hQ.refine_scheds _ (hQ.refine_strategy _ _ hloop)

/-- Every property of the orchestrator that the set-up steps keep, and that
holds once the hierarchy data is cached, holds of the state in which
`initializeOperatorState` returns or raises its error. -/
theorem initializeOperatorState_state (env : Collaborators)
    (Q : HierarchyGhostCellInterpolation → Prop) (hQ : KeptBySetup Q)
    (transaction_comps : List InterpolationTransactionComponent) (hierarchy : PatchHierarchy)
    (coarsest_ln finest_ln : Int) (sys : Sys)
    (h : Q (initCacheHierarchy transaction_comps hierarchy coarsest_ln finest_ln sys.2)) :
    Ends (fun sys : Sys => Q sys.2) (fun sys : Sys => Q sys.2)
      (initializeOperatorState env transaction_comps hierarchy coarsest_ln finest_ln sys) := by
  unfold initializeOperatorState
  dsimp only
  have h1 := registerCoarsenOps_state env Q hQ.coarsen_alg
    (registerCubicCoarsenOps sys.1,
      initCacheHierarchy transaction_comps hierarchy coarsest_ln finest_ln sys.2) h
  cases hr : registerCoarsenOps env (registerCubicCoarsenOps sys.1,
      initCacheHierarchy transaction_comps hierarchy coarsest_ln finest_ln sys.2) with
  | error e => rw [hr] at h1; exact h1
  | ok st =>
      rw [hr] at h1
      dsimp only
      have h2 := createCoarsenSchedules_state Q hQ.coarsen_strategy hQ.coarsen_scheds st.1 st.2 h1
      have h3 := setupRefine_state env Q hQ _ h2
      cases hs : setupRefine env (createCoarsenSchedules st.1 st.2) with
      | error e => rw [hs] at h3; exact h3
      | ok sys1 =>
          rw [hs] at h3
          exact hQ.is_initialized _ _ (hQ.homogeneous_bc _ _ h3)

/-- C29. On an initialized orchestrator, whatever level bounds the earlier
`initializeOperatorState` cached, `reinitializeOperatorState(h)` ends (it
returns, or it raises the error of the repeated initialization) in a state
whose registered transaction components are those from before the call,
whose coarsest level is 0 and whose finest level is the finest level number
of `h`. -/
theorem reinitialize_discards_level_bounds (env : Collaborators) (hierarchy : PatchHierarchy)
    (sys : Sys) (hinit : sys.2.d_is_initialized = true) :
    (Outcome.finalState (reinitializeOperatorState env hierarchy sys)).2.d_transaction_comps =
        sys.2.d_transaction_comps ∧
      (Outcome.finalState (reinitializeOperatorState env hierarchy sys)).2.d_coarsest_ln = 0 ∧
      (Outcome.finalState (reinitializeOperatorState env hierarchy sys)).2.d_finest_ln =
        hierarchy.getFinestLevelNumber := by
  unfold reinitializeOperatorState
  rw [if_neg (by rw [hinit]; decide)]
  have h := initializeOperatorState_state env
    (fun s => s.d_transaction_comps = sys.2.d_transaction_comps ∧ s.d_coarsest_ln = 0 ∧
      s.d_finest_ln = hierarchy.getFinestLevelNumber)
    ⟨fun _ _ h => h, fun _ _ h => h, fun _ _ h => h, fun _ _ h => h, fun _ _ h => h,
      fun _ _ h => h, fun _ _ h => h, fun _ _ h => h, fun _ _ h => h, fun _ _ h => h,
      fun _ _ h => h, fun _ _ h => h⟩
    sys.2.d_transaction_comps hierarchy (-1) (-1) sys
    (by unfold initCacheHierarchy; exact ⟨rfl, rfl, rfl⟩)
  cases hr : initializeOperatorState env sys.2.d_transaction_comps hierarchy (-1) (-1) sys with
  | error e => rw [hr] at h; exact h
  | ok sys1 => rw [hr] at h; exact h

/-- Witness of C29: the orchestrator initialized with the bounds 1 and 1 is
reinitialized, without error, to the bounds 0 and 1. -/
theorem reinitialize_discards_level_bounds_witness :
    probeStateBounded.2.d_is_initialized = true ∧
    probeStateBounded.2.d_coarsest_ln = 1 ∧
    (reinitializeOperatorState (probeEnv true) probeHierarchy probeStateBounded).toBool = true ∧
    (Outcome.finalState
        (reinitializeOperatorState (probeEnv true) probeHierarchy
          probeStateBounded)).2.d_transaction_comps = [probeComponent 0 true [some 0]] ∧
    (Outcome.finalState
        (reinitializeOperatorState (probeEnv true) probeHierarchy
          probeStateBounded)).2.d_coarsest_ln = 0 ∧
    (Outcome.finalState
        (reinitializeOperatorState (probeEnv true) probeHierarchy
          probeStateBounded)).2.d_finest_ln = 1 :=
  ⟨rfl, rfl, rfl,
    reinitialize_discards_level_bounds (probeEnv true) probeHierarchy probeStateBounded rfl⟩

/-! ## The Robin operator slots of `initializeOperatorState` -/

theorem forComponents_indexed {σ : Type} (Inv : Nat → σ → Prop)
    (body : Nat → InterpolationTransactionComponent → σ → Outcome σ) :
    ∀ (comps : List InterpolationTransactionComponent) (k0 : Nat) (st st' : σ),
      (∀ j comp a b, comps[j]? = some comp → Inv (k0 + j) a →
        body (k0 + j) comp a = Except.ok b → Inv (k0 + j + 1) b) →
      Inv k0 st → forComponents body k0 comps st = Except.ok st' →
      Inv (k0 + comps.length) st' := by
  intro comps
  induction comps with
  | nil =>
      intro k0 st st' _ h0 h
      simp only [forComponents, Except.ok.injEq] at h
      subst h
      exact h0
  | cons comp comps ih =>
      intro k0 st st' hbody h0 h
      unfold forComponents at h
      cases hr : body k0 comp st with
      | error e => rw [hr] at h; exact absurd h (by simp)
      | ok st1 =>
          rw [hr] at h
          dsimp only at h
          have h1 : Inv (k0 + 1) st1 := hbody 0 comp st st1 (by simp) h0 hr
          have := ih (k0 + 1) st1 st'
            (fun j c a b hj ha hb => by
              have e : k0 + 1 + j = k0 + (j + 1) := by omega
              rw [e] at ha hb ⊢
              exact hbody (j + 1) c a b (by simpa using hj) ha hb)
            h1 h
          have e : k0 + (comp :: comps).length = k0 + 1 + comps.length := by
            simp only [List.length_cons]; omega
          rw [e]
          exact this

theorem nullBcCoefs_eq_false (comp : InterpolationTransactionComponent) :
    nullBcCoefs comp = false ↔ ∃ bc ∈ comp.d_robin_bc_coefs, bc.isSome = true := by
  unfold nullBcCoefs
  rw [← Bool.not_eq_true, List.all_eq_true]
  push_neg
  constructor
  · rintro ⟨bc, hb, hn⟩
    refine ⟨bc, hb, ?_⟩
    cases bc with
    | none => exact absurd rfl hn
    | some a => rfl
  · rintro ⟨bc, hb, hs⟩
    refine ⟨bc, hb, ?_⟩
    cases bc with
    | none => exact absurd hs (by simp)
    | some a => simp

theorem initRobin_tables (env : Collaborators) (k : Nat)
    (comp : InterpolationTransactionComponent) (st st' : Sys × List StrategyRef)
    (h : initRobin env k comp st = Except.ok st') :
    (wantsRobinOp env VariableKind.cell_double comp →
      ∃ x, st'.1.2.d_cc_robin_bc_ops = st.1.2.d_cc_robin_bc_ops.set k (some x)) ∧
    (¬ wantsRobinOp env VariableKind.cell_double comp →
      st'.1.2.d_cc_robin_bc_ops = st.1.2.d_cc_robin_bc_ops) ∧
    (wantsRobinOp env VariableKind.side_double comp →
      ∃ x, st'.1.2.d_sc_robin_bc_ops = st.1.2.d_sc_robin_bc_ops.set k (some x)) ∧
    (¬ wantsRobinOp env VariableKind.side_double comp →
      st'.1.2.d_sc_robin_bc_ops = st.1.2.d_sc_robin_bc_ops) := by
  unfold initRobin at h
  dsimp only at h
  have hcw : (nullBcCoefs comp = false ∧
      env.mapIndexToVariable comp.d_src_data_idx = some VariableKind.cell_double) ↔
      wantsRobinOp env VariableKind.cell_double comp := by
    unfold wantsRobinOp
    rw [nullBcCoefs_eq_false]
    exact And.comm
  have hsw : (nullBcCoefs comp = false ∧
      env.mapIndexToVariable comp.d_src_data_idx = some VariableKind.side_double) ↔
      wantsRobinOp env VariableKind.side_double comp := by
    unfold wantsRobinOp
    rw [nullBcCoefs_eq_false]
    exact And.comm
  by_cases hc : nullBcCoefs comp = false ∧
      env.mapIndexToVariable comp.d_src_data_idx = some VariableKind.cell_double
  · have hs : ¬ (nullBcCoefs comp = false ∧
        env.mapIndexToVariable comp.d_src_data_idx = some VariableKind.side_double) := by
      rintro ⟨_, h2⟩
      rw [hc.2] at h2
      cases h2
    rw [if_neg hs] at h
    simp only [if_pos hc, Except.ok.injEq] at h
    subst h
    exact ⟨fun _ => ⟨_, rfl⟩, fun hn => absurd (hcw.1 hc) hn,
      fun hw => absurd (hsw.2 hw) hs, fun _ => rfl⟩
  · simp only [if_neg hc] at h
    by_cases hs : nullBcCoefs comp = false ∧
        env.mapIndexToVariable comp.d_src_data_idx = some VariableKind.side_double
    · rw [if_pos hs] at h
      split_ifs at h
      simp only [Except.ok.injEq] at h
      subst h
      exact ⟨fun hw => absurd (hcw.2 hw) hc, fun _ => rfl,
        fun _ => ⟨_, rfl⟩, fun hn => absurd (hsw.1 hs) hn⟩
    · rw [if_neg hs] at h
      simp only [Except.ok.injEq] at h
      subst h
      exact ⟨fun hw => absurd (hcw.2 hw) hc, fun _ => rfl,
        fun hw => absurd (hsw.2 hw) hs, fun _ => rfl⟩

theorem robinSlot_step {α : Type} (W : InterpolationTransactionComponent → Prop)
    (comps : List InterpolationTransactionComponent) (j : Nat)
    (comp : InterpolationTransactionComponent) (hj : comps[j]? = some comp)
    (v v' : List (Option α)) (hlen : v.length = comps.length)
    (hset : W comp → ∃ x, v' = v.set j (some x)) (hkeep : ¬ W comp → v' = v)
    (hv : ∀ k : Nat, (slot v k).isSome = true ↔
      (k < j ∧ ∃ c, comps[k]? = some c ∧ W c)) :
    v'.length = comps.length ∧
      ∀ k : Nat, (slot v' k).isSome = true ↔ (k < j + 1 ∧ ∃ c, comps[k]? = some c ∧ W c) := by
  have hjl : j < comps.length := by
    by_contra hc
    rw [List.getElem?_eq_none (Nat.le_of_not_lt hc)] at hj
    exact absurd hj (by simp)
  by_cases hw : W comp
  · obtain ⟨x, rfl⟩ := hset hw
    refine ⟨by rw [List.length_set, hlen], ?_⟩
    intro k
    rw [slot_set_isSome, hv k]
    constructor
    · rintro (⟨rfl, _⟩ | ⟨hk, h⟩)
      · exact ⟨Nat.lt_succ_self _, comp, hj, hw⟩
      · exact ⟨Nat.lt_succ_of_lt hk, h⟩
    · rintro ⟨hk, h⟩
      by_cases hkj : k = j
      · exact Or.inl ⟨hkj, by rw [hlen]; exact hjl⟩
      · exact Or.inr ⟨by omega, h⟩
  · rw [hkeep hw]
    refine ⟨hlen, ?_⟩
    intro k
    rw [hv k]
    constructor
    · rintro ⟨hk, h⟩
      exact ⟨Nat.lt_succ_of_lt hk, h⟩
    · rintro ⟨hk, c, hc, hcw⟩
      by_cases hkj : k = j
      · subst hkj
        rw [hj] at hc
        cases hc
        exact absurd hcw hw
      · exact ⟨by omega, c, hc, hcw⟩

theorem initRefineBody_robinSlots (env : Collaborators)
    (comps : List InterpolationTransactionComponent) (j : Nat)
    (comp : InterpolationTransactionComponent) (st st' : Sys × List StrategyRef)
    (hj : comps[j]? = some comp) (h : RobinSlotsUpTo env comps j st.1.2)
    (hok : initRefineBody env j comp st = Except.ok st') :
    RobinSlotsUpTo env comps (j + 1) st'.1.2 := by
  unfold initRefineBody at hok
  have h1 := initCentering_state env
    (fun s => s.d_cc_robin_bc_ops = st.1.2.d_cc_robin_bc_ops ∧
      s.d_sc_robin_bc_ops = st.1.2.d_sc_robin_bc_ops)
    (fun _ _ h => h) j comp st ⟨rfl, rfl⟩
  cases hr1 : initCentering env j comp st with
  | error e => rw [hr1] at hok; exact absurd hok (by simp)
  | ok st1 =>
      rw [hr1] at hok h1
      dsimp only at hok
      have h2 := initExtrap_state
        (fun s => s.d_cc_robin_bc_ops = st.1.2.d_cc_robin_bc_ops ∧
          s.d_sc_robin_bc_ops = st.1.2.d_sc_robin_bc_ops)
        (fun _ _ h => h) j comp ((st1.1.1, registerRefine env comp st1.1.2), st1.2) h1
      cases hr2 : initExtrap j comp ((st1.1.1, registerRefine env comp st1.1.2), st1.2) with
      | error e => rw [hr2] at hok; exact absurd hok (by simp)
      | ok st2 =>
          rw [hr2] at hok h2
          dsimp only at hok
          obtain ⟨t1, t2, t3, t4⟩ := initRobin_tables env j comp st2 st' hok
          have e1 : st2.1.2.d_cc_robin_bc_ops = st.1.2.d_cc_robin_bc_ops := h2.1
          have e2 : st2.1.2.d_sc_robin_bc_ops = st.1.2.d_sc_robin_bc_ops := h2.2
          rw [e1] at t1 t2
          rw [e2] at t3 t4
          obtain ⟨l1, l2, hs⟩ := h
          obtain ⟨a1, a2⟩ := robinSlot_step (wantsRobinOp env VariableKind.cell_double) comps j
            comp hj _ _ l1 t1 t2 (fun k => (hs k).1)
          obtain ⟨b1, b2⟩ := robinSlot_step (wantsRobinOp env VariableKind.side_double) comps j
            comp hj _ _ l2 t3 t4 (fun k => (hs k).2)
          exact ⟨a1, b1, fun k => ⟨a2 k, b2 k⟩⟩

theorem length_resizeSlots {α : Type} (v : List (Option α)) (n : Nat) :
    (resizeSlots v n).length = n := by
  unfold resizeSlots
  simp only [List.length_append, List.length_take, List.length_replicate]
  omega

theorem setupRefine_robinSlots (env : Collaborators) (sys sys1 : Sys)
    (hcc : sys.2.d_cc_robin_bc_ops = []) (hsc : sys.2.d_sc_robin_bc_ops = [])
    (hok : setupRefine env sys = Except.ok sys1) :
    RobinSlotsUpTo env sys.2.d_transaction_comps sys.2.d_transaction_comps.length sys1.2 := by
  unfold setupRefine at hok
  dsimp only at hok
  split at hok
  · exact absurd hok (by simp)
  · rename_i st heq
    simp only [Except.ok.injEq] at hok
    subst hok
    have hst : RobinSlotsUpTo env sys.2.d_transaction_comps sys.2.d_transaction_comps.length
        st.1.2 := by
      cases hf : forComponents (initRefineBody env) 0 sys.2.d_transaction_comps
          ((sys.1,
            { sys.2 with
              d_cf_bdry_ops := resizeSlots sys.2.d_cf_bdry_ops sys.2.d_transaction_comps.length
              d_extrap_bc_ops :=
                resizeSlots sys.2.d_extrap_bc_ops sys.2.d_transaction_comps.length
              d_cc_robin_bc_ops :=
                resizeSlots sys.2.d_cc_robin_bc_ops sys.2.d_transaction_comps.length
              d_sc_robin_bc_ops :=
                resizeSlots sys.2.d_sc_robin_bc_ops sys.2.d_transaction_comps.length
              d_refine_alg := some ⟨[]⟩ }), []) with
      | error e => rw [hf] at heq; exact absurd heq (by simp [Outcome.dropLocal])
      | ok st' =>
          rw [hf] at heq
          simp only [Outcome.dropLocal, Except.ok.injEq] at heq
          subst heq
          have := forComponents_indexed
            (fun j (a : Sys × List StrategyRef) =>
              RobinSlotsUpTo env sys.2.d_transaction_comps j a.1.2)
            (initRefineBody env) sys.2.d_transaction_comps 0 _ _
            (fun j comp a b hj ha hb => by
              rw [Nat.zero_add] at ha hb ⊢
              exact initRefineBody_robinSlots env _ j comp a b hj ha hb)
            (by
              refine ⟨length_resizeSlots _ _, length_resizeSlots _ _, fun k => ?_⟩
              show ((slot (resizeSlots sys.2.d_cc_robin_bc_ops _) k).isSome = true ↔ _) ∧
                ((slot (resizeSlots sys.2.d_sc_robin_bc_ops _) k).isSome = true ↔ _)
              rw [hcc, hsc, slot_resizeSlots_nil]
              simp)
            hf
          rw [Nat.zero_add] at this
          exact this
    exact createRefineSchedules_state
      (RobinSlotsUpTo env sys.2.d_transaction_comps sys.2.d_transaction_comps.length)
      (fun _ _ h => h) (st.1.1, { st.1.2 with d_refine_strategy := some st.2 }) hst

theorem initCacheHierarchy_robin_clean (comps : List InterpolationTransactionComponent)
    (hierarchy : PatchHierarchy) (coarsest_ln finest_ln : Int)
    (s : HierarchyGhostCellInterpolation)
    (hclean : s.d_is_initialized = false →
      s.d_cc_robin_bc_ops = [] ∧ s.d_sc_robin_bc_ops = []) :
    (initCacheHierarchy comps hierarchy coarsest_ln finest_ln s).d_cc_robin_bc_ops = [] ∧
      (initCacheHierarchy comps hierarchy coarsest_ln finest_ln s).d_sc_robin_bc_ops = [] ∧
      (initCacheHierarchy comps hierarchy coarsest_ln finest_ln s).d_transaction_comps = comps := by
  unfold initCacheHierarchy
  dsimp only
  refine ⟨?_, ?_, rfl⟩
  · cases hi : s.d_is_initialized with
    | false => simpa using (hclean hi).1
    | true => simp [deallocateOperatorState, hi]
  · cases hi : s.d_is_initialized with
    | false => simpa using (hclean hi).2
    | true => simp [deallocateOperatorState, hi]

/-- C21. When `initializeOperatorState` returns, from an object whose Robin
operator tables are empty unless it is initialized (as the constructor and
`deallocateOperatorState` leave them), then for every component index `k`,
with `comp` the component of that index: the cell-centered Robin operator
slot `k` is non-null exactly when the source variable of `comp` is
cell-centered and one of its Robin coefficient objects is non-null; the
side-centered slot `k` is non-null exactly when the source variable is
side-centered and one coefficient object is non-null; and the two slots are
never both non-null. -/
theorem initialize_robin_slots (env : Collaborators)
    (transaction_comps : List InterpolationTransactionComponent) (hierarchy : PatchHierarchy)
    (coarsest_ln finest_ln : Int) (sys sys' : Sys)
    (hclean : sys.2.d_is_initialized = false →
      sys.2.d_cc_robin_bc_ops = [] ∧ sys.2.d_sc_robin_bc_ops = [])
    (hok : initializeOperatorState env transaction_comps hierarchy coarsest_ln finest_ln sys =
      Except.ok sys')
    (k : Nat) (comp : InterpolationTransactionComponent)
    (hk : transaction_comps[k]? = some comp) :
    ((slot sys'.2.d_cc_robin_bc_ops k).isSome = true ↔
      (env.mapIndexToVariable comp.d_src_data_idx = some VariableKind.cell_double ∧
        ∃ bc ∈ comp.d_robin_bc_coefs, bc.isSome = true)) ∧
    ((slot sys'.2.d_sc_robin_bc_ops k).isSome = true ↔
      (env.mapIndexToVariable comp.d_src_data_idx = some VariableKind.side_double ∧
        ∃ bc ∈ comp.d_robin_bc_coefs, bc.isSome = true)) ∧
    ¬ ((slot sys'.2.d_cc_robin_bc_ops k).isSome = true ∧
      (slot sys'.2.d_sc_robin_bc_ops k).isSome = true) := by
  have hkl : k < transaction_comps.length := by
    by_contra hc
    rw [List.getElem?_eq_none (Nat.le_of_not_lt hc)] at hk
    exact absurd hk (by simp)
  have key : RobinSlotsUpTo env transaction_comps transaction_comps.length sys'.2 := by
    have c0 := initCacheHierarchy_robin_clean transaction_comps hierarchy coarsest_ln finest_ln
      sys.2 hclean
    unfold initializeOperatorState at hok
    dsimp only at hok
    have h1 := registerCoarsenOps_state env
      (fun s => s.d_cc_robin_bc_ops = [] ∧ s.d_sc_robin_bc_ops = [] ∧
        s.d_transaction_comps = transaction_comps)
      (fun _ _ h => h)
      (registerCubicCoarsenOps sys.1,
        initCacheHierarchy transaction_comps hierarchy coarsest_ln finest_ln sys.2) c0
    cases hr : registerCoarsenOps env (registerCubicCoarsenOps sys.1,
        initCacheHierarchy transaction_comps hierarchy coarsest_ln finest_ln sys.2) with
    | error e => rw [hr] at hok; exact absurd hok (by simp)
    | ok st =>
        rw [hr] at hok h1
        dsimp only at hok
        have h2 := createCoarsenSchedules_state
          (fun s => s.d_cc_robin_bc_ops = [] ∧ s.d_sc_robin_bc_ops = [] ∧
            s.d_transaction_comps = transaction_comps)
          (fun _ _ h => h) (fun _ _ h => h) st.1 st.2 h1
        cases hs : setupRefine env (createCoarsenSchedules st.1 st.2) with
        | error e => rw [hs] at hok; exact absurd hok (by simp)
        | ok sys1 =>
            rw [hs] at hok
            simp only [Except.ok.injEq] at hok
            subst hok
            have h3 := setupRefine_robinSlots env _ sys1 h2.1 h2.2.1 hs
            rw [h2.2.2] at h3
            exact h3
  obtain ⟨-, -, hs⟩ := key
  have hcc : (slot sys'.2.d_cc_robin_bc_ops k).isSome = true ↔
      (env.mapIndexToVariable comp.d_src_data_idx = some VariableKind.cell_double ∧
        ∃ bc ∈ comp.d_robin_bc_coefs, bc.isSome = true) := by
    rw [(hs k).1]
    constructor
    · rintro ⟨-, c, hc, hw⟩
      rw [hk] at hc
      cases hc
      exact hw
    · intro hw
      exact ⟨hkl, comp, hk, hw⟩
  have hsc : (slot sys'.2.d_sc_robin_bc_ops k).isSome = true ↔
      (env.mapIndexToVariable comp.d_src_data_idx = some VariableKind.side_double ∧
        ∃ bc ∈ comp.d_robin_bc_coefs, bc.isSome = true) := by
    rw [(hs k).2]
    constructor
    · rintro ⟨-, c, hc, hw⟩
      rw [hk] at hc
      cases hc
      exact hw
    · intro hw
      exact ⟨hkl, comp, hk, hw⟩
  refine ⟨hcc, hsc, ?_⟩
  rintro ⟨a, b⟩
  have a1 := (hcc.1 a).1
  have b1 := (hsc.1 b).1
  rw [a1] at b1
  cases b1

/-- Witness of C21: the first component of the probe orchestrator. -/
theorem initialize_robin_slots_witness :
    (HierarchyGhostCellInterpolation.new.d_is_initialized = false →
      HierarchyGhostCellInterpolation.new.d_cc_robin_bc_ops = [] ∧
        HierarchyGhostCellInterpolation.new.d_sc_robin_bc_ops = []) ∧
    initializeOperatorState (probeEnv true)
        [probeComponent 0 true [some 0], probeComponent 1 true [some 0, some 1]] probeHierarchy
        (-1) (-1) (World.start, HierarchyGhostCellInterpolation.new) = Except.ok probeState ∧
    [probeComponent 0 true [some 0], probeComponent 1 true [some 0, some 1]][0]? =
      some (probeComponent 0 true [some 0]) ∧
    ((slot probeState.2.d_cc_robin_bc_ops 0).isSome = true ↔
      ((probeEnv true).mapIndexToVariable (probeComponent 0 true [some 0]).d_src_data_idx =
          some VariableKind.cell_double ∧
        ∃ bc ∈ (probeComponent 0 true [some 0]).d_robin_bc_coefs, bc.isSome = true)) ∧
    ((slot probeState.2.d_sc_robin_bc_ops 0).isSome = true ↔
      ((probeEnv true).mapIndexToVariable (probeComponent 0 true [some 0]).d_src_data_idx =
          some VariableKind.side_double ∧
        ∃ bc ∈ (probeComponent 0 true [some 0]).d_robin_bc_coefs, bc.isSome = true)) ∧
    ¬ ((slot probeState.2.d_cc_robin_bc_ops 0).isSome = true ∧
      (slot probeState.2.d_sc_robin_bc_ops 0).isSome = true) :=
  ⟨fun _ => ⟨rfl, rfl⟩, rfl, rfl,
    initialize_robin_slots (probeEnv true)
      [probeComponent 0 true [some 0], probeComponent 1 true [some 0, some 1]] probeHierarchy
      (-1) (-1) (World.start, HierarchyGhostCellInterpolation.new) probeState
      (fun _ => ⟨rfl, rfl⟩) (by rfl) 0 (probeComponent 0 true [some 0]) (by rfl)⟩

/-! ## The reads of the physical extrapolation -/

theorem compute_linear_extrap_congr {n : Nat} (u v : CellArray n) (i i_intr i_shft : Index n)
    (depth : Nat) (h : ∀ j ∈ linearReads i_intr i_shft, u j depth = v j depth) :
    compute_linear_extrap u i i_intr i_shft depth =
      compute_linear_extrap v i i_intr i_shft depth := by
  unfold compute_linear_extrap
  have h0 : u i_intr depth = v i_intr depth := h _ (List.mem_cons_self _ _)
  rw [h0]
  have hl : ∀ d ∈ List.finRange n, i_shft d ≠ 0 →
      u (Function.update i_intr d (i_intr d + i_shft d)) depth =
        v (Function.update i_intr d (i_intr d + i_shft d)) depth := by
    intro d hd hs
    apply h
    unfold linearReads
    refine List.mem_cons_of_mem _ (List.mem_flatMap.2 ⟨d, hd, ?_⟩)
    rw [if_pos hs]
    simp
  generalize v i_intr depth = init
  revert hl
  generalize List.finRange n = l
  intro hl
  induction l generalizing init with
  | nil => rfl
  | cons d l ih =>
      simp only [List.foldl_cons]
      have hstep : (if i_shft d ≠ 0 then
            init + (u i_intr depth - u (Function.update i_intr d (i_intr d + i_shft d)) depth) *
              ((|i d - i_intr d| : Int) : ℚ) else init) =
          (if i_shft d ≠ 0 then
            init + (v i_intr depth - v (Function.update i_intr d (i_intr d + i_shft d)) depth) *
              ((|i d - i_intr d| : Int) : ℚ) else init) := by
        by_cases hs : i_shft d ≠ 0
        · rw [if_pos hs, if_pos hs, h0, hl d (List.mem_cons_self _ _) hs]
        · rw [if_neg hs, if_neg hs]
      rw [hstep]
      exact ih _ (fun d' hd' => hl d' (List.mem_cons_of_mem _ hd'))

theorem compute_quadratic_extrap_congr {n : Nat} (u v : CellArray n)
    (i i_intr i_shft : Index n) (depth : Nat) (codim : Int)
    (h : ∀ j ∈ quadraticReads i_intr i_shft codim, u j depth = v j depth) :
    compute_quadratic_extrap u i i_intr i_shft depth codim =
      compute_quadratic_extrap v i i_intr i_shft depth codim := by
  unfold compute_quadratic_extrap
  unfold quadraticReads at h
  by_cases hc : codim = 1
  · rw [if_pos hc] at h
    rw [if_pos hc, if_pos hc]
    cases hf : (List.finRange n).find? (fun d => decide (i_shft d ≠ 0)) with
    | none => rfl
    | some d =>
        rw [hf] at h
        dsimp only at h ⊢
        rw [h i_intr (by simp), h (Function.update i_intr d (i_intr d + i_shft d)) (by simp),
          h (Function.update (Function.update i_intr d (i_intr d + i_shft d)) d
            (Function.update i_intr d (i_intr d + i_shft d) d + i_shft d)) (by simp)]
  · rw [if_neg hc] at h
    rw [if_neg hc, if_neg hc]
    exact compute_linear_extrap_congr u v i i_intr i_shft depth h

theorem foldl_grow2 {α β ι : Type} (P : α → α → Set ι → Prop) (key : β → Set ι)
    (step : α → β → α)
    (hmono : ∀ a a' W W', W' ⊆ W → P a a' W → P a a' W')
    (l : List β)
    (hstep : ∀ a a' W b, b ∈ l → P a a' W → P (step a b) (step a' b) (W ∪ key b)) :
    ∀ a a' W, P a a' W →
      P (l.foldl step a) (l.foldl step a') (W ∪ {j | ∃ b ∈ l, j ∈ key b}) := by
  induction l with
  | nil =>
      intro a a' W h
      exact hmono a a' W _ (by intro j hj; simpa using hj) h
  | cons b l ih =>
      intro a a' W h
      have h1 := hstep a a' W b (List.mem_cons_self _ _) h
      have h2 := ih (fun a a' W c hc => hstep a a' W c (List.mem_cons_of_mem _ hc)) _ _ _ h1
      refine hmono _ _ _ _ ?_ h2
      intro j hj
      simp only [Set.mem_union, Set.mem_setOf_eq, List.mem_cons] at hj ⊢
      rcases hj with hj | ⟨c, rfl | hc, hj⟩
      · exact Or.inl (Or.inl hj)
      · exact Or.inl (Or.inr hj)
      · exact Or.inr ⟨c, hc, hj⟩

theorem interiorShift_ne_zero {n : Nat} (is_lower is_upper : Fin n → Bool) (d : Fin n)
    (h : interiorShift is_lower is_upper d ≠ 0) : is_lower d = true ∨ is_upper d = true := by
  unfold interiorShift at h
  cases hl : is_lower d
  · cases hu : is_upper d
    · simp [hl, hu] at h
    · exact Or.inr rfl
  · exact Or.inl rfl

/-- The index `i_intr` moved `m` cells along the shift of a flagged axis stays
in the patch box when the patch has `m` further cells along that axis. -/
theorem shifted_contains {n : Nat} (is_lower is_upper : Fin n → Bool) (patch_box : Box n)
    (i : Index n) (d : Fin n) (m : Int) (hm : 0 ≤ m)
    (hwide : patch_box.lower d + m ≤ patch_box.upper d)
    (hin : patch_box.contains (nearestInterior is_lower is_upper patch_box.lower
      patch_box.upper i))
    (hflag : interiorShift is_lower is_upper d ≠ 0) :
    patch_box.contains
      (Function.update (nearestInterior is_lower is_upper patch_box.lower patch_box.upper i) d
        (nearestInterior is_lower is_upper patch_box.lower patch_box.upper i d +
          m * interiorShift is_lower is_upper d)) := by
  intro d'
  by_cases hd : d' = d
  · subst hd
    rw [Function.update_same]
    unfold nearestInterior interiorShift
    unfold interiorShift at hflag
    cases hl : is_lower d'
    · cases hu : is_upper d'
      · simp [hl, hu] at hflag
      · simp only [Bool.false_eq_true, if_false, if_true]
        constructor <;> omega
    · simp only [if_true]
      constructor <;> omega
  · rw [Function.update_noteq hd]
    exact hin d'

theorem extrapReach_nonneg (extrap_type codim : Int) : 0 ≤ extrapReach extrap_type codim := by
  unfold extrapReach
  split_ifs <;> decide

theorem extrapReads_interior {n : Nat} (util : PhysicalBoundaryUtilities n) (extrap_type : Int)
    (patch_box : Box n) (fb : BdryFillBox n) (hp : fb.placed util patch_box)
    (hwide : ∀ d, (util.isLower fb.location_index fb.codim d = true ∨
      util.isUpper fb.location_index fb.codim d = true) →
      patch_box.lower d + extrapReach extrap_type fb.codim ≤ patch_box.upper d)
    (i : Index n) (hi : fb.box.contains i) :
    ∀ j ∈ extrapReads extrap_type patch_box.lower patch_box.upper
        (fun d => util.isLower fb.location_index fb.codim d)
        (fun d => util.isUpper fb.location_index fb.codim d) fb.codim i,
      patch_box.contains j := by
  have hin := nearestInterior_contains hp
    (fun d hd => by
      have := hwide d hd
      have := extrapReach_nonneg extrap_type fb.codim
      omega) hi
  have hone : ∀ d, interiorShift (fun d => util.isLower fb.location_index fb.codim d)
      (fun d => util.isUpper fb.location_index fb.codim d) d ≠ 0 → extrap_type ≠ 0 →
      patch_box.contains
        (Function.update (nearestInterior (fun d => util.isLower fb.location_index fb.codim d)
            (fun d => util.isUpper fb.location_index fb.codim d)
            patch_box.lower patch_box.upper i) d
          (nearestInterior (fun d => util.isLower fb.location_index fb.codim d)
            (fun d => util.isUpper fb.location_index fb.codim d)
            patch_box.lower patch_box.upper i d +
            interiorShift (fun d => util.isLower fb.location_index fb.codim d)
              (fun d => util.isUpper fb.location_index fb.codim d) d)) := by
    intro d hflag ht
    have hw := hwide d (interiorShift_ne_zero _ _ d hflag)
    have h1 : (1 : Int) ≤ extrapReach extrap_type fb.codim := by
      unfold extrapReach
      rw [if_neg ht]
      split_ifs <;> decide
    have := shifted_contains _ _ patch_box i d 1 (by decide) (by omega) hin hflag
    rw [one_mul] at this
    exact this
  have hlin : extrap_type ≠ 0 → ∀ j ∈ linearReads
      (nearestInterior (fun d => util.isLower fb.location_index fb.codim d)
        (fun d => util.isUpper fb.location_index fb.codim d) patch_box.lower patch_box.upper i)
      (interiorShift (fun d => util.isLower fb.location_index fb.codim d)
        (fun d => util.isUpper fb.location_index fb.codim d)), patch_box.contains j := by
    intro ht j hj
    unfold linearReads at hj
    rcases List.mem_cons.1 hj with rfl | hj
    · exact hin
    · obtain ⟨d, -, hd⟩ := List.mem_flatMap.1 hj
      by_cases hs : interiorShift (fun d => util.isLower fb.location_index fb.codim d)
          (fun d => util.isUpper fb.location_index fb.codim d) d ≠ 0
      · rw [if_pos hs] at hd
        simp only [List.mem_cons, List.mem_singleton, List.not_mem_nil, or_false] at hd
        rcases hd with rfl | rfl
        · exact hin
        · exact hone d hs ht
      · rw [if_neg hs] at hd
        exact absurd hd (List.not_mem_nil _)
  intro j hj
  unfold extrapReads at hj
  dsimp only at hj
  by_cases h0 : extrap_type = 0
  · rw [if_pos h0] at hj
    rw [List.mem_singleton.1 hj]
    exact hin
  · rw [if_neg h0] at hj
    by_cases h1 : extrap_type = 1
    · rw [if_pos h1] at hj
      exact hlin h0 j hj
    · rw [if_neg h1] at hj
      by_cases h2 : extrap_type = 2
      · rw [if_pos h2] at hj
        unfold quadraticReads at hj
        by_cases hc : fb.codim = 1
        · rw [if_pos hc] at hj
          cases hf : (List.finRange n).find?
              (fun d => decide (interiorShift
                (fun d => util.isLower fb.location_index fb.codim d)
                (fun d => util.isUpper fb.location_index fb.codim d) d ≠ 0)) with
          | none => rw [hf] at hj; exact absurd hj (List.not_mem_nil _)
          | some d =>
              rw [hf] at hj
              have hs : interiorShift (fun d => util.isLower fb.location_index fb.codim d)
                  (fun d => util.isUpper fb.location_index fb.codim d) d ≠ 0 := by
                have := List.find?_some hf
                simpa using this
              simp only [List.mem_cons, List.mem_singleton, List.not_mem_nil, or_false] at hj
              rcases hj with rfl | rfl | rfl
              · exact hin
              · exact hone d hs h0
              · have hw := hwide d (interiorShift_ne_zero _ _ d hs)
                have h2r : extrapReach extrap_type fb.codim = 2 := by
                  unfold extrapReach
                  rw [if_neg h0, if_pos ⟨h2, hc⟩]
                have := shifted_contains _ _ patch_box i d 2 (by decide) (by omega) hin hs
                rw [Function.update_idem, Function.update_same]
                have e : ∀ a s : Int, a + s + s = a + 2 * s := by intro a s; ring
                rw [e]
                exact this
        · rw [if_neg hc] at hj
          exact hlin h0 j hj
      · rw [if_neg h2] at hj
        exact absurd hj (List.not_mem_nil _)

theorem SameOn.shrink {n : Nat} {patch_box : Box n} (cd1 cd2 : CellData n)
    (W W' : Set (Index n × Nat)) (hW : W' ⊆ W) (h : SameOn patch_box cd1 cd2 W) :
    SameOn patch_box cd1 cd2 W' :=
  ⟨h.1, h.2.1, fun j k hj => h.2.2 j k (hj.imp id (fun hj => hW hj))⟩

theorem SameOn.assign_both {n : Nat} {patch_box : Box n} {cd1 cd2 : CellData n}
    {W : Set (Index n × Nat)} (i : Index n) (depth : Nat) (v : ℚ)
    (h : SameOn patch_box cd1 cd2 W) :
    SameOn patch_box (cd1.assign i depth v) (cd2.assign i depth v) (W ∪ {(i, depth)}) := by
  refine ⟨h.1, h.2.1, ?_⟩
  intro j k hj
  simp only [CellData.assign]
  by_cases hc : j = i ∧ k = depth
  · rw [if_pos hc, if_pos hc]
  · rw [if_neg hc, if_neg hc]
    apply h.2.2
    rcases hj with hj | hj | hj
    · exact Or.inl hj
    · exact Or.inr hj
    · simp only [Set.mem_singleton_iff, Prod.mk.injEq] at hj
      exact absurd hj hc

theorem extrapCell_sameOn {n : Nat} (extrap_type : Int)
    (ht : extrap_type = 0 ∨ extrap_type = 1 ∨ extrap_type = 2) (patch_box : Box n)
    (is_lower is_upper : Fin n → Bool) (codim : Int) (depth : Nat) (i : Index n)
    (cd1 cd2 : CellData n) (W : Set (Index n × Nat))
    (hreads : ∀ j ∈ extrapReads extrap_type patch_box.lower patch_box.upper is_lower is_upper
      codim i, patch_box.contains j)
    (h : SameOn patch_box cd1 cd2 W) :
    SameOn patch_box
      (extrapCell extrap_type patch_box.lower patch_box.upper is_lower is_upper codim depth cd1 i)
      (extrapCell extrap_type patch_box.lower patch_box.upper is_lower is_upper codim depth cd2 i)
      (W ∪ {(i, depth)}) := by
  have hv : ∀ j ∈ extrapReads extrap_type patch_box.lower patch_box.upper is_lower is_upper
      codim i, cd1.val j depth = cd2.val j depth :=
    fun j hj => h.2.2 j depth (Or.inl (hreads j hj))
  unfold extrapReads at hv
  unfold extrapCell
  dsimp only at hv ⊢
  rcases ht with rfl | rfl | rfl
  · rw [if_pos rfl, if_pos rfl]
    rw [if_pos rfl] at hv
    rw [hv _ (List.mem_singleton_self _)]
    exact SameOn.assign_both i depth _ h
  · rw [if_neg (by decide), if_pos rfl, if_neg (by decide), if_pos rfl]
    rw [if_neg (by decide), if_pos rfl] at hv
    rw [compute_linear_extrap_congr cd1.val cd2.val i _ _ depth hv]
    exact SameOn.assign_both i depth _ h
  · rw [if_neg (by decide), if_neg (by decide), if_pos rfl, if_neg (by decide),
      if_neg (by decide), if_pos rfl]
    rw [if_neg (by decide), if_neg (by decide), if_pos rfl] at hv
    rw [compute_quadratic_extrap_congr cd1.val cd2.val i _ _ depth codim hv]
    exact SameOn.assign_both i depth _ h

theorem fillCellData_sameOn {n : Nat} (util : PhysicalBoundaryUtilities n) (extrap_type : Int)
    (patch_box : Box n) (G : Box n) (D : Nat) (boxes : List (BdryFillBox n))
    (hcell : ∀ fb ∈ boxes, ∀ (depth : Nat) (i : Index n) (cd1 cd2 : CellData n)
      (W : Set (Index n × Nat)),
      (fb.box.intersect G).contains i → SameOn patch_box cd1 cd2 W →
      SameOn patch_box
        (extrapCell extrap_type patch_box.lower patch_box.upper
          (fun d => util.isLower fb.location_index fb.codim d)
          (fun d => util.isUpper fb.location_index fb.codim d) fb.codim depth cd1 i)
        (extrapCell extrap_type patch_box.lower patch_box.upper
          (fun d => util.isLower fb.location_index fb.codim d)
          (fun d => util.isUpper fb.location_index fb.codim d) fb.codim depth cd2 i)
        (W ∪ {(i, depth)}))
    (cd1 cd2 : CellData n) (W : Set (Index n × Nat)) (hG : cd1.ghost_box = G)
    (hD : cd1.depth = D) (h : SameOn patch_box cd1 cd2 W) :
    SameOn patch_box (fillCellData util extrap_type patch_box boxes cd1)
      (fillCellData util extrap_type patch_box boxes cd2)
      (W ∪ {p | p.2 < D ∧ ∃ fb ∈ boxes, (fb.box.intersect G).contains p.1}) := by
  unfold fillCellData
  have hmono : ∀ (a a' : CellData n) (W W' : Set (Index n × Nat)), W' ⊆ W →
      (SameOn patch_box a a' W ∧ a.ghost_box = G ∧ a.depth = D) →
      (SameOn patch_box a a' W' ∧ a.ghost_box = G ∧ a.depth = D) :=
    fun a a' W W' hW h => ⟨SameOn.shrink a a' W W' hW h.1, h.2⟩
  have hboxes := foldl_grow2
    (fun (a a' : CellData n) W => SameOn patch_box a a' W ∧ a.ghost_box = G ∧ a.depth = D)
    (fun fb : BdryFillBox n => {p : Index n × Nat | p.2 < D ∧ (fb.box.intersect G).contains p.1})
    (fun cd fb =>
      (List.range cd.depth).foldl
        (fun cd depth =>
          (fb.box.intersect cd.ghost_box).cells.foldl
            (extrapCell extrap_type patch_box.lower patch_box.upper
              (fun d => util.isLower fb.location_index fb.codim d)
              (fun d => util.isUpper fb.location_index fb.codim d) fb.codim depth)
            cd)
        cd)
    hmono boxes ?_ cd1 cd2 W ⟨h, hG, hD⟩
  · refine SameOn.shrink _ _ _ _ ?_ hboxes.1
    intro p hp
    rcases hp with hp | ⟨hk, fb, hfb, hj⟩
    · exact Or.inl hp
    · exact Or.inr ⟨fb, hfb, hk, hj⟩
  · intro a a' W fb hfb ha
    have hd' : a'.depth = D := by rw [← ha.1.2.1]; exact ha.2.2
    dsimp only
    rw [ha.2.2, hd']
    have hdepths := foldl_grow2
      (fun (a a' : CellData n) W => SameOn patch_box a a' W ∧ a.ghost_box = G ∧ a.depth = D)
      (fun depth : Nat => {p : Index n × Nat | p.2 = depth ∧ (fb.box.intersect G).contains p.1})
      (fun cd depth =>
          (fb.box.intersect cd.ghost_box).cells.foldl
            (extrapCell extrap_type patch_box.lower patch_box.upper
              (fun d => util.isLower fb.location_index fb.codim d)
              (fun d => util.isUpper fb.location_index fb.codim d) fb.codim depth)
            cd)
      hmono (List.range D) ?_ a a' W ha
    · refine hmono _ _ _ _ ?_ hdepths
      intro p hp
      rcases hp with hp | ⟨hk, hj⟩
      · exact Or.inl hp
      · exact Or.inr ⟨p.2, List.mem_range.2 hk, rfl, hj⟩
    · intro b b' W' depth _ hb
      have hg' : b'.ghost_box = G := by rw [← hb.1.1]; exact hb.2.1
      dsimp only
      rw [hb.2.1, hg']
      have hcells := foldl_grow2
        (fun (a a' : CellData n) W => SameOn patch_box a a' W ∧ a.ghost_box = G ∧ a.depth = D)
        (fun i : Index n => {p : Index n × Nat | p = (i, depth)})
        (extrapCell extrap_type patch_box.lower patch_box.upper
              (fun d => util.isLower fb.location_index fb.codim d)
              (fun d => util.isUpper fb.location_index fb.codim d) fb.codim depth)
        hmono (fb.box.intersect G).cells ?_ b b' W' hb
      · refine hmono _ _ _ _ ?_ hcells
        intro p hp
        rcases hp with hp | ⟨hk, hj⟩
        · exact Or.inl hp
        · refine Or.inr ⟨p.1, (mem_cells _ _).2 hj, ?_⟩
          show p = (p.1, depth)
          rw [← hk]
      · intro c c' W'' i hi hc
        rw [mem_cells] at hi
        have := hcell fb hfb depth i c c' W'' hi hc.1
        refine ⟨this, ?_, ?_⟩
        · unfold extrapCell
          dsimp only
          split_ifs <;> exact hc.2.1
        · unfold extrapCell
          dsimp only
          split_ifs <;> exact hc.2.2

theorem index1_eq_iff (a b : Index 1) : a = b ↔ a 0 = b 0 := by
  constructor
  · intro h; rw [h]
  · intro h
    funext d
    fin_cases d
    exact h

/-- C22 (counterexample). On the one-dimensional patch of the single cell 0
with ghost cell width 2, the lower boundary fill box `[-2, -1]` is placed with
respect to the patch, and LINEAR extrapolation at the ghost index `-1` reads
the index 1, a ghost cell on the other side of the patch: two data objects
that agree on the patch interior and differ in that ghost cell receive
different values at `-1`. -/
theorem linear_extrap_reads_ghost_on_thin_patch :
    (⟨⟨![-2], ![-1]⟩, 0, 1⟩ : BdryFillBox 1).placed (codim1Utilities 1) ⟨![0], ![0]⟩ ∧
    (∃ j ∈ extrapReads 1 ![0] ![0] (fun d => (codim1Utilities 1).isLower 0 1 d)
        (fun d => (codim1Utilities 1).isUpper 0 1 d) 1 ![-1],
      ¬ (⟨![0], ![0]⟩ : Box 1).contains j) ∧
    (∀ j k, (⟨![0], ![0]⟩ : Box 1).contains j →
      (thinCellData 0).val j k = (thinCellData 7).val j k) ∧
    (fillCellData (codim1Utilities 1) 1 ⟨![0], ![0]⟩ [⟨⟨![-2], ![-1]⟩, 0, 1⟩]
      (thinCellData 0)).val ![-1] 0 = 0 ∧
    (fillCellData (codim1Utilities 1) 1 ⟨![0], ![0]⟩ [⟨⟨![-2], ![-1]⟩, 0, 1⟩]
      (thinCellData 7)).val ![-1] 0 = -7 := by
  refine ⟨?_, ?_, ?_, ?_, ?_⟩
  · intro d
    fin_cases d
    simp [codim1Utilities]
  · refine ⟨![1], ?_, ?_⟩
    · simp [extrapReads, linearReads, nearestInterior, interiorShift, codim1Utilities,
        List.finRange, index1_eq_iff]
    · intro h
      have := (h 0).2
      simp at this
  · intro j k hj
    have h0 := hj 0
    simp only [Matrix.cons_val_zero] at h0
    have : j 0 = 0 := by omega
    simp [thinCellData, this]
  · simp [fillCellData, Box.cells, cellsOf, Box.intersect, intRange, thinCellData, extrapCell, compute_linear_extrap, nearestInterior, interiorShift, codim1Utilities, List.finRange, CellData.assign, List.range, List.range.loop, index1_eq_iff]
    try norm_num
  · simp [fillCellData, Box.cells, cellsOf, Box.intersect, intRange, thinCellData, extrapCell, compute_linear_extrap, nearestInterior, interiorShift, codim1Utilities, List.finRange, CellData.assign, List.range, List.range.loop, index1_eq_iff]
    try norm_num

/-- C22 (amended). When every boundary fill box is placed with respect to the
patch box and the patch has, along each boundary-normal axis of each fill box,
as many cells beyond the boundary cell as the extrapolation type reaches (none
for CONSTANT, two for QUADRATIC at codimension one, one otherwise): every
index read to compute the value of a ghost index of a fill box lies in the
patch box, and the values that `setPhysicalBoundaryConditions_cell` leaves in
the patch interior and in the filled ghost cells depend on the interior values
only (two data objects of the same shape that agree on the patch box agree
there after the fill). -/
theorem extrapolation_reads_interior {n : Nat} (util : PhysicalBoundaryUtilities n)
    (extrap_type : Int) (patch_box : Box n) (bdry_fill_boxes : List (BdryFillBox n))
    (ht : extrap_type = 0 ∨ extrap_type = 1 ∨ extrap_type = 2)
    (hplaced : ∀ fb ∈ bdry_fill_boxes, fb.placed util patch_box)
    (hwide : ∀ fb ∈ bdry_fill_boxes, ∀ d,
      (util.isLower fb.location_index fb.codim d = true ∨
        util.isUpper fb.location_index fb.codim d = true) →
      patch_box.lower d + extrapReach extrap_type fb.codim ≤ patch_box.upper d) :
    (∀ fb ∈ bdry_fill_boxes, ∀ i, fb.box.contains i →
      ∀ j ∈ extrapReads extrap_type patch_box.lower patch_box.upper
          (fun d => util.isLower fb.location_index fb.codim d)
          (fun d => util.isUpper fb.location_index fb.codim d) fb.codim i,
        patch_box.contains j) ∧
    (∀ cd1 cd2 : CellData n, cd1.ghost_box = cd2.ghost_box → cd1.depth = cd2.depth →
      (∀ j k, patch_box.contains j → cd1.val j k = cd2.val j k) →
      ∀ j k, (patch_box.contains j ∨
          (k < cd1.depth ∧ ∃ fb ∈ bdry_fill_boxes, fb.box.contains j ∧
            cd1.ghost_box.contains j)) →
        (fillCellData util extrap_type patch_box bdry_fill_boxes cd1).val j k =
          (fillCellData util extrap_type patch_box bdry_fill_boxes cd2).val j k) := by
  have hreads : ∀ fb ∈ bdry_fill_boxes, ∀ i, fb.box.contains i →
      ∀ j ∈ extrapReads extrap_type patch_box.lower patch_box.upper
          (fun d => util.isLower fb.location_index fb.codim d)
          (fun d => util.isUpper fb.location_index fb.codim d) fb.codim i,
        patch_box.contains j :=
    fun fb hfb i hi =>
      extrapReads_interior util extrap_type patch_box fb (hplaced fb hfb) (hwide fb hfb) i hi
  refine ⟨hreads, ?_⟩
  intro cd1 cd2 hg hd hint j k hj
  have h0 : SameOn patch_box cd1 cd2 ∅ :=
    ⟨hg, hd, fun j k h => h.elim (hint j k) (fun h => absurd h (Set.not_mem_empty _))⟩
  have h1 := fillCellData_sameOn util extrap_type patch_box cd1.ghost_box cd1.depth
    bdry_fill_boxes
    (fun fb hfb depth i c1 c2 W hi hc =>
      extrapCell_sameOn extrap_type ht patch_box _ _ fb.codim depth i c1 c2 W
        (hreads fb hfb i ((contains_intersect _ _ _).1 hi).1) hc)
    cd1 cd2 ∅ rfl rfl h0
  apply h1.2.2 j k
  rcases hj with hj | ⟨hk, fb, hfb, hb, hgb⟩
  · exact Or.inl hj
  · exact Or.inr (Or.inr ⟨hk, fb, hfb, (contains_intersect _ _ _).2 ⟨hb, hgb⟩⟩)

theorem lineFillBoxes_wide :
    ∀ fb ∈ lineFillBoxes 3, ∀ d,
      ((codim1Utilities 1).isLower fb.location_index fb.codim d = true ∨
        (codim1Utilities 1).isUpper fb.location_index fb.codim d = true) →
      (linePatch 3).box.lower d + extrapReach 2 fb.codim ≤ (linePatch 3).box.upper d := by
  intro fb hfb d _
  simp only [lineFillBoxes, List.mem_cons, List.mem_singleton, List.not_mem_nil, or_false] at hfb
  fin_cases d
  rcases hfb with rfl | rfl <;> simp [linePatch, extrapReach]

/-- Witness of C22 (amended): QUADRATIC extrapolation on the one-dimensional
patch of the cells 0, 1, 2 with its two boundary fill boxes. -/
theorem extrapolation_reads_interior_witness :
    ((2 : Int) = 0 ∨ (2 : Int) = 1 ∨ (2 : Int) = 2) ∧
    (∀ fb ∈ lineFillBoxes 3, fb.placed (codim1Utilities 1) (linePatch 3).box) ∧
    (∀ fb ∈ lineFillBoxes 3, ∀ d,
      ((codim1Utilities 1).isLower fb.location_index fb.codim d = true ∨
        (codim1Utilities 1).isUpper fb.location_index fb.codim d = true) →
      (linePatch 3).box.lower d + extrapReach 2 fb.codim ≤ (linePatch 3).box.upper d) ∧
    ((∀ fb ∈ lineFillBoxes 3, ∀ i, fb.box.contains i →
      ∀ j ∈ extrapReads 2 (linePatch 3).box.lower (linePatch 3).box.upper
          (fun d => (codim1Utilities 1).isLower fb.location_index fb.codim d)
          (fun d => (codim1Utilities 1).isUpper fb.location_index fb.codim d) fb.codim i,
        (linePatch 3).box.contains j) ∧
    (∀ cd1 cd2 : CellData 1, cd1.ghost_box = cd2.ghost_box → cd1.depth = cd2.depth →
      (∀ j k, (linePatch 3).box.contains j → cd1.val j k = cd2.val j k) →
      ∀ j k, ((linePatch 3).box.contains j ∨
          (k < cd1.depth ∧ ∃ fb ∈ lineFillBoxes 3, fb.box.contains j ∧
            cd1.ghost_box.contains j)) →
        (fillCellData (codim1Utilities 1) 2 (linePatch 3).box (lineFillBoxes 3) cd1).val j k =
          (fillCellData (codim1Utilities 1) 2 (linePatch 3).box (lineFillBoxes 3) cd2).val j
            k)) :=
  ⟨Or.inr (Or.inr rfl), lineFillBoxes_placed 3, lineFillBoxes_wide,
    extrapolation_reads_interior (codim1Utilities 1) 2 (linePatch 3).box (lineFillBoxes 3)
      (Or.inr (Or.inr rfl)) (lineFillBoxes_placed 3) lineFillBoxes_wide⟩

/-! ## Results on `DebuggingUtilities` -/

theorem truncateDirnameLoop_slash (fuel : Nat) :
    truncateDirnameLoop fuel ['/'] = LoopRun.running ['/'] := by
  induction fuel with
  | zero => rfl
  | succ k ih =>
      unfold truncateDirnameLoop
      simpa [stringFromPos] using ih

theorem get?_last_eq (s : List Char) :
    s.get? (s.length - 1) = s.getLast? := by
  rw [List.getLast?_eq_getElem?, List.get?_eq_getElem?]

theorem drop_last_of_getLast? (s : List Char) (c : Char) (h : s.getLast? = some c) :
    s.drop (s.length - 1) = [c] := by
  induction s with
  | nil => simp at h
  | cons a t ih =>
      cases t with
      | nil =>
          simp at h
          simp [h]
      | cons b u =>
          rw [List.getLast?_cons_cons] at h
          have := ih h
          simp only [List.length_cons, Nat.add_sub_cancel] at this ⊢
          rw [List.drop_succ_cons]
          exact this

/-- C27 (behaviour of the code). For a non-empty `dirname`: if its last
character is not `/`, the loop returns `dirname` itself, which is `dirname`
with its trailing `/` characters removed, at the first evaluation of its
condition; if its last character is `/`, the body replaces the string by the
substring that starts at its last position, the string "/", so that the loop
is still running after any number of evaluations of its condition and never
returns. -/
theorem truncate_dirname_loop_runs (dirname : List Char) (hne : dirname ≠ []) :
    (dirname.getLast? ≠ some '/' →
      withoutTrailingSlashes dirname = dirname ∧
        ∀ fuel, truncateDirnameLoop (fuel + 1) dirname = LoopRun.returned dirname) ∧
    (dirname.getLast? = some '/' →
      withoutTrailingSlashes dirname ≠ dirname ∧
        ∀ fuel, truncateDirnameLoop (fuel + 1) dirname = LoopRun.running ['/']) := by
  have hlen : dirname.length ≠ 0 := fun h => hne (List.length_eq_zero.1 h)
  constructor
  · intro hl
    constructor
    · unfold withoutTrailingSlashes
      cases hr : dirname.reverse with
      | nil => exact absurd (List.reverse_eq_nil_iff.1 hr) hne
      | cons a t =>
          have ha : dirname.getLast? = some a := by
            rw [← List.reverse_reverse dirname, hr]
            simp
          have : (a == '/') = false := by
            rw [ha] at hl
            simpa using hl
          rw [List.dropWhile_cons, this]
          simp only [Bool.false_eq_true, if_false]
          rw [← hr, List.reverse_reverse]
    · intro fuel
      unfold truncateDirnameLoop
      rw [if_neg hlen, get?_last_eq dirname, if_neg hl]
  · intro hl
    constructor
    · intro heq
      have h1 : (withoutTrailingSlashes dirname).getLast? = some '/' := by rw [heq]; exact hl
      unfold withoutTrailingSlashes at h1
      rw [List.getLast?_reverse] at h1
      cases hd : dirname.reverse.dropWhile (fun c => c == '/') with
      | nil => rw [hd] at h1; simp at h1
      | cons a t =>
          rw [hd] at h1
          simp only [List.head?_cons, Option.some.injEq] at h1
          have := List.head_dropWhile_not (fun c => c == '/') dirname.reverse
            (by rw [hd]; simp)
          simp only [hd, List.head_cons] at this
          rw [h1] at this
          simp at this
    · intro fuel
      unfold truncateDirnameLoop
      rw [if_neg hlen, get?_last_eq dirname, if_pos hl]
      unfold stringFromPos
      rw [drop_last_of_getLast? dirname '/' hl]
      exact truncateDirnameLoop_slash fuel

/-- Witness of C27: the loop on the directory name "out/" is still running
after a hundred evaluations of its condition. -/
theorem truncate_dirname_loop_runs_witness :
    "out/".toList ≠ [] ∧ "out/".toList.getLast? = some '/' ∧
      withoutTrailingSlashes "out/".toList = "out".toList ∧
      truncateDirnameLoop 100 "out/".toList = LoopRun.running ['/'] :=
  ⟨by decide, by decide, by decide,
    ((truncate_dirname_loop_runs "out/".toList (by decide)).2 (by decide)).2 99⟩

/-! ## Results on `LDataManager` -/

/-- C28 (behaviour of the code). For a level outside `[coarsest, finest]` and
for an id that is not registered on the level,
`getLagrangianStructureIsActivated` returns false. For a structure id
registered on a level of the range with the Lagrangian index range
`[first, second)`, it returns true exactly when the structure id is not in the
set of inactive structures of the level and the structure id, compared as a
number with the Lagrangian indices, satisfies `first ≤ structure_id < second`;
so an active structure whose id lies outside its own index range is reported
as not activated. -/
theorem structure_activation_tests_id_against_index_range (m : LDataManager)
    (structure_id level_number : Int) :
    (¬ (m.d_coarsest_ln ≤ level_number ∧ level_number ≤ m.d_finest_ln) →
      m.getLagrangianStructureIsActivated structure_id level_number = false) ∧
    (m.d_strct_id_to_lag_idx_range_map level_number structure_id = none →
      m.getLagrangianStructureIsActivated structure_id level_number = false) ∧
    (∀ range : Int × Int,
      m.d_coarsest_ln ≤ level_number → level_number ≤ m.d_finest_ln →
      m.d_strct_id_to_lag_idx_range_map level_number structure_id = some range →
      (m.getLagrangianStructureIsActivated structure_id level_number = true ↔
        (m.d_inactive_strcts level_number structure_id = false ∧
          range.1 ≤ structure_id ∧ structure_id < range.2))) := by
  refine ⟨?_, ?_, ?_⟩
  · intro h
    unfold LDataManager.getLagrangianStructureIsActivated
    rw [if_neg (fun hh => h ⟨hh.1, hh.2⟩)]
  · intro h
    unfold LDataManager.getLagrangianStructureIsActivated
      LDataManager.getLagrangianStructureIndexRange
    by_cases h1 : m.d_coarsest_ln ≤ level_number ∧ m.d_finest_ln ≥ level_number
    · simp only [if_pos h1, h]
      rw [if_neg (by omega)]
    · rw [if_neg h1]
  · intro range h1 h2 h
    unfold LDataManager.getLagrangianStructureIsActivated
      LDataManager.getLagrangianStructureIndexRange
    rw [if_pos ⟨h1, h2⟩]
    simp only [if_pos (show m.d_coarsest_ln ≤ level_number ∧ m.d_finest_ln ≥ level_number from
      ⟨h1, h2⟩), h]
    split_ifs with h3 h4
    · simp only [true_iff]
      exact ⟨h4, h3.1, h3.2⟩
    · simp only [Bool.false_eq_true, false_iff]
      exact fun hh => h4 hh.1
    · simp only [Bool.false_eq_true, false_iff]
      exact fun hh => h3 ⟨hh.2.1, hh.2.2⟩

/-- Witness of C28: the structure with id 1 and the non-empty index range
`[100, 200)` on level 0 is not inactive, and is reported as not activated. -/
theorem structure_activation_tests_id_against_index_range_witness :
    probeLDataManager.d_strct_id_to_lag_idx_range_map 0 1 = some (100, 200) ∧
    probeLDataManager.d_inactive_strcts 0 1 = false ∧
    probeLDataManager.getLagrangianStructureIsActivated 1 0 = false ∧
    (probeLDataManager.getLagrangianStructureIsActivated 1 0 = true ↔
      (probeLDataManager.d_inactive_strcts 0 1 = false ∧
        ((100, 200) : Int × Int).1 ≤ 1 ∧ (1 : Int) < ((100, 200) : Int × Int).2)) :=
  ⟨by decide, rfl, by decide,
    (structure_activation_tests_id_against_index_range probeLDataManager 1 0).2.2 (100, 200)
      (by decide) (by decide) (by decide)⟩

/-! ## Results on `CartCellDoubleLinearCFInterpolation` -/

theorem forIndices_preserves {σ : Type} (P : σ → Prop) (body : Int → σ → Except String σ)
    (hbody : ∀ idx st st', P st → body idx st = Except.ok st' → P st') :
    ∀ (l : List Int) (st st' : σ), P st → forIndices body l st = Except.ok st' → P st' := by
  intro l
  induction l with
  | nil =>
      intro st st' h hr
      simp only [forIndices, Except.ok.injEq] at hr
      subst hr
      exact h
  | cons idx rest ih =>
      intro st st' h hr
      unfold forIndices at hr
      cases hb : body idx st with
      | error e => rw [hb] at hr; exact absurd hr (by simp)
      | ok st1 =>
          rw [hb] at hr
          exact ih st1 st' (hbody idx st st1 h hb) hr

theorem normalExtensionOfData_calls {n : Nat} (kernel : LinearNormalInterpolationKernel n)
    (patch : CFPatch n) (ratio : Index n) (cf_bdry_codim1_boxes : List (BoundaryBox n))
    (patch_data_index : Int) (U_ghosts : Int) (data_depth : Nat)
    (Good : CFKernelCall n → Prop)
    (hgood : ∀ bdry_box ∈ cf_bdry_codim1_boxes, ∀ depth,
      Good ⟨patch_data_index, depth, U_ghosts, patch.box, bdry_box.location_index,
        intVectorMin ratio,
        patch.getBoundaryFillBox bdry_box patch.box (fun _ => GHOST_WIDTH_TO_FILL)⟩)
    (st : CFCellData n × List (CFKernelCall n)) (h : ∀ c ∈ st.2, Good c) :
    ∀ c ∈ (patch.normalExtensionOfData kernel ratio cf_bdry_codim1_boxes patch_data_index
      U_ghosts data_depth st).2, Good c := by
  unfold CFPatch.normalExtensionOfData
  dsimp only
  revert st
  induction cf_bdry_codim1_boxes with
  | nil => intro st h; exact h
  | cons b l ih =>
      intro st h
      rw [List.foldl_cons]
      apply ih (fun bb hbb => hgood bb (List.mem_cons_of_mem _ hbb))
      apply foldl_preserves (fun a : CFCellData n × List (CFKernelCall n) => ∀ c ∈ a.2, Good c)
      · intro a depth ha c hc
        rcases List.mem_append.1 hc with hc | hc
        · exact ha c hc
        · rw [List.mem_singleton.1 hc]
          exact hgood b (List.mem_cons_self _ _) depth
      · exact h

/-- C25 (counterexample). With the `TBOX_ASSERT`s compiled in, on an operator
with a hierarchy attached and a patch that is not part of the hierarchy,
`computeNormalExtension` called with the refinement ratio `(2, 4)` raises the
error of the assertion `ratio.min() == ratio.max()`, which stands before the
test `patch.inHierarchy()`. -/
theorem computeNormalExtension_asserts_ratio_first :
    probeCFOp.d_hierarchy.isSome = true ∧ (probeCFPatch false).inHierarchy = false ∧
      probeCFOp.computeNormalExtension true true probeCFKernel (probeCFPatch false) ![2, 4]
          ![1, 1] =
        Except.error "TBOX_ASSERT(ratio.min() == ratio.max())" := by
  refine ⟨rfl, rfl, ?_⟩
  unfold CartCellDoubleLinearCFInterpolation.computeNormalExtension
  rw [if_neg (by simp [probeCFOp]), if_pos (by simp [intVectorMin, intVectorMax])]

/-- C25 (amended). When the assertions of `computeNormalExtension` pass (they
are compiled out, or a hierarchy is attached and the refinement ratio is the
same along every axis) and the patch is not part of the hierarchy, or has no
codimension-one coarse-fine boundary box at its level, then for every ghost
width passed `computeNormalExtension` returns without error, makes no kernel
call and leaves the patch, hence every patch data array, as it was. -/
theorem computeNormalExtension_noop {n : Nat} (check_assertions debug_checks : Bool)
    (kernel : LinearNormalInterpolationKernel n) (op : CartCellDoubleLinearCFInterpolation n)
    (patch : CFPatch n) (ratio ghost_width_to_fill : Index n)
    (hassert : check_assertions = true →
      op.d_hierarchy.isSome = true ∧ intVectorMin ratio = intVectorMax ratio)
    (hnone : patch.inHierarchy = false ∨
      ∃ cf_boundary, op.d_cf_boundary.get? patch.patch_level_number = some cf_boundary ∧
        cf_boundary patch.global_id = []) :
    op.computeNormalExtension check_assertions debug_checks kernel patch ratio
      ghost_width_to_fill = Except.ok (patch, []) := by
  unfold CartCellDoubleLinearCFInterpolation.computeNormalExtension
  have h1 : ¬ (check_assertions = true ∧ op.d_hierarchy.isNone = true) := by
    rintro ⟨hc, hn⟩
    have := (hassert hc).1
    cases hh : op.d_hierarchy with
    | none => rw [hh] at this; exact absurd this (by simp)
    | some h => rw [hh] at hn; exact absurd hn (by simp)
  have h2 : ¬ (check_assertions = true ∧ intVectorMin ratio ≠ intVectorMax ratio) :=
    fun hh => hh.2 (hassert hh.1).2
  rw [if_neg h1, if_neg h2]
  by_cases hin : patch.inHierarchy = false
  · rw [if_pos hin]
  · rw [if_neg hin]
    rcases hnone with hn | ⟨cf_boundary, hcf, hempty⟩
    · exact absurd hn hin
    · dsimp only
      rw [hcf]
      dsimp only
      rw [hempty]
      rfl

/-- Witness of C25 (amended): the probe patch outside the hierarchy, with the
assertions compiled in and the ratio `(2, 2)`. -/
theorem computeNormalExtension_noop_witness :
    (true = true → probeCFOp.d_hierarchy.isSome = true ∧
      intVectorMin (![2, 2] : Index 2) = intVectorMax (![2, 2] : Index 2)) ∧
    ((probeCFPatch false).inHierarchy = false ∨
      ∃ cf_boundary,
        probeCFOp.d_cf_boundary.get? (probeCFPatch false).patch_level_number = some cf_boundary ∧
          cf_boundary (probeCFPatch false).global_id = []) ∧
    probeCFOp.computeNormalExtension true true probeCFKernel (probeCFPatch false) ![2, 2]
      ![3, 3] = Except.ok (probeCFPatch false, []) :=
  ⟨fun _ => ⟨rfl, by simp [intVectorMin, intVectorMax]⟩, Or.inl rfl,
    computeNormalExtension_noop true true probeCFKernel probeCFOp (probeCFPatch false) ![2, 2]
      ![3, 3] (fun _ => ⟨rfl, by simp [intVectorMin, intVectorMax]⟩) (Or.inl rfl)⟩

/-- C30. The outcome of `computeNormalExtension` (the patch data and the kernel
calls, or the error) is the same for any two ghost widths passed, and every
kernel call it makes receives the boundary fill box that the patch geometry
computes for one of the coarse-fine boundary boxes of the patch with the fill
width `GHOST_WIDTH_TO_FILL = 1` along every axis, with the location index of
that boundary box. -/
theorem computeNormalExtension_ignores_ghost_width {n : Nat}
    (check_assertions debug_checks : Bool) (kernel : LinearNormalInterpolationKernel n)
    (op : CartCellDoubleLinearCFInterpolation n) (patch : CFPatch n)
    (ratio ghost_width_1 ghost_width_2 : Index n) :
    op.computeNormalExtension check_assertions debug_checks kernel patch ratio ghost_width_1 =
      op.computeNormalExtension check_assertions debug_checks kernel patch ratio
        ghost_width_2 ∧
    ∀ patch' calls,
      op.computeNormalExtension check_assertions debug_checks kernel patch ratio
        ghost_width_1 = Except.ok (patch', calls) →
      ∀ c ∈ calls, ∃ bdry_box ∈ op.cfBoundaryBoxes patch,
        c.bc_fill_box = patch.getBoundaryFillBox bdry_box patch.box (fun _ => 1) ∧
          c.loc_index = bdry_box.location_index := by
  refine ⟨rfl, ?_⟩
  intro patch' calls hr
  unfold CartCellDoubleLinearCFInterpolation.computeNormalExtension at hr
  unfold CartCellDoubleLinearCFInterpolation.cfBoundaryBoxes
  split_ifs at hr with h1 h2 h3
  · simp only [Except.ok.injEq, Prod.mk.injEq] at hr
    intro c hc
    rw [← hr.2] at hc
    exact absurd hc (List.not_mem_nil _)
  · dsimp only at hr
    cases hcf : op.d_cf_boundary.get? patch.patch_level_number with
    | none => rw [hcf] at hr; exact absurd hr (by simp)
    | some cf_boundary =>
        rw [hcf] at hr
        dsimp only at hr ⊢
        split_ifs at hr with h4
        · simp only [Except.ok.injEq, Prod.mk.injEq] at hr
          intro c hc
          rw [← hr.2] at hc
          exact absurd hc (List.not_mem_nil _)
        · have := forIndices_preserves
            (fun st : CFPatch n × List (CFKernelCall n) =>
              ∀ c ∈ st.2, ∃ bdry_box ∈ cf_boundary patch.global_id,
                c.bc_fill_box = patch.getBoundaryFillBox bdry_box patch.box (fun _ => 1) ∧
                  c.loc_index = bdry_box.location_index)
            _ ?_ op.d_patch_data_indices (patch, []) (patch', calls)
            (fun c hc => absurd hc (List.not_mem_nil _)) hr
          exact this
          intro idx st st' hst hb
          cases hd : st.1.data idx with
          | none => rw [hd] at hb; exact absurd hb (by simp)
          | some data =>
              rw [hd] at hb
              dsimp only at hb
              split_ifs at hb
              simp only [Except.ok.injEq] at hb
              rw [← hb]
              exact normalExtensionOfData_calls kernel patch ratio _ idx _ _ _
                (fun bdry_box hbb depth => ⟨bdry_box, hbb, rfl, rfl⟩) (data, st.2) hst

/-- Witness of C30: the run on the probe patch inside the hierarchy makes one
kernel call, on the boundary fill box of fill width one, whatever ghost width
is passed. -/
theorem computeNormalExtension_ignores_ghost_width_witness :
    probeCFOp.computeNormalExtension true true probeCFKernel (probeCFPatch true) ![2, 2]
      ![3, 3] = Except.ok probeCFRun ∧
    probeCFRun.2.length = 1 ∧
    probeCFOp.computeNormalExtension true true probeCFKernel (probeCFPatch true) ![2, 2]
        ![3, 3] =
      probeCFOp.computeNormalExtension true true probeCFKernel (probeCFPatch true) ![2, 2]
        ![0, 7] ∧
    ∀ c ∈ probeCFRun.2, ∃ bdry_box ∈ probeCFOp.cfBoundaryBoxes (probeCFPatch true),
      c.bc_fill_box =
          (probeCFPatch true).getBoundaryFillBox bdry_box (probeCFPatch true).box (fun _ => 1) ∧
        c.loc_index = bdry_box.location_index :=
  ⟨by rfl, by rfl,
    (computeNormalExtension_ignores_ghost_width true true probeCFKernel probeCFOp
      (probeCFPatch true) ![2, 2] ![3, 3] ![0, 7]).1,
    (computeNormalExtension_ignores_ghost_width true true probeCFKernel probeCFOp
      (probeCFPatch true) ![2, 2] ![3, 3] ![0, 7]).2 probeCFRun.1 probeCFRun.2 (by rfl)⟩

/-! ## Results on `cacheBcCoefData` -/

theorem classifyLocations_spec {n : Nat} (env : BcCoefCollaborators n)
    (acoef_data bcoef_data : Index n → ℚ) :
    ∀ (cells : List (Index n)) (d d' : ArrayData n Nat),
      classifyLocations env acoef_data bcoef_data cells d = Except.ok d' →
      d'.box = d.box ∧
      (∀ i ∈ cells,
        d'.val i =
            (if dirichletFlag env.equalEps (acoef_data i) (bcoef_data i) = true then 1 else 0) ∧
          (env.check_assertions = true →
            env.equalEps (acoef_data i + bcoef_data i) 1 = true ∧
              (env.equalEps (acoef_data i) 1 = true ∨ env.equalEps (bcoef_data i) 1 = true))) ∧
      (∀ i, i ∉ cells → d'.val i = d.val i) := by
  intro cells
  induction cells with
  | nil =>
      intro d d' h
      simp only [classifyLocations, Except.ok.injEq] at h
      subst h
      exact ⟨rfl, fun i hi => absurd hi (List.not_mem_nil _), fun _ _ => rfl⟩
  | cons j rest ih =>
      intro d d' h
      unfold classifyLocations at h
      dsimp only at h
      by_cases h1 : env.check_assertions = true ∧
          env.equalEps (acoef_data j + bcoef_data j) 1 = false
      · rw [if_pos h1] at h
        exact absurd h (by simp)
      · rw [if_neg h1] at h
        by_cases h2 : env.check_assertions = true ∧
            ¬ (env.equalEps (acoef_data j) 1 = true ∨ env.equalEps (bcoef_data j) 1 = true)
        · rw [if_pos h2] at h
          exact absurd h (by simp)
        · rw [if_neg h2] at h
          obtain ⟨e1, e2, e3⟩ := ih _ _ h
          refine ⟨e1, ?_, ?_⟩
          · intro i hi
            by_cases hr : i ∈ rest
            · exact e2 i hr
            · have hij : i = j := by
                rcases List.mem_cons.1 hi with h' | h'
                · exact h'
                · exact absurd h' hr
              subst hij
              refine ⟨?_, ?_⟩
              · rw [e3 i hr]
                simp [ArrayData.assign]
              · intro hc
                constructor
                · by_contra hne
                  exact h1 ⟨hc, by simpa using hne⟩
                · by_contra hne
                  exact h2 ⟨hc, hne⟩
          · intro i hi
            rw [e3 i (fun hh => hi (List.mem_cons_of_mem _ hh))]
            have : i ≠ j := fun hh => hi (hh ▸ List.mem_cons_self _ _)
            simp [ArrayData.assign, this]

theorem mapExcept_spec {α β : Type} (f : α → Except String β) :
    ∀ (l : List α) (bs : List β), mapExcept f l = Except.ok bs →
      bs.length = l.length ∧
        ∀ (k : Nat) a, l[k]? = some a → ∃ b, bs[k]? = some b ∧ f a = Except.ok b := by
  intro l
  induction l with
  | nil =>
      intro bs h
      simp only [mapExcept, Except.ok.injEq] at h
      subst h
      exact ⟨rfl, fun k a hk => by simp at hk⟩
  | cons a l ih =>
      intro bs h
      unfold mapExcept at h
      cases hf : f a with
      | error e => rw [hf] at h; exact absurd h (by simp)
      | ok b =>
          rw [hf] at h
          dsimp only at h
          cases hm : mapExcept f l with
          | error e => rw [hm] at h; exact absurd h (by simp)
          | ok bs' =>
              rw [hm] at h
              simp only [Except.ok.injEq] at h
              subst h
              obtain ⟨e1, e2⟩ := ih bs' hm
              refine ⟨by simp [e1], ?_⟩
              intro k x hk
              cases k with
              | zero =>
                  simp only [List.getElem?_cons_zero, Option.some.injEq] at hk
                  subst hk
                  exact ⟨b, by simp, hf⟩
              | succ k =>
                  simp only [List.getElem?_cons_succ] at hk ⊢
                  exact e2 k x hk

theorem cachePatches_spec {n : Nat} (env : BcCoefCollaborators n)
    (u_bc_coefs : List (VelocityBcCoefStrategy n)) (fill_time : ℚ) (ln : Nat) :
    ∀ (patches : List PatchInfo) (h h' : StaggeredPhysicalBoundaryHelper n),
      forEachExcept (cachePatchBcCoefData env u_bc_coefs fill_time ln) patches h =
        Except.ok h' →
      (∀ l id, (l ≠ ln ∨ id ∉ patches.map PatchInfo.global_id) →
        h'.d_physical_codim1_boxes l id = h.d_physical_codim1_boxes l id ∧
          h'.d_dirichlet_bdry_locs l id = h.d_dirichlet_bdry_locs l id) ∧
      ((patches.map PatchInfo.global_id).Nodup →
        ∀ patch ∈ patches, patch.touches_regular_boundary = true →
          CachedFor env u_bc_coefs fill_time ln patch h') := by
  intro patches
  induction patches with
  | nil =>
      intro h h' hr
      simp only [forEachExcept, Except.ok.injEq] at hr
      subst hr
      exact ⟨fun _ _ _ => ⟨rfl, rfl⟩, fun _ p hp => absurd hp (List.not_mem_nil _)⟩
  | cons p rest ih =>
      intro h h' hr
      unfold forEachExcept at hr
      cases hb : cachePatchBcCoefData env u_bc_coefs fill_time ln p h with
      | error e => rw [hb] at hr; exact absurd hr (by simp)
      | ok h1 =>
          rw [hb] at hr
          dsimp only at hr
          obtain ⟨f1, f2⟩ := ih h1 h' hr
          have hframe : ∀ l id, (l ≠ ln ∨ id ≠ p.global_id) →
              h1.d_physical_codim1_boxes l id = h.d_physical_codim1_boxes l id ∧
                h1.d_dirichlet_bdry_locs l id = h.d_dirichlet_bdry_locs l id := by
            intro l id hne
            have hc : ¬ (l = ln ∧ id = p.global_id) := by
              rintro ⟨a, b⟩
              rcases hne with hne | hne
              · exact hne a
              · exact hne b
            unfold cachePatchBcCoefData at hb
            dsimp only at hb
            split_ifs at hb
            · cases hm : mapExcept (cacheBoxFlags env u_bc_coefs fill_time p)
                  (env.getPhysicalBoundaryCodim1Boxes p) with
              | error e => rw [hm] at hb; exact absurd hb (by simp)
              | ok flags =>
                  rw [hm] at hb
                  simp only [Except.ok.injEq] at hb
                  subst hb
                  simp [StaggeredPhysicalBoundaryHelper.store, hc]
            · simp only [Except.ok.injEq] at hb
              subst hb
              simp [StaggeredPhysicalBoundaryHelper.store, hc]
          constructor
          · intro l id hne
            have hne1 : l ≠ ln ∨ id ∉ rest.map PatchInfo.global_id := by
              rcases hne with hne | hne
              · exact Or.inl hne
              · exact Or.inr (fun hh => hne (by
                  rw [List.map_cons]; exact List.mem_cons_of_mem _ hh))
            have hne2 : l ≠ ln ∨ id ≠ p.global_id := by
              rcases hne with hne | hne
              · exact Or.inl hne
              · exact Or.inr (fun hh => hne (by
                  rw [List.map_cons, hh]; exact List.mem_cons_self _ _))
            obtain ⟨a1, a2⟩ := f1 l id hne1
            obtain ⟨b1, b2⟩ := hframe l id hne2
            exact ⟨a1.trans b1, a2.trans b2⟩
          · intro hnd patch hp ht
            rw [List.map_cons, List.nodup_cons] at hnd
            rcases List.mem_cons.1 hp with rfl | hp'
            · obtain ⟨a1, a2⟩ := f1 ln patch.global_id (Or.inr hnd.1)
              unfold cachePatchBcCoefData at hb
              dsimp only at hb
              rw [if_pos ht] at hb
              cases hm : mapExcept (cacheBoxFlags env u_bc_coefs fill_time patch)
                  (env.getPhysicalBoundaryCodim1Boxes patch) with
              | error e => rw [hm] at hb; exact absurd hb (by simp)
              | ok flags =>
                  rw [hm] at hb
                  simp only [Except.ok.injEq] at hb
                  subst hb
                  refine ⟨flags, hm, ?_, ?_⟩
                  · rw [a1]; simp [StaggeredPhysicalBoundaryHelper.store]
                  · rw [a2]; simp [StaggeredPhysicalBoundaryHelper.store]
            · exact f2 hnd.2 patch hp' ht

theorem cacheLevels_spec {n : Nat} (env : BcCoefCollaborators n)
    (u_bc_coefs : List (VelocityBcCoefStrategy n)) (fill_time : ℚ)
    (hierarchy : PatchHierarchy) :
    ∀ (lns : List Nat) (h h' : StaggeredPhysicalBoundaryHelper n),
      forEachExcept
          (fun (ln : Nat) helper =>
            forEachExcept (cachePatchBcCoefData env u_bc_coefs fill_time ln)
              (hierarchy.getPatchLevel (ln : Int)).patches helper)
          lns h = Except.ok h' →
      (∀ l id, l ∉ lns →
        h'.d_physical_codim1_boxes l id = h.d_physical_codim1_boxes l id ∧
          h'.d_dirichlet_bdry_locs l id = h.d_dirichlet_bdry_locs l id) ∧
      (lns.Nodup → ∀ ln ∈ lns,
        ((hierarchy.getPatchLevel (ln : Int)).patches.map PatchInfo.global_id).Nodup →
        ∀ patch ∈ (hierarchy.getPatchLevel (ln : Int)).patches,
          patch.touches_regular_boundary = true →
          CachedFor env u_bc_coefs fill_time ln patch h') := by
  intro lns
  induction lns with
  | nil =>
      intro h h' hr
      simp only [forEachExcept, Except.ok.injEq] at hr
      subst hr
      exact ⟨fun _ _ _ => ⟨rfl, rfl⟩, fun _ ln hl => absurd hl (List.not_mem_nil _)⟩
  | cons m rest ih =>
      intro h h' hr
      unfold forEachExcept at hr
      cases hb : forEachExcept (cachePatchBcCoefData env u_bc_coefs fill_time m)
          (hierarchy.getPatchLevel (m : Int)).patches h with
      | error e => rw [hb] at hr; exact absurd hr (by simp)
      | ok h1 =>
          rw [hb] at hr
          dsimp only at hr
          obtain ⟨f1, f2⟩ := ih h1 h' hr
          obtain ⟨g1, g2⟩ := cachePatches_spec env u_bc_coefs fill_time m _ h h1 hb
          constructor
          · intro l id hl
            obtain ⟨a1, a2⟩ := f1 l id (fun hh => hl (List.mem_cons_of_mem _ hh))
            obtain ⟨b1, b2⟩ := g1 l id
              (Or.inl (fun hh => hl (hh ▸ List.mem_cons_self _ _)))
            exact ⟨a1.trans b1, a2.trans b2⟩
          · intro hnd ln hln hids patch hp ht
            rw [List.nodup_cons] at hnd
            rcases List.mem_cons.1 hln with rfl | hln'
            · obtain ⟨flags, c1, c2, c3⟩ := g2 hids patch hp ht
              obtain ⟨a1, a2⟩ := f1 ln patch.global_id hnd.1
              exact ⟨flags, c1, a1.trans c2, a2.trans c3⟩
            · exact f2 hnd.2 ln hln' hids patch hp ht

theorem relativeEqualEps_one_one : relativeEqualEps 1 1 = true := by
  simp [relativeEqualEps]

theorem relativeEqualEps_sum : relativeEqualEps (1 + smallBeta) 1 = true := by
  simp only [relativeEqualEps, decide_eq_true_eq, smallBeta]
  norm_num [abs_of_pos]

theorem relativeEqualEps_small_one : relativeEqualEps smallBeta 1 = false := by
  simp only [relativeEqualEps, decide_eq_false_iff_not, smallBeta]
  norm_num [abs_of_pos, abs_of_neg]

theorem relativeEqualEps_small_zero : relativeEqualEps smallBeta 0 = false := by
  simp only [relativeEqualEps, decide_eq_false_iff_not, smallBeta]
  norm_num [abs_of_pos, abs_of_neg]

theorem smallBeta_ne_zero : smallBeta ≠ 0 := by
  simp only [smallBeta]; norm_num

theorem probeCachedHelper_run :
    ∃ flags arr,
      cacheBcCoefData (probeBcCoefCollaborators relativeEqualEps)
        [constantBcCoef 1 smallBeta, constantBcCoef 1 0] 0 flaggedHierarchy emptyHelper =
        Except.ok probeCachedHelper ∧
      probeCachedHelper.d_dirichlet_bdry_locs 0 0 = some flags ∧ flags[0]? = some arr ∧
        arr.box.contains ![0, 0] ∧ arr.val ![0, 0] = 0 := by
  have h : ∃ helper' flags arr,
      cacheBcCoefData (probeBcCoefCollaborators relativeEqualEps)
        [constantBcCoef 1 smallBeta, constantBcCoef 1 0] 0 flaggedHierarchy emptyHelper =
        Except.ok helper' ∧
      helper'.d_dirichlet_bdry_locs 0 0 = some flags ∧ flags[0]? = some arr ∧
        arr.box.contains ![0, 0] ∧ arr.val ![0, 0] = 0 := by
    simp [cacheBcCoefData, probeBcCoefCollaborators, flaggedHierarchy, emptyHelper,
      PatchHierarchy.getFinestLevelNumber, forEachExcept, PatchHierarchy.getPatchLevel,
      cachePatchBcCoefData, flaggedPatch, mapExcept, cacheBoxFlags, setupBcCoefBoxes,
      constantBcCoef, Box.cells, cellsOf, intRange, classifyLocations, dirichletFlag,
      relativeEqualEps_one_one, relativeEqualEps_sum, relativeEqualEps_small_one,
      relativeEqualEps_small_zero, smallBeta_ne_zero, List.range, List.range.loop,
      StaggeredPhysicalBoundaryHelper.store, ArrayData.assign, Box.intersect, Box.contains,
      Fin.forall_fin_two]
  obtain ⟨helper', flags, arr, h1, h2⟩ := h
  have e : probeCachedHelper = helper' := by
    unfold probeCachedHelper
    rw [h1]
  rw [e]
  exact ⟨flags, arr, h1, h2⟩

theorem probeCachedHelper_ok :
    cacheBcCoefData (probeBcCoefCollaborators relativeEqualEps)
        [constantBcCoef 1 smallBeta, constantBcCoef 1 0] 0 flaggedHierarchy emptyHelper =
      Except.ok probeCachedHelper := by
  obtain ⟨_, _, h, _⟩ := probeCachedHelper_run
  exact h

/-- C24 (counterexample). With the relative comparison, a strategy that
returns `alpha = 1` and `beta = 2^-40` passes both assertions of
`cacheBcCoefData` (`alpha + beta ~ 1`, and `alpha ~ 1`), the flag cached for
the location `(0,0)` of the boundary box is clear because `beta` is neither 0
nor `~ 0`, and yet `beta ~ 1` does not hold. -/
theorem dirichlet_flag_clear_without_beta_one :
    ∃ flags arr,
      cacheBcCoefData (probeBcCoefCollaborators relativeEqualEps)
        [constantBcCoef 1 smallBeta, constantBcCoef 1 0] 0 flaggedHierarchy emptyHelper =
        Except.ok probeCachedHelper ∧
      probeCachedHelper.d_dirichlet_bdry_locs 0 0 = some flags ∧ flags[0]? = some arr ∧
        arr.box.contains ![0, 0] ∧ arr.val ![0, 0] = 0 ∧
      relativeEqualEps (1 + smallBeta) 1 = true ∧ relativeEqualEps 1 1 = true ∧
      relativeEqualEps smallBeta 1 = false := by
  obtain ⟨flags, arr, h1, h2, h3, h4, h5⟩ := probeCachedHelper_run
  exact ⟨flags, arr, h1, h2, h3, h4, h5, relativeEqualEps_sum, relativeEqualEps_one_one,
    relativeEqualEps_small_one⟩

/-- C24 (amended). When `cacheBcCoefData` returns, then for every level `ln`
of the hierarchy whose patches have distinct ids, every patch of the level
that touches a regular boundary, every codimension-one boundary box of the
patch (the `k`-th, with normal axis `location_index / 2`) and every location
`i` of its coefficient box, with `alpha` and `beta` the coefficients that the
strategy of that axis returned at `i`: the flag cached at `i` is set exactly
when `alpha ~ 1` and (`beta = 0` or `beta ~ 0`); with the assertions compiled
in, `alpha + beta ~ 1` holds with `alpha ~ 1` or `beta ~ 1`, and a clear flag
means that `beta ~ 1`, or that `alpha ~ 1` while `beta` is neither 0 nor
`~ 0`. -/
theorem cacheBcCoefData_dirichlet_flags {n : Nat} (env : BcCoefCollaborators n)
    (u_bc_coefs : List (VelocityBcCoefStrategy n)) (fill_time : ℚ)
    (hierarchy : PatchHierarchy) (helper helper' : StaggeredPhysicalBoundaryHelper n)
    (hok : cacheBcCoefData env u_bc_coefs fill_time hierarchy helper = Except.ok helper')
    (ln : Nat) (hln : (ln : Int) ≤ hierarchy.getFinestLevelNumber)
    (hids : ((hierarchy.getPatchLevel (ln : Int)).patches.map PatchInfo.global_id).Nodup)
    (patch : PatchInfo) (hp : patch ∈ (hierarchy.getPatchLevel (ln : Int)).patches)
    (ht : patch.touches_regular_boundary = true)
    (k : Nat) (bdry_box : BoundaryBox n)
    (hk : (env.getPhysicalBoundaryCodim1Boxes patch)[k]? = some bdry_box) :
    ∃ bc_coef dirichlet_bdry_locs bdry_locs_data,
      u_bc_coefs[bdry_box.location_index / 2]? = some bc_coef ∧
      helper'.d_physical_codim1_boxes ln patch.global_id =
        some (env.getPhysicalBoundaryCodim1Boxes patch) ∧
      helper'.d_dirichlet_bdry_locs ln patch.global_id = some dirichlet_bdry_locs ∧
      dirichlet_bdry_locs[k]? = some bdry_locs_data ∧
      bdry_locs_data.box = (setupBcCoefBoxes env bdry_box patch).1 ∧
      ∀ i, bdry_locs_data.box.contains i →
        ∀ alpha beta : ℚ,
          alpha = (bc_coef.setBcCoefs (setupBcCoefBoxes env bdry_box patch).1 patch
            (setupBcCoefBoxes env bdry_box patch).2 fill_time).1 i →
          beta = (bc_coef.setBcCoefs (setupBcCoefBoxes env bdry_box patch).1 patch
            (setupBcCoefBoxes env bdry_box patch).2 fill_time).2 i →
          (bdry_locs_data.val i ≠ 0 ↔
            (env.equalEps alpha 1 = true ∧ (beta = 0 ∨ env.equalEps beta 0 = true))) ∧
          (env.check_assertions = true →
            env.equalEps (alpha + beta) 1 = true ∧
              (env.equalEps alpha 1 = true ∨ env.equalEps beta 1 = true)) ∧
          (env.check_assertions = true → bdry_locs_data.val i = 0 →
            (env.equalEps beta 1 = true ∨
              (env.equalEps alpha 1 = true ∧ beta ≠ 0 ∧ env.equalEps beta 0 = false))) := by
  unfold cacheBcCoefData at hok
  dsimp only at hok
  by_cases ha : env.check_assertions = true ∧ u_bc_coefs.length ≠ hierarchy.dim
  · rw [if_pos ha] at hok
    exact absurd hok (by simp)
  rw [if_neg ha] at hok
  obtain ⟨-, hlev⟩ := cacheLevels_spec env u_bc_coefs fill_time hierarchy _ _ _ hok
  have hmem : ln ∈ List.range (hierarchy.getFinestLevelNumber + 1).toNat := by
    rw [List.mem_range]
    omega
  obtain ⟨flags, hm, hb, hf⟩ := hlev (List.nodup_range _) ln hmem hids patch hp ht
  obtain ⟨-, hat⟩ := mapExcept_spec _ _ _ hm
  obtain ⟨arr, harr, hbox⟩ := hat k bdry_box hk
  unfold cacheBoxFlags at hbox
  dsimp only at hbox
  cases hu : u_bc_coefs[bdry_box.location_index / 2]? with
  | none => rw [hu] at hbox; exact absurd hbox (by simp)
  | some bc_coef =>
      rw [hu] at hbox
      dsimp only at hbox
      obtain ⟨c1, c2, -⟩ := classifyLocations_spec env _ _ _ _ _ hbox
      refine ⟨bc_coef, flags, arr, rfl, hb, hf, harr, c1, ?_⟩
      intro i hi alpha beta hal hbe
      rw [c1] at hi
      obtain ⟨d1, d2⟩ := c2 i ((mem_cells _ _).2 hi)
      rw [← hal, ← hbe] at d1 d2
      have hiff : arr.val i ≠ 0 ↔
          (env.equalEps alpha 1 = true ∧ (beta = 0 ∨ env.equalEps beta 0 = true)) := by
        rw [d1]
        unfold dirichletFlag
        by_cases hA : env.equalEps alpha 1 = true
        · by_cases hB : beta = 0
          · simp [hA, hB]
          · by_cases hC : env.equalEps beta 0 = true
            · simp [hA, hB, hC]
            · simp [hA, hB, hC]
        · simp [hA]
      refine ⟨hiff, d2, ?_⟩
      intro hc h0
      have hn : ¬ (env.equalEps alpha 1 = true ∧ (beta = 0 ∨ env.equalEps beta 0 = true)) :=
        fun hh => (hiff.2 hh) h0
      rcases (d2 hc).2 with hA | hB
      · right
        refine ⟨hA, fun hb0 => hn ⟨hA, Or.inl hb0⟩, ?_⟩
        by_contra hne
        exact hn ⟨hA, Or.inr (by simpa using hne)⟩
      · exact Or.inl hB

/-- Witness of C24 (amended): the run of the counterexample. -/
theorem cacheBcCoefData_dirichlet_flags_witness :
    cacheBcCoefData (probeBcCoefCollaborators relativeEqualEps)
        [constantBcCoef 1 smallBeta, constantBcCoef 1 0] 0 flaggedHierarchy emptyHelper =
      Except.ok probeCachedHelper ∧
    ((0 : Nat) : Int) ≤ flaggedHierarchy.getFinestLevelNumber ∧
    ((flaggedHierarchy.getPatchLevel ((0 : Nat) : Int)).patches.map
      PatchInfo.global_id).Nodup ∧
    flaggedPatch ∈ (flaggedHierarchy.getPatchLevel ((0 : Nat) : Int)).patches ∧
    flaggedPatch.touches_regular_boundary = true ∧
    ((probeBcCoefCollaborators relativeEqualEps).getPhysicalBoundaryCodim1Boxes
      flaggedPatch)[0]? = some ⟨⟨![-1, 0], ![-1, 3]⟩, 0⟩ ∧
    ∃ bc_coef dirichlet_bdry_locs bdry_locs_data,
      [constantBcCoef 1 smallBeta, constantBcCoef 1 0][(0 : Nat) / 2]? = some bc_coef ∧
      probeCachedHelper.d_physical_codim1_boxes 0 flaggedPatch.global_id =
        some ((probeBcCoefCollaborators relativeEqualEps).getPhysicalBoundaryCodim1Boxes
          flaggedPatch) ∧
      probeCachedHelper.d_dirichlet_bdry_locs 0 flaggedPatch.global_id =
        some dirichlet_bdry_locs ∧
      dirichlet_bdry_locs[0]? = some bdry_locs_data ∧
      bdry_locs_data.box =
        (setupBcCoefBoxes (probeBcCoefCollaborators relativeEqualEps)
          ⟨⟨![-1, 0], ![-1, 3]⟩, 0⟩ flaggedPatch).1 ∧
      ∀ i, bdry_locs_data.box.contains i →
        ∀ alpha beta : ℚ,
          alpha = (bc_coef.setBcCoefs
            (setupBcCoefBoxes (probeBcCoefCollaborators relativeEqualEps)
              ⟨⟨![-1, 0], ![-1, 3]⟩, 0⟩ flaggedPatch).1 flaggedPatch
            (setupBcCoefBoxes (probeBcCoefCollaborators relativeEqualEps)
              ⟨⟨![-1, 0], ![-1, 3]⟩, 0⟩ flaggedPatch).2 0).1 i →
          beta = (bc_coef.setBcCoefs
            (setupBcCoefBoxes (probeBcCoefCollaborators relativeEqualEps)
              ⟨⟨![-1, 0], ![-1, 3]⟩, 0⟩ flaggedPatch).1 flaggedPatch
            (setupBcCoefBoxes (probeBcCoefCollaborators relativeEqualEps)
              ⟨⟨![-1, 0], ![-1, 3]⟩, 0⟩ flaggedPatch).2 0).2 i →
          (bdry_locs_data.val i ≠ 0 ↔
            (relativeEqualEps alpha 1 = true ∧ (beta = 0 ∨ relativeEqualEps beta 0 = true))) ∧
          ((probeBcCoefCollaborators relativeEqualEps).check_assertions = true →
            relativeEqualEps (alpha + beta) 1 = true ∧
              (relativeEqualEps alpha 1 = true ∨ relativeEqualEps beta 1 = true)) ∧
          ((probeBcCoefCollaborators relativeEqualEps).check_assertions = true →
            bdry_locs_data.val i = 0 →
            (relativeEqualEps beta 1 = true ∨
              (relativeEqualEps alpha 1 = true ∧ beta ≠ 0 ∧
                relativeEqualEps beta 0 = false))) :=
  ⟨probeCachedHelper_ok, by decide, by decide, by decide, rfl, rfl,
    cacheBcCoefData_dirichlet_flags (probeBcCoefCollaborators relativeEqualEps)
      [constantBcCoef 1 smallBeta, constantBcCoef 1 0] 0 flaggedHierarchy emptyHelper
      probeCachedHelper probeCachedHelper_ok 0 (by decide)
      (by decide) flaggedPatch (by decide) rfl 0 ⟨⟨![-1, 0], ![-1, 3]⟩, 0⟩ rfl⟩

/-! ## The refine and Robin phases of `fillData` on the hierarchy -/

theorem hierarchyLevel_eq (s : HierarchyGhostCellInterpolation) (hierarchy : PatchHierarchy)
    (hh : s.d_hierarchy = some hierarchy) (L : Int) (hL : 0 ≤ L) :
    hierarchyLevel s L = hierarchy.levels.getD L.toNat ⟨[], []⟩ := by
  unfold hierarchyLevel PatchHierarchy.getPatchLevel
  rw [hh]
  dsimp only
  rw [if_neg (by omega)]

theorem range_flatMap_enum {α β : Type} (l : List α) (G : Nat → Option α → List β) :
    (List.range l.length).flatMap (fun i => G i l[i]?) =
      l.enum.flatMap (fun q => G q.1 (some q.2)) := by
  induction l using List.reverseRecOn with
  | nil => rfl
  | append_singleton l a ih =>
      rw [List.length_append, List.length_singleton, List.range_succ, List.flatMap_append,
        List.enum_append, List.flatMap_append]
      congr 1
      · rw [← ih]
        apply List.flatMap_congr
        intro i hi
        rw [List.mem_range] at hi
        rw [List.getElem?_append_left hi]
      · simp

theorem dstDataIdx_eq (s : HierarchyGhostCellInterpolation) (i : Nat) :
    dstDataIdx s i =
      (match s.d_transaction_comps[i]? with
        | some comp => comp.d_dst_data_idx
        | none => 0) := rfl

theorem normalExtensionEvents_enum (s : HierarchyGhostCellInterpolation)
    (hierarchy : PatchHierarchy) (hh : s.d_hierarchy = some hierarchy) (L : Int) (hL : 0 ≤ L)
    (patch : PatchInfo) :
    normalExtensionEvents s L patch =
      (s.d_transaction_comps.enum.filter (fun p => (slot s.d_cf_bdry_ops p.1).isSome)).map
        (fun p =>
          Event.computeNormalExtension L patch.global_id p.1
            (hierarchy.levels.getD L.toNat ⟨[], []⟩).ratio_to_coarser_level
            (patch.getGhostCellWidth p.2.d_dst_data_idx)) := by
  unfold normalExtensionEvents
  rw [hierarchyLevel_eq s hierarchy hh L hL, ← flatMap_ite_singleton, ← flatMap_ite_singleton]
  exact range_flatMap_enum s.d_transaction_comps
    (fun i o =>
      if (slot s.d_cf_bdry_ops i).isSome = true then
        [Event.computeNormalExtension L patch.global_id i
          (hierarchy.levels.getD L.toNat ⟨[], []⟩).ratio_to_coarser_level
          (patch.getGhostCellWidth
            (match o with
              | some comp => comp.d_dst_data_idx
              | none => 0))]
      else [])

theorem robinPatchEvents_enum (s : HierarchyGhostCellInterpolation) (ln : Int)
    (patch : PatchInfo) :
    robinPatchEvents s ln patch =
      s.d_transaction_comps.enum.flatMap
        (fun p =>
          (if (slot s.d_cc_robin_bc_ops p.1).isSome = true then
            [Event.ccSetPhysicalBoundaryConditions ln patch.global_id p.1
              (patch.getGhostCellWidth p.2.d_dst_data_idx)] else []) ++
          (if (slot s.d_sc_robin_bc_ops p.1).isSome = true then
            [Event.scSetPhysicalBoundaryConditions ln patch.global_id p.1
              (patch.getGhostCellWidth p.2.d_dst_data_idx)] else [])) := by
  unfold robinPatchEvents
  exact range_flatMap_enum s.d_transaction_comps
    (fun i o =>
      (if (slot s.d_cc_robin_bc_ops i).isSome = true then
        [Event.ccSetPhysicalBoundaryConditions ln patch.global_id i
          (patch.getGhostCellWidth
            (match o with
              | some comp => comp.d_dst_data_idx
              | none => 0))] else []) ++
      (if (slot s.d_sc_robin_bc_ops i).isSome = true then
        [Event.scSetPhysicalBoundaryConditions ln patch.global_id i
          (patch.getGhostCellWidth
            (match o with
              | some comp => comp.d_dst_data_idx
              | none => 0))] else []))

theorem levels_getD_of_range (hierarchy : PatchHierarchy) (L : Int) (hL : 0 ≤ L)
    (hf : L < hierarchy.levels.length) :
    ∃ level, hierarchy.levels[L.toNat]? = some level ∧
      hierarchy.levels.getD L.toNat ⟨[], []⟩ = level := by
  have h : L.toNat < hierarchy.levels.length := by omega
  refine ⟨hierarchy.levels[L.toNat], List.getElem?_eq_getElem h, ?_⟩
  rw [List.getD_eq_getElem?_getD, List.getElem?_eq_getElem h]
  rfl

/-- C19. One `fillData` call on an initialized orchestrator over the hierarchy
`hierarchy`, whose level range `coarsest, ..., finest` lies within the levels
of the hierarchy and whose refine schedule slots are non-null on that range,
returns, and the refine schedule executions and normal extensions among its
collaborator calls `evs` are, in order: for each level number `L` from
coarsest to finest in strictly increasing order, the execution of the refine
schedule of `L`, followed for each patch of the `L`-th level of the hierarchy
in turn by one `computeNormalExtension` for each registered component
`(k, comp)` whose coarse-fine interpolation slot `k` is non-null (and for no
other component), with the ratio of that level to the coarser level and the
ghost cell width that the patch has for the destination data index
`comp.d_dst_data_idx`. -/
theorem fillData_refine_levels (env : Collaborators) (sys : Sys) (hierarchy : PatchHierarchy)
    (hinit : sys.2.d_is_initialized = true)
    (hhier : sys.2.d_hierarchy = some hierarchy)
    (hcoarsest : 0 ≤ sys.2.d_coarsest_ln)
    (hfinest : sys.2.d_finest_ln < hierarchy.levels.length)
    (hscheds : ∀ L : Int, sys.2.d_coarsest_ln ≤ L → L ≤ sys.2.d_finest_ln →
      (slot sys.2.d_refine_scheds L.toNat).isSome = true) :
    ∃ sys' evs, fillData env sys = Except.ok sys' ∧
      sys'.1.trace = sys.1.trace ++ evs ∧
      evs.filter Event.isRefineOrNormalExtension =
        (intRange sys.2.d_coarsest_ln sys.2.d_finest_ln).flatMap
          (fun L =>
            Event.refineFillData L ::
              (hierarchy.levels.getD L.toNat ⟨[], []⟩).patches.flatMap
                (fun patch =>
                  (sys.2.d_transaction_comps.enum.filter
                    (fun p => (slot sys.2.d_cf_bdry_ops p.1).isSome)).map
                    (fun p =>
                      Event.computeNormalExtension L patch.global_id p.1
                        (hierarchy.levels.getD L.toNat ⟨[], []⟩).ratio_to_coarser_level
                        (patch.getGhostCellWidth p.2.d_dst_data_idx)))) ∧
      (∀ L : Int, sys.2.d_coarsest_ln ≤ L → L ≤ sys.2.d_finest_ln →
        ∃ level, hierarchy.levels[L.toNat]? = some level ∧
          hierarchy.levels.getD L.toNat ⟨[], []⟩ = level) ∧
      (intRange sys.2.d_coarsest_ln sys.2.d_finest_ln).Pairwise (fun a b => a < b) ∧
      (∀ L : Int, L ∈ intRange sys.2.d_coarsest_ln sys.2.d_finest_ln ↔
        sys.2.d_coarsest_ln ≤ L ∧ L ≤ sys.2.d_finest_ln) := by
  obtain ⟨cc, sc, h1, -, -⟩ := fillData_exact env sys hinit
  refine ⟨_, _, h1, rfl, ?_, ?_, intRange_pairwise_lt _ _, fun L => mem_intRange _ _ L⟩
  · rw [(fillData_events_filter sys.2).2.1]
    unfold refineEvents refineLevels
    apply List.flatMap_congr
    intro L hL
    rw [mem_intRange] at hL
    have hL0 : 0 ≤ L := le_trans hcoarsest hL.1
    unfold refineLevelEvents
    rw [if_pos (hscheds L hL.1 hL.2), hierarchyLevel_eq sys.2 hierarchy hhier L hL0,
      List.singleton_append]
    congr 1
    apply List.flatMap_congr
    intro patch _
    exact normalExtensionEvents_enum sys.2 hierarchy hhier L hL0 patch
  · intro L h0 h1
    exact levels_getD_of_range hierarchy L (le_trans hcoarsest h0) (lt_of_le_of_lt h1 hfinest)

theorem probeStateMixed_scheds :
    ∀ L : Int, probeStateMixed.2.d_coarsest_ln ≤ L → L ≤ probeStateMixed.2.d_finest_ln →
      (slot probeStateMixed.2.d_refine_scheds L.toNat).isSome = true := by
  intro L h0 h1
  have e0 : probeStateMixed.2.d_coarsest_ln = 0 := rfl
  have e1 : probeStateMixed.2.d_finest_ln = 1 := rfl
  rw [e0] at h0
  rw [e1] at h1
  have : L = 0 ∨ L = 1 := by omega
  rcases this with rfl | rfl <;> rfl

/-- Witness of C19: on the probe orchestrator over `probeHierarchyMixed`, whose
first component (source 0, destination 5) has a coarse-fine interpolation
operator and whose second has none, the refine phase is: the schedule of
level 0, the normal extension on its patch 0 with ratio `(1,1)` and ghost
width `(2,3)`, the schedule of level 1, the normal extensions on its patches
1 and 2 with ratio `(2,2)` and ghost widths `(3,2)` and `(2,2)`. -/
theorem fillData_refine_levels_witness :
    probeStateMixed.2.d_is_initialized = true ∧
    probeStateMixed.2.d_hierarchy = some probeHierarchyMixed ∧
    0 ≤ probeStateMixed.2.d_coarsest_ln ∧
    probeStateMixed.2.d_finest_ln < probeHierarchyMixed.levels.length ∧
    (∀ L : Int, probeStateMixed.2.d_coarsest_ln ≤ L → L ≤ probeStateMixed.2.d_finest_ln →
      (slot probeStateMixed.2.d_refine_scheds L.toNat).isSome = true) ∧
    ∃ sys' evs, fillData (probeEnv true) probeStateMixed = Except.ok sys' ∧
      sys'.1.trace = probeStateMixed.1.trace ++ evs ∧
      evs.filter Event.isRefineOrNormalExtension =
        [Event.refineFillData 0,
          Event.computeNormalExtension 0 0 0 [1, 1] [2, 3],
          Event.refineFillData 1,
          Event.computeNormalExtension 1 1 0 [2, 2] [3, 2],
          Event.computeNormalExtension 1 2 0 [2, 2] [2, 2]] ∧
      (∀ L : Int, probeStateMixed.2.d_coarsest_ln ≤ L → L ≤ probeStateMixed.2.d_finest_ln →
        ∃ level, probeHierarchyMixed.levels[L.toNat]? = some level ∧
          probeHierarchyMixed.levels.getD L.toNat ⟨[], []⟩ = level) ∧
      (intRange probeStateMixed.2.d_coarsest_ln probeStateMixed.2.d_finest_ln).Pairwise
        (fun a b => a < b) ∧
      (∀ L : Int, L ∈ intRange probeStateMixed.2.d_coarsest_ln probeStateMixed.2.d_finest_ln ↔
        probeStateMixed.2.d_coarsest_ln ≤ L ∧ L ≤ probeStateMixed.2.d_finest_ln) :=
  ⟨rfl, rfl, by decide, by decide, probeStateMixed_scheds,
    fillData_refine_levels (probeEnv true) probeStateMixed probeHierarchyMixed rfl rfl
      (by decide) (by decide) probeStateMixed_scheds⟩

theorem mem_levels_getD (hierarchy : PatchHierarchy) (k : Nat) (patch : PatchInfo) :
    patch ∈ (hierarchy.levels.getD k ⟨[], []⟩).patches ↔
      ∃ level, hierarchy.levels[k]? = some level ∧ patch ∈ level.patches := by
  rw [List.getD_eq_getElem?_getD]
  cases h : hierarchy.levels[k]? with
  | none => simp
  | some level => simp

theorem robin_call_conditions (s : HierarchyGhostCellInterpolation)
    (hierarchy : PatchHierarchy) (hh : s.d_hierarchy = some hierarchy)
    (hc : 0 ≤ s.d_coarsest_ln) (table : List (Option RobinPhysBdryOp)) (ln : Int)
    (pid k : Nat) (g : List Int) :
    (s.d_coarsest_ln ≤ ln ∧ ln ≤ s.d_finest_ln ∧
        ∃ patch ∈ (hierarchyLevel s ln).patches,
          patch.global_id = pid ∧ patch.touches_regular_boundary = true ∧
          k < s.d_transaction_comps.length ∧ (slot table k).isSome = true ∧
          g = patch.getGhostCellWidth (dstDataIdx s k)) ↔
      (s.d_coarsest_ln ≤ ln ∧ ln ≤ s.d_finest_ln ∧
        ∃ level patch comp, hierarchy.levels[ln.toNat]? = some level ∧ patch ∈ level.patches ∧
          patch.global_id = pid ∧ patch.touches_regular_boundary = true ∧
          s.d_transaction_comps[k]? = some comp ∧ (slot table k).isSome = true ∧
          g = patch.getGhostCellWidth comp.d_dst_data_idx) := by
  constructor
  · rintro ⟨h0, h1, patch, hp, e1, e2, hk, e3, e4⟩
    rw [hierarchyLevel_eq s hierarchy hh ln (le_trans hc h0), mem_levels_getD] at hp
    obtain ⟨level, hl, hp⟩ := hp
    refine ⟨h0, h1, level, patch, s.d_transaction_comps[k], hl, hp, e1, e2,
      List.getElem?_eq_getElem hk, e3, ?_⟩
    rw [e4, dstDataIdx_eq, List.getElem?_eq_getElem hk]
  · rintro ⟨h0, h1, level, patch, comp, hl, hp, e1, e2, hk, e3, e4⟩
    have hlt : k < s.d_transaction_comps.length := by
      by_contra hcon
      rw [List.getElem?_eq_none (Nat.le_of_not_lt hcon)] at hk
      exact absurd hk (by simp)
    refine ⟨h0, h1, patch, ?_, e1, e2, hlt, e3, ?_⟩
    · rw [hierarchyLevel_eq s hierarchy hh ln (le_trans hc h0), mem_levels_getD]
      exact ⟨level, hl, hp⟩
    · rw [e4, dstDataIdx_eq, hk]

/-- C20. One `fillData` call on an initialized orchestrator over the hierarchy
`hierarchy` (with a non-negative coarsest level) returns, and among its
collaborator calls `evs` a cell-centered (side-centered) Robin
`setPhysicalBoundaryConditions` with level `ln`, patch `pid`, component `k`
and ghost width `g` occurs if and only if `coarsest ≤ ln ≤ finest`, a patch
with id `pid` of the `ln`-th level of the hierarchy touches a regular
boundary, the cell-centered (side-centered) Robin slot `k` is non-null, and
`g` is the ghost cell width that the patch has for the destination data index
of the `k`-th registered component; these calls are made level by level from
coarsest to finest, patch by patch, component by component, the cell-centered
operator before the side-centered one. -/
theorem fillData_robin_calls (env : Collaborators) (sys : Sys) (hierarchy : PatchHierarchy)
    (hinit : sys.2.d_is_initialized = true)
    (hhier : sys.2.d_hierarchy = some hierarchy)
    (hcoarsest : 0 ≤ sys.2.d_coarsest_ln) :
    ∃ sys' evs, fillData env sys = Except.ok sys' ∧
      sys'.1.trace = sys.1.trace ++ evs ∧
      (∀ (ln : Int) (pid : Nat) (k : Nat) (g : List Int),
        Event.ccSetPhysicalBoundaryConditions ln pid k g ∈ evs ↔
          (sys.2.d_coarsest_ln ≤ ln ∧ ln ≤ sys.2.d_finest_ln ∧
            ∃ level patch comp,
              hierarchy.levels[ln.toNat]? = some level ∧ patch ∈ level.patches ∧
              patch.global_id = pid ∧ patch.touches_regular_boundary = true ∧
              sys.2.d_transaction_comps[k]? = some comp ∧
              (slot sys.2.d_cc_robin_bc_ops k).isSome = true ∧
              g = patch.getGhostCellWidth comp.d_dst_data_idx)) ∧
      (∀ (ln : Int) (pid : Nat) (k : Nat) (g : List Int),
        Event.scSetPhysicalBoundaryConditions ln pid k g ∈ evs ↔
          (sys.2.d_coarsest_ln ≤ ln ∧ ln ≤ sys.2.d_finest_ln ∧
            ∃ level patch comp,
              hierarchy.levels[ln.toNat]? = some level ∧ patch ∈ level.patches ∧
              patch.global_id = pid ∧ patch.touches_regular_boundary = true ∧
              sys.2.d_transaction_comps[k]? = some comp ∧
              (slot sys.2.d_sc_robin_bc_ops k).isSome = true ∧
              g = patch.getGhostCellWidth comp.d_dst_data_idx)) ∧
      evs.filter Event.isRobinSetPhysicalBoundaryConditions =
        (intRange sys.2.d_coarsest_ln sys.2.d_finest_ln).flatMap
          (fun ln =>
            ((hierarchy.levels.getD ln.toNat ⟨[], []⟩).patches.filter
              (fun patch => patch.touches_regular_boundary)).flatMap
              (fun patch =>
                sys.2.d_transaction_comps.enum.flatMap
                  (fun p =>
                    (if (slot sys.2.d_cc_robin_bc_ops p.1).isSome = true then
                      [Event.ccSetPhysicalBoundaryConditions ln patch.global_id p.1
                        (patch.getGhostCellWidth p.2.d_dst_data_idx)] else []) ++
                    (if (slot sys.2.d_sc_robin_bc_ops p.1).isSome = true then
                      [Event.scSetPhysicalBoundaryConditions ln patch.global_id p.1
                        (patch.getGhostCellWidth p.2.d_dst_data_idx)] else [])))) := by
  obtain ⟨cc, sc, h1, -, -⟩ := fillData_exact env sys hinit
  refine ⟨_, _, h1, rfl, ?_, ?_, ?_⟩
  · intro ln pid k g
    exact ((mem_fillData_events_robin sys.2
      (Event.ccSetPhysicalBoundaryConditions ln pid k g) rfl).trans
      (mem_robinEvents_cc sys.2 ln pid k g)).trans
      (robin_call_conditions sys.2 hierarchy hhier hcoarsest _ ln pid k g)
  · intro ln pid k g
    exact ((mem_fillData_events_robin sys.2
      (Event.scSetPhysicalBoundaryConditions ln pid k g) rfl).trans
      (mem_robinEvents_sc sys.2 ln pid k g)).trans
      (robin_call_conditions sys.2 hierarchy hhier hcoarsest _ ln pid k g)
  · rw [(fillData_events_filter sys.2).2.2]
    unfold robinEvents refineLevels
    apply List.flatMap_congr
    intro L hL
    rw [mem_intRange] at hL
    rw [flatMap_ite_filter, hierarchyLevel_eq sys.2 hierarchy hhier L (le_trans hcoarsest hL.1)]
    apply List.flatMap_congr
    intro patch _
    exact robinPatchEvents_enum sys.2 L patch

/-- Witness of C20: on the probe orchestrator over `probeHierarchyMixed`, whose
first component (destination 5) has a cell-centered and whose second
(destination 6) a side-centered Robin operator, the Robin calls are made on
the patch 0 of level 0 and on the patch 2 of level 1, which touch a regular
boundary, and not on the patch 1 of level 1, with the ghost cell widths of
the destination data. -/
theorem fillData_robin_calls_witness :
    probeStateMixed.2.d_is_initialized = true ∧
    probeStateMixed.2.d_hierarchy = some probeHierarchyMixed ∧
    0 ≤ probeStateMixed.2.d_coarsest_ln ∧
    ∃ sys' evs, fillData (probeEnv true) probeStateMixed = Except.ok sys' ∧
      sys'.1.trace = probeStateMixed.1.trace ++ evs ∧
      (∀ (ln : Int) (pid : Nat) (k : Nat) (g : List Int),
        Event.ccSetPhysicalBoundaryConditions ln pid k g ∈ evs ↔
          (probeStateMixed.2.d_coarsest_ln ≤ ln ∧ ln ≤ probeStateMixed.2.d_finest_ln ∧
            ∃ level patch comp,
              probeHierarchyMixed.levels[ln.toNat]? = some level ∧ patch ∈ level.patches ∧
              patch.global_id = pid ∧ patch.touches_regular_boundary = true ∧
              probeStateMixed.2.d_transaction_comps[k]? = some comp ∧
              (slot probeStateMixed.2.d_cc_robin_bc_ops k).isSome = true ∧
              g = patch.getGhostCellWidth comp.d_dst_data_idx)) ∧
      (∀ (ln : Int) (pid : Nat) (k : Nat) (g : List Int),
        Event.scSetPhysicalBoundaryConditions ln pid k g ∈ evs ↔
          (probeStateMixed.2.d_coarsest_ln ≤ ln ∧ ln ≤ probeStateMixed.2.d_finest_ln ∧
            ∃ level patch comp,
              probeHierarchyMixed.levels[ln.toNat]? = some level ∧ patch ∈ level.patches ∧
              patch.global_id = pid ∧ patch.touches_regular_boundary = true ∧
              probeStateMixed.2.d_transaction_comps[k]? = some comp ∧
              (slot probeStateMixed.2.d_sc_robin_bc_ops k).isSome = true ∧
              g = patch.getGhostCellWidth comp.d_dst_data_idx)) ∧
      evs.filter Event.isRobinSetPhysicalBoundaryConditions =
        [Event.ccSetPhysicalBoundaryConditions 0 0 0 [2, 3],
          Event.scSetPhysicalBoundaryConditions 0 0 1 [4, 4],
          Event.ccSetPhysicalBoundaryConditions 1 2 0 [2, 2],
          Event.scSetPhysicalBoundaryConditions 1 2 1 [5, 5]] :=
  ⟨rfl, rfl, by decide,
    fillData_robin_calls (probeEnv true) probeStateMixed probeHierarchyMixed rfl rfl
      (by decide)⟩

/-! ## The codimension stages of `CartCellRobinPhysBdryOp` -/

theorem codim1Depths_summary {n : Nat} (op : CartCellRobinPhysBdryOp n)
    (patch_data_idx : Int) (patch_data_gcw : Int) (fill_time : ℚ) (b : Bool)
    (location_index : Nat) (bc_fill_box : Box n) (trimmed_bdry_box : BoundaryBox n)
    (ds : List Nat) :
    ∀ (coefs : RobinCoefData n) (calls : List (RobinKernelCall n)),
      op.codim1Depths patch_data_idx patch_data_gcw fill_time b location_index bc_fill_box
          trimmed_bdry_box ds coefs = Except.ok calls →
      calls.map RobinKernelCall.summary =
        ds.map (fun d => (1, patch_data_idx, location_index, d, bc_fill_box, b)) := by
  induction ds with
  | nil =>
      intro coefs calls h
      simp only [CartCellRobinPhysBdryOp.codim1Depths, Except.ok.injEq] at h
      subst h
      rfl
  | cons d ds ih =>
      intro coefs calls h
      unfold CartCellRobinPhysBdryOp.codim1Depths at h
      cases hb : op.d_bc_coefs.getD d none with
      | none => rw [hb] at h; exact absurd h (by simp)
      | some bc_coef =>
          rw [hb] at h
          dsimp only at h
          cases hk : codim1Kernel n location_index with
          | error e => rw [hk] at h; exact absurd h (by simp)
          | ok kernel =>
              rw [hk] at h
              dsimp only at h
              split at h
              · exact absurd h (by simp)
              · rename_i rest hrest
                simp only [Except.ok.injEq] at h
                subst h
                rw [List.map_cons, List.map_cons, ih _ rest hrest]
                congr 1
                unfold RobinKernelCall.summary
                rw [codim1Kernel_codim _ _ _ hk]

theorem fillGhostCellValuesCodim1_summary {n : Nat} (debug_checks : Bool)
    (op : CartCellRobinPhysBdryOp n) (patch_data_idx : Int) (boxes : List (BoundaryBox n))
    (fill_time : ℚ) (gw : Index n) (patch : RobinPatch n) (b : Bool)
    (calls : List (RobinKernelCall n))
    (h : op.fillGhostCellValuesCodim1 debug_checks patch_data_idx boxes fill_time gw patch b =
      Except.ok calls) :
    calls.map RobinKernelCall.summary =
      (match patch.cell_data patch_data_idx with
        | none => []
        | some patch_data =>
            boxes.flatMap
              (fun bdry_box =>
                (List.range patch_data.1).map
                  (fun d =>
                    (1, patch_data_idx, bdry_box.location_index, d,
                      patch.getBoundaryFillBox bdry_box patch.box
                        (fun a => min (patch_data.2 a) (gw a)),
                      b)))) := by
  unfold CartCellRobinPhysBdryOp.fillGhostCellValuesCodim1 at h
  dsimp only at h
  by_cases h0 : boxes.length = 0
  · simp only [if_pos h0, Except.ok.injEq] at h
    subst h
    rw [List.length_eq_zero.mp h0]
    cases patch.cell_data patch_data_idx <;> rfl
  · simp only [if_neg h0] at h
    cases hp : patch.cell_data patch_data_idx with
    | none => rw [hp] at h; exact absurd h (by simp)
    | some patch_data =>
        rw [hp] at h
        dsimp only at h ⊢
        by_cases h1 : debug_checks = true ∧ intVectorMax patch_data.2 ≠ intVectorMin patch_data.2
        · rw [if_pos h1] at h
          exact absurd h (by simp)
        · rw [if_neg h1] at h
          exact collectCalls_map_flatMap _ _ _ _
            (fun bdry_box _ xs hxs => codim1Depths_summary _ _ _ _ _ _ _ _ _ _ xs hxs) calls h

theorem collectCalls_singletons {α β : Type} (f : α → β) (l : List α) :
    collectCalls (fun a => (Except.ok [f a] : Except String (List β))) l =
      Except.ok (l.map f) := by
  induction l with
  | nil => rfl
  | cons a l ih =>
      unfold collectCalls
      dsimp only
      rw [ih]
      rfl

theorem fillGhostCellValuesCodim2_summary {n : Nat} (debug_checks : Bool)
    (op : CartCellRobinPhysBdryOp n) (patch_data_idx : Int) (boxes : List (BoundaryBox n))
    (gw : Index n) (patch : RobinPatch n) (b : Bool) (calls : List (RobinKernelCall n))
    (h : op.fillGhostCellValuesCodim2 debug_checks patch_data_idx boxes gw patch b =
      Except.ok calls) :
    calls.map RobinKernelCall.summary =
      (match patch.cell_data patch_data_idx with
        | none => []
        | some patch_data =>
            boxes.flatMap
              (fun bdry_box =>
                (List.range patch_data.1).map
                  (fun d =>
                    (2, patch_data_idx, bdry_box.location_index, d,
                      patch.getBoundaryFillBox bdry_box patch.box
                        (fun a => min (patch_data.2 a) (gw a)),
                      b)))) := by
  unfold CartCellRobinPhysBdryOp.fillGhostCellValuesCodim2 at h
  dsimp only at h
  by_cases h0 : boxes.length = 0
  · simp only [if_pos h0, Except.ok.injEq] at h
    subst h
    rw [List.length_eq_zero.mp h0]
    cases patch.cell_data patch_data_idx <;> rfl
  · simp only [if_neg h0] at h
    cases hp : patch.cell_data patch_data_idx with
    | none => rw [hp] at h; exact absurd h (by simp)
    | some patch_data =>
        rw [hp] at h
        dsimp only at h ⊢
        by_cases h1 : debug_checks = true ∧ intVectorMax patch_data.2 ≠ intVectorMin patch_data.2
        · rw [if_pos h1] at h
          exact absurd h (by simp)
        · rw [if_neg h1] at h
          refine collectCalls_map_flatMap _ _ _ _ (fun bdry_box _ xs hxs => ?_) calls h
          by_cases hn2 : n = 2
          · simp only [if_pos hn2] at hxs
            rw [collectCalls_singletons] at hxs
            simp only [Except.ok.injEq] at hxs
            subst hxs
            rw [List.map_map]
            rfl
          · simp only [if_neg hn2] at hxs
            by_cases hn3 : n = 3
            · simp only [if_pos hn3] at hxs
              rw [collectCalls_singletons] at hxs
              simp only [Except.ok.injEq] at hxs
              subst hxs
              rw [List.map_map]
              rfl
            · simp only [if_neg hn3] at hxs
              cases hr : List.range patch_data.1 with
              | nil => rw [hr] at hxs; simp only [collectCalls, Except.ok.injEq] at hxs; subst hxs; rfl
              | cons d ds => rw [hr] at hxs; simp [collectCalls] at hxs

theorem fillGhostCellValuesCodim3_summary {n : Nat} (debug_checks : Bool)
    (op : CartCellRobinPhysBdryOp n) (patch_data_idx : Int) (boxes : List (BoundaryBox n))
    (gw : Index n) (patch : RobinPatch n) (b : Bool) (calls : List (RobinKernelCall n))
    (h : op.fillGhostCellValuesCodim3 debug_checks patch_data_idx boxes gw patch b =
      Except.ok calls) :
    calls.map RobinKernelCall.summary =
      (match patch.cell_data patch_data_idx with
        | none => []
        | some patch_data =>
            boxes.flatMap
              (fun bdry_box =>
                (List.range patch_data.1).map
                  (fun d =>
                    (3, patch_data_idx, bdry_box.location_index, d,
                      patch.getBoundaryFillBox bdry_box patch.box
                        (fun a => min (patch_data.2 a) (gw a)),
                      b)))) := by
  unfold CartCellRobinPhysBdryOp.fillGhostCellValuesCodim3 at h
  dsimp only at h
  by_cases h0 : boxes.length = 0
  · simp only [if_pos h0, Except.ok.injEq] at h
    subst h
    rw [List.length_eq_zero.mp h0]
    cases patch.cell_data patch_data_idx <;> rfl
  · simp only [if_neg h0] at h
    cases hp : patch.cell_data patch_data_idx with
    | none => rw [hp] at h; exact absurd h (by simp)
    | some patch_data =>
        rw [hp] at h
        dsimp only at h ⊢
        by_cases h1 : debug_checks = true ∧ intVectorMax patch_data.2 ≠ intVectorMin patch_data.2
        · rw [if_pos h1] at h
          exact absurd h (by simp)
        · rw [if_neg h1] at h
          refine collectCalls_map_flatMap _ _ _ _ (fun bdry_box _ xs hxs => ?_) calls h
          by_cases hn3 : n = 3
          · simp only [if_pos hn3] at hxs
            rw [collectCalls_singletons] at hxs
            simp only [Except.ok.injEq] at hxs
            subst hxs
            rw [List.map_map]
            rfl
          · simp only [if_neg hn3] at hxs
            cases hr : List.range patch_data.1 with
            | nil => rw [hr] at hxs; simp only [collectCalls, Except.ok.injEq] at hxs; subst hxs; rfl
            | cons d ds => rw [hr] at hxs; simp [collectCalls] at hxs

/-- C13. For a non-zero ghost width: when `setPhysicalBoundaryConditions`
returns, the kernel calls it made are those of a codimension-1 stage `s1`,
then those of a codimension-2 stage `s2`, then those of a codimension-3 stage
`s3`, all with `adjoint_op` false, and each stage processes all boundary boxes
of its codimension: for each patch data index in turn, for each boundary box
of that codimension in turn and for each depth component, it makes one call
of a kernel of that codimension with the location index and the boundary fill
box of the box. `accumulateFromPhysicalBoundaryData` then returns too, and its
calls are those of `s3`, then `s2`, then `s1`, all with `adjoint_op` true:
the same boxes processed in the order codimension 3, 2, 1, so that its
sequence of codimensions is the reverse of the forward one. Conversely, when
`accumulateFromPhysicalBoundaryData` returns, so does
`setPhysicalBoundaryConditions`. -/
theorem robin_codim_order {n : Nat} (debug_checks : Bool) (op : CartCellRobinPhysBdryOp n)
    (patch : RobinPatch n) (fill_time : ℚ) (ghost_width_to_fill : Index n)
    (hgw : ghost_width_to_fill ≠ fun _ => 0) :
    (∀ calls,
      op.setPhysicalBoundaryConditions debug_checks patch fill_time ghost_width_to_fill =
        Except.ok calls →
      ∃ s1 s2 s3,
        collectCalls
          (fun patch_data_idx =>
            op.fillGhostCellValuesCodim1 debug_checks patch_data_idx
              patch.physical_codim1_boxes fill_time ghost_width_to_fill patch false)
          op.d_patch_data_indices = Except.ok s1 ∧
        collectCalls
          (fun patch_data_idx =>
            op.fillGhostCellValuesCodim2 debug_checks patch_data_idx
              patch.physical_codim2_boxes ghost_width_to_fill patch false)
          op.d_patch_data_indices = Except.ok s2 ∧
        collectCalls
          (fun patch_data_idx =>
            op.fillGhostCellValuesCodim3 debug_checks patch_data_idx
              patch.physical_codim3_boxes ghost_width_to_fill patch false)
          op.d_patch_data_indices = Except.ok s3 ∧
        calls = s1 ++ s2 ++ s3 ∧
        (∀ c ∈ s1, c.kernel.codim = 1 ∧ c.adjoint_op = false) ∧
        (∀ c ∈ s2, c.kernel.codim = 2 ∧ c.adjoint_op = false) ∧
        (∀ c ∈ s3, c.kernel.codim = 3 ∧ c.adjoint_op = false) ∧
        s1.map RobinKernelCall.summary =
          expectedStage patch op.d_patch_data_indices ghost_width_to_fill 1
            patch.physical_codim1_boxes false ∧
        s2.map RobinKernelCall.summary =
          expectedStage patch op.d_patch_data_indices ghost_width_to_fill 2
            patch.physical_codim2_boxes false ∧
        s3.map RobinKernelCall.summary =
          expectedStage patch op.d_patch_data_indices ghost_width_to_fill 3
            patch.physical_codim3_boxes false ∧
        ∃ acalls,
          op.accumulateFromPhysicalBoundaryData debug_checks patch fill_time
            ghost_width_to_fill = Except.ok acalls ∧
          acalls = s3.map (RobinKernelCall.withAdjoint true) ++
            s2.map (RobinKernelCall.withAdjoint true) ++
            s1.map (RobinKernelCall.withAdjoint true) ∧
          (∀ c ∈ acalls, c.adjoint_op = true) ∧
          acalls.map RobinKernelCall.summary =
            expectedStage patch op.d_patch_data_indices ghost_width_to_fill 3
                patch.physical_codim3_boxes true ++
              expectedStage patch op.d_patch_data_indices ghost_width_to_fill 2
                patch.physical_codim2_boxes true ++
              expectedStage patch op.d_patch_data_indices ghost_width_to_fill 1
                patch.physical_codim1_boxes true ∧
          acalls.map (fun c => c.kernel.codim) =
            (calls.map (fun c => c.kernel.codim)).reverse) ∧
    ((∃ acalls,
        op.accumulateFromPhysicalBoundaryData debug_checks patch fill_time
          ghost_width_to_fill = Except.ok acalls) →
      ∃ calls,
        op.setPhysicalBoundaryConditions debug_checks patch fill_time ghost_width_to_fill =
          Except.ok calls) := by
  constructor
  · intro calls h
    unfold CartCellRobinPhysBdryOp.setPhysicalBoundaryConditions at h
    rw [if_neg hgw] at h
    cases hchk : (if debug_checks = true then
        op.checkPatchData patch "CartCellRobinPhysBdryOp::setPhysicalBoundaryConditions()"
          op.d_patch_data_indices
      else Except.ok ()) with
    | error e => rw [hchk] at h; exact absurd h (by simp)
    | ok u =>
        rw [hchk] at h
        dsimp only at h
        cases h1 : collectCalls
            (fun patch_data_idx =>
              op.fillGhostCellValuesCodim1 debug_checks patch_data_idx
                patch.physical_codim1_boxes fill_time ghost_width_to_fill patch false)
            op.d_patch_data_indices with
        | error e => rw [h1] at h; exact absurd h (by simp)
        | ok s1 =>
            rw [h1] at h
            dsimp only at h
            cases h2 : collectCalls
                (fun patch_data_idx =>
                  op.fillGhostCellValuesCodim2 debug_checks patch_data_idx
                    patch.physical_codim2_boxes ghost_width_to_fill patch false)
                op.d_patch_data_indices with
            | error e => rw [h2] at h; exact absurd h (by simp)
            | ok s2 =>
                rw [h2] at h
                dsimp only at h
                cases h3 : collectCalls
                    (fun patch_data_idx =>
                      op.fillGhostCellValuesCodim3 debug_checks patch_data_idx
                        patch.physical_codim3_boxes ghost_width_to_fill patch false)
                    op.d_patch_data_indices with
                | error e => rw [h3] at h; exact absurd h (by simp)
                | ok s3 =>
                    rw [h3] at h
                    simp only [Except.ok.injEq] at h
                    subst h
                    have p1 := collectCalls_forall
                      (fun c : RobinKernelCall n => c.kernel.codim = 1 ∧ c.adjoint_op = false) _ _
                      (fun idx _ xs hxs =>
                        fillGhostCellValuesCodim1_calls _ _ _ _ _ _ _ _ xs hxs) s1 h1
                    have p2 := collectCalls_forall
                      (fun c : RobinKernelCall n => c.kernel.codim = 2 ∧ c.adjoint_op = false) _ _
                      (fun idx _ xs hxs =>
                        fillGhostCellValuesCodim2_calls _ _ _ _ _ _ _ xs hxs) s2 h2
                    have p3 := collectCalls_forall
                      (fun c : RobinKernelCall n => c.kernel.codim = 3 ∧ c.adjoint_op = false) _ _
                      (fun idx _ xs hxs =>
                        fillGhostCellValuesCodim3_calls _ _ _ _ _ _ _ xs hxs) s3 h3
                    have q1 : s1.map RobinKernelCall.summary =
                        expectedStage patch op.d_patch_data_indices ghost_width_to_fill 1
                          patch.physical_codim1_boxes false :=
                      collectCalls_map_flatMap RobinKernelCall.summary _ _ _
                        (fun idx _ xs hxs =>
                          fillGhostCellValuesCodim1_summary _ _ _ _ _ _ _ _ xs hxs) s1 h1
                    have q2 : s2.map RobinKernelCall.summary =
                        expectedStage patch op.d_patch_data_indices ghost_width_to_fill 2
                          patch.physical_codim2_boxes false :=
                      collectCalls_map_flatMap RobinKernelCall.summary _ _ _
                        (fun idx _ xs hxs =>
                          fillGhostCellValuesCodim2_summary _ _ _ _ _ _ _ xs hxs) s2 h2
                    have q3 : s3.map RobinKernelCall.summary =
                        expectedStage patch op.d_patch_data_indices ghost_width_to_fill 3
                          patch.physical_codim3_boxes false :=
                      collectCalls_map_flatMap RobinKernelCall.summary _ _ _
                        (fun idx _ xs hxs =>
                          fillGhostCellValuesCodim3_summary _ _ _ _ _ _ _ xs hxs) s3 h3
                    have t1 : (s1.map (RobinKernelCall.withAdjoint true)).map
                        RobinKernelCall.summary =
                        expectedStage patch op.d_patch_data_indices ghost_width_to_fill 1
                          patch.physical_codim1_boxes true :=
                      collectCalls_map_flatMap RobinKernelCall.summary _ _ _
                        (fun idx _ xs hxs =>
                          fillGhostCellValuesCodim1_summary _ _ _ _ _ _ _ _ xs hxs) _
                        (by rw [robin_stage1, h1]; rfl)
                    have t2 : (s2.map (RobinKernelCall.withAdjoint true)).map
                        RobinKernelCall.summary =
                        expectedStage patch op.d_patch_data_indices ghost_width_to_fill 2
                          patch.physical_codim2_boxes true :=
                      collectCalls_map_flatMap RobinKernelCall.summary _ _ _
                        (fun idx _ xs hxs =>
                          fillGhostCellValuesCodim2_summary _ _ _ _ _ _ _ xs hxs) _
                        (by rw [robin_stage2, h2]; rfl)
                    have t3 : (s3.map (RobinKernelCall.withAdjoint true)).map
                        RobinKernelCall.summary =
                        expectedStage patch op.d_patch_data_indices ghost_width_to_fill 3
                          patch.physical_codim3_boxes true :=
                      collectCalls_map_flatMap RobinKernelCall.summary _ _ _
                        (fun idx _ xs hxs =>
                          fillGhostCellValuesCodim3_summary _ _ _ _ _ _ _ xs hxs) _
                        (by rw [robin_stage3, h3]; rfl)
                    refine ⟨s1, s2, s3, rfl, rfl, rfl, rfl, p1, p2, p3, q1, q2, q3, _, ?_, rfl,
                      ?_, ?_, ?_⟩
                    · unfold CartCellRobinPhysBdryOp.accumulateFromPhysicalBoundaryData
                      rw [if_neg hgw]
                      have hchk' : (if debug_checks = true then
                          op.checkPatchData patch
                            "CartCellRobinPhysBdryOp::accumulateFromPhysicalBoundaryData()"
                            op.d_patch_data_indices
                          else Except.ok ()) = Except.ok () := by
                        by_cases hd : debug_checks = true
                        · rw [if_pos hd] at hchk ⊢
                          exact checkPatchData_method op patch _ _ _ hchk
                        · rw [if_neg hd]
                      rw [hchk']
                      dsimp only
                      rw [robin_stage3, robin_stage2, robin_stage1, h1, h2, h3]
                      rfl
                    · intro c hc
                      simp only [List.mem_append, List.mem_map] at hc
                      rcases hc with (⟨x, -, rfl⟩ | ⟨x, -, rfl⟩) | ⟨x, -, rfl⟩ <;> rfl
                    · rw [List.map_append, List.map_append, t1, t2, t3]
                    · have e1 := map_eq_replicate_of_forall
                        (fun c : RobinKernelCall n => c.kernel.codim) 1 s1 (fun c hc => (p1 c hc).1)
                      have e2 := map_eq_replicate_of_forall
                        (fun c : RobinKernelCall n => c.kernel.codim) 2 s2 (fun c hc => (p2 c hc).1)
                      have e3 := map_eq_replicate_of_forall
                        (fun c : RobinKernelCall n => c.kernel.codim) 3 s3 (fun c hc => (p3 c hc).1)
                      simp only [List.map_append, List.map_map, List.reverse_append]
                      have k : ∀ s : List (RobinKernelCall n),
                          List.map ((fun c : RobinKernelCall n => c.kernel.codim) ∘
                            RobinKernelCall.withAdjoint true) s =
                          List.map (fun c : RobinKernelCall n => c.kernel.codim) s :=
                        fun s => rfl
                      rw [k, k, k, e1, e2, e3]
                      simp only [List.reverse_replicate, List.append_assoc]
  · rintro ⟨acalls, h⟩
    unfold CartCellRobinPhysBdryOp.accumulateFromPhysicalBoundaryData at h
    rw [if_neg hgw] at h
    unfold CartCellRobinPhysBdryOp.setPhysicalBoundaryConditions
    rw [if_neg hgw]
    cases hchk : (if debug_checks = true then
        op.checkPatchData patch "CartCellRobinPhysBdryOp::accumulateFromPhysicalBoundaryData()"
          op.d_patch_data_indices
      else Except.ok ()) with
    | error e => rw [hchk] at h; exact absurd h (by simp)
    | ok u =>
        rw [hchk] at h
        dsimp only at h
        have hchk' : (if debug_checks = true then
            op.checkPatchData patch "CartCellRobinPhysBdryOp::setPhysicalBoundaryConditions()"
              op.d_patch_data_indices
            else Except.ok ()) = Except.ok () := by
          by_cases hd : debug_checks = true
          · rw [if_pos hd] at hchk ⊢
            exact checkPatchData_method op patch _ _ _ hchk
          · rw [if_neg hd]
        rw [hchk']
        dsimp only
        rw [robin_stage3, robin_stage2, robin_stage1] at h
        cases h1 : collectCalls
            (fun patch_data_idx =>
              op.fillGhostCellValuesCodim1 debug_checks patch_data_idx
                patch.physical_codim1_boxes fill_time ghost_width_to_fill patch false)
            op.d_patch_data_indices with
        | error e =>
            rw [h1] at h
            exfalso
            revert h
            cases Except.map (List.map (RobinKernelCall.withAdjoint true))
              (collectCalls
                (fun patch_data_idx =>
                  op.fillGhostCellValuesCodim3 debug_checks patch_data_idx
                    patch.physical_codim3_boxes ghost_width_to_fill patch false)
                op.d_patch_data_indices) with
            | error e => intro h; exact absurd h (by simp)
            | ok a =>
                dsimp only
                cases Except.map (List.map (RobinKernelCall.withAdjoint true))
                  (collectCalls
                    (fun patch_data_idx =>
                      op.fillGhostCellValuesCodim2 debug_checks patch_data_idx
                        patch.physical_codim2_boxes ghost_width_to_fill patch false)
                    op.d_patch_data_indices) with
                | error e => intro h; exact absurd h (by simp)
                | ok b => intro h; exact absurd h (by simp [Except.map])
        | ok s1 =>
            dsimp only
            cases h2 : collectCalls
                (fun patch_data_idx =>
                  op.fillGhostCellValuesCodim2 debug_checks patch_data_idx
                    patch.physical_codim2_boxes ghost_width_to_fill patch false)
                op.d_patch_data_indices with
            | error e =>
                rw [h2] at h
                exfalso
                revert h
                cases Except.map (List.map (RobinKernelCall.withAdjoint true))
                  (collectCalls
                    (fun patch_data_idx =>
                      op.fillGhostCellValuesCodim3 debug_checks patch_data_idx
                        patch.physical_codim3_boxes ghost_width_to_fill patch false)
                    op.d_patch_data_indices) with
                | error e => intro h; exact absurd h (by simp)
                | ok a => intro h; exact absurd h (by simp [Except.map])
            | ok s2 =>
                dsimp only
                cases h3 : collectCalls
                    (fun patch_data_idx =>
                      op.fillGhostCellValuesCodim3 debug_checks patch_data_idx
                        patch.physical_codim3_boxes ghost_width_to_fill patch false)
                    op.d_patch_data_indices with
                | error e =>
                    rw [h3] at h
                    exact absurd h (by simp [Except.map])
                | ok s3 => exact ⟨_, rfl⟩

/-- Witness of C13: the three-dimensional probe operator on the probe patch with
two codimension-1 boxes, one codimension-2 box, two codimension-3 boxes and
data of depth 2, with the ghost width 1 in each direction. The forward call
makes the four codimension-1 calls, then the two codimension-2 calls, then
the four codimension-3 calls; the adjoint call makes the codimension-3 calls
first and the codimension-1 calls last. -/
theorem robin_codim_order_witness :
    ((fun _ => 1 : Index 3) ≠ fun _ => 0) ∧
    ((robinProbeOp3.setPhysicalBoundaryConditions true robinProbePatch3 0
      (fun _ => 1)).toOption.map
        (List.map (fun c => (c.kernel, c.location_index, c.depth, c.adjoint_op))) =
      some [(RobinKernel.CC_ROBIN_PHYS_BDRY_OP_1_X_FC3D, 0, 0, false),
        (RobinKernel.CC_ROBIN_PHYS_BDRY_OP_1_X_FC3D, 0, 1, false),
        (RobinKernel.CC_ROBIN_PHYS_BDRY_OP_1_Z_FC3D, 5, 0, false),
        (RobinKernel.CC_ROBIN_PHYS_BDRY_OP_1_Z_FC3D, 5, 1, false),
        (RobinKernel.CC_ROBIN_PHYS_BDRY_OP_2_FC3D, 0, 0, false),
        (RobinKernel.CC_ROBIN_PHYS_BDRY_OP_2_FC3D, 0, 1, false),
        (RobinKernel.CC_ROBIN_PHYS_BDRY_OP_3_FC3D, 0, 0, false),
        (RobinKernel.CC_ROBIN_PHYS_BDRY_OP_3_FC3D, 0, 1, false),
        (RobinKernel.CC_ROBIN_PHYS_BDRY_OP_3_FC3D, 7, 0, false),
        (RobinKernel.CC_ROBIN_PHYS_BDRY_OP_3_FC3D, 7, 1, false)]) ∧
    ((robinProbeOp3.accumulateFromPhysicalBoundaryData true robinProbePatch3 0
      (fun _ => 1)).toOption.map
        (List.map (fun c => (c.kernel, c.location_index, c.depth, c.adjoint_op))) =
      some [(RobinKernel.CC_ROBIN_PHYS_BDRY_OP_3_FC3D, 0, 0, true),
        (RobinKernel.CC_ROBIN_PHYS_BDRY_OP_3_FC3D, 0, 1, true),
        (RobinKernel.CC_ROBIN_PHYS_BDRY_OP_3_FC3D, 7, 0, true),
        (RobinKernel.CC_ROBIN_PHYS_BDRY_OP_3_FC3D, 7, 1, true),
        (RobinKernel.CC_ROBIN_PHYS_BDRY_OP_2_FC3D, 0, 0, true),
        (RobinKernel.CC_ROBIN_PHYS_BDRY_OP_2_FC3D, 0, 1, true),
        (RobinKernel.CC_ROBIN_PHYS_BDRY_OP_1_X_FC3D, 0, 0, true),
        (RobinKernel.CC_ROBIN_PHYS_BDRY_OP_1_X_FC3D, 0, 1, true),
        (RobinKernel.CC_ROBIN_PHYS_BDRY_OP_1_Z_FC3D, 5, 0, true),
        (RobinKernel.CC_ROBIN_PHYS_BDRY_OP_1_Z_FC3D, 5, 1, true)]) ∧
    ((∀ calls,
      robinProbeOp3.setPhysicalBoundaryConditions true robinProbePatch3 0 (fun _ => 1) =
        Except.ok calls →
      ∃ s1 s2 s3,
        collectCalls
          (fun patch_data_idx =>
            robinProbeOp3.fillGhostCellValuesCodim1 true patch_data_idx
              robinProbePatch3.physical_codim1_boxes 0 (fun _ => 1) robinProbePatch3 false)
          robinProbeOp3.d_patch_data_indices = Except.ok s1 ∧
        collectCalls
          (fun patch_data_idx =>
            robinProbeOp3.fillGhostCellValuesCodim2 true patch_data_idx
              robinProbePatch3.physical_codim2_boxes (fun _ => 1) robinProbePatch3 false)
          robinProbeOp3.d_patch_data_indices = Except.ok s2 ∧
        collectCalls
          (fun patch_data_idx =>
            robinProbeOp3.fillGhostCellValuesCodim3 true patch_data_idx
              robinProbePatch3.physical_codim3_boxes (fun _ => 1) robinProbePatch3 false)
          robinProbeOp3.d_patch_data_indices = Except.ok s3 ∧
        calls = s1 ++ s2 ++ s3 ∧
        (∀ c ∈ s1, c.kernel.codim = 1 ∧ c.adjoint_op = false) ∧
        (∀ c ∈ s2, c.kernel.codim = 2 ∧ c.adjoint_op = false) ∧
        (∀ c ∈ s3, c.kernel.codim = 3 ∧ c.adjoint_op = false) ∧
        s1.map RobinKernelCall.summary =
          expectedStage robinProbePatch3 robinProbeOp3.d_patch_data_indices (fun _ => 1) 1
            robinProbePatch3.physical_codim1_boxes false ∧
        s2.map RobinKernelCall.summary =
          expectedStage robinProbePatch3 robinProbeOp3.d_patch_data_indices (fun _ => 1) 2
            robinProbePatch3.physical_codim2_boxes false ∧
        s3.map RobinKernelCall.summary =
          expectedStage robinProbePatch3 robinProbeOp3.d_patch_data_indices (fun _ => 1) 3
            robinProbePatch3.physical_codim3_boxes false ∧
        ∃ acalls,
          robinProbeOp3.accumulateFromPhysicalBoundaryData true robinProbePatch3 0
            (fun _ => 1) = Except.ok acalls ∧
          acalls = s3.map (RobinKernelCall.withAdjoint true) ++
            s2.map (RobinKernelCall.withAdjoint true) ++
            s1.map (RobinKernelCall.withAdjoint true) ∧
          (∀ c ∈ acalls, c.adjoint_op = true) ∧
          acalls.map RobinKernelCall.summary =
            expectedStage robinProbePatch3 robinProbeOp3.d_patch_data_indices (fun _ => 1) 3
                robinProbePatch3.physical_codim3_boxes true ++
              expectedStage robinProbePatch3 robinProbeOp3.d_patch_data_indices (fun _ => 1) 2
                robinProbePatch3.physical_codim2_boxes true ++
              expectedStage robinProbePatch3 robinProbeOp3.d_patch_data_indices (fun _ => 1) 1
                robinProbePatch3.physical_codim1_boxes true ∧
          acalls.map (fun c => c.kernel.codim) =
            (calls.map (fun c => c.kernel.codim)).reverse) ∧
    ((∃ acalls,
        robinProbeOp3.accumulateFromPhysicalBoundaryData true robinProbePatch3 0
          (fun _ => 1) = Except.ok acalls) →
      ∃ calls,
        robinProbeOp3.setPhysicalBoundaryConditions true robinProbePatch3 0 (fun _ => 1) =
          Except.ok calls)) :=
  ⟨fun h => absurd (congrFun h 0) (by decide), rfl, rfl,
    robin_codim_order true robinProbeOp3 robinProbePatch3 0 (fun _ => 1)
      (fun h => absurd (congrFun h 0) (by decide))⟩

end IBTK
